import Mathlib

/-!
# GFlow: a shallow embedding of the simulation engine

The definitions below transcribe `Simulator.cpp` (with `Object.h` and
`Utility.h`).  Conventions of the embedding:

* `double` values are exact rationals (`ℚ`); no rounding is modelled.
* `Particle*` pointers are natural numbers; the objects they point to live in
  `Simulator.heap`.  Pointer comparison `P != Q` is comparison of the numbers.
* `list<Particle*>` is `List Nat`; the bucket array `sectors` is a list of
  buckets, accessed with `getD`/`set`.
* `drand48()` reads the next element of a stream `draws : Nat → ℚ`; the
  position in the stream is threaded through the state.
* `while` loops carry a fuel argument and return `none` when it runs out.
-/

set_option autoImplicit false

namespace GFlow

/-! ## Utility.h -/

/-- The two-component vector `vect<>` of `Utility.h`. -/
structure Vect where
  x : ℚ
  y : ℚ
deriving DecidableEq

namespace Vect

/-- The default constructor `vect()`: the zero vector. -/
def zero : Vect := ⟨0, 0⟩

/-- The member `operator-` of `vect`. -/
def sub (a b : Vect) : Vect := ⟨a.x - b.x, a.y - b.y⟩

/-- The member `operator+` of `vect`. -/
def add (a b : Vect) : Vect := ⟨a.x + b.x, a.y + b.y⟩

/-- The member `operator*` of `vect` (dot product). -/
def dot (a b : Vect) : ℚ := a.x * b.x + a.y * b.y

/-- Component-wise negation (used to state antisymmetry of displacements). -/
def neg (a : Vect) : Vect := ⟨-a.x, -a.y⟩

end Vect

/-- The helper `sqr` of `Utility.h`. -/
def sqr (x : ℚ) : ℚ := x * x

/-- The conversion `static_cast<int>(double)`: truncation toward zero. -/
def castInt (q : ℚ) : ℤ := if 0 ≤ q then ⌊q⌋ else -⌊-q⌋

/-! ## The double arithmetic of the source -/

/-- Rounding to the nearest integer, a tie going to the even neighbour. -/
def roundNE (t : ℚ) : ℤ :=
  let f : ℤ := ⌊t⌋
  if t - f < 1/2 then f
  else if 1/2 < t - f then f + 1
  else if f % 2 = 0 then f else f + 1

/-- The exponent `e` of the binade `2^e ≤ |q| < 2^(e+1)` of `q`, held at `-1022`
for the subnormal range and zero. -/
def binade (q : ℚ) : ℤ := max (Int.log 2 |q|) (-1022)

/-- The spacing `2^(e-52)` of the doubles (IEEE 754 binary64, 53 significant
bits) in the binade of `q`. -/
def ulp (q : ℚ) : ℚ := (2 : ℚ) ^ (binade q - 52)

/-- The double nearest to `q`, a tie going to the even significand: the value
that `+`, `-`, `*` and `/` on `double` deliver for the exact result `q`.
Results beyond the largest double (overflow to infinity) are not part of this
model. -/
def roundDouble (q : ℚ) : ℚ := (roundNE (q / ulp q) : ℚ) * ulp q

/-- The number `q` is a double: rounding leaves it as it is. -/
def IsDouble (q : ℚ) : Prop := roundDouble q = q

/-- The conversion `(int)` of a double to the 32-bit `int` of the source's
targets: truncation towards zero when the truncated value is an `int`.
Outside that range the conversion is undefined in C++; the value here is
`INT_MIN`, which the conversion instruction of x86-64 delivers. -/
def castInt32 (q : ℚ) : ℤ :=
  if -(2 ^ 31 : ℚ) - 1 < q ∧ q < 2 ^ 31 then castInt q else -(2 ^ 31)

/-! ## Object.h -/

/-- The fields of `Particle` (Object.h) that the engine reads or writes. -/
structure Particle where
  position : Vect
  velocity : Vect
  acceleration : Vect
  theta : ℚ
  omega : ℚ
  alpha : ℚ
  force : Vect
  normalF : Vect
  shearF : Vect
  torque : ℚ
  radius : ℚ

namespace Particle

/-- The method `Particle::freeze`. -/
def freeze (p : Particle) : Particle :=
  { p with velocity := Vect.zero, acceleration := Vect.zero, omega := 0, alpha := 0 }

end Particle

namespace Particle

/-- The method `Particle::applyForce`: `force += F`. -/
def applyForce (p : Particle) (F : Vect) : Particle := { p with force := Vect.add p.force F }

/-- The method `Particle::applyNormalForce`: `normalF += force`. -/
def applyNormalForce (p : Particle) (force : Vect) : Particle :=
  { p with normalF := Vect.add p.normalF force }

/-- The method `Particle::applyShearForce`: `shearF += force`. -/
def applyShearForce (p : Particle) (force : Vect) : Particle :=
  { p with shearF := Vect.add p.shearF force }

/-- The method `Particle::applyTorque`: `torque += t`. -/
def applyTorque (p : Particle) (t : ℚ) : Particle := { p with torque := p.torque + t }

end Particle

/-- One call of `applyForce`, `applyNormalForce`, `applyShearForce` or
`applyTorque`, with its argument. -/
inductive Contribution where
  | force (F : Vect)
  | normal (F : Vect)
  | shear (F : Vect)
  | torque (t : ℚ)

namespace Contribution

/-- The particle after the call. -/
def applyTo (p : Particle) : Contribution → Particle
  | force F => p.applyForce F
  | normal F => p.applyNormalForce F
  | shear F => p.applyShearForce F
  | torque t => p.applyTorque t

/-- The argument of a call of `applyForce`, the zero vector for the other calls. -/
def forcePart : Contribution → Vect
  | force F => F
  | _ => Vect.zero

/-- The argument of a call of `applyNormalForce`, the zero vector for the other calls. -/
def normalPart : Contribution → Vect
  | normal F => F
  | _ => Vect.zero

/-- The argument of a call of `applyShearForce`, the zero vector for the other calls. -/
def shearPart : Contribution → Vect
  | shear F => F
  | _ => Vect.zero

/-- The argument of a call of `applyTorque`, zero for the other calls. -/
def torquePart : Contribution → ℚ
  | torque t => t
  | _ => 0

end Contribution

/-- The component-wise sum of a list of vectors. -/
def vsum (l : List Vect) : Vect := ⟨(l.map Vect.x).sum, (l.map Vect.y).sum⟩

/-! ## Simulator state -/

/-- Modelled from the spec: the boundary-mode enumeration is declared in
`Simulator.h`, which is not part of the sources; `Simulator.cpp` uses exactly
the three values `WRAP`, `RANDOM` and `NONE` (periodic wrap, random reinject,
open). -/
inductive BType where
  | WRAP
  | RANDOM
  | NONE
deriving DecidableEq

/-- Modelled from the spec: the class of the members `resource`, `waste` and
`buffer` is declared in a header that is not part of the sources.  It is the
FieldGrid of the specification, a 2-D array of scalar cells: `dx`, `dy` are
`getDX()`, `getDY()`, and `cells x y` is the cell that `at(x, y)` refers to. -/
structure Field where
  dx : Nat
  dy : Nat
  cells : Nat → Nat → ℚ

namespace Field

/-- Reading `f.at(x, y)`. -/
def cell (f : Field) (x y : Nat) : ℚ := f.cells x y

/-- Assigning `f.at(x, y) = v`. -/
def put (f : Field) (x y : Nat) (v : ℚ) : Field :=
  { f with cells := fun i j => if i = x ∧ j = y then v else f.cells i j }

/-- A field of the given dimensions with every cell equal to `v`. -/
def const (dx dy : Nat) (v : ℚ) : Field := ⟨dx, dy, fun _ _ => v⟩

end Field

/-- The members of `Simulator` used by the sector grid, the boundary handling,
the configuration calls, the time step, the walls, the fields, the run loop and
the recording.  Walls are addresses; a temporary wall is a pair of an address
and its expiry value.  Modelled from the spec: `flowFunc` is declared in
`Simulator.h`, which is not part of the sources; it is assigned `0` and
capturing lambdas and tested by `if (flowFunc)`, as a `std::function`, so it is
an optional function here. -/
structure Simulator where
  left : ℚ
  right : ℚ
  bottom : ℚ
  top : ℚ
  yTop : ℚ
  xLBound : BType
  xRBound : BType
  yBBound : BType
  yTBound : BType
  secX : Nat
  secY : Nat
  ssecInteract : Bool
  sectors : List (List Nat)
  particles : List Nat
  watchlist : List Nat
  psize : Nat
  asize : Nat
  time : ℚ
  lastMark : ℚ
  timeMarks : List ℚ
  heap : Nat → Particle
  epsilon : ℚ
  default_epsilon : ℚ
  min_epsilon : ℚ
  minepsilon : ℚ
  adjust_epsilon : Bool
  sectorize : Bool
  walls : List Nat
  tempWalls : List (Nat × ℚ)
  samplePoints : Nat
  resource : Field
  waste : Field
  buffer : Field
  resourceDiffusion : ℚ
  wasteDiffusion : ℚ
  secretionRate : ℚ
  eatRate : ℚ
  replenish : ℚ
  wasteSource : ℚ
  iter : ℤ
  maxIters : ℤ
  running : Bool
  markWatch : Bool
  delayTriggeredExit : Bool
  startTime : ℚ
  delayTime : ℚ
  lastDisp : ℚ
  dispTime : ℚ
  startRecording : ℚ
  stopRecording : ℚ
  recAllIters : Bool
  recIt : Nat
  profiles : List (List ℚ)
  vbins : ℤ
  maxV : ℚ
  maxF : ℚ
  velocityDistribution : List ℚ
  auxVelocityDistribution : List ℚ
  flowFunc : Option (Vect → Vect)

/-- The function `Simulator::getSec`.  In the last line `X` and `Y` are known to be
non-negative, so `toNat` does not change them. -/
def getSec (s : Simulator) (pos : Vect) : Nat :=
  let X : ℤ := castInt ((pos.x - s.left) / (s.right - s.left) * s.secX)
  let Y : ℤ := castInt ((pos.y - s.bottom) / (s.top - s.bottom) * s.secY)
  if X < 0 ∨ Y < 0 ∨ X > s.secX ∨ Y > s.secY then (s.secX + 2) * (s.secY + 2)
  else (X.toNat + 1) + (s.secX + 2) * (Y.toNat + 1)

/-- The call `sectors[k].push_back(p)`. -/
def pushBack (secs : List (List Nat)) (k p : Nat) : List (List Nat) :=
  secs.set k (secs.getD k [] ++ [p])

/-- One round of the outer loop of `Simulator::updateSectors` for bucket `i`:
every element of bucket `i` whose recomputed cell `sec p` differs from `i` is
appended to bucket `sec p` and remembered; afterwards the remembered elements
are erased from bucket `i`. -/
def updateBucket (sec : Nat → Nat) (secs : List (List Nat)) (i : Nat) : List (List Nat) :=
  let moved := (secs.getD i []).foldl
    (fun acc p => if sec p ≠ i then pushBack acc (sec p) p else acc) secs
  moved.set i ((secs.getD i []).filter (fun p => sec p = i))

/-- The function `Simulator::updateSectors`. -/
def updateSectors (s : Simulator) : Simulator :=
  let sec : Nat → Nat := fun p => getSec s (s.heap p).position
  let secs := List.foldl (updateBucket sec) s.sectors (List.range ((s.secX + 2) * (s.secY + 2) + 1))
  { s with sectors := secs }

/-- The function `Simulator::setSectorDims`: the grid dimensions are clamped to at
least 1, a fresh array of `(secX+2)*(secY+2)+1` empty buckets is allocated and
every particle of the particle list is appended to the bucket of its cell. -/
def setSectorDims (s : Simulator) (sx sy : ℤ) : Simulator :=
  let sx : ℤ := if sx < 1 then 1 else sx
  let sy : ℤ := if sy < 1 then 1 else sy
  let s1 : Simulator := { s with secX := sx.toNat, secY := sy.toNat }
  let fresh : List (List Nat) := List.replicate ((s1.secX + 2) * (s1.secY + 2) + 1) []
  let secs := s1.particles.foldl
    (fun acc P => pushBack acc (getSec s1 (s1.heap P).position) P) fresh
  { s1 with sectors := secs }

/-- The function `Simulator::addParticle` for the particle at address `P`;
`active` is the result of `particle->isActive()`. -/
def addParticle (s : Simulator) (P : Nat) (active : Bool) : Simulator :=
  let s1 : Simulator :=
    if active then { s with asize := s.asize + 1 } else { s with psize := s.psize + 1 }
  let sec := getSec s1 (s1.heap P).position
  { s1 with sectors := pushBack s1.sectors sec P, particles := s1.particles ++ [P] }

/-- The function `Simulator::addWatchedParticle`. -/
def addWatchedParticle (s : Simulator) (P : Nat) (active : Bool) : Simulator :=
  let s1 := addParticle s P active
  { s1 with watchlist := s1.watchlist ++ [P] }

/-- The exceptions that leave the modelled functions: `BadDimChoice`, thrown by
`Simulator::setDimensions`, `std::out_of_range`, thrown by `vector::at`, and
`std::bad_function_call`, thrown by a call of an unset `flowFunc`. -/
inductive SimError where
  | BadDimChoice
  | OutOfRange
  | BadFunctionCall
deriving DecidableEq

/-- The function `Simulator::setDimensions`.  The guard reads the members
`left`, `right`, `bottom`, `top`, as the source does. -/
def setDimensions (s : Simulator) (l r b t : ℚ) : Except SimError Simulator :=
  if s.left ≥ s.right ∨ s.bottom ≥ s.top then Except.error SimError.BadDimChoice
  else
    let s1 : Simulator := { s with left := l, right := r, bottom := b, top := t }
    Except.ok { s1 with yTop := s1.top }

/-- The function `Simulator::wouldOverlap`. -/
def wouldOverlap (s : Simulator) (pos : Vect) (R : ℚ) : Bool :=
  if pos.x - R < s.left ∨ s.right < pos.x + R ∨ pos.y - R < s.bottom ∨ s.top < pos.y + R then true
  else s.particles.any fun P =>
    let displacement := Vect.sub (s.heap P).position pos
    let minSepSqr := sqr (R + (s.heap P).radius)
    decide (Vect.dot displacement displacement < minSepSqr)

/-- The test `xLBound==WRAP || xRBound==WRAP` of `getDisplacement` and `ppInteract`. -/
def periodicX (s : Simulator) : Bool :=
  decide (s.xLBound = BType.WRAP) || decide (s.xRBound = BType.WRAP)

/-- The test `yBBound==WRAP || yTBound==WRAP` of `getDisplacement` and `ppInteract`. -/
def periodicY (s : Simulator) : Bool :=
  decide (s.yBBound = BType.WRAP) || decide (s.yTBound = BType.WRAP)

/-- The block of `getDisplacement` applied to each component on a periodic axis of
extent `W`: with `dx = W - |X|`, if `dx < |X|` the component becomes `-dx` for
`X > 0` and `dx` otherwise. -/
def shorten (W X : ℚ) : ℚ :=
  let dx := W - |X|
  if dx < |X| then (if X > 0 then -dx else dx) else X

/-- The function `Simulator::getDisplacement`: the displacement pointing from `B`
to `A`, shortened across a periodic axis. -/
def getDisplacement (s : Simulator) (A B : Vect) : Vect :=
  let X : ℚ := A.x - B.x
  let Y : ℚ := A.y - B.y
  let X : ℚ := if periodicX s then shorten (s.right - s.left) X else X
  let Y : ℚ := if periodicY s then shorten (s.top - s.bottom) Y else Y
  ⟨X, Y⟩

/-- A recorded invocation of `P->interact(Q, disp)`; `disp = none` records the
one-argument form `P->interact(Q)`. -/
structure Call where
  caller : Nat
  other : Nat
  disp : Option Vect
deriving DecidableEq

/-- The remapping of a neighbour index in `Simulator::ppInteract` on an axis with
`n` cells: on a periodic axis index `0` becomes `n` and index `n+1` becomes `1`. -/
def remap (periodic : Bool) (n i : Nat) : Nat :=
  if periodic = true ∧ i = 0 then n
  else if periodic = true ∧ i = n + 1 then 1
  else i

/-- The row index `sy` scanned for neighbour row `j` in `Simulator::ppInteract`. -/
def wrapRow (s : Simulator) (j : Nat) : Nat := remap (periodicY s) s.secY j

/-- The column index `sx` scanned for neighbour column `i` in `Simulator::ppInteract`. -/
def wrapCol (s : Simulator) (i : Nat) : Nat := remap (periodicX s) s.secX i

/-- The calls made for particle `P` of cell `(x, y)`: the scan of the 3×3
neighbourhood in `Simulator::ppInteract`. -/
def scanNeighbours (s : Simulator) (x y P : Nat) : List Call :=
  (List.range' (y - 1) 3).flatMap fun j =>
    (List.range' (x - 1) 3).flatMap fun i =>
      (s.sectors.getD (wrapRow s j * (s.secX + 2) + wrapCol s i) []).filterMap fun Q =>
        if P ≠ Q then
          some ⟨P, Q, some (getDisplacement s (s.heap Q).position (s.heap P).position)⟩
        else none

/-- The calls made by the optional pass over the overflow bucket at the end of
`Simulator::ppInteract`. -/
def scanOverflow (s : Simulator) : List Call :=
  (s.sectors.getD ((s.secX + 2) * (s.secY + 2)) []).flatMap fun P =>
    s.particles.filterMap fun Q => if P ≠ Q then some ⟨P, Q, none⟩ else none

/-- The function `Simulator::ppInteract`, as the sequence of `interact` calls it
makes.  The calls change force accumulators only, so positions and buckets are
those of `s` throughout. -/
def ppInteract (s : Simulator) : List Call :=
  ((List.range' 1 s.secY).flatMap fun y =>
    (List.range' 1 s.secX).flatMap fun x =>
      (s.sectors.getD (y * (s.secX + 2) + x) []).flatMap fun P => scanNeighbours s x y P)
  ++ (if s.ssecInteract then scanOverflow s else [])

/-! ## Boundary handling of `Simulator::update` -/

/-- The loops `while (pos.x < left) pos.x += (right-left)` and
`while (pos.y < bottom) pos.y += (top-bottom)`; `none` when the fuel runs out. -/
def wrapUp : Nat → ℚ → ℚ → ℚ → Option ℚ
  | 0, _, _, _ => none
  | fuel + 1, lo, w, x => if x < lo then wrapUp fuel lo w (x + w) else some x

/-- The loops `while (pos.x > right) pos.x -= (right-left)` and
`while (pos.y > top) pos.y -= (top-bottom)`; `none` when the fuel runs out. -/
def wrapDown : Nat → ℚ → ℚ → ℚ → Option ℚ
  | 0, _, _, _ => none
  | fuel + 1, hi, w, x => if x > hi then wrapDown fuel hi w (x - w) else some x

/-- The local state of `Simulator::update` while the four edges are handled:
the simulator (the heap holds the integrated particle), the local copy `pos`
and the number of `drand48` values consumed so far. -/
structure Bnd where
  sim : Simulator
  pos : Vect
  rng : Nat

/-- The retry loop `while (wouldOverlap(pos, radius) && count<10) { redraw; count++; }`
with `n = 10 - count` rounds left. -/
def retry (draws : Nat → ℚ) (redraw : (Nat → ℚ) → Vect → Nat → Vect × Nat)
    (s : Simulator) (R : ℚ) : Nat → Vect → Nat → Vect × Nat
  | 0, pos, k => (pos, k)
  | n + 1, pos, k =>
    if wouldOverlap s pos R then retry draws redraw s R n (redraw draws pos k).1 (redraw draws pos k).2
    else (pos, k)

/-- A reinjection: the first draw of the new position from `start`, followed by
the retry loop with `count = 0`. -/
def reinject (draws : Nat → ℚ) (redraw : (Nat → ℚ) → Vect → Nat → Vect × Nat)
    (s : Simulator) (R : ℚ) (start : Vect) (k : Nat) : Vect × Nat :=
  retry draws redraw s R 10 (redraw draws start k).1 (redraw draws start k).2

/-- The call `P->freeze()` on the object at address `P`. -/
def freezeAt (s : Simulator) (P : Nat) : Simulator :=
  { s with heap := Function.update s.heap P (s.heap P).freeze }

/-- The statement `pos.y = (top-2*P->getRadius())*drand48()+P->getRadius()`. -/
def redrawY (s : Simulator) (R : ℚ) (draws : Nat → ℚ) (pos : Vect) (k : Nat) : Vect × Nat :=
  (⟨pos.x, (s.top - 2 * R) * draws k + R⟩, k + 1)

/-- The statement `pos.x = (right-2*P->getRadius())*drand48()+P->getRadius()`. -/
def redrawX (s : Simulator) (R : ℚ) (draws : Nat → ℚ) (pos : Vect) (k : Nat) : Vect × Nat :=
  (⟨(s.right - 2 * R) * draws k + R, pos.y⟩, k + 1)

/-- The two statements `pos.y = yTop+4*P->getRadius()*drand48()` and
`pos.x = (right-2*P->getRadius())*drand48()+P->getRadius()`, in this order. -/
def redrawTop (s : Simulator) (R : ℚ) (draws : Nat → ℚ) (_pos : Vect) (k : Nat) : Vect × Nat :=
  (⟨(s.right - 2 * R) * draws (k + 1) + R, s.yTop + 4 * R * draws k⟩, k + 2)

/-- The block `switch(xLBound)` of `Simulator::update`. -/
def edgeXL (fuel : Nat) (draws : Nat → ℚ) (P : Nat) (b : Bnd) : Option Bnd :=
  match b.sim.xLBound with
  | BType.WRAP =>
    (wrapUp fuel b.sim.left (b.sim.right - b.sim.left) b.pos.x).map fun x =>
      { b with pos := ⟨x, b.pos.y⟩ }
  | BType.RANDOM =>
    if b.pos.x < 0 then
      let R := (b.sim.heap P).radius
      let r := reinject draws (redrawY b.sim R) b.sim R ⟨b.sim.right, b.pos.y⟩ b.rng
      some { sim := freezeAt b.sim P, pos := r.1, rng := r.2 }
    else some b
  | BType.NONE => some b

/-- The block `switch (xRBound)` of `Simulator::update`. -/
def edgeXR (fuel : Nat) (draws : Nat → ℚ) (P : Nat) (b : Bnd) : Option Bnd :=
  match b.sim.xRBound with
  | BType.WRAP =>
    (wrapDown fuel b.sim.right (b.sim.right - b.sim.left) b.pos.x).map fun x =>
      { b with pos := ⟨x, b.pos.y⟩ }
  | BType.RANDOM =>
    if b.pos.x > b.sim.right then
      let R := (b.sim.heap P).radius
      let r := reinject draws (redrawY b.sim R) b.sim R ⟨0, b.pos.y⟩ b.rng
      some { sim := freezeAt b.sim P, pos := r.1, rng := r.2 }
    else some b
  | BType.NONE => some b

/-- The two statements `timeMarks.push_back(time); lastMark = time;`. -/
def markTime (s : Simulator) : Simulator :=
  { s with timeMarks := s.timeMarks ++ [s.time], lastMark := s.time }

/-- The block `switch (yBBound)` of `Simulator::update`.  In the `RANDOM` case the
`break` sits inside the `if`, so a particle that has not crossed falls through
to `case NONE`, which does nothing. -/
def edgeYB (fuel : Nat) (draws : Nat → ℚ) (P : Nat) (b : Bnd) : Option Bnd :=
  match b.sim.yBBound with
  | BType.WRAP =>
    (wrapUp fuel b.sim.bottom (b.sim.top - b.sim.bottom) b.pos.y).map fun y =>
      { b with sim := markTime b.sim, pos := ⟨b.pos.x, y⟩ }
  | BType.RANDOM =>
    if b.pos.y < 0 then
      let s1 := markTime b.sim
      let R := (s1.heap P).radius
      let r := reinject draws (redrawTop s1 R) s1 R b.pos b.rng
      some { sim := freezeAt s1 P, pos := r.1, rng := r.2 }
    else some b
  | BType.NONE => some b

/-- The block `switch (yTBound)` of `Simulator::update`. -/
def edgeYT (fuel : Nat) (draws : Nat → ℚ) (P : Nat) (b : Bnd) : Option Bnd :=
  match b.sim.yTBound with
  | BType.WRAP =>
    (wrapDown fuel b.sim.top (b.sim.top - b.sim.bottom) b.pos.y).map fun y =>
      { b with pos := ⟨b.pos.x, y⟩ }
  | BType.RANDOM =>
    if b.pos.y > b.sim.top then
      let R := (b.sim.heap P).radius
      let r := reinject draws (redrawX b.sim R) b.sim R ⟨b.pos.x, 0⟩ b.rng
      some { sim := freezeAt b.sim P, pos := r.1, rng := r.2 }
    else some b
  | BType.NONE => some b

/-- The two x-edge blocks of `Simulator::update`, left edge first. -/
def edgesX (fuel : Nat) (draws : Nat → ℚ) (P : Nat) (b : Bnd) : Option Bnd :=
  (edgeXL fuel draws P b).bind (edgeXR fuel draws P)

/-- The two y-edge blocks of `Simulator::update`, bottom edge first. -/
def edgesY (fuel : Nat) (draws : Nat → ℚ) (P : Nat) (b : Bnd) : Option Bnd :=
  (edgeYB fuel draws P b).bind (edgeYT fuel draws P)

/-- The final statement `P->getPosition() = pos` of `Simulator::update`. -/
def storePos (b : Bnd) (P : Nat) : Simulator × Nat :=
  ({ b.sim with heap := Function.update b.sim.heap P { b.sim.heap P with position := b.pos } },
    b.rng)

/-- The boundary handling of `Simulator::update` (everything after the call
`P->update(epsilon)`): `s.heap P` is the integrated particle, `k` the number of
`drand48` values consumed before the call.  The result is the new simulator
and the new count; `none` means a wrap loop did not finish within `fuel`
rounds. -/
def updateBoundary (fuel : Nat) (draws : Nat → ℚ) (s : Simulator) (k : Nat) (P : Nat) :
    Option (Simulator × Nat) :=
  ((edgesX fuel draws P ⟨s, (s.heap P).position, k⟩).bind (edgesY fuel draws P)).map
    fun b => storePos b P

/-! ## Concrete states used to evaluate the definitions -/

/-- A particle at rest at `pos` with radius `R`. -/
def Particle.resting (pos : Vect) (R : ℚ) : Particle :=
  { position := pos, velocity := Vect.zero, acceleration := Vect.zero, theta := 0, omega := 0,
    alpha := 0, force := Vect.zero, normalF := Vect.zero, shearF := Vect.zero, torque := 0,
    radius := R }

/-- A particle at `pos` with radius `R`, velocity `(1, 2)` and angular velocity `3`. -/
def Particle.moving (pos : Vect) (R : ℚ) : Particle :=
  { Particle.resting pos R with velocity := ⟨1, 2⟩, omega := 3 }

/-- The state set up by the constructor `Simulator::Simulator()` (unit square,
all edges `WRAP`, a 10×10 grid of empty buckets, time step `1e-4`, empty
fields, recording from time 0 to `1e9`, no iteration cap, 200 velocity bins,
no flow function), over a given heap.  The constructor leaves `lastMark`,
`running` and `delayTriggeredExit` unset; they are 0 and false here. -/
def Simulator.init (heap : Nat → Particle) : Simulator :=
  { left := 0, right := 1, bottom := 0, top := 1, yTop := 1,
    xLBound := BType.WRAP, xRBound := BType.WRAP, yBBound := BType.WRAP, yTBound := BType.WRAP,
    secX := 10, secY := 10, ssecInteract := false,
    sectors := List.replicate ((10 + 2) * (10 + 2) + 1) [],
    particles := [], watchlist := [], psize := 0, asize := 0,
    time := 0, lastMark := 0, timeMarks := [], heap := heap,
    epsilon := 1/10000, default_epsilon := 1/10000, min_epsilon := 1/10000000,
    minepsilon := 1/10000, adjust_epsilon := false, sectorize := true,
    walls := [], tempWalls := [], samplePoints := 100,
    resource := Field.const 0 0 0, waste := Field.const 0 0 0, buffer := Field.const 0 0 0,
    resourceDiffusion := 50, wasteDiffusion := 50, secretionRate := 1, eatRate := 1,
    replenish := 0, wasteSource := 0,
    iter := 0, maxIters := -1, running := false, markWatch := false,
    delayTriggeredExit := false, startTime := 1, delayTime := 5,
    lastDisp := 0, dispTime := 1/15, startRecording := 0, stopRecording := 1000000000,
    recAllIters := false, recIt := 0, profiles := [],
    vbins := 200, maxV := 2, maxF := 13/4,
    velocityDistribution := List.replicate 200 0,
    auxVelocityDistribution := List.replicate 200 0, flowFunc := none }

/-- A 1×1 grid over the unit square whose only particle, at the centre, is
misfiled in bucket 0. -/
def misfiled : Simulator :=
  { Simulator.init (fun _ => Particle.resting ⟨1/2, 1/2⟩ (1/100)) with
    secX := 1, secY := 1, sectors := [[0], [], [], [], [], [], [], [], [], []],
    particles := [0] }

/-- A 1×1 grid over the unit square with all edges `WRAP` (as the constructor
sets them) and two particles, both filed in the only interior cell, bucket 4. -/
def twoInOneCell : Simulator :=
  { Simulator.init (fun n => Particle.resting ⟨1/4 + n/2, 1/2⟩ (1/100)) with
    secX := 1, secY := 1, sectors := [[], [], [], [], [0, 1], [], [], [], [], []],
    particles := [0, 1] }

/-- The constructor state over a heap of resting particles at the centre. -/
def unitBox : Simulator :=
  Simulator.init (fun _ => Particle.resting ⟨1/2, 1/2⟩ (1/100))

/-- The domain `[1,2] × [0,1]` (as installed by `setDimensions(1, 2, 0, 1)`) with
a `RANDOM` left edge and the other edges `NONE`; particle 0, filed in cell 73
(first column), has been integrated to `(1/2, 1/2)`, beyond the left edge, and
is moving. -/
def offOrigin : Simulator :=
  { Simulator.init (fun _ => Particle.moving ⟨1/2, 1/2⟩ (1/100)) with
    left := 1, right := 2, xLBound := BType.RANDOM, xRBound := BType.NONE,
    yBBound := BType.NONE, yTBound := BType.NONE,
    sectors := (List.replicate 145 []).set 73 [0], particles := [0] }

/-! ## The one-bucket-per-particle predicate -/

/-- The bucket array has `(secX+2)*(secY+2)+1` buckets; every particle of the
particle list occurs exactly once in their union, and nothing else occurs in it. -/
def OneBucketEach (s : Simulator) : Prop :=
  s.sectors.length = (s.secX + 2) * (s.secY + 2) + 1 ∧
  ∀ p : Nat, s.sectors.flatten.count p = if p ∈ s.particles then 1 else 0

/-! ## Domains with the origin at the lower left corner -/

/-- The simulator has the domain `[0, rt] × [0, tp]`, the particle at `P` has
radius `R`, and the four edge modes are `mL`, `mR`, `mB`, `mT`. -/
def Frame (s : Simulator) (P : Nat) (rt tp R : ℚ) (mL mR mB mT : BType) : Prop :=
  s.left = 0 ∧ s.right = rt ∧ s.bottom = 0 ∧ s.top = tp ∧ (s.heap P).radius = R ∧
  s.xLBound = mL ∧ s.xRBound = mR ∧ s.yBBound = mB ∧ s.yTBound = mT

/-- The position lies in `[0, rt] × [0, tp]`. -/
def InBox (rt tp : ℚ) (pos : Vect) : Prop :=
  0 ≤ pos.x ∧ pos.x ≤ rt ∧ 0 ≤ pos.y ∧ pos.y ≤ tp

/-- The hopper of `time.cpp` after `setDimensions(0, 1, 0, 3)` (which sets
`yTop = top = 3`) with its edge modes (x edges `WRAP`, top `NONE`, bottom
`RANDOM`) and the 10×10 grid set in `main`; particle 0, of radius `0.02` and
filed in cell 18 (bottom row), has been integrated to `(1/2, -1/10)`, below the
bottom edge. -/
def hopper : Simulator :=
  { Simulator.init (fun _ => Particle.moving ⟨1/2, -1/10⟩ (1/50)) with
    top := 3, yTop := 3, yBBound := BType.RANDOM, yTBound := BType.NONE,
    sectors := (List.replicate 145 []).set 18 [0], particles := [0] }

/-- The unit square with a `RANDOM` top edge and the other edges `NONE`;
particle 0, of radius `0.02` and filed in cell 126 (top row), has been
integrated to `(1/2, 11/10)`, above the top edge. -/
def lidded : Simulator :=
  { Simulator.init (fun _ => Particle.moving ⟨1/2, 11/10⟩ (1/50)) with
    xLBound := BType.NONE, xRBound := BType.NONE, yBBound := BType.NONE,
    yTBound := BType.RANDOM,
    sectors := (List.replicate 145 []).set 126 [0], particles := [0] }

/-! ## Whole-state operations: `discard`, the time step, `objectUpdates` -/

/-- The function `Simulator::discard`.  The loop clears the buckets with index
below `(secX+2)*(secY+2)`; the recorded positions and statistics, which are not
part of this model, are left out. -/
def discard (s : Simulator) : Simulator :=
  let secs := List.foldl (fun acc i => List.set acc i []) s.sectors
    (List.range ((s.secX + 2) * (s.secY + 2)))
  { s with psize := 0, asize := 0, sectors := secs, particles := [], watchlist := [],
           walls := [], tempWalls := [], timeMarks := [] }

/-- The statement `profile.at(index)++`: `vector::at` throws `std::out_of_range`
unless `0 ≤ index < size`. -/
def bumpAt (profile : List ℚ) (index : ℤ) : Except SimError (List ℚ) :=
  if 0 ≤ index ∧ index.toNat < profile.length then
    Except.ok (profile.set index.toNat (profile.getD index.toNat 0 + 1))
  else Except.error SimError.OutOfRange

/-- The loop of `Simulator::getDensityYProfile` over the particle list. -/
def densityLoop (s : Simulator) (invdy : ℚ) : List Nat → List ℚ → Except SimError (List ℚ)
  | [], profile => Except.ok profile
  | P :: rest, profile =>
    let y : ℚ := (s.heap P).position.y - s.bottom
    let index : ℤ := castInt (y * invdy)
    if 0 ≤ index ∨ index < s.samplePoints then
      match bumpAt profile index with
      | Except.ok profile1 => densityLoop s invdy rest profile1
      | Except.error e => Except.error e
    else densityLoop s invdy rest profile

/-- The function `Simulator::getDensityYProfile`. -/
def getDensityYProfile (s : Simulator) : Except SimError (List ℚ) :=
  let profile : List ℚ := List.replicate s.samplePoints 0
  let invdy : ℚ := s.samplePoints / (s.top - s.bottom)
  densityLoop s invdy s.particles profile

/-- The two-argument template `min` of `Utility.h`. -/
def minOf (a b : ℚ) : ℚ := if a < b then a else b

/-- The two-argument template `max` of `Utility.h`. -/
def maxOf (a b : ℚ) : ℚ := if a < b then b else a

/-- The member `normSqr` of `vect`. -/
def Vect.normSqr (v : Vect) : ℚ := v.x * v.x + v.y * v.y

/-- The function `Simulator::inBounds`. -/
def inBounds (s : Simulator) (P : Nat) : Bool :=
  let pos := (s.heap P).position
  let radius := (s.heap P).radius
  if pos.x + radius < 0 ∨ pos.x - radius > s.right then false
  else if pos.y + radius < 0 ∨ pos.y - radius > s.top then false
  else true

/-- The function `Simulator::maxVelocity`; `sqrt` stands for the library
function of that name. -/
def maxVelocity (sqrt : ℚ → ℚ) (s : Simulator) : ℚ :=
  let maxVsqr : ℚ := s.particles.foldl
    (fun m P =>
      if inBounds s P then
        (if (s.heap P).velocity.normSqr > m then (s.heap P).velocity.normSqr else m)
      else m) (-1)
  if maxVsqr > 0 then sqrt maxVsqr else -1

/-- The function `Simulator::maxAcceleration`. -/
def maxAcceleration (sqrt : ℚ → ℚ) (s : Simulator) : ℚ :=
  let maxAsqr : ℚ := s.particles.foldl
    (fun m P =>
      if inBounds s P then
        (if (s.heap P).acceleration.normSqr > m then (s.heap P).acceleration.normSqr else m)
      else m) (-1)
  if maxAsqr > 0 then sqrt maxAsqr else -1

/-- The value assigned to `epsilon` by `Simulator::logisticUpdates` when
`adjust_epsilon` is set. -/
def adaptiveEpsilon (sqrt : ℚ → ℚ) (s : Simulator) : ℚ :=
  let vmax : ℚ := |maxVelocity sqrt s|
  let amax : ℚ := maxAcceleration sqrt s
  let M : ℚ := maxOf amax vmax
  if M ≤ 0 then s.default_epsilon
  else
    let e1 : ℚ :=
      if vmax > 0 then minOf s.default_epsilon (s.default_epsilon / vmax)
      else s.default_epsilon
    let e2 : ℚ := if amax > 0 then minOf e1 (s.default_epsilon / amax) else e1
    maxOf s.min_epsilon e2

/-- The first block of `Simulator::logisticUpdates`, "Calculate appropriate
epsilon": it assigns `epsilon` and, under adaptive stepping, `minepsilon`. -/
def chooseEpsilon (sqrt : ℚ → ℚ) (s : Simulator) : Simulator :=
  if s.adjust_epsilon then
    let s1 : Simulator := { s with epsilon := adaptiveEpsilon sqrt s }
    if s1.epsilon < s1.minepsilon then { s1 with minepsilon := s1.epsilon } else s1
  else { s with epsilon := s.default_epsilon }

/-- The function `Simulator::update`: the particle's own integration step
`P->update(epsilon)`, a virtual method defined outside the sources and passed
as `integrate`, followed by the boundary handling. -/
def update (fuel : Nat) (draws : Nat → ℚ) (integrate : Particle → ℚ → Particle)
    (s : Simulator) (k : Nat) (P : Nat) : Option (Simulator × Nat) :=
  updateBoundary fuel draws
    { s with heap := Function.update s.heap P (integrate (s.heap P) s.epsilon) } k P

/-- The loop `for (auto &P : particles) update(P)` of `Simulator::objectUpdates`. -/
def updateAll (fuel : Nat) (draws : Nat → ℚ) (integrate : Particle → ℚ → Particle) :
    List Nat → Simulator × Nat → Option (Simulator × Nat)
  | [], st => some st
  | P :: rest, st =>
    (update fuel draws integrate st.1 st.2 P).bind (updateAll fuel draws integrate rest)

/-- The last block of `Simulator::objectUpdates`, "Update temp walls": the
entries whose second component is below `time` are collected and erased. -/
def expireTempWalls (s : Simulator) : Simulator :=
  if s.tempWalls.isEmpty then s
  else { s with tempWalls := s.tempWalls.filter (fun w => !decide (w.2 < s.time)) }

/-- The function `Simulator::objectUpdates`. -/
def objectUpdates (fuel : Nat) (draws : Nat → ℚ) (integrate : Particle → ℚ → Particle)
    (s : Simulator) (k : Nat) : Option (Simulator × Nat) :=
  (updateAll fuel draws integrate s.particles (s, k)).map fun st =>
    let s1 : Simulator := if st.1.sectorize then updateSectors st.1 else st.1
    (expireTempWalls s1, st.2)

/-! ## Fields -/

/-- The body of the loops of `Simulator::updateFields` for one cell: the explicit
Euler step `f.at(x,y) += epsilon*(D*buffer.at(x,y) + src)` and the clamp
`f.at(x,y) = f.at(x,y)<0 ? 0 : f.at(x,y)`. -/
def eulerCell (buf : Field) (eps D src : ℚ) (f : Field) (x y : Nat) : Field :=
  let f1 := f.put x y (f.cell x y + eps * (D * buf.cell x y + src))
  f1.put x y (if f1.cell x y < 0 then 0 else f1.cell x y)

/-- The loops `for (y < ny) for (x < nx)` of `Simulator::updateFields` over one field. -/
def eulerField (nx ny : Nat) (buf : Field) (eps D src : ℚ) (f : Field) : Field :=
  List.foldl
    (fun g y => List.foldl (fun h x => eulerCell buf eps D src h x y) g (List.range nx))
    f (List.range ny)

/-- The function `Simulator::updateFields`.  `delSqr field buffer` is the buffer
after the call `delSqr(field, buffer)` of a function defined outside the
sources.  Both pairs of loops run over the dimensions of `resource`. -/
def updateFields (delSqr : Field → Field → Field) (s : Simulator) : Simulator :=
  let buf1 := delSqr s.resource s.buffer
  let res := eulerField s.resource.dx s.resource.dy buf1 s.epsilon s.resourceDiffusion
    s.replenish s.resource
  let buf2 := delSqr s.waste buf1
  let wst := eulerField res.dx res.dy buf2 s.epsilon s.wasteDiffusion s.wasteSource s.waste
  { s with resource := res, waste := wst, buffer := buf2 }

/-! ## Collaborators outside the sources -/

/-- Modelled from the spec: what the engine uses from outside the sources.
`draws` is the stream of `drand48()` values; `dir a` is the vector
`(sinf(2*PI*a), cosf(2*PI*a))` that `randV` builds from its draw `a`; `addr n`
is the address returned by the `n`-th `new` of a call.  The members of the
classes `Bacteria` and `RTSphere` (declared in a header that is not part of the
sources) are not part of the modelled heap; they are read by address through
`canReproduce`, `getRepDelay`, `getMaxRadius` and `isActive`, and the call
`b->resetTimer()`, which changes only such members, leaves the model as it is. -/
structure Env where
  draws : Nat → ℚ
  dir : ℚ → Vect
  addr : Nat → Nat
  canReproduce : Nat → Bool
  getRepDelay : Nat → ℚ
  getMaxRadius : Nat → ℚ
  isActive : Nat → Bool

/-- The friend `operator*(num, V)` of `vect`. -/
def Vect.smul (num : ℚ) (v : Vect) : Vect := ⟨v.x * num, v.y * num⟩

/-- Modelled from the spec: the particle type tag is declared in
`Simulator.h`, which is not part of the sources; `Simulator::addParticles`
switches over the three values `PASSIVE`, `RTSPHERE` and `BACTERIA`. -/
inductive PType where
  | PASSIVE
  | RTSPHERE
  | BACTERIA
deriving DecidableEq

/-- Modelled from the spec: the constructors `Particle(pos, rad)`,
`RTSphere(pos, rad, bias)` and `Bacteria(pos, rad)` are defined outside the
sources; each creates a disc at `pos` with radius `rad`, at rest and with
zero accumulators. -/
def construct (type : PType) (pos : Vect) (rad : ℚ) (_bias : Vect) : Particle :=
  match type with
  | PType.PASSIVE => Particle.resting pos rad
  | PType.RTSPHERE => Particle.resting pos rad
  | PType.BACTERIA => Particle.resting pos rad

/-! ## `Simulator::bacteriaUpdate` -/

/-- The local state of `Simulator::bacteriaUpdate`: the simulator, the number of
`drand48` values consumed and the vector `births`. -/
structure Colony where
  sim : Simulator
  rng : Nat
  births : List Nat

/-- The bucket `sectors[(secX+2)*y + x+1]` that `bacteriaUpdate` reads for the loop
indices `x`, `y`. -/
def cellIndex (s : Simulator) (x y : Nat) : Nat := (s.secX + 2) * y + x + 1

/-- The value assigned by `wst += epsilon*secretionRate*number`. -/
def wasteAfter (s : Simulator) (x y : Nat) : ℚ :=
  s.waste.cell (x - 1) (y - 1) +
    s.epsilon * s.secretionRate * ((s.sectors.getD (cellIndex s x y) []).length : ℚ)

/-- The value of `res` after `res += epsilon*eatRate*res*number` and
`res = res<0 ? 0 : res`. -/
def resourceAfter (s : Simulator) (x y : Nat) : ℚ :=
  let res : ℚ := s.resource.cell (x - 1) (y - 1) +
    s.epsilon * s.eatRate * s.resource.cell (x - 1) (y - 1) *
      ((s.sectors.getD (cellIndex s x y) []).length : ℚ)
  if res < 0 then 0 else res

/-- The value `alpha1*res/(res+csat1)-alpha2*wst/(wst+csat2)-beta1*secretionRate`
computed for the cell, with the constants `1` of the source. -/
def cellFitness (s : Simulator) (x y : Nat) : ℚ :=
  1 * resourceAfter s x y / (resourceAfter s x y + 1) -
    1 * wasteAfter s x y / (wasteAfter s x y + 1) - 1 * s.secretionRate

/-- The loop `for (int i=0; i<tries; i++)` that looks for a free spot near `pos`:
the spot found, if any, and the number of draws consumed. -/
def findSpot (env : Env) (s : Simulator) (pos : Vect) (rad : ℚ) : Nat → Nat → Option Vect × Nat
  | 0, k => (none, k)
  | n + 1, k =>
    let spot := Vect.add (Vect.smul (21/10 * rad) (env.dir (env.draws k))) pos
    if wouldOverlap s spot rad then findSpot env s pos rad n (k + 1) else (some spot, k + 1)

/-- The body of the loop "Reproduce if able" for one agent `P`. -/
def tryReproduce (env : Env) (fitness : ℚ) (c : Colony) (P : Nat) : Colony :=
  if env.canReproduce P then
    let rd := env.getRepDelay P
    let attempt := env.draws c.rng
    if attempt < fitness * rd then
      let pos := (c.sim.heap P).position
      let rad := env.getMaxRadius P
      match findSpot env c.sim pos rad 50 (c.rng + 1) with
      | (some spot, k) =>
        let B := env.addr c.births.length
        let child : Particle :=
          { construct PType.BACTERIA spot rad Vect.zero with velocity := (c.sim.heap P).velocity }
        { sim := { c.sim with heap := Function.update c.sim.heap B child },
          rng := k, births := c.births ++ [B] }
      | (none, k) => { c with rng := k }
    else { c with rng := c.rng + 1 }
  else c

/-- The loop "Die if neccessary" over the bucket: `particles.remove(*p)` and
`watchlist.remove(*p)` for every element. -/
def removeAll (s : Simulator) (sect : List Nat) : Simulator :=
  sect.foldl
    (fun a p => { a with particles := a.particles.filter (fun q => decide (q ≠ p)),
                         watchlist := a.watchlist.filter (fun q => decide (q ≠ p)) }) s

/-- The body of the two loops of `Simulator::bacteriaUpdate` for the loop indices
`(x, y)`. -/
def bacteriaCell (env : Env) (c : Colony) (xy : Nat × Nat) : Colony :=
  let s := c.sim
  let sect := s.sectors.getD (cellIndex s xy.1 xy.2) []
  if sect.length > 0 then
    let fitness := cellFitness s xy.1 xy.2
    let s1 : Simulator :=
      { s with waste := s.waste.put (xy.1 - 1) (xy.2 - 1) (wasteAfter s xy.1 xy.2),
               resource := s.resource.put (xy.1 - 1) (xy.2 - 1) (resourceAfter s xy.1 xy.2) }
    if fitness < 0 then
      let s2 := removeAll s1 sect
      { c with sim := { s2 with sectors := s2.sectors.set (cellIndex s xy.1 xy.2) [] } }
    else
      sect.foldl (tryReproduce env fitness) { c with sim := s1 }
  else c

/-- The loop indices visited by `Simulator::bacteriaUpdate`, in order:
`for (y=1; y<secY-1; y++) for (x=1; x<secX-1; x++)`. -/
def visitedCells (s : Simulator) : List (Nat × Nat) :=
  (List.range' 1 (s.secY - 2)).flatMap fun y =>
    (List.range' 1 (s.secX - 2)).map fun x => (x, y)

/-- The function `Simulator::bacteriaUpdate`; the result is the new simulator and
the number of `drand48` values consumed. -/
def bacteriaUpdate (env : Env) (s : Simulator) (k : Nat) : Simulator × Nat :=
  let c := (visitedCells s).foldl (bacteriaCell env) ⟨s, k, []⟩
  (c.births.foldl (fun a B => addWatchedParticle a B (env.isActive B)) c.sim, c.rng)

/-! ## `Simulator::addParticles` -/

/-- The local state of `Simulator::addParticles`: the simulator, the number of
`drand48` values consumed, and the variables `count`, `failed` and `C`. -/
structure Insertion where
  sim : Simulator
  rng : Nat
  count : Nat
  failed : Nat
  C : Bool

/-- The call `P->setVelocity(V)` on the object at address `P`. -/
def setVelocityAt (s : Simulator) (P : Nat) (V : Vect) : Simulator :=
  { s with heap := Function.update s.heap P { s.heap P with velocity := V } }

/-- The loop `while (count<N && C)` of `Simulator::addParticles`; `none` when the
fuel runs out.  The two draws of a candidate position are taken in the order
x, y. -/
def addLoop (env : Env) (N : ℤ) (R var lft bttm diffX diffY : ℚ) (type : PType) (vmax : ℚ)
    (watched : Bool) (bias : Vect) : Nat → Insertion → Option Insertion
  | 0, _ => none
  | fuel + 1, st =>
    if (st.count : ℤ) < N ∧ st.C = true then
      let pos : Vect :=
        ⟨lft + diffX * env.draws st.rng + R, bttm + diffY * env.draws (st.rng + 1) + R⟩
      if wouldOverlap st.sim pos R then
        addLoop env N R var lft bttm diffX diffY type vmax watched bias fuel
          { st with rng := st.rng + 2, failed := st.failed + 1,
                    C := if st.failed + 1 > 250 then false else st.C }
      else
        let rad : ℚ := R * (1 + var * env.draws (st.rng + 2))
        let P := env.addr st.count
        let s1 : Simulator :=
          { st.sim with heap := Function.update st.sim.heap P (construct type pos rad bias) }
        let s2 : Simulator :=
          if watched then addWatchedParticle s1 P (env.isActive P)
          else addParticle s1 P (env.isActive P)
        if vmax > 0 then
          addLoop env N R var lft bttm diffX diffY type vmax watched bias fuel
            { sim := setVelocityAt s2 P (Vect.smul vmax (env.dir (env.draws (st.rng + 3)))),
              rng := st.rng + 4, count := st.count + 1, failed := 0, C := st.C }
        else
          addLoop env N R var lft bttm diffX diffY type vmax watched bias fuel
            { sim := s2, rng := st.rng + 3, count := st.count + 1, failed := 0, C := st.C }
    else some st

/-- The function `Simulator::addParticles`; `none` when the fuel runs out. -/
def addParticles (env : Env) (fuel : Nat) (s : Simulator) (k : Nat) (N : ℤ)
    (R var lft rght bttm tp : ℚ) (type : PType) (vmax : ℚ) (watched : Bool) (bias : Vect) :
    Option Insertion :=
  let diffX : ℚ := rght - lft - 2 * R
  let diffY : ℚ := tp - bttm - 2 * R
  addLoop env N R var lft bttm diffX diffY type vmax watched bias fuel ⟨s, k, 0, 0, true⟩

/-! ## Concrete states for the whole-state operations -/

/-- The constructor state with all edges `NONE` and particle 0 at `(5, 1/2)`,
far outside the unit square and filed in the overflow bucket 144. -/
def strayed : Simulator :=
  { Simulator.init (fun _ => Particle.resting ⟨5, 1/2⟩ (1/100)) with
    xLBound := BType.NONE, xRBound := BType.NONE, yBBound := BType.NONE,
    yTBound := BType.NONE,
    sectors := (List.replicate 145 []).set 144 [0], particles := [0] }

/-- The constructor state (all edges `WRAP`, 100 sample points) with particle 0
at `(1/2, 1)`, i.e. on the top edge `y = top`, where the wrap handling leaves
it; `getSec` files it in bucket 138. -/
def onTopEdge : Simulator :=
  { Simulator.init (fun _ => Particle.resting ⟨1/2, 1⟩ (1/100)) with
    sectors := (List.replicate 145 []).set 138 [0], particles := [0] }

/-- The constructor state (all edges `WRAP`) at time 5, with last mark 1 and one
earlier time mark 2; particle 0 sits at the centre of the unit square, filed
in cell 78. -/
def midRun : Simulator :=
  { Simulator.init (fun _ => Particle.moving ⟨1/2, 1/2⟩ (1/100)) with
    time := 5, lastMark := 1, timeMarks := [2],
    sectors := (List.replicate 145 []).set 78 [0], particles := [0] }

/-- The constructor state with all edges `NONE`: particle 0 at `(99/100, 1/2)`,
inside the unit square and filed in cell 82 (last interior column), and
particle 1 at `(101/100, 1/2)`, just beyond the right edge and filed by
`getSec` in bucket 83 (border column). -/
def overTheEdge : Simulator :=
  { Simulator.init (fun n => if n = 0 then Particle.resting ⟨99/100, 1/2⟩ (1/50)
                              else Particle.resting ⟨101/100, 1/2⟩ (1/50)) with
    xLBound := BType.NONE, xRBound := BType.NONE, yBBound := BType.NONE,
    yTBound := BType.NONE,
    sectors := ((List.replicate 145 []).set 82 [0]).set 83 [1], particles := [0, 1] }

/-- The constructor state with adaptive stepping switched on, `default_epsilon`
`1e-4` below the floor `min_epsilon = 1e-3`, and its only particle at rest at
the centre of the unit square. -/
def atRest : Simulator :=
  { Simulator.init (fun _ => Particle.resting ⟨1/2, 1/2⟩ (1/100)) with
    adjust_epsilon := true, min_epsilon := 1/1000,
    sectors := (List.replicate 145 []).set 78 [0], particles := [0] }

/-- The constructor state with 2×2 fields: resource 5 and waste `1/1000` in every
cell. -/
def twoByTwo : Simulator :=
  { Simulator.init (fun _ => Particle.resting ⟨1/2, 1/2⟩ (1/100)) with
    resource := Field.const 2 2 5, waste := Field.const 2 2 (1/1000),
    buffer := Field.const 2 2 0 }

/-- A stand-in for `delSqr` that writes `-100` into every cell of the buffer. -/
def steepLaplacian (_f buf : Field) : Field := { buf with cells := fun _ _ => -100 }

/-! ## What the particle updates leave alone -/

/-- The simulator `t` has the bounds, edge modes, particle list, walls, temporary
walls, time, time step and sectorize flag of `s`. -/
def SameSetup (s t : Simulator) : Prop :=
  t.left = s.left ∧ t.right = s.right ∧ t.bottom = s.bottom ∧ t.top = s.top ∧
  t.xLBound = s.xLBound ∧ t.xRBound = s.xRBound ∧ t.yBBound = s.yBBound ∧
  t.yTBound = s.yTBound ∧ t.particles = s.particles ∧ t.walls = s.walls ∧
  t.tempWalls = s.tempWalls ∧ t.time = s.time ∧ t.epsilon = s.epsilon ∧
  t.sectorize = s.sectorize

/-- The constructor state at time 5 with two temporary walls, one expired at 3
and one lasting until 6, one permanent wall, and a particle at the centre. -/
def walled : Simulator :=
  { Simulator.init (fun _ => Particle.moving ⟨1/2, 1/2⟩ (1/100)) with
    time := 5, walls := [20], tempWalls := [(21, 3), (22, 6)],
    sectors := (List.replicate 145 []).set 78 [0], particles := [0] }

/-! ## What `bacteriaUpdate` has done after some of its cells -/

/-- The bucket that `bacteriaUpdate` reads at the loop indices `xy`. -/
def cellBucket (s : Simulator) (xy : Nat × Nat) : List Nat :=
  s.sectors.getD (cellIndex s xy.1 xy.2) []

/-- The agent `q` is filed in a cell of `l` whose fitness is negative. -/
def DiesIn (s : Simulator) (l : List (Nat × Nat)) (q : Nat) : Prop :=
  ∃ xy ∈ l, cellFitness s xy.1 xy.2 < 0 ∧ q ∈ cellBucket s xy

/-- The colony `c` is what the loops of `bacteriaUpdate`, started in `s`, have
produced once the cells of `l` have been visited. -/
structure CellsDone (env : Env) (s : Simulator) (l : List (Nat × Nat)) (c : Colony) : Prop where
  secX : c.sim.secX = s.secX
  epsilon : c.sim.epsilon = s.epsilon
  secretionRate : c.sim.secretionRate = s.secretionRate
  eatRate : c.sim.eatRate = s.eatRate
  bucket_other : ∀ i, (∀ xy ∈ l, cellIndex s xy.1 xy.2 ≠ i) →
    c.sim.sectors.getD i [] = s.sectors.getD i []
  bucket_cases : ∀ i, c.sim.sectors.getD i [] = s.sectors.getD i [] ∨
    c.sim.sectors.getD i [] = []
  bucket_dead : ∀ xy ∈ l, cellFitness s xy.1 xy.2 < 0 →
    c.sim.sectors.getD (cellIndex s xy.1 xy.2) [] = []
  field_other : ∀ a b, (∀ xy ∈ l, (xy.1 - 1, xy.2 - 1) ≠ (a, b)) →
    c.sim.resource.cell a b = s.resource.cell a b ∧ c.sim.waste.cell a b = s.waste.cell a b
  resource_done : ∀ xy ∈ l, cellBucket s xy ≠ [] →
    c.sim.resource.cell (xy.1 - 1) (xy.2 - 1) = resourceAfter s xy.1 xy.2
  particles : ∀ q, q ∈ c.sim.particles ↔ q ∈ s.particles ∧ ¬ DiesIn s l q
  watchlist : ∀ q, q ∈ c.sim.watchlist ↔ q ∈ s.watchlist ∧ ¬ DiesIn s l q
  births : ∀ B ∈ c.births, ∃ i, B = env.addr i

/-! ## Concrete colonies and insertions -/

/-- Collaborators that never reproduce: all draws 0, `new` returning the
addresses 100, 101, ... -/
def quietEnv : Env :=
  { draws := fun _ => 0, dir := fun _ => ⟨0, 1⟩, addr := fun n => n + 100,
    canReproduce := fun _ => false, getRepDelay := fun _ => 0, getMaxRadius := fun _ => 1/100,
    isActive := fun _ => true }

/-- The constructor state with 8×8 fields and two watched agents: agent 0 at the
centre of the unit square, filed in bucket 78 (loop indices `(5, 6)`), where the
resource is 5, and agent 1 at `(1/4, 1/20)`, filed in bucket 15 (loop indices
`(2, 1)`), where the resource is 0.  The secretion rate is `1/2`. -/
def colony : Simulator :=
  { Simulator.init (fun n => if n = 0 then Particle.resting ⟨1/2, 1/2⟩ (1/100)
      else Particle.resting ⟨1/4, 1/20⟩ (1/100)) with
    sectors := ((List.replicate 145 []).set 78 [0]).set 15 [1],
    particles := [0, 1], watchlist := [0, 1], secretionRate := 1/2,
    resource := ⟨8, 8, fun i j => if i = 4 ∧ j = 5 then 5 else 0⟩,
    waste := Field.const 8 8 0 }

/-- The state of `standardHopper` of `time.cpp` at its call of `addNWParticles`:
after `discard()` and `setDimensions(0, 1, 0, 3)`, with no particle. -/
def emptyHopper : Simulator :=
  { Simulator.init (fun _ => Particle.resting ⟨0, 0⟩ 0) with top := 3, yTop := 3 }

/-- Collaborators for the insertion into the hopper: the `drand48` values
`1/2, 1/9, 0, 71/130, 1/9, 4/5` (then 0), and `new` returning the addresses
0, 1, ... -/
def hopperEnv : Env :=
  { draws := fun n => ([1/2, 1/9, 0, 71/130, 1/9, 4/5] : List ℚ).getD n 0,
    dir := fun _ => ⟨0, 1⟩, addr := fun n => n,
    canReproduce := fun _ => false, getRepDelay := fun _ => 0, getMaxRadius := fun _ => 1/50,
    isActive := fun _ => true }

/-! ## Further colonies and a particle on the right edge -/

/-- The colony with the constructor's secretion rate 1. -/
def defaultColony : Simulator := { colony with secretionRate := 1 }

/-- The constructor state (all edges `WRAP`) with two particles of radius `0.02`:
particle 0 has been integrated to `(1, 1/2)`, on the right edge, and is filed in
bucket 83, the bucket `getSec` names for that position; particle 1 is at
`(99/100, 1/2)` in cell 82. -/
def onRightEdge : Simulator :=
  { Simulator.init (fun n => if n = 0 then Particle.moving ⟨1, 1/2⟩ (1/50)
                              else Particle.resting ⟨99/100, 1/2⟩ (1/50)) with
    sectors := ((List.replicate 145 []).set 83 [0]).set 82 [1], particles := [0, 1] }

/-- The constructor state with 8×8 fields (resource 5, waste 0) and one agent at
`(1/20, 1/2)`, filed in bucket 73: column 1 (the first interior column),
row 6. -/
def edgeColony : Simulator :=
  { Simulator.init (fun _ => Particle.resting ⟨1/20, 1/2⟩ (1/100)) with
    sectors := (List.replicate 145 []).set 73 [0], particles := [0], watchlist := [0],
    resource := Field.const 8 8 5, waste := Field.const 8 8 0 }

/-! ## The loop of `Simulator::addParticles`, described -/

/-- The candidate `vect<> pos(lft+diffX*drand48()+R, bttm+diffY*drand48()+R)` of
`Simulator::addParticles` when the two draws are number `i` and `i+1`. -/
def candidateAt (env : Env) (R lft bttm diffX diffY : ℚ) (i : Nat) : Vect :=
  ⟨lft + diffX * env.draws i + R, bttm + diffY * env.draws (i + 1) + R⟩

/-- What holds of the local state of `Simulator::addParticles`, started in `s0`,
whenever the loop condition is evaluated: the particles inserted so far are in
place, `count` does not exceed `N`, `failed` counts the candidates rejected
since the last insertion, each of them overlapped, and `C` is false exactly
when that number has reached 251. -/
structure Inserting (env : Env) (s0 : Simulator) (N : ℤ) (R lft bttm diffX diffY : ℚ)
    (st : Insertion) : Prop where
  particles : st.sim.particles = s0.particles ++ (List.range st.count).map env.addr
  count_le : (st.count : ℤ) ≤ max N 0
  failed_le : st.C = true → st.failed ≤ 250
  aborted : st.C = false → st.failed = 251 ∧ (st.count : ℤ) < N
  rejected : ∀ j, j < st.failed → 2 * (st.failed - j) ≤ st.rng ∧
    wouldOverlap st.sim (candidateAt env R lft bttm diffX diffY (st.rng - 2 * (st.failed - j))) R
      = true

/-- A bound on the number of rounds the loop of `Simulator::addParticles` can
still make: each insertion may be preceded by up to 251 rejected candidates. -/
def roundsLeft (N : ℤ) (st : Insertion) : Nat :=
  if (st.count : ℤ) < N ∧ st.C = true then (N - st.count).toNat * 252 + (251 - st.failed)
  else 0

/-! ## `Simulator::record` and the run loop -/

/-- The velocity-histogram index of `Simulator::record`:
`B = (int)(vel/maxV*vbins)` followed by `B = B>=vbins ? vbins-1 : B`. -/
def velocityBin (maxV : ℚ) (vbins : ℤ) (vel : ℚ) : ℤ :=
  let B : ℤ := castInt32 (vel / maxV * vbins)
  if B ≥ vbins then vbins - 1 else B

/-- The auxiliary histogram index of `Simulator::record`:
`Bf = fvel>0 ? (int)(vel/fvel/maxF*vbins) : vbins-1` followed by
`Bf = Bf>=vbins ? vbins-1 : Bf`. -/
def auxVelocityBin (maxF : ℚ) (vbins : ℤ) (vel fvel : ℚ) : ℤ :=
  let Bf : ℤ := if fvel > 0 then castInt32 (vel / fvel / maxF * vbins) else vbins - 1
  if Bf ≥ vbins then vbins - 1 else Bf

/-- The loop "Record velocity distribution" of `Simulator::record` over the
particle list, on the pair of histograms; `sqr` of a vector is its dot product
with itself.  An exception of `at` is printed about and thrown again; a call
of an unset `flowFunc` throws. -/
def velocityLoop (sqrt : ℚ → ℚ) (s : Simulator) :
    List Nat → List ℚ × List ℚ → Except SimError (List ℚ × List ℚ)
  | [], d => Except.ok d
  | P :: rest, d =>
    match s.flowFunc with
    | none => Except.error SimError.BadFunctionCall
    | some flow =>
      let vel : ℚ := sqrt (Vect.dot (s.heap P).velocity (s.heap P).velocity)
      let fvel : ℚ := sqrt (Vect.dot (flow (s.heap P).position) (flow (s.heap P).position))
      let B : ℤ := velocityBin s.maxV s.vbins vel
      let Bf : ℤ := auxVelocityBin s.maxF s.vbins vel fvel
      match bumpAt d.1 B with
      | Except.error e => Except.error e
      | Except.ok d1 =>
        match bumpAt d.2 Bf with
        | Except.error e => Except.error e
        | Except.ok d2 => velocityLoop sqrt s rest (d1, d2)

/-- The function `Simulator::record`.  The recorded positions of the watch list,
the statistics functions (none are registered by the constructor) and the
field strings are not part of this model. -/
def record (sqrt : ℚ → ℚ) (s : Simulator) : Except SimError Simulator :=
  match getDensityYProfile s with
  | Except.error e => Except.error e
  | Except.ok profile =>
    match velocityLoop sqrt s s.particles
        (s.velocityDistribution, s.auxVelocityDistribution) with
    | Except.error e => Except.error e
    | Except.ok d =>
      Except.ok { s with profiles := s.profiles ++ [profile], velocityDistribution := d.1,
                         auxVelocityDistribution := d.2, lastDisp := s.time,
                         recIt := s.recIt + 1 }

/-- The function `Simulator::resetVariables`; `runTime` and the recorded
statistics are not part of this model. -/
def resetVariables (s : Simulator) : Simulator :=
  { s with recIt := 0, time := 0, lastMark := s.startTime, iter := 0,
           delayTriggeredExit := false, lastDisp := -1000000000,
           minepsilon := s.default_epsilon, running := true }

/-- The function `Simulator::logisticUpdates`: the choice of `epsilon`, the
advance of `time` and `iter`, the iteration cap, the recording and the
stagnation watch. -/
def logisticUpdates (sqrt : ℚ → ℚ) (s : Simulator) : Except SimError Simulator :=
  let s1 : Simulator := chooseEpsilon sqrt s
  let s2 : Simulator := { s1 with time := s1.time + s1.epsilon, iter := s1.iter + 1 }
  let s3 : Simulator :=
    if s2.maxIters > 0 ∧ s2.iter ≥ s2.maxIters then { s2 with running := false } else s2
  let r : Except SimError Simulator :=
    if (s3.time > s3.startRecording ∧ s3.time < s3.stopRecording ∧
        s3.time - s3.lastDisp > s3.dispTime) ∨ s3.recAllIters = true
    then record sqrt s3 else Except.ok s3
  match r with
  | Except.error e => Except.error e
  | Except.ok s4 =>
    if s4.markWatch = true ∧ s4.time > s4.startTime ∧ s4.time - s4.lastMark > s4.delayTime
    then Except.ok { s4 with running := false, delayTriggeredExit := true }
    else Except.ok s4

/-- Modelled from the spec: what `Simulator::run` uses from outside the
sources.  `sqrt` is the library function; `integrate` is the virtual method
`Particle::update`; `forces s k` is the heap after `calculateForces()`, whose
calls (`applyForce`, `flowForce`, `interact` of particles and walls) change
accumulators of particles only, together with the number of `drand48` values
consumed. -/
structure RunEnv where
  sqrt : ℚ → ℚ
  draws : Nat → ℚ
  integrate : Particle → ℚ → Particle
  forces : Simulator → Nat → (Nat → Particle) × Nat

/-- The loop `while(time<runLength && running)` of `Simulator::run`; `none` when
the fuel runs out, an error when an exception leaves the loop. -/
def runLoop (env : RunEnv) (runLength : ℚ) :
    Nat → Simulator × Nat → Option (Except SimError (Simulator × Nat))
  | 0, _ => none
  | fuel + 1, st =>
    if st.1.time < runLength ∧ st.1.running = true then
      match logisticUpdates env.sqrt { st.1 with heap := (env.forces st.1 st.2).1 } with
      | Except.error e => some (Except.error e)
      | Except.ok s1 =>
        match objectUpdates fuel env.draws env.integrate s1 (env.forces st.1 st.2).2 with
        | none => none
        | some st1 => runLoop env runLength fuel st1
    else some (Except.ok st)

/-- The function `Simulator::run`; the measurement of the run time is not part
of this model. -/
def run (env : RunEnv) (fuel : Nat) (s : Simulator) (k : Nat) (runLength : ℚ) :
    Option (Except SimError (Simulator × Nat)) :=
  let s0 : Simulator := resetVariables s
  let r0 : Except SimError Simulator :=
    if (s0.time ≥ s0.startRecording ∧ s0.time < s0.stopRecording) ∨ s0.recAllIters = true
    then record env.sqrt s0 else Except.ok s0
  match r0 with
  | Except.error e => some (Except.error e)
  | Except.ok s1 => runLoop env runLength fuel (s1, k)

/-- The simulator `t` differs from `s` at most in the heap, the time marks, the
buckets and the temporary walls. -/
def Touched (s t : Simulator) : Prop :=
  ∃ (heap : Nat → Particle) (lastMark : ℚ) (timeMarks : List ℚ) (sectors : List (List Nat))
    (tempWalls : List (Nat × ℚ)),
    t = { s with heap := heap, lastMark := lastMark, timeMarks := timeMarks,
                 sectors := sectors, tempWalls := tempWalls }

/-- A configuration in which the step loop of `run` is controlled by the time and
the iteration cap only: fixed time step `e > 0`, iteration cap `n`, no
stagnation watch, no recording, a domain of positive extent. -/
structure Steady (e : ℚ) (n : ℤ) (s : Simulator) : Prop where
  adjust : s.adjust_epsilon = false
  watch : s.markWatch = false
  recAll : s.recAllIters = false
  stop : s.stopRecording ≤ 0
  step : s.default_epsilon = e
  cap : s.maxIters = n
  width : s.left < s.right
  height : s.bottom < s.top

/-- The number of iterations of the step loop for run length `T`, time step `e`
and iteration cap `n`: the least `k ≥ 0` with `k*e ≥ T`, capped by `n` when
`n > 0`. -/
def iterations (T e : ℚ) (n : ℤ) : ℤ :=
  if 0 < n then min (max 0 ⌈T / e⌉) n else max 0 ⌈T / e⌉

/-- The constructor state with the recording switched off (`stopRecording = 0`),
an iteration cap of 3 and one particle at rest at the centre. -/
def cappedRun : Simulator :=
  { Simulator.init (fun _ => Particle.resting ⟨1/2, 1/2⟩ (1/100)) with
    sectors := (List.replicate 145 []).set 78 [0], particles := [0],
    stopRecording := 0, maxIters := 3 }

/-! ## Boundary handling and cells in double arithmetic -/

/-- The loops `while (pos.x < left) pos.x += (right-left)` and
`while (pos.y < bottom) pos.y += (top-bottom)` in double arithmetic: `w` is
the double `right-left` (`top-bottom`) and every sum is rounded; `none` when
the fuel runs out. -/
def wrapUpD : Nat → ℚ → ℚ → ℚ → Option ℚ
  | 0, _, _, _ => none
  | fuel + 1, lo, w, x => if x < lo then wrapUpD fuel lo w (roundDouble (x + w)) else some x

/-- The loops `while (pos.x > right) pos.x -= (right-left)` and
`while (pos.y > top) pos.y -= (top-bottom)` in double arithmetic; `none` when
the fuel runs out. -/
def wrapDownD : Nat → ℚ → ℚ → ℚ → Option ℚ
  | 0, _, _, _ => none
  | fuel + 1, hi, w, x => if x > hi then wrapDownD fuel hi w (roundDouble (x - w)) else some x

/-- The block `switch(xLBound)` of `Simulator::update` with the wrap loop in
double arithmetic; the cases `RANDOM` and `NONE` are those of `edgeXL`. -/
def edgeXLD (fuel : Nat) (draws : Nat → ℚ) (P : Nat) (b : Bnd) : Option Bnd :=
  match b.sim.xLBound with
  | BType.WRAP =>
    (wrapUpD fuel b.sim.left (roundDouble (b.sim.right - b.sim.left)) b.pos.x).map fun x =>
      { b with pos := ⟨x, b.pos.y⟩ }
  | BType.RANDOM => edgeXL fuel draws P b
  | BType.NONE => edgeXL fuel draws P b

/-- The block `switch (xRBound)` of `Simulator::update` with the wrap loop in
double arithmetic; the cases `RANDOM` and `NONE` are those of `edgeXR`. -/
def edgeXRD (fuel : Nat) (draws : Nat → ℚ) (P : Nat) (b : Bnd) : Option Bnd :=
  match b.sim.xRBound with
  | BType.WRAP =>
    (wrapDownD fuel b.sim.right (roundDouble (b.sim.right - b.sim.left)) b.pos.x).map fun x =>
      { b with pos := ⟨x, b.pos.y⟩ }
  | BType.RANDOM => edgeXR fuel draws P b
  | BType.NONE => edgeXR fuel draws P b

/-- The block `switch (yBBound)` of `Simulator::update` with the wrap loop in
double arithmetic; the cases `RANDOM` and `NONE` are those of `edgeYB`. -/
def edgeYBD (fuel : Nat) (draws : Nat → ℚ) (P : Nat) (b : Bnd) : Option Bnd :=
  match b.sim.yBBound with
  | BType.WRAP =>
    (wrapUpD fuel b.sim.bottom (roundDouble (b.sim.top - b.sim.bottom)) b.pos.y).map fun y =>
      { b with sim := markTime b.sim, pos := ⟨b.pos.x, y⟩ }
  | BType.RANDOM => edgeYB fuel draws P b
  | BType.NONE => edgeYB fuel draws P b

/-- The block `switch (yTBound)` of `Simulator::update` with the wrap loop in
double arithmetic; the cases `RANDOM` and `NONE` are those of `edgeYT`. -/
def edgeYTD (fuel : Nat) (draws : Nat → ℚ) (P : Nat) (b : Bnd) : Option Bnd :=
  match b.sim.yTBound with
  | BType.WRAP =>
    (wrapDownD fuel b.sim.top (roundDouble (b.sim.top - b.sim.bottom)) b.pos.y).map fun y =>
      { b with pos := ⟨b.pos.x, y⟩ }
  | BType.RANDOM => edgeYT fuel draws P b
  | BType.NONE => edgeYT fuel draws P b

/-- The two x-edge blocks of `Simulator::update`, left edge first, with the wrap
loops in double arithmetic. -/
def edgesXD (fuel : Nat) (draws : Nat → ℚ) (P : Nat) (b : Bnd) : Option Bnd :=
  (edgeXLD fuel draws P b).bind (edgeXRD fuel draws P)

/-- The two y-edge blocks of `Simulator::update`, bottom edge first, with the
wrap loops in double arithmetic. -/
def edgesYD (fuel : Nat) (draws : Nat → ℚ) (P : Nat) (b : Bnd) : Option Bnd :=
  (edgeYBD fuel draws P b).bind (edgeYTD fuel draws P)

/-- The boundary handling of `Simulator::update` with the wrap loops in double
arithmetic; arguments and result as for `updateBoundary`. -/
def updateBoundaryD (fuel : Nat) (draws : Nat → ℚ) (s : Simulator) (k : Nat) (P : Nat) :
    Option (Simulator × Nat) :=
  ((edgesXD fuel draws P ⟨s, (s.heap P).position, k⟩).bind (edgesYD fuel draws P)).map
    fun b => storePos b P

/-- The function `Simulator::update` with the wrap loops in double arithmetic. -/
def updateD (fuel : Nat) (draws : Nat → ℚ) (integrate : Particle → ℚ → Particle)
    (s : Simulator) (k : Nat) (P : Nat) : Option (Simulator × Nat) :=
  updateBoundaryD fuel draws
    { s with heap := Function.update s.heap P (integrate (s.heap P) s.epsilon) } k P

/-- The loop `for (auto &P : particles) update(P)` of `Simulator::objectUpdates`
with the wrap loops in double arithmetic. -/
def updateAllD (fuel : Nat) (draws : Nat → ℚ) (integrate : Particle → ℚ → Particle) :
    List Nat → Simulator × Nat → Option (Simulator × Nat)
  | [], st => some st
  | P :: rest, st =>
    (updateD fuel draws integrate st.1 st.2 P).bind (updateAllD fuel draws integrate rest)

/-- The function `Simulator::objectUpdates` with the wrap loops in double
arithmetic. -/
def objectUpdatesD (fuel : Nat) (draws : Nat → ℚ) (integrate : Particle → ℚ → Particle)
    (s : Simulator) (k : Nat) : Option (Simulator × Nat) :=
  (updateAllD fuel draws integrate s.particles (s, k)).map fun st =>
    let s1 : Simulator := if st.1.sectorize then updateSectors st.1 else st.1
    (expireTempWalls s1, st.2)

/-- Moving the local position by `d` along x (the sum is rounded) and then
running the two x-edge blocks of `Simulator::update`, in double arithmetic. -/
def moveAndWrapXD (fuel : Nat) (draws : Nat → ℚ) (P : Nat) (b : Bnd) (d : ℚ) : Option Bnd :=
  edgesXD fuel draws P { b with pos := ⟨roundDouble (b.pos.x + d), b.pos.y⟩ }

/-- The double value of `(pos.x-left)/(right-left)*secX` (and of its `y`
counterpart) in `Simulator::getSec`: every operation is rounded; the `int`
count `n` converts to a double exactly. -/
def cellCoord (lo hi : ℚ) (n : Nat) (x : ℚ) : ℚ :=
  roundDouble (roundDouble (roundDouble (x - lo) / roundDouble (hi - lo)) * n)

/-- The function `Simulator::getSec` in double arithmetic, with the conversion
to the 32-bit `int`. -/
def getSecD (s : Simulator) (pos : Vect) : Nat :=
  let X : ℤ := castInt32 (cellCoord s.left s.right s.secX pos.x)
  let Y : ℤ := castInt32 (cellCoord s.bottom s.top s.secY pos.y)
  if X < 0 ∨ Y < 0 ∨ X > s.secX ∨ Y > s.secY then (s.secX + 2) * (s.secY + 2)
  else (X.toNat + 1) + (s.secX + 2) * (Y.toNat + 1)

/-- Every translate of `x` by a whole number of extents `hi - lo` that lies
between `x` and the interval `[lo, hi]` is a double, and so is the extent:
the wrap loops of this axis then add and subtract without rounding. -/
def ExactWrap (lo hi x : ℚ) : Prop :=
  IsDouble (hi - lo) ∧
  ∀ m : ℤ, min x lo ≤ x + m * (hi - lo) → x + m * (hi - lo) ≤ max x hi →
    IsDouble (x + m * (hi - lo))

/-- The constructor state (unit square, all edges `WRAP`) whose particle 0 has
been integrated from `0.999` by `0.02`: in double arithmetic the sum is the
double nearest to `1.019`, `4589168020290535 / 2^52`. -/
def wrapDemoD : Simulator :=
  { Simulator.init (fun _ =>
      Particle.moving ⟨4589168020290535 / 4503599627370496, 1/2⟩ (1/100)) with
    sectors := (List.replicate 145 []).set 82 [0], particles := [0] }

/-- The constructor state (unit square, all edges `WRAP`) with one moving
particle at `(1e17, 1/2)`, far to the right of the domain. -/
def farRight : Simulator :=
  { Simulator.init (fun _ => Particle.moving ⟨10 ^ 17, 1/2⟩ (1/50)) with
    sectors := (List.replicate 145 []).set 144 [0], particles := [0] }

/-- The domain `[-1, 1] × [0, 1]` (as installed by `setDimensions(-1, 1, 0, 1)`)
with the constructor's 10×10 grid and `WRAP` edges.  Particle 0 is at
`x = 1 - 2^-53`, the largest double below `right`, and filed in bucket 83, which
`getSec` computes for it in double arithmetic; particle 1 is at `x = 7/8` and
filed in cell 82 (last interior column). -/
def nearRightEdge : Simulator :=
  { Simulator.init (fun n => if n = 0 then Particle.resting ⟨1 - 1 / 2 ^ 53, 1/2⟩ (1/50)
                              else Particle.resting ⟨7/8, 1/2⟩ (1/50)) with
    left := -1,
    sectors := ((List.replicate 145 []).set 83 [0]).set 82 [1], particles := [0, 1] }

/-- The constructor state (unit square, all edges `WRAP`, 10×10 grid) with
particle 0 at `(1/16, 1/2)`, filed in cell 73 (first column), and particle 1
at `(31/32, 1/2)`, filed in cell 82 (last column): neighbours across the
periodic x edge. -/
def acrossEdgeD : Simulator :=
  { Simulator.init (fun n => if n = 0 then Particle.resting ⟨1/16, 1/2⟩ (1/100)
                              else Particle.resting ⟨31/32, 1/2⟩ (1/100)) with
    sectors := ((List.replicate 145 []).set 73 [0]).set 82 [1],
    particles := [0, 1] }

/-- The constructor state (200 velocity bins, `maxV = 2`, `maxF = 3.25`) with one
particle at the centre of the unit square moving with velocity `(1, 0)`, and
a flow function whose value is `(2^-30, 0)` everywhere (a nearly stagnant
flow, about `9.3e-10`). -/
def slowFlow : Simulator :=
  { Simulator.init (fun _ =>
      { Particle.resting ⟨1/2, 1/2⟩ (1/100) with velocity := ⟨1, 0⟩ }) with
    sectors := (List.replicate 145 []).set 78 [0], particles := [0],
    flowFunc := some (fun _ => ⟨1 / 2 ^ 30, 0⟩) }

/-- The position passes every edge test of `Simulator::update` (`pos.x < left`
and `pos.x < 0`, `pos.x > right`, `pos.y < bottom` and `pos.y < 0`,
`pos.y > top`) without any of them firing, whatever the edge modes. -/
def Inside (s : Simulator) (pos : Vect) : Prop :=
  s.left ≤ pos.x ∧ 0 ≤ pos.x ∧ pos.x ≤ s.right ∧
  s.bottom ≤ pos.y ∧ 0 ≤ pos.y ∧ pos.y ≤ s.top

/-! ## Loops with fuel -/

/-- A fuel-indexed computation `f` lands on `b`: from some amount of fuel on, it
returns `b`. -/
def Lands {β : Type} (f : Nat → Option β) (b : β) : Prop :=
  ∃ N, ∀ fuel, N ≤ fuel → f fuel = some b

/-! ## Bucket bookkeeping -/

theorem getD_pushBack (secs : List (List Nat)) (k p i : Nat) :
    (pushBack secs k p).getD i [] =
      if i = k ∧ k < secs.length then secs.getD k [] ++ [p] else secs.getD i [] := by
  unfold pushBack
  simp only [List.getD_eq_getElem?_getD, List.getElem?_set]
  by_cases hik : k = i
  · subst hik
    by_cases hk : k < secs.length
    · simp [hk]
    · simp [hk, List.getElem?_eq_none (Nat.le_of_not_lt hk)]
  · have hki : ¬ (i = k ∧ k < secs.length) := fun h => hik h.1.symm
    simp [hik, hki]

theorem length_pushBack (secs : List (List Nat)) (k p : Nat) :
    (pushBack secs k p).length = secs.length := by
  simp [pushBack]

theorem mem_getD_pushBack {secs : List (List Nat)} {k p i q : Nat}
    (h : q ∈ (pushBack secs k p).getD i []) :
    q ∈ secs.getD i [] ∨ (q = p ∧ i = k) := by
  rw [getD_pushBack] at h
  split at h
  next hik =>
    rcases List.mem_append.1 h with h1 | h1
    · left; rw [hik.1]; exact h1
    · right; exact ⟨by simpa using h1, hik.1⟩
  next => exact Or.inl h

/-- The inner loop of `updateSectors`, started from an arbitrary bucket array. -/
theorem mem_moved (sec : Nat → Nat) (i0 : Nat) (bucket : List Nat) :
    ∀ (secs : List (List Nat)) (i q : Nat),
      q ∈ (bucket.foldl (fun acc p => if sec p ≠ i0 then pushBack acc (sec p) p else acc)
        secs).getD i [] →
      q ∈ secs.getD i [] ∨ (q ∈ bucket ∧ sec q ≠ i0 ∧ sec q = i) := by
  induction bucket with
  | nil => intro secs i q h; exact Or.inl h
  | cons a rest ih =>
    intro secs i q h
    rw [List.foldl_cons] at h
    rcases ih _ i q h with h1 | ⟨h1, h2, h3⟩
    · by_cases ha : sec a ≠ i0
      · rw [if_pos ha] at h1
        rcases mem_getD_pushBack h1 with h4 | ⟨h4, h5⟩
        · exact Or.inl h4
        · subst h4
          exact Or.inr ⟨List.mem_cons_self _ _, ha, h5.symm⟩
      · rw [if_neg ha] at h1
        exact Or.inl h1
    · exact Or.inr ⟨List.mem_cons_of_mem _ h1, h2, h3⟩

theorem length_moved (sec : Nat → Nat) (i0 : Nat) (bucket : List Nat) :
    ∀ (secs : List (List Nat)),
      (bucket.foldl (fun acc p => if sec p ≠ i0 then pushBack acc (sec p) p else acc)
        secs).length = secs.length := by
  induction bucket with
  | nil => intro secs; rfl
  | cons a rest ih =>
    intro secs
    rw [List.foldl_cons, ih]
    split
    · exact length_pushBack _ _ _
    · rfl

theorem length_updateBucket (sec : Nat → Nat) (secs : List (List Nat)) (i : Nat) :
    (updateBucket sec secs i).length = secs.length := by
  unfold updateBucket
  simp only [List.length_set]
  exact length_moved sec i _ secs

theorem length_foldl_updateBucket (sec : Nat → Nat) (l : List Nat) :
    ∀ secs : List (List Nat), (l.foldl (updateBucket sec) secs).length = secs.length := by
  induction l with
  | nil => intro secs; rfl
  | cons a rest ih => intro secs; rw [List.foldl_cons, ih, length_updateBucket]

/-- After bucket `i0` has been processed, it holds only elements whose cell is
`i0`, and any element that is new in another bucket belongs there. -/
theorem mem_updateBucket {sec : Nat → Nat} {secs : List (List Nat)} {i0 i q : Nat}
    (h : q ∈ (updateBucket sec secs i0).getD i []) :
    (i = i0 ∧ q ∈ secs.getD i0 [] ∧ sec q = i0) ∨ (i ≠ i0 ∧ (q ∈ secs.getD i [] ∨ sec q = i)) := by
  unfold updateBucket at h
  simp only [List.getD_eq_getElem?_getD, List.getElem?_set] at h
  by_cases hi : i0 = i
  · subst hi
    left
    rw [if_pos rfl] at h
    split at h
    · simp only [Option.getD_some, List.mem_filter, decide_eq_true_eq] at h
      exact ⟨rfl, by simpa [List.getD_eq_getElem?_getD] using h.1, h.2⟩
    · simp at h
  · right
    rw [if_neg hi] at h
    refine ⟨fun e => hi e.symm, ?_⟩
    rw [← List.getD_eq_getElem?_getD] at h
    rcases mem_moved sec i0 _ secs i q h with h1 | ⟨_, _, h3⟩
    · exact Or.inl h1
    · exact Or.inr h3

/-- Processing the buckets listed in `l` files every element of a processed
bucket correctly, and keeps correctly filed the buckets in `S`. -/
theorem foldl_updateBucket_filed (sec : Nat → Nat) (l : List Nat) :
    ∀ (secs : List (List Nat)) (S : Nat → Prop),
      (∀ i, S i → ∀ q ∈ secs.getD i [], sec q = i) →
      ∀ i, (S i ∨ i ∈ l) → ∀ q ∈ (l.foldl (updateBucket sec) secs).getD i [], sec q = i := by
  induction l with
  | nil =>
    intro secs S hS i hi q hq
    rcases hi with hi | hi
    · exact hS i hi q hq
    · cases hi
  | cons a rest ih =>
    intro secs S hS i hi q hq
    rw [List.foldl_cons] at hq
    refine ih (updateBucket sec secs a) (fun j => S j ∨ j = a) ?_ i ?_ q hq
    · intro j hj r hr
      rcases mem_updateBucket hr with ⟨_, _, h3⟩ | ⟨hne, h2⟩
      · rw [h3]; exact (by assumption : j = a).symm
      · rcases h2 with h2 | h2
        · rcases hj with hj | hj
          · exact hS j hj r h2
          · exact absurd hj hne
        · exact h2
    · rcases hi with hi | hi
      · exact Or.inl (Or.inl hi)
      · rcases List.mem_cons.1 hi with hi | hi
        · exact Or.inl (Or.inr hi)
        · exact Or.inr hi

/-! ## Counting occurrences in the buckets -/

theorem sum_map_set (g : List Nat → Nat) :
    ∀ (secs : List (List Nat)) (k : Nat) (a : List Nat), k < secs.length →
      ((secs.set k a).map g).sum + g (secs.getD k []) = (secs.map g).sum + g a := by
  intro secs
  induction secs with
  | nil => intro k a h; simp at h
  | cons b rest ih =>
    intro k a h
    cases k with
    | zero => simp; omega
    | succ k =>
      have := ih k a (by simpa using h)
      simp only [List.set_cons_succ, List.map_cons, List.sum_cons, List.getD_cons_succ] at this ⊢
      omega

theorem count_flatten_set (q : Nat) (secs : List (List Nat)) (k : Nat) (a : List Nat)
    (h : k < secs.length) :
    (secs.set k a).flatten.count q + (secs.getD k []).count q =
      secs.flatten.count q + a.count q := by
  rw [List.count_flatten, List.count_flatten]
  exact sum_map_set (List.count q) secs k a h

theorem count_flatten_pushBack (q : Nat) (secs : List (List Nat)) (k p : Nat)
    (h : k < secs.length) :
    (pushBack secs k p).flatten.count q = secs.flatten.count q + if p = q then 1 else 0 := by
  have := count_flatten_set q secs k (secs.getD k [] ++ [p]) h
  rw [List.count_append, List.count_singleton'] at this
  unfold pushBack
  omega

/-- Filing a list of particles, each into the bucket `f` names for it. -/
theorem count_foldl_pushBack (q : Nat) (f : Nat → Nat) (l : List Nat) :
    ∀ secs : List (List Nat), (∀ P, f P < secs.length) →
      (l.foldl (fun acc P => pushBack acc (f P) P) secs).length = secs.length ∧
      (l.foldl (fun acc P => pushBack acc (f P) P) secs).flatten.count q =
        secs.flatten.count q + l.count q := by
  induction l with
  | nil => intro secs _; simp
  | cons a rest ih =>
    intro secs hf
    rw [List.foldl_cons]
    have hlen := length_pushBack secs (f a) a
    obtain ⟨h1, h2⟩ := ih (pushBack secs (f a) a) (fun P => by rw [hlen]; exact hf P)
    refine ⟨by rw [h1, hlen], ?_⟩
    rw [h2, count_flatten_pushBack q secs (f a) a (hf a), List.count_cons]
    simp only [beq_iff_eq]
    omega

/-- The inner loop of `updateSectors` adds to the union exactly the elements it
moves, and leaves the bucket it iterates over untouched. -/
theorem count_moved (q : Nat) (sec : Nat → Nat) (i0 : Nat) (bucket : List Nat) :
    ∀ secs : List (List Nat), (∀ P, sec P < secs.length) →
      (bucket.foldl (fun acc p => if sec p ≠ i0 then pushBack acc (sec p) p else acc)
        secs).flatten.count q =
        secs.flatten.count q + (bucket.filter (fun p => !decide (sec p = i0))).count q ∧
      (bucket.foldl (fun acc p => if sec p ≠ i0 then pushBack acc (sec p) p else acc)
        secs).getD i0 [] = secs.getD i0 [] := by
  induction bucket with
  | nil => intro secs _; simp
  | cons a rest ih =>
    intro secs hf
    rw [List.foldl_cons]
    by_cases ha : sec a ≠ i0
    · rw [if_pos ha]
      have hlen := length_pushBack secs (sec a) a
      obtain ⟨h1, h2⟩ := ih (pushBack secs (sec a) a) (fun P => by rw [hlen]; exact hf P)
      constructor
      · rw [h1, count_flatten_pushBack q secs (sec a) a (hf a)]
        have e : List.filter (fun p => !decide (sec p = i0)) (a :: rest) =
            a :: List.filter (fun p => !decide (sec p = i0)) rest := by
          simp [List.filter_cons, ha]
        rw [e, List.count_cons]
        simp only [beq_iff_eq]
        omega
      · rw [h2, getD_pushBack]
        have : ¬ (i0 = sec a ∧ sec a < secs.length) := fun h => ha h.1.symm
        rw [if_neg this]
    · rw [if_neg ha]
      obtain ⟨h1, h2⟩ := ih secs hf
      refine ⟨?_, h2⟩
      rw [h1]
      have e : List.filter (fun p => !decide (sec p = i0)) (a :: rest) =
          List.filter (fun p => !decide (sec p = i0)) rest := by
        simp only [ne_eq, not_not] at ha
        simp [List.filter_cons, ha]
      rw [e]

theorem count_updateBucket (q : Nat) (sec : Nat → Nat) (secs : List (List Nat)) (i0 : Nat)
    (hf : ∀ P, sec P < secs.length) (hi : i0 < secs.length) :
    (updateBucket sec secs i0).flatten.count q = secs.flatten.count q := by
  unfold updateBucket
  obtain ⟨h1, h2⟩ := count_moved q sec i0 (secs.getD i0 []) secs hf
  have hlen := length_moved sec i0 (secs.getD i0 []) secs
  have h3 := count_flatten_set q _ i0
    ((secs.getD i0 []).filter (fun p => sec p = i0)) (by rw [hlen]; exact hi)
  rw [h2, h1] at h3
  have h4 := List.countP_eq_countP_filter_add (secs.getD i0 []) (· == q)
    (fun p => decide (sec p = i0))
  simp only [List.count] at h3 h4 ⊢
  omega

theorem count_foldl_updateBucket (q : Nat) (sec : Nat → Nat) (l : List Nat) :
    ∀ secs : List (List Nat), (∀ P, sec P < secs.length) → (∀ i ∈ l, i < secs.length) →
      (l.foldl (updateBucket sec) secs).flatten.count q = secs.flatten.count q := by
  induction l with
  | nil => intro secs _ _; rfl
  | cons a rest ih =>
    intro secs hf hl
    rw [List.foldl_cons]
    have hlen := length_updateBucket sec secs a
    rw [ih (updateBucket sec secs a) (fun P => by rw [hlen]; exact hf P)
      (fun i hi => by rw [hlen]; exact hl i (List.mem_cons_of_mem _ hi))]
    exact count_updateBucket q sec secs a hf (hl a (List.mem_cons_self _ _))

/-- The index returned by `getSec` is a valid index into an array of
`(secX+2)*(secY+2)+1` buckets. -/
theorem getSec_lt (s : Simulator) (pos : Vect) :
    getSec s pos < (s.secX + 2) * (s.secY + 2) + 1 := by
  simp only [getSec]
  split
  · omega
  next h =>
    push_neg at h
    obtain ⟨hX0, hY0, hX, hY⟩ := h
    have hx : (castInt ((pos.x - s.left) / (s.right - s.left) * s.secX)).toNat ≤ s.secX := by
      omega
    have hy : (castInt ((pos.y - s.bottom) / (s.top - s.bottom) * s.secY)).toNat ≤ s.secY := by
      omega
    have hm := Nat.mul_le_mul_left (s.secX + 2) (Nat.succ_le_succ hy)
    have e : (s.secX + 2) * (s.secY + 2) = (s.secX + 2) * (s.secY + 1) + (s.secX + 2) := by ring
    simp only [Nat.succ_eq_add_one] at hm
    omega

/-! ## Truncation and cell coordinates -/

theorem castInt_of_nonneg {q : ℚ} (h : 0 ≤ q) : castInt q = ⌊q⌋ := by
  simp [castInt, h]

theorem castInt_neg_iff (q : ℚ) : castInt q < 0 ↔ q ≤ -1 := by
  unfold castInt
  split
  next h =>
    constructor
    · intro h1
      have : (0:ℤ) ≤ ⌊q⌋ := Int.floor_nonneg.2 h
      omega
    · intro h1; linarith
  next h =>
    push_neg at h
    constructor
    · intro h1
      have h2 : (1:ℤ) ≤ ⌊-q⌋ := by omega
      have h3 := Int.le_floor.1 h2
      push_cast at h3
      linarith
    · intro h1
      have h3 : (1:ℤ) ≤ ⌊-q⌋ := Int.le_floor.2 (by push_cast; linarith)
      omega

theorem castInt_gt_iff (q : ℚ) (n : ℕ) : castInt q > (n : ℤ) ↔ (n : ℚ) + 1 ≤ q := by
  unfold castInt
  split
  next h =>
    constructor
    · intro h1
      have h2 : (n : ℤ) + 1 ≤ ⌊q⌋ := by omega
      have h3 := Int.le_floor.1 h2
      push_cast at h3
      exact h3
    · intro h1
      have h3 : (n : ℤ) + 1 ≤ ⌊q⌋ := Int.le_floor.2 (by push_cast; exact h1)
      omega
  next h =>
    push_neg at h
    constructor
    · intro h1
      have h2 : (0:ℤ) ≤ ⌊-q⌋ := Int.floor_nonneg.2 (by linarith)
      omega
    · intro h1
      have : (0:ℚ) ≤ n := Nat.cast_nonneg n
      linarith

theorem cellWidth_pos (W : ℚ) (n : ℕ) (hW : 0 < W) (hn : 1 ≤ n) : 0 < W / n := by
  have : (0:ℚ) < n := by exact_mod_cast hn
  exact div_pos hW this

/-- With cell width `c = W/n`, a position is `lo + u*c` for its scaled coordinate `u`. -/
theorem coord_eq (lo W x : ℚ) (n : ℕ) (hW : 0 < W) (hn : 1 ≤ n) :
    x = lo + ((x - lo) / W * n) * (W / n) := by
  have hn' : (n : ℚ) ≠ 0 := by
    have : (0:ℚ) < n := by exact_mod_cast hn
    exact ne_of_gt this
  field_simp

theorem scaled_le_iff (lo W x t : ℚ) (n : ℕ) (hW : 0 < W) (hn : 1 ≤ n) :
    (x - lo) / W * n ≤ t ↔ x ≤ lo + t * (W / n) := by
  have hc := cellWidth_pos W n hW hn
  have hx := coord_eq lo W x n hW hn
  set u := (x - lo) / W * n with hu
  set c := W / n with hcdef
  constructor
  · intro h
    rw [hx]
    have := mul_le_mul_of_nonneg_right h hc.le
    linarith
  · intro h
    rw [hx] at h
    have h2 : u * c ≤ t * c := by linarith
    exact le_of_mul_le_mul_right h2 hc

theorem le_scaled_iff (lo W x t : ℚ) (n : ℕ) (hW : 0 < W) (hn : 1 ≤ n) :
    t ≤ (x - lo) / W * n ↔ lo + t * (W / n) ≤ x := by
  have hc := cellWidth_pos W n hW hn
  have hx := coord_eq lo W x n hW hn
  set u := (x - lo) / W * n with hu
  set c := W / n with hcdef
  constructor
  · intro h
    rw [hx]
    have := mul_le_mul_of_nonneg_right h hc.le
    linarith
  · intro h
    rw [hx] at h
    have h2 : t * c ≤ u * c := by linarith
    exact le_of_mul_le_mul_right h2 hc

/-- The truncated cell coordinate is negative exactly one cell width or more
below the lower bound. -/
theorem cell_neg_iff (lo W x : ℚ) (n : ℕ) (hW : 0 < W) (hn : 1 ≤ n) :
    castInt ((x - lo) / W * n) < 0 ↔ x ≤ lo - W / n := by
  rw [castInt_neg_iff, scaled_le_iff lo W x (-1) n hW hn]
  constructor <;> intro h <;> linarith

/-- The truncated cell coordinate exceeds the cell count exactly one cell width
or more above the upper bound `lo + W`. -/
theorem cell_gt_iff (lo W x : ℚ) (n : ℕ) (hW : 0 < W) (hn : 1 ≤ n) :
    castInt ((x - lo) / W * n) > (n : ℤ) ↔ lo + W + W / n ≤ x := by
  rw [castInt_gt_iff, le_scaled_iff lo W x ((n:ℚ) + 1) n hW hn]
  have hn' : (n : ℚ) ≠ 0 := by
    have : (0:ℚ) < n := by exact_mod_cast hn
    exact ne_of_gt this
  have e : ((n:ℚ) + 1) * (W / n) = W + W / n := by field_simp; ring
  rw [e]
  constructor <;> intro h <;> linarith

/-- Inside `[lo, lo + W)` the truncated cell coordinate is the floor and lies in
`[0, n)`. -/
theorem cell_interior (lo W x : ℚ) (n : ℕ) (hW : 0 < W) (hn : 1 ≤ n)
    (h1 : lo ≤ x) (h2 : x < lo + W) :
    castInt ((x - lo) / W * n) = ⌊(x - lo) / W * n⌋ ∧
      0 ≤ ⌊(x - lo) / W * n⌋ ∧ ⌊(x - lo) / W * n⌋ < (n : ℤ) := by
  have hn' : (n : ℚ) ≠ 0 := by
    have : (0:ℚ) < n := by exact_mod_cast hn
    exact ne_of_gt this
  have h0 : 0 ≤ (x - lo) / W * n := by
    rw [le_scaled_iff lo W x 0 n hW hn]; linarith
  have hlt : (x - lo) / W * n < n := by
    by_contra hc
    push_neg at hc
    rw [le_scaled_iff lo W x n n hW hn] at hc
    have e : (n:ℚ) * (W / n) = W := by field_simp
    rw [e] at hc
    linarith
  refine ⟨castInt_of_nonneg h0, Int.floor_nonneg.2 h0, ?_⟩
  rw [Int.floor_lt]
  exact_mod_cast hlt

/-- In the strip `[lo + W, lo + W + W/n)` just above the upper bound the
truncated cell coordinate is exactly `n`. -/
theorem cell_border (lo W x : ℚ) (n : ℕ) (hW : 0 < W) (hn : 1 ≤ n)
    (h1 : lo + W ≤ x) (h2 : x < lo + W + W / n) :
    castInt ((x - lo) / W * n) = (n : ℤ) := by
  have hn' : (n : ℚ) ≠ 0 := by
    have : (0:ℚ) < n := by exact_mod_cast hn
    exact ne_of_gt this
  have e : (n:ℚ) * (W / n) = W := by field_simp
  have hge : (n:ℚ) ≤ (x - lo) / W * n := by
    rw [le_scaled_iff lo W x n n hW hn, e]; exact h1
  have h0 : 0 ≤ (x - lo) / W * n := le_trans (Nat.cast_nonneg n) hge
  have hlt : (x - lo) / W * n < (n:ℚ) + 1 := by
    by_contra hc
    push_neg at hc
    rw [le_scaled_iff lo W x ((n:ℚ) + 1) n hW hn] at hc
    have e2 : ((n:ℚ) + 1) * (W / n) = W + W / n := by field_simp; ring
    rw [e2] at hc
    linarith
  rw [castInt_of_nonneg h0, Int.floor_eq_iff]
  constructor
  · exact_mod_cast hge
  · exact_mod_cast hlt

/-! ## The wrap loops -/

theorem wrapUp_steps (lo w : ℚ) :
    ∀ (n fuel : Nat) (x : ℚ), n < fuel → (∀ m : ℕ, m < n → x + m * w < lo) → lo ≤ x + n * w →
      wrapUp fuel lo w x = some (x + n * w) := by
  intro n
  induction n with
  | zero =>
    intro fuel x hf _ hge
    obtain ⟨f, rfl⟩ : ∃ f, fuel = f + 1 := ⟨fuel - 1, by omega⟩
    have : ¬ x < lo := by simpa using hge
    simp [wrapUp, this]
  | succ n ih =>
    intro fuel x hf hlt hge
    obtain ⟨f, rfl⟩ : ∃ f, fuel = f + 1 := ⟨fuel - 1, by omega⟩
    have h0 : x < lo := by simpa using hlt 0 (Nat.succ_pos n)
    rw [wrapUp, if_pos h0, ih f (x + w) (by omega)]
    · congr 1; push_cast; ring
    · intro m hm
      have := hlt (m + 1) (by omega)
      push_cast at this
      linarith
    · push_cast at hge
      linarith

theorem wrapDown_steps (hi w : ℚ) :
    ∀ (n fuel : Nat) (x : ℚ), n < fuel → (∀ m : ℕ, m < n → hi < x - m * w) → x - n * w ≤ hi →
      wrapDown fuel hi w x = some (x - n * w) := by
  intro n
  induction n with
  | zero =>
    intro fuel x hf _ hge
    obtain ⟨f, rfl⟩ : ∃ f, fuel = f + 1 := ⟨fuel - 1, by omega⟩
    have : ¬ x > hi := by simpa using hge
    simp [wrapDown, this]
  | succ n ih =>
    intro fuel x hf hlt hge
    obtain ⟨f, rfl⟩ : ∃ f, fuel = f + 1 := ⟨fuel - 1, by omega⟩
    have h0 : x > hi := by simpa using hlt 0 (Nat.succ_pos n)
    rw [wrapDown, if_pos h0, ih f (x - w) (by omega)]
    · congr 1; push_cast; ring
    · intro m hm
      have := hlt (m + 1) (by omega)
      push_cast at this
      linarith
    · push_cast at hge
      linarith

/-- For a positive width the upward wrap loop finishes: it adds the width `n`
times, where `n` is the least count that reaches the lower bound. -/
theorem wrapUp_total (lo w x : ℚ) (hw : 0 < w) :
    ∃ n : ℕ, (∀ fuel, n < fuel → wrapUp fuel lo w x = some (x + n * w)) ∧
      lo ≤ x + n * w ∧ (n = 0 ∨ x + n * w < lo + w) := by
  have hex : ∃ n : ℕ, lo ≤ x + n * w := by
    obtain ⟨n, hn⟩ := exists_nat_gt ((lo - x) / w)
    refine ⟨n, ?_⟩
    rw [div_lt_iff₀ hw] at hn
    linarith
  classical
  refine ⟨Nat.find hex, ?_, Nat.find_spec hex, ?_⟩
  · intro fuel hf
    refine wrapUp_steps lo w _ fuel x hf ?_ (Nat.find_spec hex)
    intro m hm
    have := Nat.find_min hex hm
    linarith
  · by_cases h0 : Nat.find hex = 0
    · exact Or.inl h0
    · right
      have hm : Nat.find hex - 1 < Nat.find hex := by omega
      have := Nat.find_min hex hm
      push_neg at this
      have e : ((Nat.find hex - 1 : ℕ) : ℚ) = (Nat.find hex : ℚ) - 1 := by
        rw [Nat.cast_sub (by omega)]; simp
      rw [e] at this
      linarith

theorem wrapDown_total (hi w x : ℚ) (hw : 0 < w) :
    ∃ n : ℕ, (∀ fuel, n < fuel → wrapDown fuel hi w x = some (x - n * w)) ∧
      x - n * w ≤ hi ∧ (n = 0 ∨ hi - w < x - n * w) := by
  have hex : ∃ n : ℕ, x - n * w ≤ hi := by
    obtain ⟨n, hn⟩ := exists_nat_gt ((x - hi) / w)
    refine ⟨n, ?_⟩
    rw [div_lt_iff₀ hw] at hn
    linarith
  classical
  refine ⟨Nat.find hex, ?_, Nat.find_spec hex, ?_⟩
  · intro fuel hf
    refine wrapDown_steps hi w _ fuel x hf ?_ (Nat.find_spec hex)
    intro m hm
    have := Nat.find_min hex hm
    linarith
  · by_cases h0 : Nat.find hex = 0
    · exact Or.inl h0
    · right
      have hm : Nat.find hex - 1 < Nat.find hex := by omega
      have := Nat.find_min hex hm
      push_neg at this
      have e : ((Nat.find hex - 1 : ℕ) : ℚ) = (Nat.find hex : ℚ) - 1 := by
        rw [Nat.cast_sub (by omega)]; simp
      rw [e] at this
      linarith

theorem wrapUp_of_ge (lo w x : ℚ) (fuel : Nat) (hf : 1 ≤ fuel) (h : lo ≤ x) :
    wrapUp fuel lo w x = some x := by
  have := wrapUp_steps lo w 0 fuel x (by omega) (fun m hm => absurd hm (Nat.not_lt_zero m))
    (by simpa using h)
  simpa using this

theorem wrapDown_of_le (hi w x : ℚ) (fuel : Nat) (hf : 1 ≤ fuel) (h : x ≤ hi) :
    wrapDown fuel hi w x = some x := by
  have := wrapDown_steps hi w 0 fuel x (by omega) (fun m hm => absurd hm (Nat.not_lt_zero m))
    (by simpa using h)
  simpa using this

theorem wrapDown_once (hi w x : ℚ) (fuel : Nat) (hf : 2 ≤ fuel) (h1 : hi < x)
    (h2 : x - w ≤ hi) : wrapDown fuel hi w x = some (x - w) := by
  have := wrapDown_steps hi w 1 fuel x (by omega)
    (fun m hm => by
      have : m = 0 := by omega
      subst this
      simpa using h1)
    (by simpa using h2)
  simpa using this

/-! ## The edge blocks under `WRAP` -/

theorem edgeXL_wrap (fuel : Nat) (draws : Nat → ℚ) (P : Nat) (b : Bnd)
    (h : b.sim.xLBound = BType.WRAP) :
    edgeXL fuel draws P b =
      (wrapUp fuel b.sim.left (b.sim.right - b.sim.left) b.pos.x).map fun x =>
        { b with pos := ⟨x, b.pos.y⟩ } := by
  simp only [edgeXL, h]

theorem edgeXR_wrap (fuel : Nat) (draws : Nat → ℚ) (P : Nat) (b : Bnd)
    (h : b.sim.xRBound = BType.WRAP) :
    edgeXR fuel draws P b =
      (wrapDown fuel b.sim.right (b.sim.right - b.sim.left) b.pos.x).map fun x =>
        { b with pos := ⟨x, b.pos.y⟩ } := by
  simp only [edgeXR, h]

theorem edgeYB_wrap (fuel : Nat) (draws : Nat → ℚ) (P : Nat) (b : Bnd)
    (h : b.sim.yBBound = BType.WRAP) :
    edgeYB fuel draws P b =
      (wrapUp fuel b.sim.bottom (b.sim.top - b.sim.bottom) b.pos.y).map fun y =>
        { b with sim := markTime b.sim, pos := ⟨b.pos.x, y⟩ } := by
  simp only [edgeYB, h]

theorem edgeYT_wrap (fuel : Nat) (draws : Nat → ℚ) (P : Nat) (b : Bnd)
    (h : b.sim.yTBound = BType.WRAP) :
    edgeYT fuel draws P b =
      (wrapDown fuel b.sim.top (b.sim.top - b.sim.bottom) b.pos.y).map fun y =>
        { b with pos := ⟨b.pos.x, y⟩ } := by
  simp only [edgeYT, h]

/-- With all four edges `WRAP`, the boundary handling is the four wrap loops in
sequence, one time mark, and the store of the final position. -/
theorem updateBoundary_allWrap (s : Simulator) (draws : Nat → ℚ) (k P fuel : Nat)
    (hxL : s.xLBound = BType.WRAP) (hxR : s.xRBound = BType.WRAP)
    (hyB : s.yBBound = BType.WRAP) (hyT : s.yTBound = BType.WRAP) :
    updateBoundary fuel draws s k P =
      (wrapUp fuel s.left (s.right - s.left) (s.heap P).position.x).bind fun x1 =>
      (wrapDown fuel s.right (s.right - s.left) x1).bind fun x2 =>
      (wrapUp fuel s.bottom (s.top - s.bottom) (s.heap P).position.y).bind fun y1 =>
      (wrapDown fuel s.top (s.top - s.bottom) y1).map fun y2 =>
        storePos ⟨markTime s, ⟨x2, y2⟩, k⟩ P := by
  unfold updateBoundary edgesX edgesY
  rw [edgeXL_wrap _ _ _ _ hxL]
  cases h1 : wrapUp fuel s.left (s.right - s.left) (s.heap P).position.x with
  | none => simp [h1]
  | some x1 =>
    simp only [h1, Option.map_some', Option.some_bind]
    rw [edgeXR_wrap _ _ _ _ hxR]
    cases h2 : wrapDown fuel s.right (s.right - s.left) x1 with
    | none => simp [h2]
    | some x2 =>
      simp only [h2, Option.map_some', Option.some_bind]
      rw [edgeYB_wrap _ _ _ _ hyB]
      cases h3 : wrapUp fuel s.bottom (s.top - s.bottom) (s.heap P).position.y with
      | none => simp [h3]
      | some y1 =>
        simp only [h3, Option.map_some', Option.some_bind]
        rw [edgeYT_wrap _ _ _ _ (by simpa [markTime] using hyT)]
        cases h4 : wrapDown fuel s.top (s.top - s.bottom) y1 with
        | none => simp [markTime, h4]
        | some y2 => simp [markTime, h4]

/-- With both x edges `WRAP`, the two x-edge blocks are the two wrap loops. -/
theorem edgesX_wrap (fuel : Nat) (draws : Nat → ℚ) (P : Nat) (b : Bnd)
    (hxL : b.sim.xLBound = BType.WRAP) (hxR : b.sim.xRBound = BType.WRAP) :
    edgesX fuel draws P b =
      (wrapUp fuel b.sim.left (b.sim.right - b.sim.left) b.pos.x).bind fun x1 =>
      (wrapDown fuel b.sim.right (b.sim.right - b.sim.left) x1).map fun x2 =>
        { b with pos := ⟨x2, b.pos.y⟩ } := by
  unfold edgesX
  rw [edgeXL_wrap _ _ _ _ hxL]
  cases h1 : wrapUp fuel b.sim.left (b.sim.right - b.sim.left) b.pos.x with
  | none => simp [h1]
  | some x1 =>
    simp only [h1, Option.map_some', Option.some_bind]
    exact edgeXR_wrap fuel draws P ⟨b.sim, ⟨x1, b.pos.y⟩, b.rng⟩ hxR

/-! ## Landing of fuel-indexed computations -/

theorem lands_const {β : Type} (b : β) : Lands (fun _ => some b) b :=
  ⟨0, fun _ _ => rfl⟩

theorem lands_bind {α β : Type} {f : Nat → Option α} {g : Nat → α → Option β} {a : α} {b : β}
    (hf : Lands f a) (hg : Lands (fun fuel => g fuel a) b) :
    Lands (fun fuel => (f fuel).bind (g fuel)) b := by
  obtain ⟨N1, h1⟩ := hf
  obtain ⟨N2, h2⟩ := hg
  refine ⟨max N1 N2, fun fuel hfuel => ?_⟩
  show (f fuel).bind (g fuel) = some b
  rw [h1 fuel (le_trans (le_max_left _ _) hfuel)]
  exact h2 fuel (le_trans (le_max_right _ _) hfuel)

theorem lands_map {α β : Type} {f : Nat → Option α} (g : α → β) {a : α} (hf : Lands f a) :
    Lands (fun fuel => (f fuel).map g) (g a) := by
  obtain ⟨N1, h1⟩ := hf
  refine ⟨N1, fun fuel hfuel => ?_⟩
  show (f fuel).map g = some (g a)
  rw [h1 fuel hfuel]
  rfl

/-- For a positive width the upward wrap loop lands in `[lo, ∞)`, leaves a
value that is already there alone, and otherwise lands in `[lo, lo + w)`. -/
theorem wrapUp_lands (lo w x : ℚ) (hw : 0 < w) :
    ∃ x', Lands (fun fuel => wrapUp fuel lo w x) x' ∧ lo ≤ x' ∧ (lo ≤ x → x' = x) ∧
      (x < lo → x' < lo + w) ∧ ∃ n : ℕ, x' = x + n * w := by
  obtain ⟨n, h1, h2, h3⟩ := wrapUp_total lo w x hw
  refine ⟨x + n * w, ⟨n + 1, fun fuel hf => h1 fuel (by omega)⟩, h2, ?_, ?_, n, rfl⟩
  · intro hx
    have e := h1 (n + 1) (by omega)
    rw [wrapUp_of_ge lo w x (n + 1) (by omega) hx] at e
    exact (Option.some.inj e).symm
  · intro hx
    rcases h3 with h | h
    · subst h; simp; linarith
    · exact h

/-- For a positive width the downward wrap loop lands in `(-∞, hi]`, leaves a
value that is already there alone, and otherwise lands in `(hi - w, hi]`. -/
theorem wrapDown_lands (hi w x : ℚ) (hw : 0 < w) :
    ∃ x', Lands (fun fuel => wrapDown fuel hi w x) x' ∧ x' ≤ hi ∧ (x ≤ hi → x' = x) ∧
      (hi < x → hi - w < x') ∧ ∃ n : ℕ, x' = x - n * w := by
  obtain ⟨n, h1, h2, h3⟩ := wrapDown_total hi w x hw
  refine ⟨x - n * w, ⟨n + 1, fun fuel hf => h1 fuel (by omega)⟩, h2, ?_, ?_, n, rfl⟩
  · intro hx
    have e := h1 (n + 1) (by omega)
    rw [wrapDown_of_le hi w x (n + 1) (by omega) hx] at e
    exact (Option.some.inj e).symm
  · intro hx
    rcases h3 with h | h
    · subst h; simp; linarith
    · exact h

/-! ## Reinjection on a domain with the origin at the lower left corner -/

theorem frame_freezeAt {s : Simulator} {P : Nat} {rt tp R : ℚ} {mL mR mB mT : BType}
    (h : Frame s P rt tp R mL mR mB mT) : Frame (freezeAt s P) P rt tp R mL mR mB mT := by
  obtain ⟨h1, h2, h3, h4, h5, h6, h7, h8, h9⟩ := h
  refine ⟨h1, h2, h3, h4, ?_, h6, h7, h8, h9⟩
  simp [freezeAt, Particle.freeze, h5]

theorem frame_markTime {s : Simulator} {P : Nat} {rt tp R : ℚ} {mL mR mB mT : BType}
    (h : Frame s P rt tp R mL mR mB mT) : Frame (markTime s) P rt tp R mL mR mB mT := h

/-- The retry loop keeps any property of the position that holds at its start and
after every redraw. -/
theorem retry_keeps (Q : Vect → Prop) (draws : Nat → ℚ)
    (redraw : (Nat → ℚ) → Vect → Nat → Vect × Nat) (s : Simulator) (R : ℚ)
    (hre : ∀ pos k, Q (redraw draws pos k).1) :
    ∀ (n : Nat) (pos : Vect) (k : Nat), Q pos → Q (retry draws redraw s R n pos k).1 := by
  intro n
  induction n with
  | zero => intro pos k h; exact h
  | succ n ih =>
    intro pos k h
    rw [retry]
    split
    · exact ih _ _ (hre pos k)
    · exact h

/-- A value `(span - 2R)·u + R` with `u ∈ [0,1)` and `2R < span` lies in
`[R, span - R]`. -/
theorem inset_draw (span R u : ℚ) (hspan : 2 * R < span) (hu0 : 0 ≤ u) (hu1 : u < 1) :
    R ≤ (span - 2 * R) * u + R ∧ (span - 2 * R) * u + R ≤ span - R := by
  have hpos : 0 < span - 2 * R := by linarith
  constructor
  · have := mul_nonneg hpos.le hu0
    linarith
  · have : (span - 2 * R) * u ≤ (span - 2 * R) * 1 :=
      mul_le_mul_of_nonneg_left hu1.le hpos.le
    linarith

/-- The position chosen by a reinjection at the left or right edge: `x = c` and
`y` redrawn in `[R, top - R]`. -/
theorem retry_redrawY (draws : Nat → ℚ) (s : Simulator) (R c : ℚ) (y0 : ℚ) (k : Nat)
    (hspan : 2 * R < s.top) (hd : ∀ n, 0 ≤ draws n ∧ draws n < 1) :
    (reinject draws (redrawY s R) s R ⟨c, y0⟩ k).1.x = c ∧
    R ≤ (reinject draws (redrawY s R) s R ⟨c, y0⟩ k).1.y ∧
    (reinject draws (redrawY s R) s R ⟨c, y0⟩ k).1.y ≤ s.top - R := by
  have hstart : (redrawY s R draws ⟨c, y0⟩ k).1.x = c ∧
      R ≤ (redrawY s R draws ⟨c, y0⟩ k).1.y ∧ (redrawY s R draws ⟨c, y0⟩ k).1.y ≤ s.top - R :=
    ⟨rfl, inset_draw s.top R (draws k) hspan (hd k).1 (hd k).2⟩
  have hall : ∀ (n : Nat) (pos : Vect) (j : Nat),
      (pos.x = c ∧ R ≤ pos.y ∧ pos.y ≤ s.top - R) →
      ((retry draws (redrawY s R) s R n pos j).1.x = c ∧
        R ≤ (retry draws (redrawY s R) s R n pos j).1.y ∧
        (retry draws (redrawY s R) s R n pos j).1.y ≤ s.top - R) := by
    intro n
    induction n with
    | zero => intro pos j h; exact h
    | succ n ih =>
      intro pos j h
      rw [retry]
      split
      · exact ih _ _ ⟨h.1, inset_draw s.top R (draws j) hspan (hd j).1 (hd j).2⟩
      · exact h
  exact hall 10 _ _ hstart

/-- The position chosen by a reinjection at the top edge: `y = c` and `x`
redrawn in `[R, right - R]`. -/
theorem retry_redrawX (draws : Nat → ℚ) (s : Simulator) (R c : ℚ) (x0 : ℚ) (k : Nat)
    (hspan : 2 * R < s.right) (hd : ∀ n, 0 ≤ draws n ∧ draws n < 1) :
    (reinject draws (redrawX s R) s R ⟨x0, c⟩ k).1.y = c ∧
    R ≤ (reinject draws (redrawX s R) s R ⟨x0, c⟩ k).1.x ∧
    (reinject draws (redrawX s R) s R ⟨x0, c⟩ k).1.x ≤ s.right - R := by
  have hstart : (redrawX s R draws ⟨x0, c⟩ k).1.y = c ∧
      R ≤ (redrawX s R draws ⟨x0, c⟩ k).1.x ∧ (redrawX s R draws ⟨x0, c⟩ k).1.x ≤ s.right - R :=
    ⟨rfl, inset_draw s.right R (draws k) hspan (hd k).1 (hd k).2⟩
  have hall : ∀ (n : Nat) (pos : Vect) (j : Nat),
      (pos.y = c ∧ R ≤ pos.x ∧ pos.x ≤ s.right - R) →
      ((retry draws (redrawX s R) s R n pos j).1.y = c ∧
        R ≤ (retry draws (redrawX s R) s R n pos j).1.x ∧
        (retry draws (redrawX s R) s R n pos j).1.x ≤ s.right - R) := by
    intro n
    induction n with
    | zero => intro pos j h; exact h
    | succ n ih =>
      intro pos j h
      rw [retry]
      split
      · exact ih _ _ ⟨h.1, inset_draw s.right R (draws j) hspan (hd j).1 (hd j).2⟩
      · exact h
  exact hall 10 _ _ hstart

/-- The position chosen by a reinjection at the bottom edge has `x` in
`[R, right - R]`. -/
theorem retry_redrawTop (draws : Nat → ℚ) (s : Simulator) (R : ℚ) (pos0 : Vect) (k : Nat)
    (hspan : 2 * R < s.right) (hd : ∀ n, 0 ≤ draws n ∧ draws n < 1) :
    R ≤ (reinject draws (redrawTop s R) s R pos0 k).1.x ∧
    (reinject draws (redrawTop s R) s R pos0 k).1.x ≤ s.right - R :=
  retry_keeps (fun pos => R ≤ pos.x ∧ pos.x ≤ s.right - R) draws (redrawTop s R) s R
    (fun _ j => inset_draw s.right R (draws (j + 1)) hspan (hd (j + 1)).1 (hd (j + 1)).2)
    10 _ _ (inset_draw s.right R (draws (k + 1)) hspan (hd (k + 1)).1 (hd (k + 1)).2)

/-- The left-edge block on a domain `[0, rt] × [0, tp]`: it lands; it leaves a
position with `x ≥ 0` alone; a reinjection ends inside the domain; and in any
case the result is inside the domain or has its `y` unchanged. -/
theorem edgeXL_spec (draws : Nat → ℚ) (P : Nat) (b : Bnd) (rt tp R : ℚ)
    (mL mR mB mT : BType) (hF : Frame b.sim P rt tp R mL mR mB mT)
    (hrt : 0 < rt) (hR : 0 ≤ R) (hRt : 2 * R < tp)
    (hd : ∀ n, 0 ≤ draws n ∧ draws n < 1) :
    ∃ b', Lands (fun fuel => edgeXL fuel draws P b) b' ∧
      Frame b'.sim P rt tp R mL mR mB mT ∧
      (0 ≤ b.pos.x → b'.pos = b.pos) ∧
      (mL = BType.RANDOM → b.pos.x < 0 → InBox rt tp b'.pos) ∧
      (InBox rt tp b'.pos ∨ b'.pos.y = b.pos.y) := by
  have hF0 := hF
  obtain ⟨h1, h2, h3, h4, h5, h6, h7, h8, h9⟩ := hF
  cases mL with
  | WRAP =>
    obtain ⟨x', hl, _, hsame, _, _⟩ := wrapUp_lands 0 rt b.pos.x hrt
    refine ⟨{ b with pos := ⟨x', b.pos.y⟩ }, ?_, hF0, ?_, ?_, Or.inr rfl⟩
    · obtain ⟨N, hN⟩ := hl
      refine ⟨N, fun fuel hf => ?_⟩
      show edgeXL fuel draws P b = _
      rw [edgeXL_wrap _ _ _ _ h6, h1, h2, sub_zero,
        show wrapUp fuel 0 rt b.pos.x = some x' from hN fuel hf]
      rfl
    · intro hx
      show (⟨x', b.pos.y⟩ : Vect) = b.pos
      rw [hsame hx]
    · intro h; cases h
  | RANDOM =>
    by_cases hx : b.pos.x < 0
    · have hbox : InBox rt tp (reinject draws (redrawY b.sim (b.sim.heap P).radius) b.sim
          (b.sim.heap P).radius ⟨b.sim.right, b.pos.y⟩ b.rng).1 := by
        obtain ⟨e1, e2, e3⟩ := retry_redrawY draws b.sim (b.sim.heap P).radius b.sim.right
          b.pos.y b.rng (by rw [h5, h4]; exact hRt) hd
        exact ⟨by linarith, by linarith, by linarith, by linarith⟩
      refine ⟨⟨freezeAt b.sim P,
          (reinject draws (redrawY b.sim (b.sim.heap P).radius) b.sim (b.sim.heap P).radius
            ⟨b.sim.right, b.pos.y⟩ b.rng).1,
          (reinject draws (redrawY b.sim (b.sim.heap P).radius) b.sim (b.sim.heap P).radius
            ⟨b.sim.right, b.pos.y⟩ b.rng).2⟩, ?_, frame_freezeAt hF0, ?_, fun _ _ => hbox,
        Or.inl hbox⟩
      · refine ⟨0, fun fuel _ => ?_⟩
        simp only [edgeXL, h6, if_pos hx]
      · intro h; linarith
    · refine ⟨b, ?_, hF0, fun _ => rfl, fun _ h => absurd h hx, Or.inr rfl⟩
      refine ⟨0, fun fuel _ => ?_⟩
      simp only [edgeXL, h6, if_neg hx]
  | NONE =>
    refine ⟨b, ?_, hF0, fun _ => rfl, (fun h => by cases h), Or.inr rfl⟩
    refine ⟨0, fun fuel _ => ?_⟩
    simp only [edgeXL, h6]

/-- The right-edge block on a domain `[0, rt] × [0, tp]`: it lands; it leaves a
position with `x ≤ rt` alone; a reinjection ends inside the domain; and in any
case the result is inside the domain or has its `y` unchanged. -/
theorem edgeXR_spec (draws : Nat → ℚ) (P : Nat) (b : Bnd) (rt tp R : ℚ)
    (mL mR mB mT : BType) (hF : Frame b.sim P rt tp R mL mR mB mT)
    (hrt : 0 < rt) (hR : 0 ≤ R) (hRt : 2 * R < tp)
    (hd : ∀ n, 0 ≤ draws n ∧ draws n < 1) :
    ∃ b', Lands (fun fuel => edgeXR fuel draws P b) b' ∧
      Frame b'.sim P rt tp R mL mR mB mT ∧
      (b.pos.x ≤ rt → b'.pos = b.pos) ∧
      (mR = BType.RANDOM → rt < b.pos.x → InBox rt tp b'.pos) ∧
      (InBox rt tp b'.pos ∨ b'.pos.y = b.pos.y) := by
  have hF0 := hF
  obtain ⟨h1, h2, h3, h4, h5, h6, h7, h8, h9⟩ := hF
  cases mR with
  | WRAP =>
    obtain ⟨x', hl, _, hsame, _, _⟩ := wrapDown_lands rt rt b.pos.x hrt
    refine ⟨{ b with pos := ⟨x', b.pos.y⟩ }, ?_, hF0, ?_, ?_, Or.inr rfl⟩
    · obtain ⟨N, hN⟩ := hl
      refine ⟨N, fun fuel hf => ?_⟩
      show edgeXR fuel draws P b = _
      rw [edgeXR_wrap _ _ _ _ h7, h1, h2, sub_zero,
        show wrapDown fuel rt rt b.pos.x = some x' from hN fuel hf]
      rfl
    · intro hx
      show (⟨x', b.pos.y⟩ : Vect) = b.pos
      rw [hsame hx]
    · intro h; cases h
  | RANDOM =>
    by_cases hx : b.pos.x > b.sim.right
    · have hbox : InBox rt tp (reinject draws (redrawY b.sim (b.sim.heap P).radius) b.sim
          (b.sim.heap P).radius ⟨0, b.pos.y⟩ b.rng).1 := by
        obtain ⟨e1, e2, e3⟩ := retry_redrawY draws b.sim (b.sim.heap P).radius 0
          b.pos.y b.rng (by rw [h5, h4]; exact hRt) hd
        exact ⟨by linarith, by linarith, by linarith, by linarith⟩
      refine ⟨⟨freezeAt b.sim P,
          (reinject draws (redrawY b.sim (b.sim.heap P).radius) b.sim (b.sim.heap P).radius
            ⟨0, b.pos.y⟩ b.rng).1,
          (reinject draws (redrawY b.sim (b.sim.heap P).radius) b.sim (b.sim.heap P).radius
            ⟨0, b.pos.y⟩ b.rng).2⟩, ?_, frame_freezeAt hF0, ?_, fun _ _ => hbox, Or.inl hbox⟩
      · refine ⟨0, fun fuel _ => ?_⟩
        simp only [edgeXR, h7, if_pos hx]
      · intro h
        rw [h2] at hx
        linarith
    · refine ⟨b, ?_, hF0, fun _ => rfl, fun _ h => absurd (by rw [h2]; exact h) hx, Or.inr rfl⟩
      refine ⟨0, fun fuel _ => ?_⟩
      simp only [edgeXR, h7, if_neg hx]
  | NONE =>
    refine ⟨b, ?_, hF0, fun _ => rfl, (fun h => by cases h), Or.inr rfl⟩
    refine ⟨0, fun fuel _ => ?_⟩
    simp only [edgeXR, h7]

/-- The bottom-edge block on a domain `[0, rt] × [0, tp]`: it lands; it leaves a
position with `y ≥ 0` alone; a reinjection ends with `x` in `[0, rt]`. -/
theorem edgeYB_spec (draws : Nat → ℚ) (P : Nat) (b : Bnd) (rt tp R : ℚ)
    (mL mR mB mT : BType) (hF : Frame b.sim P rt tp R mL mR mB mT)
    (htp : 0 < tp) (hR : 0 ≤ R) (hRr : 2 * R < rt)
    (hd : ∀ n, 0 ≤ draws n ∧ draws n < 1) :
    ∃ b', Lands (fun fuel => edgeYB fuel draws P b) b' ∧
      Frame b'.sim P rt tp R mL mR mB mT ∧
      (0 ≤ b.pos.y → b'.pos = b.pos) ∧
      (mB = BType.RANDOM → b.pos.y < 0 → 0 ≤ b'.pos.x ∧ b'.pos.x ≤ rt) := by
  have hF0 := hF
  obtain ⟨h1, h2, h3, h4, h5, h6, h7, h8, h9⟩ := hF
  cases mB with
  | WRAP =>
    obtain ⟨y', hl, _, hsame, _, _⟩ := wrapUp_lands 0 tp b.pos.y htp
    refine ⟨{ b with sim := markTime b.sim, pos := ⟨b.pos.x, y'⟩ }, ?_, frame_markTime hF0,
      ?_, ?_⟩
    · obtain ⟨N, hN⟩ := hl
      refine ⟨N, fun fuel hf => ?_⟩
      show edgeYB fuel draws P b = _
      rw [edgeYB_wrap _ _ _ _ h8, h3, h4, sub_zero,
        show wrapUp fuel 0 tp b.pos.y = some y' from hN fuel hf]
      rfl
    · intro hy
      show (⟨b.pos.x, y'⟩ : Vect) = b.pos
      rw [hsame hy]
    · intro h; cases h
  | RANDOM =>
    by_cases hy : b.pos.y < 0
    · refine ⟨⟨freezeAt (markTime b.sim) P,
          (reinject draws (redrawTop (markTime b.sim) ((markTime b.sim).heap P).radius)
            (markTime b.sim) ((markTime b.sim).heap P).radius b.pos b.rng).1,
          (reinject draws (redrawTop (markTime b.sim) ((markTime b.sim).heap P).radius)
            (markTime b.sim) ((markTime b.sim).heap P).radius b.pos b.rng).2⟩, ?_,
        frame_freezeAt (frame_markTime hF0), ?_, ?_⟩
      · refine ⟨0, fun fuel _ => ?_⟩
        simp only [edgeYB, h8, if_pos hy]
      · intro h; linarith
      · intro _ _
        have hr : ((markTime b.sim).heap P).radius = R := h5
        have hrt : (markTime b.sim).right = rt := h2
        obtain ⟨e1, e2⟩ := retry_redrawTop draws (markTime b.sim)
          ((markTime b.sim).heap P).radius b.pos b.rng (by rw [hr, hrt]; exact hRr) hd
        exact ⟨by show 0 ≤ _; linarith, by show _ ≤ rt; linarith⟩
    · refine ⟨b, ?_, hF0, fun _ => rfl, fun _ h => absurd h hy⟩
      refine ⟨0, fun fuel _ => ?_⟩
      simp only [edgeYB, h8, if_neg hy]
  | NONE =>
    refine ⟨b, ?_, hF0, fun _ => rfl, fun h => by cases h⟩
    refine ⟨0, fun fuel _ => ?_⟩
    simp only [edgeYB, h8]

/-- The top-edge block on a domain `[0, rt] × [0, tp]`: it lands; it leaves a
position with `y ≤ tp` alone; a reinjection ends inside the domain; and `x`
stays in `[0, rt]` if it was there. -/
theorem edgeYT_spec (draws : Nat → ℚ) (P : Nat) (b : Bnd) (rt tp R : ℚ)
    (mL mR mB mT : BType) (hF : Frame b.sim P rt tp R mL mR mB mT)
    (htp : 0 < tp) (hR : 0 ≤ R) (hRr : 2 * R < rt)
    (hd : ∀ n, 0 ≤ draws n ∧ draws n < 1) :
    ∃ b', Lands (fun fuel => edgeYT fuel draws P b) b' ∧
      Frame b'.sim P rt tp R mL mR mB mT ∧
      (b.pos.y ≤ tp → b'.pos = b.pos) ∧
      (mT = BType.RANDOM → tp < b.pos.y → InBox rt tp b'.pos) ∧
      (0 ≤ b.pos.x ∧ b.pos.x ≤ rt → 0 ≤ b'.pos.x ∧ b'.pos.x ≤ rt) := by
  have hF0 := hF
  obtain ⟨h1, h2, h3, h4, h5, h6, h7, h8, h9⟩ := hF
  cases mT with
  | WRAP =>
    obtain ⟨y', hl, _, hsame, _, _⟩ := wrapDown_lands tp tp b.pos.y htp
    refine ⟨{ b with pos := ⟨b.pos.x, y'⟩ }, ?_, hF0, ?_, ?_, fun h => h⟩
    · obtain ⟨N, hN⟩ := hl
      refine ⟨N, fun fuel hf => ?_⟩
      show edgeYT fuel draws P b = _
      rw [edgeYT_wrap _ _ _ _ h9, h3, h4, sub_zero,
        show wrapDown fuel tp tp b.pos.y = some y' from hN fuel hf]
      rfl
    · intro hy
      show (⟨b.pos.x, y'⟩ : Vect) = b.pos
      rw [hsame hy]
    · intro h; cases h
  | RANDOM =>
    by_cases hy : b.pos.y > b.sim.top
    · have hbox : InBox rt tp (reinject draws (redrawX b.sim (b.sim.heap P).radius) b.sim
          (b.sim.heap P).radius ⟨b.pos.x, 0⟩ b.rng).1 := by
        obtain ⟨e1, e2, e3⟩ := retry_redrawX draws b.sim (b.sim.heap P).radius 0
          b.pos.x b.rng (by rw [h5, h2]; exact hRr) hd
        exact ⟨by linarith, by linarith, by linarith, by linarith⟩
      refine ⟨⟨freezeAt b.sim P,
          (reinject draws (redrawX b.sim (b.sim.heap P).radius) b.sim (b.sim.heap P).radius
            ⟨b.pos.x, 0⟩ b.rng).1,
          (reinject draws (redrawX b.sim (b.sim.heap P).radius) b.sim (b.sim.heap P).radius
            ⟨b.pos.x, 0⟩ b.rng).2⟩, ?_, frame_freezeAt hF0, ?_, fun _ _ => hbox,
        fun _ => ⟨hbox.1, hbox.2.1⟩⟩
      · refine ⟨0, fun fuel _ => ?_⟩
        simp only [edgeYT, h9, if_pos hy]
      · intro h
        rw [h4] at hy
        linarith
    · refine ⟨b, ?_, hF0, fun _ => rfl, fun _ h => absurd (by rw [h4]; exact h) hy, fun h => h⟩
      refine ⟨0, fun fuel _ => ?_⟩
      simp only [edgeYT, h9, if_neg hy]
  | NONE =>
    refine ⟨b, ?_, hF0, fun _ => rfl, (fun h => by cases h), fun h => h⟩
    refine ⟨0, fun fuel _ => ?_⟩
    simp only [edgeYT, h9]

/-- The bottom-edge block under `RANDOM` for a particle with `pos.y < 0`: one time
mark, a reinjection, and the freeze. -/
theorem edgeYB_random_fire (fuel : Nat) (draws : Nat → ℚ) (P : Nat) (b : Bnd)
    (h : b.sim.yBBound = BType.RANDOM) (hy : b.pos.y < 0) :
    edgeYB fuel draws P b =
      some ⟨freezeAt (markTime b.sim) P,
        (reinject draws (redrawTop (markTime b.sim) ((markTime b.sim).heap P).radius)
          (markTime b.sim) ((markTime b.sim).heap P).radius b.pos b.rng).1,
        (reinject draws (redrawTop (markTime b.sim) ((markTime b.sim).heap P).radius)
          (markTime b.sim) ((markTime b.sim).heap P).radius b.pos b.rng).2⟩ := by
  simp only [edgeYB, h, if_pos hy]

/-- On a domain `[0, rt] × [0, tp]` with `0 ≤ 2R < rt, tp` and draws in `[0,1)` the
whole boundary handling lands, and the blocks compose as follows: what each
block guarantees for the local position is listed for the four stages. -/
theorem boundary_stages (s : Simulator) (draws : Nat → ℚ) (k P : Nat)
    (hl : s.left = 0) (hb : s.bottom = 0) (hr : 0 < s.right) (ht : 0 < s.top)
    (hR0 : 0 ≤ (s.heap P).radius) (hRx : 2 * (s.heap P).radius < s.right)
    (hRy : 2 * (s.heap P).radius < s.top) (hd : ∀ n, 0 ≤ draws n ∧ draws n < 1) :
    ∃ b1 b2 b3 b4 : Bnd,
      Lands (fun fuel => updateBoundary fuel draws s k P) (storePos b4 P) ∧
      (0 ≤ (s.heap P).position.x → b1.pos = (s.heap P).position) ∧
      (s.xLBound = BType.RANDOM → (s.heap P).position.x < 0 → InBox s.right s.top b1.pos) ∧
      (InBox s.right s.top b1.pos ∨ b1.pos.y = (s.heap P).position.y) ∧
      (b1.pos.x ≤ s.right → b2.pos = b1.pos) ∧
      (s.xRBound = BType.RANDOM → s.right < b1.pos.x → InBox s.right s.top b2.pos) ∧
      (InBox s.right s.top b2.pos ∨ b2.pos.y = b1.pos.y) ∧
      (0 ≤ b2.pos.y → b3.pos = b2.pos) ∧
      (s.yBBound = BType.RANDOM → b2.pos.y < 0 → 0 ≤ b3.pos.x ∧ b3.pos.x ≤ s.right) ∧
      (b3.pos.y ≤ s.top → b4.pos = b3.pos) ∧
      (s.yTBound = BType.RANDOM → s.top < b3.pos.y → InBox s.right s.top b4.pos) ∧
      (0 ≤ b3.pos.x ∧ b3.pos.x ≤ s.right → 0 ≤ b4.pos.x ∧ b4.pos.x ≤ s.right) := by
  have hF : Frame s P s.right s.top (s.heap P).radius s.xLBound s.xRBound s.yBBound s.yTBound :=
    ⟨hl, rfl, hb, rfl, rfl, rfl, rfl, rfl, rfl⟩
  obtain ⟨b1, hL1, hF1, p1a, p1b, p1c⟩ :=
    edgeXL_spec draws P ⟨s, (s.heap P).position, k⟩ _ _ _ _ _ _ _ hF hr hR0 hRy hd
  obtain ⟨b2, hL2, hF2, p2a, p2b, p2c⟩ :=
    edgeXR_spec draws P b1 _ _ _ _ _ _ _ hF1 hr hR0 hRy hd
  obtain ⟨b3, hL3, hF3, p3a, p3b⟩ :=
    edgeYB_spec draws P b2 _ _ _ _ _ _ _ hF2 ht hR0 hRx hd
  obtain ⟨b4, hL4, _, p4a, p4b, p4c⟩ :=
    edgeYT_spec draws P b3 _ _ _ _ _ _ _ hF3 ht hR0 hRx hd
  refine ⟨b1, b2, b3, b4, ?_, p1a, p1b, p1c, p2a, p2b, p2c, p3a, p3b, p4a, p4b, p4c⟩
  have hX : Lands (fun fuel => edgesX fuel draws P ⟨s, (s.heap P).position, k⟩) b2 :=
    lands_bind (g := fun fuel b => edgeXR fuel draws P b) hL1 hL2
  have hY : Lands (fun fuel => edgesY fuel draws P b2) b4 :=
    lands_bind (g := fun fuel b => edgeYT fuel draws P b) hL3 hL4
  have hXY : Lands (fun fuel => (edgesX fuel draws P ⟨s, (s.heap P).position, k⟩).bind
      (edgesY fuel draws P)) b4 :=
    lands_bind (g := fun fuel b => edgesY fuel draws P b) hX hY
  exact lands_map (fun b => storePos b P) hXY

/-! ## Cells of positions inside the domain and of their neighbours -/

/-- For a position inside `[left, right) × [bottom, top)`, `getSec` returns the
interior cell `(X+1) + (secX+2)*(Y+1)` of its floor coordinates `X < secX`,
`Y < secY`. -/
theorem getSec_interior (s : Simulator) (hlr : s.left < s.right) (hbt : s.bottom < s.top)
    (hx : 1 ≤ s.secX) (hy : 1 ≤ s.secY) (pos : Vect)
    (h1 : s.left ≤ pos.x) (h2 : pos.x < s.right) (h3 : s.bottom ≤ pos.y) (h4 : pos.y < s.top) :
    getSec s pos =
      (⌊(pos.x - s.left) / (s.right - s.left) * s.secX⌋.toNat + 1) +
        (s.secX + 2) * (⌊(pos.y - s.bottom) / (s.top - s.bottom) * s.secY⌋.toNat + 1) ∧
    ⌊(pos.x - s.left) / (s.right - s.left) * s.secX⌋.toNat < s.secX ∧
    ⌊(pos.y - s.bottom) / (s.top - s.bottom) * s.secY⌋.toNat < s.secY := by
  have hW : 0 < s.right - s.left := by linarith
  have hH : 0 < s.top - s.bottom := by linarith
  obtain ⟨hX, hX0, hXn⟩ := cell_interior s.left (s.right - s.left) pos.x s.secX hW hx h1
    (by linarith)
  obtain ⟨hY, hY0, hYn⟩ := cell_interior s.bottom (s.top - s.bottom) pos.y s.secY hH hy h3
    (by linarith)
  refine ⟨?_, by omega, by omega⟩
  simp only [getSec]
  rw [hX, hY]
  have hcond : ¬ (⌊(pos.x - s.left) / (s.right - s.left) * s.secX⌋ < 0 ∨
      ⌊(pos.y - s.bottom) / (s.top - s.bottom) * s.secY⌋ < 0 ∨
      ⌊(pos.x - s.left) / (s.right - s.left) * s.secX⌋ > (s.secX : ℤ) ∨
      ⌊(pos.y - s.bottom) / (s.top - s.bottom) * s.secY⌋ > (s.secY : ℤ)) := by
    omega
  rw [if_neg hcond]

/-- Scaled coordinates less than one apart have floors at most one apart. -/
theorem floor_near {u v : ℚ} (h : |u - v| < 1) : ⌊u⌋ ≤ ⌊v⌋ + 1 ∧ ⌊v⌋ ≤ ⌊u⌋ + 1 := by
  have h1 := abs_lt.1 h
  have hu1 := Int.floor_le u
  have hu2 := Int.lt_floor_add_one u
  have hv1 := Int.floor_le v
  have hv2 := Int.lt_floor_add_one v
  constructor
  · have : (⌊u⌋ : ℚ) < (⌊v⌋ : ℚ) + 2 := by linarith
    have : ⌊u⌋ < ⌊v⌋ + 2 := by exact_mod_cast this
    omega
  · have : (⌊v⌋ : ℚ) < (⌊u⌋ : ℚ) + 2 := by linarith
    have : ⌊v⌋ < ⌊u⌋ + 2 := by exact_mod_cast this
    omega

/-- On an axis of positive extent the shortened component is antisymmetric. -/
theorem shorten_neg (W X : ℚ) (hW : 0 < W) : shorten W (-X) = -shorten W X := by
  simp only [shorten, abs_neg]
  by_cases h : W - |X| < |X|
  · simp only [if_pos h]
    rcases lt_trichotomy X 0 with hx | hx | hx
    · have h1 : -X > 0 := by linarith
      have h2 : ¬ X > 0 := by linarith
      rw [if_pos h1, if_neg h2]
    · subst hx
      simp at h
      linarith
    · have h1 : ¬ -X > 0 := by linarith
      rw [if_neg h1, if_pos hx]
      ring
  · simp only [if_neg h]

/-- With `right > left` and `top > bottom` the displacement from `A` to `B` is the
negated displacement from `B` to `A`. -/
theorem getDisplacement_swap (s : Simulator) (hlr : s.left < s.right) (hbt : s.bottom < s.top)
    (A B : Vect) : getDisplacement s B A = Vect.neg (getDisplacement s A B) := by
  have hW : 0 < s.right - s.left := by linarith
  have hH : 0 < s.top - s.bottom := by linarith
  have ex : B.x - A.x = -(A.x - B.x) := by ring
  have ey : B.y - A.y = -(A.y - B.y) := by ring
  simp only [getDisplacement, Vect.neg, ex, ey, shorten_neg _ _ hW, shorten_neg _ _ hH]
  congr 1
  · split <;> rfl
  · split <;> rfl

/-- One axis of the neighbour search.  Two coordinates in `[lo, lo + W)` whose
displacement (shortened on a periodic axis) is smaller than one cell width lie
in cells `XP`, `XQ` such that one of the three neighbour indices
`XP, XP+1, XP+2` of cell `XP+1` is remapped to `XQ+1`. -/
theorem neighbour_axis (periodic : Bool) (lo W xP xQ : ℚ) (n : ℕ) (hW : 0 < W) (hn : 1 ≤ n)
    (hP1 : lo ≤ xP) (hP2 : xP < lo + W) (hQ1 : lo ≤ xQ) (hQ2 : xQ < lo + W)
    (hd : |if periodic then shorten W (xQ - xP) else xQ - xP| < W / n) :
    ∃ i, i ∈ List.range' (⌊(xP - lo) / W * n⌋.toNat + 1 - 1) 3 ∧
      remap periodic n i = ⌊(xQ - lo) / W * n⌋.toNat + 1 := by
  have hc := cellWidth_pos W n hW hn
  have hnq : (n : ℚ) ≠ 0 := by
    have : (0:ℚ) < n := by exact_mod_cast hn
    exact ne_of_gt this
  have hnc : (n : ℚ) * (W / n) = W := by field_simp
  obtain ⟨_, hP0, hPn⟩ := cell_interior lo W xP n hW hn hP1 hP2
  obtain ⟨_, hQ0, hQn⟩ := cell_interior lo W xQ n hW hn hQ1 hQ2
  have eP := coord_eq lo W xP n hW hn
  have eQ := coord_eq lo W xQ n hW hn
  set uP := (xP - lo) / W * n with huP
  set uQ := (xQ - lo) / W * n with huQ
  set c := W / n with hcdef
  have hX : xQ - xP = (uQ - uP) * c := by linarith
  have huP0 : 0 ≤ uP := by
    have := Int.lt_floor_add_one uP
    have h0 : (0:ℚ) ≤ (⌊uP⌋ : ℚ) := by exact_mod_cast hP0
    by_contra hneg
    push_neg at hneg
    have : ⌊uP⌋ < 0 := by
      rw [Int.floor_lt]; exact_mod_cast hneg
    omega
  have huQ0 : 0 ≤ uQ := by
    by_contra hneg
    push_neg at hneg
    have : ⌊uQ⌋ < 0 := by
      rw [Int.floor_lt]; exact_mod_cast hneg
    omega
  have huPn : uP < n := by
    have h1 := Int.lt_floor_add_one uP
    have h2 : (⌊uP⌋ : ℚ) + 1 ≤ n := by exact_mod_cast hPn
    linarith
  have huQn : uQ < n := by
    have h1 := Int.lt_floor_add_one uQ
    have h2 : (⌊uQ⌋ : ℚ) + 1 ≤ n := by exact_mod_cast hQn
    linarith
  -- the plain case: the displacement is `xQ - xP` itself
  have plain : |xQ - xP| < c →
      ∃ i, i ∈ List.range' (⌊uP⌋.toNat + 1 - 1) 3 ∧
        remap periodic n i = ⌊uQ⌋.toNat + 1 := by
    intro h
    have hu : |uQ - uP| < 1 := by
      rw [hX, abs_mul, abs_of_pos hc] at h
      by_contra hge
      push_neg at hge
      have := mul_le_mul_of_nonneg_right hge hc.le
      linarith
    obtain ⟨f1, f2⟩ := floor_near hu
    refine ⟨⌊uQ⌋.toNat + 1, ?_, ?_⟩
    · rw [List.mem_range'_1]
      omega
    · unfold remap
      rw [if_neg (by omega), if_neg (by omega)]
  cases periodic with
  | false => exact plain (by simpa using hd)
  | true =>
    simp only [if_true] at hd
    unfold shorten at hd
    simp only at hd
    by_cases hs : W - |xQ - xP| < |xQ - xP|
    · rw [if_pos hs] at hd
      have habs : |xQ - xP| < W := by
        rw [abs_lt]; constructor <;> linarith
      by_cases hpos : xQ - xP > 0
      · rw [if_pos hpos, abs_neg, abs_of_pos (by linarith)] at hd
        rw [abs_of_pos hpos] at hd hs
        -- `uQ - uP > n - 1`, hence `P` is in the first and `Q` in the last cell
        have hgap : (n : ℚ) - 1 < uQ - uP := by
          by_contra hle
          push_neg at hle
          have := mul_le_mul_of_nonneg_right hle hc.le
          have e : ((n:ℚ) - 1) * c = W - c := by rw [sub_mul, hnc]; ring
          linarith
        have fP : ⌊uP⌋ = 0 := by
          rw [Int.floor_eq_iff]
          constructor
          · simpa using huP0
          · simp; linarith
        have fQ : ⌊uQ⌋ = (n : ℤ) - 1 := by
          rw [Int.floor_eq_iff]
          constructor
          · push_cast; linarith
          · push_cast; linarith
        refine ⟨0, ?_, ?_⟩
        · rw [List.mem_range'_1, fP]
          simp
        · unfold remap
          rw [if_pos ⟨rfl, rfl⟩, fQ]
          omega
      · rw [if_neg hpos] at hd
        push_neg at hpos
        rw [abs_of_nonpos hpos] at hd hs
        rw [abs_of_pos (by linarith)] at hd
        have hgap : (n : ℚ) - 1 < uP - uQ := by
          by_contra hle
          push_neg at hle
          have := mul_le_mul_of_nonneg_right hle hc.le
          have e : ((n:ℚ) - 1) * c = W - c := by rw [sub_mul, hnc]; ring
          linarith
        have fQ : ⌊uQ⌋ = 0 := by
          rw [Int.floor_eq_iff]
          constructor
          · simpa using huQ0
          · simp; linarith
        have fP : ⌊uP⌋ = (n : ℤ) - 1 := by
          rw [Int.floor_eq_iff]
          constructor
          · push_cast; linarith
          · push_cast; linarith
        refine ⟨n + 1, ?_, ?_⟩
        · rw [List.mem_range'_1, fP]
          omega
        · unfold remap
          rw [if_neg (by omega), if_pos ⟨rfl, rfl⟩, fQ]
          rfl
    · rw [if_neg hs] at hd
      exact plain hd

/-- A call recorded by the scan of one neighbour bucket. -/
theorem mem_scanNeighbours (s : Simulator) (x y P Q i j : Nat) (hPQ : P ≠ Q)
    (hj : j ∈ List.range' (y - 1) 3) (hi : i ∈ List.range' (x - 1) 3)
    (hQ : Q ∈ s.sectors.getD (wrapRow s j * (s.secX + 2) + wrapCol s i) []) :
    (⟨P, Q, some (getDisplacement s (s.heap Q).position (s.heap P).position)⟩ : Call) ∈
      scanNeighbours s x y P := by
  unfold scanNeighbours
  rw [List.mem_flatMap]
  refine ⟨j, hj, ?_⟩
  rw [List.mem_flatMap]
  refine ⟨i, hi, ?_⟩
  rw [List.mem_filterMap]
  exact ⟨Q, hQ, by rw [if_pos hPQ]⟩

/-- The scan of every particle of every interior cell is part of `ppInteract`. -/
theorem mem_ppInteract_of_scan (s : Simulator) (x y P : Nat) (c : Call)
    (hy : y ∈ List.range' 1 s.secY) (hx : x ∈ List.range' 1 s.secX)
    (hP : P ∈ s.sectors.getD (y * (s.secX + 2) + x) []) (hc : c ∈ scanNeighbours s x y P) :
    c ∈ ppInteract s := by
  unfold ppInteract
  rw [List.mem_append]
  left
  rw [List.mem_flatMap]
  refine ⟨y, hy, ?_⟩
  rw [List.mem_flatMap]
  refine ⟨x, hx, ?_⟩
  rw [List.mem_flatMap]
  exact ⟨P, hP, hc⟩

/-- One direction of the completeness of the neighbour search: `P` meets `Q`. -/
theorem ppInteract_reaches (s : Simulator) (P Q : Nat)
    (hlr : s.left < s.right) (hbt : s.bottom < s.top) (hx : 1 ≤ s.secX) (hy : 1 ≤ s.secY)
    (hPQ : P ≠ Q)
    (hP1 : s.left ≤ (s.heap P).position.x) (hP2 : (s.heap P).position.x < s.right)
    (hP3 : s.bottom ≤ (s.heap P).position.y) (hP4 : (s.heap P).position.y < s.top)
    (hQ1 : s.left ≤ (s.heap Q).position.x) (hQ2 : (s.heap Q).position.x < s.right)
    (hQ3 : s.bottom ≤ (s.heap Q).position.y) (hQ4 : (s.heap Q).position.y < s.top)
    (hPf : P ∈ s.sectors.getD (getSec s (s.heap P).position) [])
    (hQf : Q ∈ s.sectors.getD (getSec s (s.heap Q).position) [])
    (hdx : |(getDisplacement s (s.heap Q).position (s.heap P).position).x| <
      (s.right - s.left) / s.secX)
    (hdy : |(getDisplacement s (s.heap Q).position (s.heap P).position).y| <
      (s.top - s.bottom) / s.secY) :
    (⟨P, Q, some (getDisplacement s (s.heap Q).position (s.heap P).position)⟩ : Call) ∈
      ppInteract s := by
  have hW : 0 < s.right - s.left := by linarith
  have hH : 0 < s.top - s.bottom := by linarith
  obtain ⟨gP, hXP, hYP⟩ := getSec_interior s hlr hbt hx hy _ hP1 hP2 hP3 hP4
  obtain ⟨gQ, hXQ, hYQ⟩ := getSec_interior s hlr hbt hx hy _ hQ1 hQ2 hQ3 hQ4
  obtain ⟨i, hi, hri⟩ := neighbour_axis (periodicX s) s.left (s.right - s.left)
    (s.heap P).position.x (s.heap Q).position.x s.secX hW hx hP1 (by linarith) hQ1
    (by linarith) hdx
  obtain ⟨j, hj, hrj⟩ := neighbour_axis (periodicY s) s.bottom (s.top - s.bottom)
    (s.heap P).position.y (s.heap Q).position.y s.secY hH hy hP3 (by linarith) hQ3
    (by linarith) hdy
  rw [gP] at hPf
  rw [gQ] at hQf
  refine mem_ppInteract_of_scan s
    (⌊((s.heap P).position.x - s.left) / (s.right - s.left) * s.secX⌋.toNat + 1)
    (⌊((s.heap P).position.y - s.bottom) / (s.top - s.bottom) * s.secY⌋.toNat + 1) P _
    ?_ ?_ ?_ (mem_scanNeighbours s _ _ P Q i j hPQ hj hi ?_)
  · rw [List.mem_range'_1]; omega
  · rw [List.mem_range'_1]; omega
  · rw [show ∀ a b c : Nat, (b + 1) * (c + 2) + (a + 1) = (a + 1) + (c + 2) * (b + 1) from
      fun a b c => by ring]
    exact hPf
  · unfold wrapRow wrapCol
    rw [hri, hrj,
      show ∀ a b c : Nat, (b + 1) * (c + 2) + (a + 1) = (a + 1) + (c + 2) * (b + 1) from
        fun a b c => by ring]
    exact hQf

/-- What the guard of `getSec` does outside the domain.  For `right > left`,
`top > bottom`, `secX, secY ≥ 1`, with cell width `w = (right-left)/secX` and cell
height `h = (top-bottom)/secY`: every position with `x ≤ left - w`,
`x ≥ right + w`, `y ≤ bottom - h` or `y ≥ top + h` is mapped to the overflow
bucket `(secX+2)*(secY+2)`; a position with `right ≤ x < right + w` and
`bottom ≤ y < top` is filed in the border column `secX+1` of its row. -/
theorem getSec_overflow_far (s : Simulator) (hlr : s.left < s.right) (hbt : s.bottom < s.top)
    (hx : 1 ≤ s.secX) (hy : 1 ≤ s.secY) (pos : Vect) :
    ((pos.x ≤ s.left - (s.right - s.left) / s.secX ∨
      pos.x ≥ s.right + (s.right - s.left) / s.secX ∨
      pos.y ≤ s.bottom - (s.top - s.bottom) / s.secY ∨
      pos.y ≥ s.top + (s.top - s.bottom) / s.secY) →
      getSec s pos = (s.secX + 2) * (s.secY + 2)) ∧
    (s.right ≤ pos.x → pos.x < s.right + (s.right - s.left) / s.secX →
      s.bottom ≤ pos.y → pos.y < s.top →
      getSec s pos = (s.secX + 1) +
        (s.secX + 2) * (⌊(pos.y - s.bottom) / (s.top - s.bottom) * s.secY⌋.toNat + 1)) := by
  have hW : 0 < s.right - s.left := by linarith
  have hH : 0 < s.top - s.bottom := by linarith
  constructor
  · intro h
    have hcond : castInt ((pos.x - s.left) / (s.right - s.left) * s.secX) < 0 ∨
        castInt ((pos.y - s.bottom) / (s.top - s.bottom) * s.secY) < 0 ∨
        castInt ((pos.x - s.left) / (s.right - s.left) * s.secX) > (s.secX : ℤ) ∨
        castInt ((pos.y - s.bottom) / (s.top - s.bottom) * s.secY) > (s.secY : ℤ) := by
      rw [cell_neg_iff _ _ _ _ hW hx, cell_neg_iff _ _ _ _ hH hy,
        cell_gt_iff _ _ _ _ hW hx, cell_gt_iff _ _ _ _ hH hy]
      rcases h with h | h | h | h
      · exact Or.inl h
      · right; right; left; linarith
      · right; left; exact h
      · right; right; right; linarith
    simp only [getSec]
    rw [if_pos hcond]
  · intro h1 h2 h3 h4
    have hX := cell_border s.left (s.right - s.left) pos.x s.secX hW hx (by linarith)
      (by linarith)
    obtain ⟨hY, hY0, hYn⟩ := cell_interior s.bottom (s.top - s.bottom) pos.y s.secY hH hy h3
      (by linarith)
    simp only [getSec]
    rw [hX, hY]
    have hcond : ¬ ((s.secX : ℤ) < 0 ∨
        ⌊(pos.y - s.bottom) / (s.top - s.bottom) * s.secY⌋ < 0 ∨
        (s.secX : ℤ) > s.secX ∨
        ⌊(pos.y - s.bottom) / (s.top - s.bottom) * s.secY⌋ > (s.secY : ℤ)) := by
      omega
    rw [if_neg hcond]
    simp

/-! ## The adaptive time step -/

/-- The rational square root of Mathlib is positive on positive arguments. -/
theorem ratSqrt_pos (x : ℚ) (hx : 0 < x) : 0 < Rat.sqrt x := by
  unfold Rat.sqrt
  rw [Rat.mkRat_eq_div]
  have hnum : 0 < x.num := Rat.num_pos.2 hx
  have h1 : 0 < Int.sqrt x.num := by
    unfold Int.sqrt
    have : 0 < Nat.sqrt x.num.toNat := Nat.sqrt_pos.2 (by omega)
    exact_mod_cast this
  have h2 : 0 < Nat.sqrt x.den := Nat.sqrt_pos.2 x.den_pos
  apply div_pos
  · exact_mod_cast h1
  · exact_mod_cast h2

/-- The value returned by `maxVelocity` is `-1` or positive, never zero. -/
theorem maxVelocity_cases (sqrt : ℚ → ℚ) (hsqrt : ∀ x, 0 < x → 0 < sqrt x) (s : Simulator) :
    maxVelocity sqrt s = -1 ∨ 0 < maxVelocity sqrt s := by
  unfold maxVelocity
  simp only
  split
  next h => exact Or.inr (hsqrt _ h)
  next => exact Or.inl rfl

theorem le_maxOf_right (a b : ℚ) : b ≤ maxOf a b := by
  unfold maxOf
  split
  · exact le_refl b
  · next h => exact not_lt.1 h

theorem le_maxOf_left (a b : ℚ) : a ≤ maxOf a b := by
  unfold maxOf
  split
  · next h => exact le_of_lt h
  · exact le_refl a

/-- Under adaptive stepping the branch `M<=0` of `logisticUpdates` is never taken
and the chosen step is `max(min_epsilon, ·)`. -/
theorem adaptiveEpsilon_ge (sqrt : ℚ → ℚ) (hsqrt : ∀ x, 0 < x → 0 < sqrt x)
    (s : Simulator) : s.min_epsilon ≤ adaptiveEpsilon sqrt s := by
  have hv : 0 < |maxVelocity sqrt s| := by
    rcases maxVelocity_cases sqrt hsqrt s with h | h
    · rw [h]; norm_num
    · exact abs_pos.2 (ne_of_gt h)
  have hM : ¬ maxOf (maxAcceleration sqrt s) |maxVelocity sqrt s| ≤ 0 := by
    have := le_maxOf_right (maxAcceleration sqrt s) |maxVelocity sqrt s|
    intro h
    linarith
  unfold adaptiveEpsilon
  simp only [if_neg hM]
  exact le_maxOf_left _ _

theorem chooseEpsilon_epsilon (sqrt : ℚ → ℚ) (s : Simulator) (hadj : s.adjust_epsilon = true) :
    (chooseEpsilon sqrt s).epsilon = adaptiveEpsilon sqrt s := by
  unfold chooseEpsilon
  rw [if_pos hadj]
  simp only
  split <;> rfl

/-! ## The explicit Euler step on a field -/

theorem cell_put (f : Field) (x y : Nat) (v : ℚ) (i j : Nat) :
    (f.put x y v).cell i j = if i = x ∧ j = y then v else f.cell i j := rfl

theorem cell_eulerCell (buf : Field) (eps D src : ℚ) (f : Field) (x y i j : Nat) :
    (eulerCell buf eps D src f x y).cell i j =
      if i = x ∧ j = y then max 0 (f.cell x y + eps * (D * buf.cell x y + src))
      else f.cell i j := by
  unfold eulerCell
  simp only [cell_put]
  by_cases h : i = x ∧ j = y
  · simp only [if_pos h, true_and, and_self, if_true]
    split
    · next hneg => rw [max_eq_left (le_of_lt hneg)]
    · next hpos => rw [max_eq_right (not_lt.1 hpos)]
  · simp only [if_neg h]

theorem dims_eulerCell (buf : Field) (eps D src : ℚ) (f : Field) (x y : Nat) :
    (eulerCell buf eps D src f x y).dx = f.dx ∧ (eulerCell buf eps D src f x y).dy = f.dy :=
  ⟨rfl, rfl⟩

/-- The inner loop over `x < nx` for a fixed row `y`. -/
theorem cell_eulerRow (buf : Field) (eps D src : ℚ) (y : Nat) (nx : Nat) :
    ∀ (f : Field) (i j : Nat),
      (List.foldl (fun h x => eulerCell buf eps D src h x y) f (List.range nx)).cell i j =
        if i < nx ∧ j = y then max 0 (f.cell i j + eps * (D * buf.cell i j + src))
        else f.cell i j := by
  induction nx with
  | zero => intro f i j; simp
  | succ n ih =>
    intro f i j
    rw [List.range_succ, List.foldl_append, List.foldl_cons, List.foldl_nil, cell_eulerCell]
    by_cases h : i = n ∧ j = y
    · obtain ⟨h1, h2⟩ := h
      subst h1 h2
      rw [if_pos ⟨rfl, rfl⟩, if_pos ⟨Nat.lt_succ_self _, rfl⟩, ih, if_neg (by omega)]
    · rw [if_neg h, ih]
      by_cases h2 : i < n ∧ j = y
      · rw [if_pos h2, if_pos ⟨by omega, h2.2⟩]
      · rw [if_neg h2, if_neg (by
          intro h3
          rcases Nat.lt_succ_iff_lt_or_eq.1 h3.1 with h4 | h4
          · exact h2 ⟨h4, h3.2⟩
          · exact h ⟨h4, h3.2⟩)]

theorem dims_eulerRow (buf : Field) (eps D src : ℚ) (y : Nat) (l : List Nat) :
    ∀ f : Field,
      (List.foldl (fun h x => eulerCell buf eps D src h x y) f l).dx = f.dx ∧
      (List.foldl (fun h x => eulerCell buf eps D src h x y) f l).dy = f.dy := by
  induction l with
  | nil => intro f; exact ⟨rfl, rfl⟩
  | cons a rest ih => intro f; rw [List.foldl_cons]; exact ih _

/-- Both loops: every cell with `x < nx`, `y < ny` takes one clamped Euler step,
every other cell is left alone. -/
theorem cell_eulerField (buf : Field) (eps D src : ℚ) (nx ny : Nat) :
    ∀ (f : Field) (i j : Nat),
      (eulerField nx ny buf eps D src f).cell i j =
        if i < nx ∧ j < ny then max 0 (f.cell i j + eps * (D * buf.cell i j + src))
        else f.cell i j := by
  unfold eulerField
  induction ny with
  | zero => intro f i j; simp
  | succ n ih =>
    intro f i j
    rw [List.range_succ, List.foldl_append, List.foldl_cons, List.foldl_nil, cell_eulerRow]
    by_cases h : i < nx ∧ j = n
    · obtain ⟨h1, h2⟩ := h
      subst h2
      rw [if_pos ⟨h1, rfl⟩, if_pos ⟨h1, Nat.lt_succ_self _⟩, ih, if_neg (by omega)]
    · rw [if_neg h, ih]
      by_cases h2 : i < nx ∧ j < n
      · rw [if_pos h2, if_pos ⟨h2.1, by omega⟩]
      · rw [if_neg h2, if_neg (by
          intro h3
          rcases Nat.lt_succ_iff_lt_or_eq.1 h3.2 with h4 | h4
          · exact h2 ⟨h3.1, h4⟩
          · exact h ⟨h3.1, h4⟩)]

theorem dims_eulerField (buf : Field) (eps D src : ℚ) (nx ny : Nat) (f : Field) :
    (eulerField nx ny buf eps D src f).dx = f.dx ∧
    (eulerField nx ny buf eps D src f).dy = f.dy := by
  unfold eulerField
  generalize List.range ny = l
  induction l generalizing f with
  | nil => exact ⟨rfl, rfl⟩
  | cons a rest ih =>
    rw [List.foldl_cons]
    obtain ⟨h1, h2⟩ := ih (List.foldl (fun h x => eulerCell buf eps D src h x a) f (List.range nx))
    obtain ⟨h3, h4⟩ := dims_eulerRow buf eps D src a (List.range nx) f
    exact ⟨h1.trans h3, h2.trans h4⟩

/-! ## The particle updates keep the set-up -/

theorem sameSetup_refl (s : Simulator) : SameSetup s s :=
  ⟨rfl, rfl, rfl, rfl, rfl, rfl, rfl, rfl, rfl, rfl, rfl, rfl, rfl, rfl⟩

theorem sameSetup_trans {s t u : Simulator} (h1 : SameSetup s t) (h2 : SameSetup t u) :
    SameSetup s u := by
  obtain ⟨a1, a2, a3, a4, a5, a6, a7, a8, a9, a10, a11, a12, a13, a14⟩ := h1
  obtain ⟨b1, b2, b3, b4, b5, b6, b7, b8, b9, b10, b11, b12, b13, b14⟩ := h2
  exact ⟨b1.trans a1, b2.trans a2, b3.trans a3, b4.trans a4, b5.trans a5, b6.trans a6,
    b7.trans a7, b8.trans a8, b9.trans a9, b10.trans a10, b11.trans a11, b12.trans a12,
    b13.trans a13, b14.trans a14⟩

theorem sameSetup_freezeAt (s : Simulator) (P : Nat) : SameSetup s (freezeAt s P) :=
  ⟨rfl, rfl, rfl, rfl, rfl, rfl, rfl, rfl, rfl, rfl, rfl, rfl, rfl, rfl⟩

theorem sameSetup_markTime (s : Simulator) : SameSetup s (markTime s) :=
  ⟨rfl, rfl, rfl, rfl, rfl, rfl, rfl, rfl, rfl, rfl, rfl, rfl, rfl, rfl⟩

theorem sameSetup_updateSectors (s : Simulator) : SameSetup s (updateSectors s) :=
  ⟨rfl, rfl, rfl, rfl, rfl, rfl, rfl, rfl, rfl, rfl, rfl, rfl, rfl, rfl⟩

/-- Whatever the left-edge block returns has the set-up it started from. -/
theorem edgeXL_kept (fuel : Nat) (draws : Nat → ℚ) (P : Nat) (b b' : Bnd)
    (h : edgeXL fuel draws P b = some b') : SameSetup b.sim b'.sim := by
  unfold edgeXL at h
  split at h
  · obtain ⟨x, _, rfl⟩ := Option.map_eq_some'.1 h
    exact sameSetup_refl _
  · split at h
    · cases h; exact sameSetup_freezeAt _ _
    · cases h; exact sameSetup_refl _
  · cases h; exact sameSetup_refl _

theorem edgeXR_kept (fuel : Nat) (draws : Nat → ℚ) (P : Nat) (b b' : Bnd)
    (h : edgeXR fuel draws P b = some b') : SameSetup b.sim b'.sim := by
  unfold edgeXR at h
  split at h
  · obtain ⟨x, _, rfl⟩ := Option.map_eq_some'.1 h
    exact sameSetup_refl _
  · split at h
    · cases h; exact sameSetup_freezeAt _ _
    · cases h; exact sameSetup_refl _
  · cases h; exact sameSetup_refl _

theorem edgeYB_kept (fuel : Nat) (draws : Nat → ℚ) (P : Nat) (b b' : Bnd)
    (h : edgeYB fuel draws P b = some b') : SameSetup b.sim b'.sim := by
  unfold edgeYB at h
  split at h
  · obtain ⟨x, _, rfl⟩ := Option.map_eq_some'.1 h
    exact sameSetup_markTime _
  · split at h
    · cases h
      exact sameSetup_trans (sameSetup_markTime _) (sameSetup_freezeAt _ _)
    · cases h; exact sameSetup_refl _
  · cases h; exact sameSetup_refl _

theorem edgeYT_kept (fuel : Nat) (draws : Nat → ℚ) (P : Nat) (b b' : Bnd)
    (h : edgeYT fuel draws P b = some b') : SameSetup b.sim b'.sim := by
  unfold edgeYT at h
  split at h
  · obtain ⟨x, _, rfl⟩ := Option.map_eq_some'.1 h
    exact sameSetup_refl _
  · split at h
    · cases h; exact sameSetup_freezeAt _ _
    · cases h; exact sameSetup_refl _
  · cases h; exact sameSetup_refl _

/-- Whatever the boundary handling returns has the set-up it started from. -/
theorem updateBoundary_kept (fuel : Nat) (draws : Nat → ℚ) (s : Simulator) (k P : Nat)
    (r : Simulator × Nat) (h : updateBoundary fuel draws s k P = some r) :
    SameSetup s r.1 := by
  unfold updateBoundary at h
  obtain ⟨b4, h4, rfl⟩ := Option.map_eq_some'.1 h
  obtain ⟨b2, h2, h34⟩ := Option.bind_eq_some.1 h4
  unfold edgesX at h2
  obtain ⟨b1, h1, h12⟩ := Option.bind_eq_some.1 h2
  unfold edgesY at h34
  obtain ⟨b3, h3, h344⟩ := Option.bind_eq_some.1 h34
  have k1 := edgeXL_kept _ _ _ _ _ h1
  have k2 := edgeXR_kept _ _ _ _ _ h12
  have k3 := edgeYB_kept _ _ _ _ _ h3
  have k4 := edgeYT_kept _ _ _ _ _ h344
  have k5 : SameSetup b4.sim (storePos b4 P).1 :=
    ⟨rfl, rfl, rfl, rfl, rfl, rfl, rfl, rfl, rfl, rfl, rfl, rfl, rfl, rfl⟩
  exact sameSetup_trans (sameSetup_trans (sameSetup_trans (sameSetup_trans k1 k2) k3) k4) k5

theorem update_kept (fuel : Nat) (draws : Nat → ℚ) (integrate : Particle → ℚ → Particle)
    (s : Simulator) (k P : Nat) (r : Simulator × Nat)
    (h : update fuel draws integrate s k P = some r) : SameSetup s r.1 := by
  unfold update at h
  have k1 := updateBoundary_kept _ _ _ _ _ _ h
  have k0 : SameSetup s
      { s with heap := Function.update s.heap P (integrate (s.heap P) s.epsilon) } :=
    ⟨rfl, rfl, rfl, rfl, rfl, rfl, rfl, rfl, rfl, rfl, rfl, rfl, rfl, rfl⟩
  exact sameSetup_trans k0 k1

theorem updateAll_kept (fuel : Nat) (draws : Nat → ℚ) (integrate : Particle → ℚ → Particle)
    (l : List Nat) : ∀ (st r : Simulator × Nat),
      updateAll fuel draws integrate l st = some r → SameSetup st.1 r.1 := by
  induction l with
  | nil =>
    intro st r h
    simp only [updateAll] at h
    cases h
    exact sameSetup_refl _
  | cons P rest ih =>
    intro st r h
    simp only [updateAll] at h
    obtain ⟨m, h1, h2⟩ := Option.bind_eq_some.1 h
    exact sameSetup_trans (update_kept _ _ _ _ _ _ _ h1) (ih m r h2)

/-! ## The particle updates finish on a domain of positive extent -/

/-- A landing computation does return its result with some fuel. -/
theorem lands_some {β : Type} {f : Nat → Option β} {b : β} (h : Lands f b) :
    ∃ fuel, f fuel = some b := by
  obtain ⟨N, hN⟩ := h
  exact ⟨N, hN N (le_refl N)⟩

theorem lands_congr {β : Type} {f g : Nat → Option β} {b : β} (h : ∀ fuel, g fuel = f fuel)
    (hf : Lands f b) : Lands g b := by
  obtain ⟨N, hN⟩ := hf
  exact ⟨N, fun fuel hfuel => (h fuel).trans (hN fuel hfuel)⟩

/-- A computation that returns the same value whatever the fuel lands on it. -/
theorem lands_of_eq {β : Type} {f : Nat → Option β} {b : β} (h : ∀ fuel, f fuel = some b) :
    Lands f b :=
  ⟨0, fun fuel _ => h fuel⟩

theorem edgeXL_lands (draws : Nat → ℚ) (P : Nat) (b : Bnd) (hlr : b.sim.left < b.sim.right) :
    ∃ b', Lands (fun fuel => edgeXL fuel draws P b) b' := by
  cases hm : b.sim.xLBound with
  | WRAP =>
    obtain ⟨x', hl, _⟩ := wrapUp_lands b.sim.left (b.sim.right - b.sim.left) b.pos.x
      (by linarith)
    exact ⟨_, lands_congr (fun fuel => edgeXL_wrap fuel draws P b hm)
      (lands_map (fun x => ({ b with pos := ⟨x, b.pos.y⟩ } : Bnd)) hl)⟩
  | RANDOM =>
    by_cases hx : b.pos.x < 0
    · exact ⟨_, lands_of_eq fun fuel => by simp only [edgeXL, hm, if_pos hx]; rfl⟩
    · exact ⟨_, lands_of_eq fun fuel => by simp only [edgeXL, hm, if_neg hx]; rfl⟩
  | NONE => exact ⟨_, lands_of_eq fun fuel => by simp only [edgeXL, hm]; rfl⟩

theorem edgeXR_lands (draws : Nat → ℚ) (P : Nat) (b : Bnd) (hlr : b.sim.left < b.sim.right) :
    ∃ b', Lands (fun fuel => edgeXR fuel draws P b) b' := by
  cases hm : b.sim.xRBound with
  | WRAP =>
    obtain ⟨x', hl, _⟩ := wrapDown_lands b.sim.right (b.sim.right - b.sim.left) b.pos.x
      (by linarith)
    exact ⟨_, lands_congr (fun fuel => edgeXR_wrap fuel draws P b hm)
      (lands_map (fun x => ({ b with pos := ⟨x, b.pos.y⟩ } : Bnd)) hl)⟩
  | RANDOM =>
    by_cases hx : b.pos.x > b.sim.right
    · exact ⟨_, lands_of_eq fun fuel => by simp only [edgeXR, hm, if_pos hx]; rfl⟩
    · exact ⟨_, lands_of_eq fun fuel => by simp only [edgeXR, hm, if_neg hx]; rfl⟩
  | NONE => exact ⟨_, lands_of_eq fun fuel => by simp only [edgeXR, hm]; rfl⟩

theorem edgeYB_lands (draws : Nat → ℚ) (P : Nat) (b : Bnd) (hbt : b.sim.bottom < b.sim.top) :
    ∃ b', Lands (fun fuel => edgeYB fuel draws P b) b' := by
  cases hm : b.sim.yBBound with
  | WRAP =>
    obtain ⟨y', hl, _⟩ := wrapUp_lands b.sim.bottom (b.sim.top - b.sim.bottom) b.pos.y
      (by linarith)
    exact ⟨_, lands_congr (fun fuel => edgeYB_wrap fuel draws P b hm)
      (lands_map (fun y => ({ b with sim := markTime b.sim, pos := ⟨b.pos.x, y⟩ } : Bnd)) hl)⟩
  | RANDOM =>
    by_cases hy : b.pos.y < 0
    · exact ⟨_, lands_of_eq fun fuel => by simp only [edgeYB, hm, if_pos hy]; rfl⟩
    · exact ⟨_, lands_of_eq fun fuel => by simp only [edgeYB, hm, if_neg hy]; rfl⟩
  | NONE => exact ⟨_, lands_of_eq fun fuel => by simp only [edgeYB, hm]; rfl⟩

theorem edgeYT_lands (draws : Nat → ℚ) (P : Nat) (b : Bnd) (hbt : b.sim.bottom < b.sim.top) :
    ∃ b', Lands (fun fuel => edgeYT fuel draws P b) b' := by
  cases hm : b.sim.yTBound with
  | WRAP =>
    obtain ⟨y', hl, _⟩ := wrapDown_lands b.sim.top (b.sim.top - b.sim.bottom) b.pos.y
      (by linarith)
    exact ⟨_, lands_congr (fun fuel => edgeYT_wrap fuel draws P b hm)
      (lands_map (fun y => ({ b with pos := ⟨b.pos.x, y⟩ } : Bnd)) hl)⟩
  | RANDOM =>
    by_cases hy : b.pos.y > b.sim.top
    · exact ⟨_, lands_of_eq fun fuel => by simp only [edgeYT, hm, if_pos hy]; rfl⟩
    · exact ⟨_, lands_of_eq fun fuel => by simp only [edgeYT, hm, if_neg hy]; rfl⟩
  | NONE => exact ⟨_, lands_of_eq fun fuel => by simp only [edgeYT, hm]; rfl⟩

/-- With `right > left` and `top > bottom` the boundary handling finishes, for
every combination of edge modes. -/
theorem updateBoundary_lands (draws : Nat → ℚ) (s : Simulator) (k P : Nat)
    (hlr : s.left < s.right) (hbt : s.bottom < s.top) :
    ∃ r, Lands (fun fuel => updateBoundary fuel draws s k P) r := by
  obtain ⟨b1, hL1⟩ := edgeXL_lands draws P ⟨s, (s.heap P).position, k⟩ hlr
  obtain ⟨f1, hf1⟩ := lands_some hL1
  obtain ⟨a1, a2, a3, a4, _⟩ := edgeXL_kept _ _ _ _ _ hf1
  obtain ⟨b2, hL2⟩ := edgeXR_lands draws P b1 (by rw [a1, a2]; exact hlr)
  obtain ⟨f2, hf2⟩ := lands_some hL2
  obtain ⟨c1, c2, c3, c4, _⟩ := edgeXR_kept _ _ _ _ _ hf2
  obtain ⟨b3, hL3⟩ := edgeYB_lands draws P b2 (by rw [c3, c4, a3, a4]; exact hbt)
  obtain ⟨f3, hf3⟩ := lands_some hL3
  obtain ⟨d1, d2, d3, d4, _⟩ := edgeYB_kept _ _ _ _ _ hf3
  obtain ⟨b4, hL4⟩ := edgeYT_lands draws P b3 (by rw [d3, d4, c3, c4, a3, a4]; exact hbt)
  have hX : Lands (fun fuel => edgesX fuel draws P ⟨s, (s.heap P).position, k⟩) b2 :=
    lands_bind (g := fun fuel b => edgeXR fuel draws P b) hL1 hL2
  have hY : Lands (fun fuel => edgesY fuel draws P b2) b4 :=
    lands_bind (g := fun fuel b => edgeYT fuel draws P b) hL3 hL4
  have hXY : Lands (fun fuel => (edgesX fuel draws P ⟨s, (s.heap P).position, k⟩).bind
      (edgesY fuel draws P)) b4 :=
    lands_bind (g := fun fuel b => edgesY fuel draws P b) hX hY
  exact ⟨_, lands_map (fun b => storePos b P) hXY⟩

theorem updateAll_lands (draws : Nat → ℚ) (integrate : Particle → ℚ → Particle)
    (l : List Nat) : ∀ (st : Simulator × Nat), st.1.left < st.1.right →
      st.1.bottom < st.1.top →
      ∃ r, Lands (fun fuel => updateAll fuel draws integrate l st) r := by
  induction l with
  | nil =>
    intro st _ _
    exact ⟨st, 0, fun fuel _ => by simp only [updateAll]⟩
  | cons P rest ih =>
    intro st hlr hbt
    obtain ⟨m, hm⟩ := updateBoundary_lands draws
      { st.1 with heap := Function.update st.1.heap P (integrate (st.1.heap P) st.1.epsilon) }
      st.2 P hlr hbt
    have hm' : Lands (fun fuel => update fuel draws integrate st.1 st.2 P) m := hm
    obtain ⟨f1, hf1⟩ := lands_some hm'
    obtain ⟨a1, a2, a3, a4, _⟩ := update_kept _ _ _ _ _ _ _ hf1
    obtain ⟨r, hr⟩ := ih m (by rw [a1, a2]; exact hlr) (by rw [a3, a4]; exact hbt)
    refine ⟨r, ?_⟩
    have := lands_bind (g := fun fuel st => updateAll fuel draws integrate rest st) hm' hr
    obtain ⟨N, hN⟩ := this
    exact ⟨N, fun fuel hf => by simp only [updateAll]; exact hN fuel hf⟩

/-- The expiry pass keeps exactly the temporary walls whose expiry value is at
least the current time, in order, and leaves the permanent walls alone. -/
theorem expireTempWalls_spec (t : Simulator) :
    (expireTempWalls t).tempWalls = t.tempWalls.filter (fun w => decide (w.2 ≥ t.time)) ∧
    (expireTempWalls t).walls = t.walls := by
  have hfilter : ∀ (l : List (Nat × ℚ)) (u : ℚ),
      l.filter (fun w => !decide (w.2 < u)) = l.filter (fun w => decide (w.2 ≥ u)) := by
    intro l u
    congr 1
    funext w
    by_cases hc : w.2 < u
    · simp [hc]
    · simp [hc, not_lt.1 hc]
  unfold expireTempWalls
  split
  · next hemp =>
    have : t.tempWalls = [] := List.isEmpty_iff.1 hemp
    rw [this]
    exact ⟨rfl, rfl⟩
  · exact ⟨hfilter _ _, rfl⟩

/-! ## The cells of `bacteriaUpdate`, one at a time -/

/-- The loop "Die if neccessary" changes the particle list and the watch list
only, and removes from them exactly the elements of the bucket. -/
theorem removeAll_spec (sect : List Nat) : ∀ s : Simulator,
    (removeAll s sect).secX = s.secX ∧ (removeAll s sect).epsilon = s.epsilon ∧
    (removeAll s sect).secretionRate = s.secretionRate ∧
    (removeAll s sect).eatRate = s.eatRate ∧ (removeAll s sect).sectors = s.sectors ∧
    (removeAll s sect).resource = s.resource ∧ (removeAll s sect).waste = s.waste ∧
    (∀ q, q ∈ (removeAll s sect).particles ↔ q ∈ s.particles ∧ q ∉ sect) ∧
    (∀ q, q ∈ (removeAll s sect).watchlist ↔ q ∈ s.watchlist ∧ q ∉ sect) := by
  induction sect with
  | nil =>
    intro s
    refine ⟨rfl, rfl, rfl, rfl, rfl, rfl, rfl, fun q => ?_, fun q => ?_⟩ <;>
      simp [removeAll]
  | cons p rest ih =>
    intro s
    obtain ⟨h1, h2, h3, h4, h5, h6, h7, h8, h9⟩ := ih
      { s with particles := s.particles.filter (fun q => decide (q ≠ p)),
               watchlist := s.watchlist.filter (fun q => decide (q ≠ p)) }
    refine ⟨h1, h2, h3, h4, h5, h6, h7, fun q => ?_, fun q => ?_⟩
    · refine (h8 q).trans ?_
      simp only [List.mem_filter, decide_eq_true_eq, List.mem_cons, not_or]
      tauto
    · refine (h9 q).trans ?_
      simp only [List.mem_filter, decide_eq_true_eq, List.mem_cons, not_or]
      tauto

/-- One reproduction attempt changes the heap only, and every address it adds
to `births` comes from `new`. -/
theorem tryReproduce_spec (env : Env) (fitness : ℚ) (c : Colony) (P : Nat) :
    (tryReproduce env fitness c P).sim =
      { c.sim with heap := (tryReproduce env fitness c P).sim.heap } ∧
    ((∀ B ∈ c.births, ∃ i, B = env.addr i) →
      ∀ B ∈ (tryReproduce env fitness c P).births, ∃ i, B = env.addr i) := by
  unfold tryReproduce
  split
  · simp only []
    split
    · split
      · refine ⟨rfl, fun h B hB => ?_⟩
        rcases List.mem_append.1 hB with hB | hB
        · exact h B hB
        · exact ⟨c.births.length, List.mem_singleton.1 hB⟩
      · exact ⟨rfl, fun h => h⟩
    · exact ⟨rfl, fun h => h⟩
  · exact ⟨rfl, fun h => h⟩

theorem foldl_tryReproduce_spec (env : Env) (fitness : ℚ) (sect : List Nat) : ∀ c : Colony,
    (sect.foldl (tryReproduce env fitness) c).sim =
      { c.sim with heap := (sect.foldl (tryReproduce env fitness) c).sim.heap } ∧
    ((∀ B ∈ c.births, ∃ i, B = env.addr i) →
      ∀ B ∈ (sect.foldl (tryReproduce env fitness) c).births, ∃ i, B = env.addr i) := by
  induction sect with
  | nil => exact fun c => ⟨rfl, fun h => h⟩
  | cons P rest ih =>
    intro c
    obtain ⟨h1, h2⟩ := ih (tryReproduce env fitness c P)
    obtain ⟨g1, g2⟩ := tryReproduce_spec env fitness c P
    refine ⟨?_, fun h => h2 (g2 h)⟩
    rw [List.foldl_cons, h1, g1]

theorem diesIn_append (s : Simulator) (l : List (Nat × Nat)) (xy : Nat × Nat) (q : Nat) :
    DiesIn s (l ++ [xy]) q ↔
      DiesIn s l q ∨ (cellFitness s xy.1 xy.2 < 0 ∧ q ∈ cellBucket s xy) := by
  constructor
  · rintro ⟨xy', hm, hf, hq⟩
    rcases List.mem_append.1 hm with h1 | h1
    · exact Or.inl ⟨xy', h1, hf, hq⟩
    · obtain rfl := List.mem_singleton.1 h1
      exact Or.inr ⟨hf, hq⟩
  · rintro (⟨xy', hm, hf, hq⟩ | ⟨hf, hq⟩)
    · exact ⟨xy', List.mem_append_left _ hm, hf, hq⟩
    · exact ⟨xy, List.mem_append_right _ (List.mem_singleton.2 rfl), hf, hq⟩

theorem getD_set_nil (secs : List (List Nat)) (k i : Nat) :
    (secs.set k []).getD i [] = if i = k then [] else secs.getD i [] := by
  simp only [List.getD_eq_getElem?_getD, List.getElem?_set]
  by_cases hik : k = i
  · subst hik
    by_cases hk : k < secs.length
    · simp [hk]
    · simp [hk]
  · have hik' : ¬ i = k := fun e => hik e.symm
    simp [hik, hik']

/-- When a cell is visited, its bucket, its two field cells and hence its fitness
are still those of the state in which `bacteriaUpdate` started. -/
theorem cell_at_visit (env : Env) (s : Simulator) (l : List (Nat × Nat)) (c : Colony)
    (xy : Nat × Nat) (h : CellsDone env s l c)
    (hidx : ∀ xy' ∈ l, cellIndex s xy'.1 xy'.2 ≠ cellIndex s xy.1 xy.2)
    (hfld : ∀ xy' ∈ l, (xy'.1 - 1, xy'.2 - 1) ≠ (xy.1 - 1, xy.2 - 1)) :
    cellIndex c.sim xy.1 xy.2 = cellIndex s xy.1 xy.2 ∧
    c.sim.sectors.getD (cellIndex c.sim xy.1 xy.2) [] = cellBucket s xy ∧
    wasteAfter c.sim xy.1 xy.2 = wasteAfter s xy.1 xy.2 ∧
    resourceAfter c.sim xy.1 xy.2 = resourceAfter s xy.1 xy.2 ∧
    cellFitness c.sim xy.1 xy.2 = cellFitness s xy.1 xy.2 := by
  have hci : cellIndex c.sim xy.1 xy.2 = cellIndex s xy.1 xy.2 := by
    unfold cellIndex
    rw [h.secX]
  have hb : c.sim.sectors.getD (cellIndex c.sim xy.1 xy.2) [] = cellBucket s xy := by
    rw [hci]
    exact h.bucket_other _ hidx
  obtain ⟨hr, hw⟩ := h.field_other (xy.1 - 1) (xy.2 - 1) hfld
  have hwa : wasteAfter c.sim xy.1 xy.2 = wasteAfter s xy.1 xy.2 := by
    unfold wasteAfter
    rw [hb, hw, h.epsilon, h.secretionRate]
    rfl
  have hra : resourceAfter c.sim xy.1 xy.2 = resourceAfter s xy.1 xy.2 := by
    unfold resourceAfter
    rw [hb, hr, h.epsilon, h.eatRate]
    rfl
  refine ⟨hci, hb, hwa, hra, ?_⟩
  unfold cellFitness
  rw [hwa, hra, h.secretionRate]

/-- The field part of `CellsDone` after one more cell whose two field cells were
assigned. -/
theorem fields_step (env : Env) (s : Simulator) (l : List (Nat × Nat)) (c : Colony)
    (xy : Nat × Nat) (h : CellsDone env s l c) (t : Simulator)
    (hfld : ∀ xy' ∈ l, (xy'.1 - 1, xy'.2 - 1) ≠ (xy.1 - 1, xy.2 - 1))
    (hres : t.resource = c.sim.resource.put (xy.1 - 1) (xy.2 - 1) (resourceAfter s xy.1 xy.2))
    (hwst : t.waste = c.sim.waste.put (xy.1 - 1) (xy.2 - 1) (wasteAfter s xy.1 xy.2)) :
    (∀ a b, (∀ xy' ∈ l ++ [xy], (xy'.1 - 1, xy'.2 - 1) ≠ (a, b)) →
      t.resource.cell a b = s.resource.cell a b ∧ t.waste.cell a b = s.waste.cell a b) ∧
    (∀ xy' ∈ l ++ [xy], cellBucket s xy' ≠ [] →
      t.resource.cell (xy'.1 - 1) (xy'.2 - 1) = resourceAfter s xy'.1 xy'.2) := by
  constructor
  · intro a b hab
    have hne : ¬ (a = xy.1 - 1 ∧ b = xy.2 - 1) := fun e =>
      hab xy (List.mem_append_right _ (List.mem_singleton.2 rfl)) (by rw [e.1, e.2])
    rw [hres, hwst, cell_put, cell_put, if_neg hne, if_neg hne]
    exact h.field_other a b fun xy' hxy' => hab xy' (List.mem_append_left _ hxy')
  · intro xy' hxy' hne
    rw [hres, cell_put]
    rcases List.mem_append.1 hxy' with h1 | h1
    · have hk : ¬ (xy'.1 - 1 = xy.1 - 1 ∧ xy'.2 - 1 = xy.2 - 1) := fun e =>
        hfld xy' h1 (by rw [e.1, e.2])
      rw [if_neg hk]
      exact h.resource_done xy' h1 hne
    · obtain rfl := List.mem_singleton.1 h1
      rw [if_pos ⟨rfl, rfl⟩]

/-- Visiting one more cell keeps the description `CellsDone`. -/
theorem cellsDone_step (env : Env) (s : Simulator) (l : List (Nat × Nat)) (c : Colony)
    (xy : Nat × Nat) (h : CellsDone env s l c)
    (hidx : ∀ xy' ∈ l, cellIndex s xy'.1 xy'.2 ≠ cellIndex s xy.1 xy.2)
    (hfld : ∀ xy' ∈ l, (xy'.1 - 1, xy'.2 - 1) ≠ (xy.1 - 1, xy.2 - 1)) :
    CellsDone env s (l ++ [xy]) (bacteriaCell env c xy) := by
  obtain ⟨hci, hb, hwa, hra, hfit⟩ := cell_at_visit env s l c xy h hidx hfld
  have hlast : xy ∈ l ++ [xy] := List.mem_append_right _ (List.mem_singleton.2 rfl)
  have hother : ∀ i, (∀ xy' ∈ l ++ [xy], cellIndex s xy'.1 xy'.2 ≠ i) →
      c.sim.sectors.getD i [] = s.sectors.getD i [] := fun i hi =>
    h.bucket_other i fun xy' hxy' => hi xy' (List.mem_append_left _ hxy')
  by_cases hemp : cellBucket s xy = []
  · have hc : bacteriaCell env c xy = c := by
      unfold bacteriaCell
      simp only []
      rw [hb, hemp]
      rfl
    rw [hc]
    have hd : ∀ q, DiesIn s (l ++ [xy]) q ↔ DiesIn s l q := fun q => by
      rw [diesIn_append, hemp]
      simp
    refine ⟨h.secX, h.epsilon, h.secretionRate, h.eatRate, hother, h.bucket_cases, ?_, ?_, ?_,
      fun q => by rw [hd]; exact h.particles q, fun q => by rw [hd]; exact h.watchlist q,
      h.births⟩
    · intro xy' hxy' hf
      rcases List.mem_append.1 hxy' with h1 | h1
      · exact h.bucket_dead xy' h1 hf
      · obtain rfl := List.mem_singleton.1 h1
        rw [← hci, hb]
        exact hemp
    · exact fun a b hab => h.field_other a b fun xy' hxy' =>
        hab xy' (List.mem_append_left _ hxy')
    · intro xy' hxy' hne
      rcases List.mem_append.1 hxy' with h1 | h1
      · exact h.resource_done xy' h1 hne
      · obtain rfl := List.mem_singleton.1 h1
        exact absurd hemp hne
  · have hlen : (cellBucket s xy).length > 0 := List.length_pos.2 hemp
    by_cases hdead : cellFitness s xy.1 xy.2 < 0
    · obtain ⟨r1, r2, r3, r4, r5, r6, r7, r8, r9⟩ := removeAll_spec (cellBucket s xy)
        { c.sim with
          waste := c.sim.waste.put (xy.1 - 1) (xy.2 - 1) (wasteAfter s xy.1 xy.2),
          resource := c.sim.resource.put (xy.1 - 1) (xy.2 - 1) (resourceAfter s xy.1 xy.2) }
      have hc : bacteriaCell env c xy =
          { c with sim :=
            { removeAll { c.sim with
                waste := c.sim.waste.put (xy.1 - 1) (xy.2 - 1) (wasteAfter s xy.1 xy.2),
                resource := c.sim.resource.put (xy.1 - 1) (xy.2 - 1)
                  (resourceAfter s xy.1 xy.2) } (cellBucket s xy) with
              sectors := (removeAll { c.sim with
                waste := c.sim.waste.put (xy.1 - 1) (xy.2 - 1) (wasteAfter s xy.1 xy.2),
                resource := c.sim.resource.put (xy.1 - 1) (xy.2 - 1)
                  (resourceAfter s xy.1 xy.2) } (cellBucket s xy)).sectors.set
                    (cellIndex s xy.1 xy.2) [] } } := by
        unfold bacteriaCell
        simp only []
        rw [hb, hwa, hra, hfit, hci, if_pos hlen, if_pos hdead]
      rw [hc]
      obtain ⟨f1, f2⟩ := fields_step env s l c xy h _ hfld r6 r7
      have hd : ∀ q, (DiesIn s l q ∨ q ∈ cellBucket s xy) ↔ DiesIn s (l ++ [xy]) q :=
        fun q => by
          rw [diesIn_append]
          exact ⟨fun e => e.imp_right fun e2 => ⟨hdead, e2⟩, fun e => e.imp_right fun e2 => e2.2⟩
      refine ⟨r1.trans h.secX, r2.trans h.epsilon, r3.trans h.secretionRate,
        r4.trans h.eatRate, ?_, ?_, ?_, f1, f2, ?_, ?_, h.births⟩
      · intro i hi
        show (List.set _ _ _).getD i [] = _
        rw [getD_set_nil, if_neg (fun e => hi xy hlast e.symm), r5]
        exact hother i hi
      · intro i
        show (List.set _ _ _).getD i [] = _ ∨ (List.set _ _ _).getD i [] = _
        rw [getD_set_nil, r5]
        by_cases e : i = cellIndex s xy.1 xy.2
        · rw [if_pos e]
          exact Or.inr rfl
        · rw [if_neg e]
          exact h.bucket_cases i
      · intro xy' hxy' hf
        show (List.set _ _ _).getD _ [] = _
        rw [getD_set_nil, r5]
        rcases List.mem_append.1 hxy' with h1 | h1
        · rw [if_neg (hidx xy' h1)]
          exact h.bucket_dead xy' h1 hf
        · obtain rfl := List.mem_singleton.1 h1
          rw [if_pos rfl]
      · intro q
        refine (r8 q).trans ?_
        rw [← hd q]
        have := h.particles q
        constructor
        · rintro ⟨a, b⟩
          exact ⟨(this.1 a).1, fun e => e.elim (this.1 a).2 b⟩
        · rintro ⟨a, b⟩
          exact ⟨this.2 ⟨a, fun e => b (Or.inl e)⟩, fun e => b (Or.inr e)⟩
      · intro q
        refine (r9 q).trans ?_
        rw [← hd q]
        have := h.watchlist q
        constructor
        · rintro ⟨a, b⟩
          exact ⟨(this.1 a).1, fun e => e.elim (this.1 a).2 b⟩
        · rintro ⟨a, b⟩
          exact ⟨this.2 ⟨a, fun e => b (Or.inl e)⟩, fun e => b (Or.inr e)⟩
    · obtain ⟨g1, g2⟩ := foldl_tryReproduce_spec env (cellFitness s xy.1 xy.2) (cellBucket s xy)
        { c with sim := { c.sim with
          waste := c.sim.waste.put (xy.1 - 1) (xy.2 - 1) (wasteAfter s xy.1 xy.2),
          resource := c.sim.resource.put (xy.1 - 1) (xy.2 - 1) (resourceAfter s xy.1 xy.2) } }
      have hc : bacteriaCell env c xy =
          (cellBucket s xy).foldl (tryReproduce env (cellFitness s xy.1 xy.2))
            { c with sim := { c.sim with
              waste := c.sim.waste.put (xy.1 - 1) (xy.2 - 1) (wasteAfter s xy.1 xy.2),
              resource := c.sim.resource.put (xy.1 - 1) (xy.2 - 1)
                (resourceAfter s xy.1 xy.2) } } := by
        unfold bacteriaCell
        simp only []
        rw [hb, hwa, hra, hfit, if_pos hlen, if_neg hdead]
      rw [hc]
      obtain ⟨f1, f2⟩ := fields_step env s l c xy h _ hfld (congrArg Simulator.resource g1)
        (congrArg Simulator.waste g1)
      have hd : ∀ q, DiesIn s (l ++ [xy]) q ↔ DiesIn s l q := fun q => by
        rw [diesIn_append]
        exact ⟨fun e => e.elim id fun e2 => absurd e2.1 hdead, Or.inl⟩
      have hsec := congrArg Simulator.sectors g1
      refine ⟨(congrArg Simulator.secX g1).trans h.secX,
        (congrArg Simulator.epsilon g1).trans h.epsilon,
        (congrArg Simulator.secretionRate g1).trans h.secretionRate,
        (congrArg Simulator.eatRate g1).trans h.eatRate, ?_, ?_, ?_, f1, f2, ?_, ?_,
        g2 h.births⟩
      · intro i hi
        rw [hsec]
        exact hother i hi
      · intro i
        rw [hsec]
        exact h.bucket_cases i
      · intro xy' hxy' hf
        rw [hsec]
        rcases List.mem_append.1 hxy' with h1 | h1
        · exact h.bucket_dead xy' h1 hf
        · obtain rfl := List.mem_singleton.1 h1
          exact absurd hf hdead
      · intro q
        rw [congrArg Simulator.particles g1, hd]
        exact h.particles q
      · intro q
        rw [congrArg Simulator.watchlist g1, hd]
        exact h.watchlist q

theorem cellsDone_nil (env : Env) (s : Simulator) (k : Nat) : CellsDone env s [] ⟨s, k, []⟩ :=
  { secX := rfl
    epsilon := rfl
    secretionRate := rfl
    eatRate := rfl
    bucket_other := fun _ _ => rfl
    bucket_cases := fun _ => Or.inl rfl
    bucket_dead := fun _ h => absurd h (List.not_mem_nil _)
    field_other := fun _ _ _ => ⟨rfl, rfl⟩
    resource_done := fun _ h => absurd h (List.not_mem_nil _)
    particles := fun _ => ⟨fun h => ⟨h, fun e => e.elim fun _ e2 => List.not_mem_nil _ e2.1⟩,
      fun h => h.1⟩
    watchlist := fun _ => ⟨fun h => ⟨h, fun e => e.elim fun _ e2 => List.not_mem_nil _ e2.1⟩,
      fun h => h.1⟩
    births := fun _ h => absurd h (List.not_mem_nil _) }

/-- The loops of `bacteriaUpdate` over cells with pairwise distinct buckets and
pairwise distinct field cells produce a colony described by `CellsDone`. -/
theorem cellsDone_foldl (env : Env) (s : Simulator) (k : Nat) (l : List (Nat × Nat))
    (hp : l.Pairwise fun a b => cellIndex s a.1 a.2 ≠ cellIndex s b.1 b.2 ∧
      (a.1 - 1, a.2 - 1) ≠ (b.1 - 1, b.2 - 1)) :
    CellsDone env s l (l.foldl (bacteriaCell env) ⟨s, k, []⟩) := by
  induction l using List.reverseRecOn with
  | nil => exact cellsDone_nil env s k
  | append_singleton l xy ih =>
    rw [List.foldl_concat]
    obtain ⟨h1, _, h3⟩ := List.pairwise_append.1 hp
    exact cellsDone_step env s l _ xy (ih h1)
      (fun xy' hxy' => (h3 xy' hxy' xy (List.mem_singleton.2 rfl)).1)
      (fun xy' hxy' => (h3 xy' hxy' xy (List.mem_singleton.2 rfl)).2)

theorem mem_visitedCells (s : Simulator) (xy : Nat × Nat) :
    xy ∈ visitedCells s ↔
      (1 ≤ xy.1 ∧ xy.1 < 1 + (s.secX - 2)) ∧ (1 ≤ xy.2 ∧ xy.2 < 1 + (s.secY - 2)) := by
  unfold visitedCells
  simp only [List.mem_flatMap, List.mem_map, List.mem_range'_1]
  constructor
  · rintro ⟨y, hy, x, hx, rfl⟩
    exact ⟨hx, hy⟩
  · rintro ⟨hx, hy⟩
    exact ⟨xy.2, hy, xy.1, hx, rfl⟩

/-- The cells visited by `bacteriaUpdate` have pairwise distinct buckets and
pairwise distinct field cells. -/
theorem visitedCells_pairwise (s : Simulator) :
    (visitedCells s).Pairwise fun a b => cellIndex s a.1 a.2 ≠ cellIndex s b.1 b.2 ∧
      (a.1 - 1, a.2 - 1) ≠ (b.1 - 1, b.2 - 1) := by
  unfold visitedCells
  rw [List.pairwise_flatMap]
  constructor
  · intro y _
    rw [List.pairwise_map]
    refine (List.pairwise_lt_range' 1 (s.secX - 2)).imp_of_mem ?_
    intro x1 x2 h1 h2 hlt
    rw [List.mem_range'_1] at h1 h2
    refine ⟨?_, ?_⟩
    · simp only [cellIndex]
      omega
    · simp only [ne_eq, Prod.mk.injEq, not_and]
      omega
  · refine (List.pairwise_lt_range' 1 (s.secY - 2)).imp_of_mem ?_
    intro y1 y2 h1 h2 hlt a ha b hb
    rw [List.mem_range'_1] at h1 h2
    obtain ⟨x1, hx1, rfl⟩ := List.mem_map.1 ha
    obtain ⟨x2, hx2, rfl⟩ := List.mem_map.1 hb
    rw [List.mem_range'_1] at hx1 hx2
    refine ⟨?_, ?_⟩
    · simp only [cellIndex]
      have hm : (s.secX + 2) * (y1 + 1) ≤ (s.secX + 2) * y2 := Nat.mul_le_mul_left _ hlt
      rw [Nat.mul_succ] at hm
      omega
    · simp only [ne_eq, Prod.mk.injEq, not_and]
      omega

/-- Adding a watched particle appends it to the particle list, to the watch list
and to one bucket, and leaves the resource field alone. -/
theorem addWatchedParticle_spec (t : Simulator) (B : Nat) (act : Bool) :
    (addWatchedParticle t B act).particles = t.particles ++ [B] ∧
    (addWatchedParticle t B act).watchlist = t.watchlist ++ [B] ∧
    (addWatchedParticle t B act).resource = t.resource ∧
    ∀ q i, q ∈ (addWatchedParticle t B act).sectors.getD i [] →
      q ∈ t.sectors.getD i [] ∨ q = B := by
  have key : ∀ (secs : List (List Nat)) (sec q i : Nat),
      q ∈ (pushBack secs sec B).getD i [] → q ∈ secs.getD i [] ∨ q = B := by
    intro secs sec q i hq
    rw [getD_pushBack] at hq
    split at hq
    · next hc =>
      rcases List.mem_append.1 hq with e | e
      · exact Or.inl (hc.1 ▸ e)
      · exact Or.inr (List.mem_singleton.1 e)
    · exact Or.inl hq
  cases act
  · exact ⟨rfl, rfl, rfl, fun q i hq => key _ _ q i hq⟩
  · exact ⟨rfl, rfl, rfl, fun q i hq => key _ _ q i hq⟩

theorem foldl_addWatched_spec (env : Env) (bs : List Nat) : ∀ t : Simulator,
    (∀ q, q ∈ t.particles → q ∈ (bs.foldl
      (fun a B => addWatchedParticle a B (env.isActive B)) t).particles) ∧
    (∀ q, q ∈ (bs.foldl (fun a B => addWatchedParticle a B (env.isActive B)) t).particles →
      q ∈ t.particles ∨ q ∈ bs) ∧
    (∀ q, q ∈ (bs.foldl (fun a B => addWatchedParticle a B (env.isActive B)) t).watchlist →
      q ∈ t.watchlist ∨ q ∈ bs) ∧
    (bs.foldl (fun a B => addWatchedParticle a B (env.isActive B)) t).resource = t.resource ∧
    (∀ q i, q ∈ (bs.foldl
      (fun a B => addWatchedParticle a B (env.isActive B)) t).sectors.getD i [] →
      q ∈ t.sectors.getD i [] ∨ q ∈ bs) := by
  induction bs with
  | nil => exact fun t => ⟨fun _ h => h, fun _ h => Or.inl h, fun _ h => Or.inl h, rfl,
      fun _ _ h => Or.inl h⟩
  | cons B rest ih =>
    intro t
    obtain ⟨a1, a2, a3, a4, a5⟩ := ih (addWatchedParticle t B (env.isActive B))
    obtain ⟨b1, b2, b3, b4⟩ := addWatchedParticle_spec t B (env.isActive B)
    rw [List.foldl_cons]
    refine ⟨fun q h => a1 q (by rw [b1]; exact List.mem_append_left _ h), fun q h => ?_,
      fun q h => ?_, a4.trans b3, fun q i h => ?_⟩
    · rcases a2 q h with e | e
      · rw [b1] at e
        rcases List.mem_append.1 e with e1 | e1
        · exact Or.inl e1
        · exact Or.inr (List.mem_cons.2 (Or.inl (List.mem_singleton.1 e1)))
      · exact Or.inr (List.mem_cons_of_mem _ e)
    · rcases a3 q h with e | e
      · rw [b2] at e
        rcases List.mem_append.1 e with e1 | e1
        · exact Or.inl e1
        · exact Or.inr (List.mem_cons.2 (Or.inl (List.mem_singleton.1 e1)))
      · exact Or.inr (List.mem_cons_of_mem _ e)
    · rcases a5 q i h with e | e
      · rcases b4 q i e with e1 | e1
        · exact Or.inl e1
        · exact Or.inr (List.mem_cons.2 (Or.inl e1))
      · exact Or.inr (List.mem_cons_of_mem _ e)

theorem mem_flatten_of_getD (secs : List (List Nat)) (p i : Nat)
    (h : p ∈ secs.getD i []) : i < secs.length ∧ p ∈ secs.flatten := by
  by_cases hi : i < secs.length
  · refine ⟨hi, List.mem_flatten.2 ⟨secs.getD i [], ?_, h⟩⟩
    rw [List.getD_eq_getElem?_getD, List.getElem?_eq_getElem hi]
    exact List.getElem_mem hi
  · rw [List.getD_eq_getElem?_getD, List.getElem?_eq_none (not_lt.1 hi)] at h
    exact absurd h (List.not_mem_nil _)

/-- Under the one-bucket-per-particle predicate whatever is filed in a bucket is
in the particle list. -/
theorem mem_particles_of_bucket (s : Simulator) (h : OneBucketEach s) (p i : Nat)
    (hp : p ∈ s.sectors.getD i []) : p ∈ s.particles := by
  have h1 := List.count_pos_iff.2 (mem_flatten_of_getD _ p i hp).2
  rw [h.2 p] at h1
  by_contra hc
  rw [if_neg hc] at h1
  exact absurd h1 (lt_irrefl 0)

/-- Under the one-bucket-per-particle predicate a particle is filed in one
bucket only. -/
theorem bucket_unique (s : Simulator) (h : OneBucketEach s) (p i j : Nat)
    (hi : p ∈ s.sectors.getD i []) (hj : p ∈ s.sectors.getD j []) : i = j := by
  by_contra hne
  obtain ⟨hil, _⟩ := mem_flatten_of_getD _ p i hi
  have hc := count_flatten_set p s.sectors i [] hil
  have hj' : p ∈ (s.sectors.set i []).getD j [] := by
    rw [getD_set_nil, if_neg (fun e => hne e.symm)]
    exact hj
  have h1 := List.count_pos_iff.2 (mem_flatten_of_getD _ p j hj').2
  have h2 := List.count_pos_iff.2 hi
  have h3 : s.sectors.flatten.count p ≤ 1 := by
    rw [h.2 p]
    split <;> omega
  rw [List.count_nil] at hc
  omega

/-- After `bacteriaUpdate` the resource cell of a visited, occupied cell holds
the value assigned by `res += epsilon*eatRate*res*number` and the clamp. -/
theorem bacteriaUpdate_resource (env : Env) (s : Simulator) (k : Nat) (xy : Nat × Nat)
    (hxy : xy ∈ visitedCells s) (hne : cellBucket s xy ≠ []) :
    (bacteriaUpdate env s k).1.resource.cell (xy.1 - 1) (xy.2 - 1) =
      resourceAfter s xy.1 xy.2 := by
  have h := cellsDone_foldl env s k (visitedCells s) (visitedCells_pairwise s)
  unfold bacteriaUpdate
  simp only []
  rw [(foldl_addWatched_spec env _ _).2.2.2.1]
  exact h.resource_done xy hxy hne

theorem colony_fresh : ∀ i, quietEnv.addr i ∉ colony.particles := by
  intro i hi
  simp [colony, quietEnv] at hi

set_option maxRecDepth 8000 in
theorem colony_oneBucketEach : OneBucketEach colony := by
  refine ⟨by decide, fun p => ?_⟩
  by_cases h0 : p = 0
  · subst h0; decide
  · by_cases h1 : p = 1
    · subst h1; decide
    · have hn : p ∉ colony.particles := by simpa [colony] using ⟨h0, h1⟩
      rw [if_neg hn]
      apply List.count_eq_zero_of_not_mem
      intro hm
      obtain ⟨b, hb, hpb⟩ := List.mem_flatten.1 hm
      rcases List.mem_or_eq_of_mem_set hb with hb1 | rfl
      · rcases List.mem_or_eq_of_mem_set hb1 with hb2 | rfl
        · rw [List.eq_of_mem_replicate hb2] at hpb
          exact List.not_mem_nil _ hpb
        · exact h0 (List.mem_singleton.1 hpb)
      · exact h1 (List.mem_singleton.1 hpb)

theorem colony_fitness : cellFitness colony 2 1 < 0 ∧ 0 ≤ cellFitness colony 5 6 := by
  have hb1 : colony.sectors.getD (cellIndex colony 2 1) [] = [1] := by decide
  have hb0 : colony.sectors.getD (cellIndex colony 5 6) [] = [0] := by decide
  constructor
  · simp only [cellFitness, resourceAfter, wasteAfter, hb1]
    norm_num [colony, Simulator.init, Field.cell, Field.const]
  · simp only [cellFitness, resourceAfter, wasteAfter, hb0]
    norm_num [colony, Simulator.init, Field.cell, Field.const]

/-! ## One accepted candidate of `addParticles` -/

/-- A round of the loop of `addParticles` whose candidate passes the overlap test
(unwatched particles, no initial velocity): the particle is created with the
varied radius and added, three draws are consumed. -/
theorem addLoop_accept (env : Env) (N : ℤ) (R var lft bttm diffX diffY : ℚ) (type : PType)
    (vmax : ℚ) (bias : Vect) (fuel : Nat) (st : Insertion)
    (hc : (st.count : ℤ) < N) (hC : st.C = true) (hv : ¬ vmax > 0)
    (hw : wouldOverlap st.sim
      ⟨lft + diffX * env.draws st.rng + R, bttm + diffY * env.draws (st.rng + 1) + R⟩ R = false) :
    addLoop env N R var lft bttm diffX diffY type vmax false bias (fuel + 1) st =
      addLoop env N R var lft bttm diffX diffY type vmax false bias fuel
        ⟨addParticle
          { st.sim with heap := Function.update st.sim.heap (env.addr st.count)
                                  (construct type
                                    ⟨lft + diffX * env.draws st.rng + R,
                                      bttm + diffY * env.draws (st.rng + 1) + R⟩
                                    (R * (1 + var * env.draws (st.rng + 2))) bias) }
          (env.addr st.count) (env.isActive (env.addr st.count)),
         st.rng + 3, st.count + 1, 0, st.C⟩ := by
  rw [addLoop]
  simp only []
  rw [if_pos ⟨hc, hC⟩, hw]
  simp only [Bool.false_eq_true, if_false, if_neg hv]

theorem addParticle_fields (s : Simulator) (P : Nat) (act : Bool) :
    (addParticle s P act).particles = s.particles ++ [P] ∧
    (addParticle s P act).heap = s.heap ∧ (addParticle s P act).left = s.left ∧
    (addParticle s P act).right = s.right ∧ (addParticle s P act).bottom = s.bottom ∧
    (addParticle s P act).top = s.top := by
  cases act <;> exact ⟨rfl, rfl, rfl, rfl, rfl, rfl⟩

/-! ## Accumulated contributions -/

theorem vsum_cons (v : Vect) (l : List Vect) : vsum (v :: l) = Vect.add v (vsum l) := by
  simp [vsum, Vect.add]

theorem vsum_perm {l l' : List Vect} (h : l.Perm l') : vsum l = vsum l' := by
  simp only [vsum]
  rw [(h.map Vect.x).sum_eq, (h.map Vect.y).sum_eq]

theorem add_zero_vect (v : Vect) : Vect.add v Vect.zero = v := by
  cases v
  simp [Vect.add, Vect.zero]

theorem add_assoc_vect (a b c : Vect) : Vect.add (Vect.add a b) c = Vect.add a (Vect.add b c) := by
  simp [Vect.add, add_assoc]

/-- After a sequence of calls each accumulator has grown by the sum of the
arguments it received, and nothing else has changed. -/
theorem foldl_applyTo (cs : List Contribution) : ∀ p : Particle,
    cs.foldl Contribution.applyTo p =
      { p with force := Vect.add p.force (vsum (cs.map Contribution.forcePart)),
               normalF := Vect.add p.normalF (vsum (cs.map Contribution.normalPart)),
               shearF := Vect.add p.shearF (vsum (cs.map Contribution.shearPart)),
               torque := p.torque + (cs.map Contribution.torquePart).sum } := by
  induction cs with
  | nil =>
    intro p
    simp [vsum, add_zero_vect, show Vect.add p.force ⟨0, 0⟩ = p.force from add_zero_vect _,
      show Vect.add p.normalF ⟨0, 0⟩ = p.normalF from add_zero_vect _,
      show Vect.add p.shearF ⟨0, 0⟩ = p.shearF from add_zero_vect _]
  | cons c rest ih =>
    intro p
    rw [List.foldl_cons, ih]
    simp only [List.map_cons, vsum_cons, List.sum_cons]
    cases c <;>
      simp [Contribution.applyTo, Particle.applyForce, Particle.applyNormalForce,
        Particle.applyShearForce, Particle.applyTorque, Contribution.forcePart,
        Contribution.normalPart, Contribution.shearPart, Contribution.torquePart,
        add_assoc_vect, add_assoc, show ∀ v : Vect, Vect.add Vect.zero v = v from
          fun v => by cases v; simp [Vect.add, Vect.zero]]

/-! ## The shortened component is the minimal image -/

/-- On an axis of extent `W > 0`, for a difference `X` with `|X| ≤ W`, the
component returned by the block of `getDisplacement` is `X - W`, `X` or
`X + W`, has magnitude at most `W/2`, and no `X + k*W` is shorter. -/
theorem shorten_minimal (W X : ℚ) (hW : 0 < W) (hX : |X| ≤ W) :
    (shorten W X = X - W ∨ shorten W X = X ∨ shorten W X = X + W) ∧
    |shorten W X| ≤ W / 2 ∧ ∀ k : ℤ, |shorten W X| ≤ |X + k * W| := by
  have key : ∃ m : ℤ, shorten W X = X + m * W ∧ (m = -1 ∨ m = 0 ∨ m = 1) ∧
      |shorten W X| ≤ W / 2 := by
    unfold shorten
    simp only []
    by_cases h : W - |X| < |X|
    · rw [if_pos h]
      by_cases hx : X > 0
      · rw [if_pos hx]
        refine ⟨-1, by push_cast; rw [abs_of_pos hx]; ring, Or.inl rfl, ?_⟩
        rw [abs_of_pos hx] at h hX ⊢
        rw [abs_le]
        constructor <;> linarith
      · rw [if_neg hx]
        have hx' : X ≤ 0 := not_lt.1 hx
        refine ⟨1, by push_cast; rw [abs_of_nonpos hx']; ring, Or.inr (Or.inr rfl), ?_⟩
        rw [abs_of_nonpos hx'] at h hX ⊢
        rw [abs_le]
        constructor <;> linarith
    · rw [if_neg h]
      refine ⟨0, by push_cast; ring, Or.inr (Or.inl rfl), ?_⟩
      linarith [not_lt.1 h]
  obtain ⟨m, hm, hcases, hhalf⟩ := key
  refine ⟨?_, hhalf, fun k => ?_⟩
  · rcases hcases with h | h | h
    · left; rw [hm, h]; push_cast; ring
    · right; left; rw [hm, h]; push_cast; ring
    · right; right; rw [hm, h]; push_cast; ring
  · by_cases hk : k = m
    · rw [hk, ← hm]
    · have e : X + k * W = shorten W X + ((k - m : ℤ) : ℚ) * W := by
        rw [hm]; push_cast; ring
      have hne : (k - m : ℤ) ≠ 0 := sub_ne_zero.2 hk
      have h1 : (1 : ℚ) ≤ |((k - m : ℤ) : ℚ)| := by
        have : (1 : ℤ) ≤ |k - m| := Int.one_le_abs hne
        exact_mod_cast this
      have h2 : W ≤ |((k - m : ℤ) : ℚ) * W| := by
        rw [abs_mul, abs_of_pos hW]
        nlinarith
      have h3 : |((k - m : ℤ) : ℚ) * W| - |shorten W X| ≤
          |shorten W X + ((k - m : ℤ) : ℚ) * W| := by
        have := abs_sub_abs_le_abs_sub (((k - m : ℤ) : ℚ) * W) (-shorten W X)
        rw [abs_neg, sub_neg_eq_add, add_comm] at this
        exact this
      rw [e]
      linarith

/-! ## The fitness of a cell under a secretion rate of at least 1 -/

theorem resourceAfter_nonneg (s : Simulator) (x y : Nat) : 0 ≤ resourceAfter s x y := by
  unfold resourceAfter
  simp only []
  split
  · exact le_refl 0
  · next h => exact not_lt.1 h

theorem wasteAfter_nonneg (s : Simulator) (x y : Nat) (hrate : 0 ≤ s.secretionRate)
    (heps : 0 ≤ s.epsilon) (hw : 0 ≤ s.waste.cell (x - 1) (y - 1)) : 0 ≤ wasteAfter s x y := by
  unfold wasteAfter
  have : (0 : ℚ) ≤ ((s.sectors.getD (cellIndex s x y) []).length : ℚ) := Nat.cast_nonneg _
  have h2 := mul_nonneg (mul_nonneg heps hrate) this
  linarith

/-- The value `res/(res+1) - wst/(wst+1) - rate` is negative for non-negative
levels and a rate of at least 1. -/
theorem fitness_formula_neg (res wst rate : ℚ) (hr : 0 ≤ res) (hw : 0 ≤ wst) (hrate : 1 ≤ rate) :
    1 * res / (res + 1) - 1 * wst / (wst + 1) - 1 * rate < 0 := by
  have h1 : res / (res + 1) < 1 := by
    rw [div_lt_one (by linarith)]
    linarith
  have h2 : 0 ≤ wst / (wst + 1) := div_nonneg hw (by linarith)
  rw [one_mul, one_mul, one_mul]
  linarith

theorem cellFitness_neg (s : Simulator) (x y : Nat) (hrate : 1 ≤ s.secretionRate)
    (heps : 0 ≤ s.epsilon) (hw : 0 ≤ s.waste.cell (x - 1) (y - 1)) : cellFitness s x y < 0 := by
  unfold cellFitness
  exact fitness_formula_neg _ _ _ (resourceAfter_nonneg s x y)
    (wasteAfter_nonneg s x y (by linarith) heps hw) hrate

/-- An agent filed in a visited cell of negative fitness is not in the particle
list after `bacteriaUpdate`. -/
theorem dead_cell_removed (env : Env) (s : Simulator) (k : Nat) (hinv : OneBucketEach s)
    (hfresh : ∀ i, env.addr i ∉ s.particles) (xy : Nat × Nat) (hxy : xy ∈ visitedCells s)
    (p : Nat) (hp : p ∈ s.sectors.getD (cellIndex s xy.1 xy.2) [])
    (hdead : cellFitness s xy.1 xy.2 < 0) : p ∉ (bacteriaUpdate env s k).1.particles := by
  have h := cellsDone_foldl env s k (visitedCells s) (visitedCells_pairwise s)
  obtain ⟨_, a2, _, _, _⟩ := foldl_addWatched_spec env
    ((visitedCells s).foldl (bacteriaCell env) ⟨s, k, []⟩).births
    ((visitedCells s).foldl (bacteriaCell env) ⟨s, k, []⟩).sim
  have hpp : p ∈ s.particles := mem_particles_of_bucket s hinv p _ hp
  intro e
  rcases a2 p e with e1 | e1
  · exact ((h.particles p).1 e1).2 ⟨xy, hxy, hdead, hp⟩
  · obtain ⟨i, rfl⟩ := h.births p e1
    exact hfresh i hpp

/-! ## Cells that `bacteriaUpdate` does not visit -/

/-- When no visited cell holds an agent, `bacteriaUpdate` changes nothing. -/
theorem bacteriaUpdate_idle (env : Env) (s : Simulator) (k : Nat)
    (h : ∀ xy ∈ visitedCells s, cellBucket s xy = []) : bacteriaUpdate env s k = (s, k) := by
  have key : ∀ l : List (Nat × Nat), (∀ xy ∈ l, cellBucket s xy = []) →
      l.foldl (bacteriaCell env) ⟨s, k, []⟩ = ⟨s, k, []⟩ := by
    intro l
    induction l using List.reverseRecOn with
    | nil => intro _; rfl
    | append_singleton l xy ih =>
      intro hl
      rw [List.foldl_concat, ih fun xy' hxy' => hl xy' (List.mem_append_left _ hxy')]
      have hb : s.sectors.getD (cellIndex s xy.1 xy.2) [] = [] :=
        hl xy (List.mem_append_right _ (List.mem_singleton.2 rfl))
      unfold bacteriaCell
      simp only []
      rw [hb]
      rfl
  unfold bacteriaUpdate
  simp only []
  rw [key _ h]
  rfl

/-! ## The histogram indices of `record` -/

theorem castInt_nonneg {q : ℚ} (h : 0 ≤ q) : 0 ≤ castInt q := by
  unfold castInt
  rw [if_pos h]
  exact Int.floor_nonneg.2 h

theorem castInt_ge_of_le {q : ℚ} {n : ℤ} (h0 : 0 ≤ q) (h : (n : ℚ) ≤ q) : n ≤ castInt q := by
  unfold castInt
  rw [if_pos h0]
  exact Int.le_floor.2 h

theorem bumpAt_ok (profile : List ℚ) (index : ℤ) (h0 : 0 ≤ index)
    (h1 : index < profile.length) : ∃ p, bumpAt profile index = Except.ok p := by
  unfold bumpAt
  rw [if_pos ⟨h0, by omega⟩]
  exact ⟨_, rfl⟩

/-! ## The loop of `addParticles` -/

/-- A round of the loop of `addParticles` whose candidate is rejected: two draws
are consumed, `failed` grows by one and `C` becomes false when it exceeds 250. -/
theorem addLoop_reject (env : Env) (N : ℤ) (R var lft bttm diffX diffY : ℚ) (type : PType)
    (vmax : ℚ) (watched : Bool) (bias : Vect) (fuel : Nat) (st : Insertion)
    (hc : (st.count : ℤ) < N) (hC : st.C = true)
    (hw : wouldOverlap st.sim (candidateAt env R lft bttm diffX diffY st.rng) R = true) :
    addLoop env N R var lft bttm diffX diffY type vmax watched bias (fuel + 1) st =
      addLoop env N R var lft bttm diffX diffY type vmax watched bias fuel
        { st with rng := st.rng + 2, failed := st.failed + 1,
                  C := if st.failed + 1 > 250 then false else st.C } := by
  rw [addLoop]
  simp only []
  rw [if_pos ⟨hc, hC⟩]
  unfold candidateAt at hw
  rw [hw]
  simp only [if_true]

/-- A round of the loop of `addParticles` whose candidate is accepted, for all
settings of `watched` and `vmax`: the new particle is appended to the particle
list, `count` grows by one and `failed` is reset. -/
theorem addLoop_insert (env : Env) (N : ℤ) (R var lft bttm diffX diffY : ℚ) (type : PType)
    (vmax : ℚ) (watched : Bool) (bias : Vect) (st : Insertion)
    (hc : (st.count : ℤ) < N) (hC : st.C = true)
    (hw : wouldOverlap st.sim (candidateAt env R lft bttm diffX diffY st.rng) R = false) :
    ∃ st' : Insertion,
      (∀ fuel, addLoop env N R var lft bttm diffX diffY type vmax watched bias (fuel + 1) st =
        addLoop env N R var lft bttm diffX diffY type vmax watched bias fuel st') ∧
      st'.sim.particles = st.sim.particles ++ [env.addr st.count] ∧
      st'.count = st.count + 1 ∧ st'.failed = 0 ∧ st'.C = true := by
  unfold candidateAt at hw
  have hp : ∀ s1 : Simulator, s1.particles = st.sim.particles →
      (if watched then addWatchedParticle s1 (env.addr st.count) (env.isActive (env.addr st.count))
        else addParticle s1 (env.addr st.count) (env.isActive (env.addr st.count))).particles =
        st.sim.particles ++ [env.addr st.count] := by
    intro s1 h1
    cases watched
    · simp only [Bool.false_eq_true, if_false]
      rw [(addParticle_fields _ _ _).1, h1]
    · simp only [if_true]
      rw [(addWatchedParticle_spec _ _ _).1, h1]
  have hS : ∃ S1 : Simulator, S1 =
      { st.sim with heap := Function.update st.sim.heap (env.addr st.count)
                              (construct type
                                ⟨lft + diffX * env.draws st.rng + R,
                                  bttm + diffY * env.draws (st.rng + 1) + R⟩
                                (R * (1 + var * env.draws (st.rng + 2))) bias) } ∧
      S1.particles = st.sim.particles :=
    ⟨_, rfl, rfl⟩
  obtain ⟨S1, hS2, hS1⟩ := hS
  by_cases hv : vmax > 0
  · refine ⟨⟨setVelocityAt
        (if watched then addWatchedParticle S1 (env.addr st.count)
            (env.isActive (env.addr st.count))
          else addParticle S1 (env.addr st.count) (env.isActive (env.addr st.count)))
        (env.addr st.count) (Vect.smul vmax (env.dir (env.draws (st.rng + 3)))),
      st.rng + 4, st.count + 1, 0, st.C⟩, fun fuel => ?_, hp S1 hS1, rfl, rfl, hC⟩
    rw [addLoop]
    simp only []
    rw [if_pos ⟨hc, hC⟩, hw, hS2]
    simp only [Bool.false_eq_true, if_false, if_pos hv]
  · refine ⟨⟨(if watched then addWatchedParticle S1 (env.addr st.count)
            (env.isActive (env.addr st.count))
          else addParticle S1 (env.addr st.count) (env.isActive (env.addr st.count))),
      st.rng + 3, st.count + 1, 0, st.C⟩, fun fuel => ?_, hp S1 hS1, rfl, rfl, hC⟩
    rw [addLoop]
    simp only []
    rw [if_pos ⟨hc, hC⟩, hw, hS2]
    simp only [Bool.false_eq_true, if_false, if_neg hv]

theorem inserting_start (env : Env) (s : Simulator) (k : Nat) (N : ℤ)
    (R lft bttm diffX diffY : ℚ) :
    Inserting env s N R lft bttm diffX diffY ⟨s, k, 0, 0, true⟩ :=
  { particles := by simp
    count_le := by simp
    failed_le := fun _ => Nat.zero_le _
    aborted := fun h => by cases h
    rejected := fun j hj => absurd hj (Nat.not_lt_zero j) }

/-- The loop of `addParticles` finishes from every state described by
`Inserting`; the state it returns is described by `Inserting` too, and the loop
condition `count<N && C` is false in it. -/
theorem addLoop_lands (env : Env) (s0 : Simulator) (N : ℤ) (R var lft bttm diffX diffY : ℚ)
    (type : PType) (vmax : ℚ) (watched : Bool) (bias : Vect) :
    ∀ (n : Nat) (st : Insertion), Inserting env s0 N R lft bttm diffX diffY st →
      roundsLeft N st ≤ n →
      ∃ r, (∀ fuel, n < fuel →
          addLoop env N R var lft bttm diffX diffY type vmax watched bias fuel st = some r) ∧
        Inserting env s0 N R lft bttm diffX diffY r ∧ ¬ ((r.count : ℤ) < N ∧ r.C = true) := by
  intro n
  induction n with
  | zero =>
    intro st hinv hle
    by_cases hcond : (st.count : ℤ) < N ∧ st.C = true
    · have h250 := hinv.failed_le hcond.2
      unfold roundsLeft at hle
      rw [if_pos hcond] at hle
      omega
    · refine ⟨st, fun fuel hf => ?_, hinv, hcond⟩
      obtain ⟨f, rfl⟩ : ∃ f, fuel = f + 1 := ⟨fuel - 1, by omega⟩
      rw [addLoop]
      simp only []
      rw [if_neg hcond]
  | succ m ih =>
    intro st hinv hle
    by_cases hcond : (st.count : ℤ) < N ∧ st.C = true
    · have h250 := hinv.failed_le hcond.2
      unfold roundsLeft at hle
      rw [if_pos hcond] at hle
      cases hw : wouldOverlap st.sim (candidateAt env R lft bttm diffX diffY st.rng) R with
      | true =>
        obtain ⟨st', hst'⟩ : ∃ st' : Insertion, st' =
            { st with rng := st.rng + 2, failed := st.failed + 1,
                      C := if st.failed + 1 > 250 then false else st.C } := ⟨_, rfl⟩
        have e1 : st'.sim = st.sim := by rw [hst']
        have e2 : st'.rng = st.rng + 2 := by rw [hst']
        have e3 : st'.count = st.count := by rw [hst']
        have e4 : st'.failed = st.failed + 1 := by rw [hst']
        have e5 : st'.C = if st.failed + 1 > 250 then false else st.C := by rw [hst']
        have hinv' : Inserting env s0 N R lft bttm diffX diffY st' :=
          { particles := by rw [e1, e3]; exact hinv.particles
            count_le := by rw [e3]; exact hinv.count_le
            failed_le := fun h => by
              rw [e5] at h
              rw [e4]
              by_contra hc
              have hgt : st.failed + 1 > 250 := by omega
              rw [if_pos hgt] at h
              cases h
            aborted := fun h => by
              rw [e5] at h
              rw [e3, e4]
              refine ⟨?_, hcond.1⟩
              by_contra hc
              have hgt : ¬ st.failed + 1 > 250 := by omega
              rw [if_neg hgt, hcond.2] at h
              cases h
            rejected := fun j hj => by
              rw [e4] at hj
              rw [e1, e2, e4]
              by_cases hjf : j < st.failed
              · obtain ⟨h1, h2⟩ := hinv.rejected j hjf
                have e : st.rng + 2 - 2 * (st.failed + 1 - j) =
                    st.rng - 2 * (st.failed - j) := by omega
                rw [e]
                exact ⟨by omega, h2⟩
              · have e : st.rng + 2 - 2 * (st.failed + 1 - j) = st.rng := by omega
                rw [e]
                exact ⟨by omega, hw⟩ }
        have hle' : roundsLeft N st' ≤ m := by
          unfold roundsLeft
          rw [e3, e4]
          split
          · omega
          · exact Nat.zero_le _
        obtain ⟨r, hr, hri, hrc⟩ := ih _ hinv' hle'
        refine ⟨r, fun fuel hf => ?_, hri, hrc⟩
        obtain ⟨f, rfl⟩ : ∃ f, fuel = f + 1 := ⟨fuel - 1, by omega⟩
        rw [addLoop_reject env N R var lft bttm diffX diffY type vmax watched bias f st
          hcond.1 hcond.2 hw, ← hst']
        exact hr f (by omega)
      | false =>
        obtain ⟨st', hstep, hp, hcnt, hfail, hC⟩ :=
          addLoop_insert env N R var lft bttm diffX diffY type vmax watched bias st
            hcond.1 hcond.2 hw
        have hinv' : Inserting env s0 N R lft bttm diffX diffY st' :=
          { particles := by
              rw [hp, hinv.particles, hcnt, List.range_succ, List.map_append, List.append_assoc]
              rfl
            count_le := by
              rw [hcnt]
              have := hcond.1
              push_cast
              have h2 := le_max_left N 0
              omega
            failed_le := fun _ => by rw [hfail]; exact Nat.zero_le _
            aborted := fun h => by rw [hC] at h; cases h
            rejected := fun j hj => by rw [hfail] at hj; exact absurd hj (Nat.not_lt_zero j) }
        have hle' : roundsLeft N st' ≤ m := by
          unfold roundsLeft
          rw [hcnt, hfail]
          split
          · next h2 =>
            have h3 := h2.1
            have h4 := hcond.1
            push_cast at h3 ⊢
            omega
          · exact Nat.zero_le _
        obtain ⟨r, hr, hri, hrc⟩ := ih _ hinv' hle'
        refine ⟨r, fun fuel hf => ?_, hri, hrc⟩
        obtain ⟨f, rfl⟩ : ∃ f, fuel = f + 1 := ⟨fuel - 1, by omega⟩
        rw [hstep f]
        exact hr f (by omega)
    · refine ⟨st, fun fuel hf => ?_, hinv, hcond⟩
      obtain ⟨f, rfl⟩ : ∃ f, fuel = f + 1 := ⟨fuel - 1, by omega⟩
      rw [addLoop]
      simp only []
      rw [if_neg hcond]

/-! ## The step loop of `run` -/

theorem touched_refl (s : Simulator) : Touched s s :=
  ⟨s.heap, s.lastMark, s.timeMarks, s.sectors, s.tempWalls, rfl⟩

theorem touched_trans {s t u : Simulator} (h1 : Touched s t) (h2 : Touched t u) :
    Touched s u := by
  obtain ⟨a1, a2, a3, a4, a5, rfl⟩ := h1
  obtain ⟨b1, b2, b3, b4, b5, rfl⟩ := h2
  exact ⟨b1, b2, b3, b4, b5, rfl⟩

theorem touched_freezeAt (s : Simulator) (P : Nat) : Touched s (freezeAt s P) :=
  ⟨_, s.lastMark, s.timeMarks, s.sectors, s.tempWalls, rfl⟩

theorem touched_markTime (s : Simulator) : Touched s (markTime s) :=
  ⟨s.heap, _, _, s.sectors, s.tempWalls, rfl⟩

theorem touched_updateSectors (s : Simulator) : Touched s (updateSectors s) :=
  ⟨s.heap, s.lastMark, s.timeMarks, _, s.tempWalls, rfl⟩

theorem touched_expireTempWalls (s : Simulator) : Touched s (expireTempWalls s) := by
  unfold expireTempWalls
  split
  · exact touched_refl s
  · exact ⟨s.heap, s.lastMark, s.timeMarks, s.sectors, _, rfl⟩

theorem edgeXL_touched (fuel : Nat) (draws : Nat → ℚ) (P : Nat) (b b' : Bnd)
    (h : edgeXL fuel draws P b = some b') : Touched b.sim b'.sim := by
  unfold edgeXL at h
  split at h
  · obtain ⟨x, _, rfl⟩ := Option.map_eq_some'.1 h
    exact touched_refl _
  · split at h
    · cases h; exact touched_freezeAt _ _
    · cases h; exact touched_refl _
  · cases h; exact touched_refl _

theorem edgeXR_touched (fuel : Nat) (draws : Nat → ℚ) (P : Nat) (b b' : Bnd)
    (h : edgeXR fuel draws P b = some b') : Touched b.sim b'.sim := by
  unfold edgeXR at h
  split at h
  · obtain ⟨x, _, rfl⟩ := Option.map_eq_some'.1 h
    exact touched_refl _
  · split at h
    · cases h; exact touched_freezeAt _ _
    · cases h; exact touched_refl _
  · cases h; exact touched_refl _

theorem edgeYB_touched (fuel : Nat) (draws : Nat → ℚ) (P : Nat) (b b' : Bnd)
    (h : edgeYB fuel draws P b = some b') : Touched b.sim b'.sim := by
  unfold edgeYB at h
  split at h
  · obtain ⟨x, _, rfl⟩ := Option.map_eq_some'.1 h
    exact touched_markTime _
  · split at h
    · cases h
      exact touched_trans (touched_markTime _) (touched_freezeAt _ _)
    · cases h; exact touched_refl _
  · cases h; exact touched_refl _

theorem edgeYT_touched (fuel : Nat) (draws : Nat → ℚ) (P : Nat) (b b' : Bnd)
    (h : edgeYT fuel draws P b = some b') : Touched b.sim b'.sim := by
  unfold edgeYT at h
  split at h
  · obtain ⟨x, _, rfl⟩ := Option.map_eq_some'.1 h
    exact touched_refl _
  · split at h
    · cases h; exact touched_freezeAt _ _
    · cases h; exact touched_refl _
  · cases h; exact touched_refl _

theorem updateBoundary_touched (fuel : Nat) (draws : Nat → ℚ) (s : Simulator) (k P : Nat)
    (r : Simulator × Nat) (h : updateBoundary fuel draws s k P = some r) :
    Touched s r.1 := by
  unfold updateBoundary at h
  obtain ⟨b4, h4, rfl⟩ := Option.map_eq_some'.1 h
  obtain ⟨b2, h2, h34⟩ := Option.bind_eq_some.1 h4
  unfold edgesX at h2
  obtain ⟨b1, h1, h12⟩ := Option.bind_eq_some.1 h2
  unfold edgesY at h34
  obtain ⟨b3, h3, h344⟩ := Option.bind_eq_some.1 h34
  have k1 := edgeXL_touched _ _ _ _ _ h1
  have k2 := edgeXR_touched _ _ _ _ _ h12
  have k3 := edgeYB_touched _ _ _ _ _ h3
  have k4 := edgeYT_touched _ _ _ _ _ h344
  have k5 : Touched b4.sim (storePos b4 P).1 :=
    ⟨_, b4.sim.lastMark, b4.sim.timeMarks, b4.sim.sectors, b4.sim.tempWalls, rfl⟩
  exact touched_trans (touched_trans (touched_trans (touched_trans k1 k2) k3) k4) k5

theorem update_touched (fuel : Nat) (draws : Nat → ℚ) (integrate : Particle → ℚ → Particle)
    (s : Simulator) (k P : Nat) (r : Simulator × Nat)
    (h : update fuel draws integrate s k P = some r) : Touched s r.1 := by
  unfold update at h
  have k1 := updateBoundary_touched _ _ _ _ _ _ h
  have k0 : Touched s
      { s with heap := Function.update s.heap P (integrate (s.heap P) s.epsilon) } :=
    ⟨_, s.lastMark, s.timeMarks, s.sectors, s.tempWalls, rfl⟩
  exact touched_trans k0 k1

theorem updateAll_touched (fuel : Nat) (draws : Nat → ℚ)
    (integrate : Particle → ℚ → Particle) (l : List Nat) : ∀ (st r : Simulator × Nat),
      updateAll fuel draws integrate l st = some r → Touched st.1 r.1 := by
  induction l with
  | nil =>
    intro st r h
    simp only [updateAll] at h
    cases h
    exact touched_refl _
  | cons P rest ih =>
    intro st r h
    simp only [updateAll] at h
    obtain ⟨m, h1, h2⟩ := Option.bind_eq_some.1 h
    exact touched_trans (update_touched _ _ _ _ _ _ _ h1) (ih m r h2)

/-- Whatever `objectUpdates` returns differs from the state it started in at
most in the heap, the time marks, the buckets and the temporary walls. -/
theorem objectUpdates_touched (fuel : Nat) (draws : Nat → ℚ)
    (integrate : Particle → ℚ → Particle) (s : Simulator) (k : Nat) (r : Simulator × Nat)
    (h : objectUpdates fuel draws integrate s k = some r) : Touched s r.1 := by
  unfold objectUpdates at h
  obtain ⟨st, hst, rfl⟩ := Option.map_eq_some'.1 h
  have h1 := updateAll_touched _ _ _ _ _ _ hst
  have h2 : Touched st.1 (if st.1.sectorize then updateSectors st.1 else st.1) := by
    split
    · exact touched_updateSectors _
    · exact touched_refl _
  exact touched_trans (touched_trans h1 h2) (touched_expireTempWalls _)

/-- On a domain of positive extent `objectUpdates` finishes. -/
theorem objectUpdates_lands (draws : Nat → ℚ) (integrate : Particle → ℚ → Particle)
    (s : Simulator) (k : Nat) (hlr : s.left < s.right) (hbt : s.bottom < s.top) :
    ∃ r, Lands (fun fuel => objectUpdates fuel draws integrate s k) r := by
  obtain ⟨r, hr⟩ := updateAll_lands draws integrate s.particles (s, k) hlr hbt
  exact ⟨_, lands_map _ hr⟩

theorem steady_touched {e : ℚ} {n : ℤ} {s t : Simulator} (h : Steady e n s)
    (ht : Touched s t) : Steady e n t ∧ t.iter = s.iter ∧ t.time = s.time ∧
      t.running = s.running := by
  obtain ⟨a1, a2, a3, a4, a5, rfl⟩ := ht
  exact ⟨⟨h.adjust, h.watch, h.recAll, h.stop, h.step, h.cap, h.width, h.height⟩, rfl, rfl, rfl⟩

/-- In a steady configuration at a time `≥ 0`, `logisticUpdates` returns normally:
`time` has advanced by `e`, `iter` by one, and `running` has been cleared when
the iteration cap is reached. -/
theorem logisticUpdates_steady {e : ℚ} {n : ℤ} (sqrt : ℚ → ℚ) (s : Simulator)
    (h : Steady e n s) (he : 0 < e) (ht : 0 ≤ s.time) :
    ∃ s', logisticUpdates sqrt s = Except.ok s' ∧ Steady e n s' ∧ s'.iter = s.iter + 1 ∧
      s'.time = s.time + e ∧
      s'.running = (if 0 < n ∧ n ≤ s.iter + 1 then false else s.running) := by
  have hc : chooseEpsilon sqrt s = { s with epsilon := s.default_epsilon } := by
    unfold chooseEpsilon
    rw [h.adjust]
    rfl
  have hstop : ¬ (s.time + s.default_epsilon < s.stopRecording) := by
    have := h.stop
    have := h.step
    linarith
  by_cases hcap : 0 < n ∧ n ≤ s.iter + 1
  · refine ⟨{ s with epsilon := s.default_epsilon, time := s.time + s.default_epsilon,
                     iter := s.iter + 1, running := false }, ?_,
      ⟨h.adjust, h.watch, h.recAll, h.stop, h.step, h.cap, h.width, h.height⟩, rfl,
      by rw [← h.step], by rw [if_pos hcap]⟩
    unfold logisticUpdates
    simp only []
    rw [hc]
    have c1 : s.maxIters > 0 ∧ s.iter + 1 ≥ s.maxIters := by rw [h.cap]; exact hcap
    dsimp only
    rw [if_pos c1]
    simp [hstop, h.recAll, h.watch]
  · refine ⟨{ s with epsilon := s.default_epsilon, time := s.time + s.default_epsilon,
                     iter := s.iter + 1 }, ?_,
      ⟨h.adjust, h.watch, h.recAll, h.stop, h.step, h.cap, h.width, h.height⟩, rfl,
      by rw [← h.step], by rw [if_neg hcap]⟩
    unfold logisticUpdates
    simp only []
    rw [hc]
    have c1 : ¬ (s.maxIters > 0 ∧ s.iter + 1 ≥ s.maxIters) := by rw [h.cap]; exact hcap
    dsimp only
    rw [if_neg c1]
    simp [hstop, h.recAll, h.watch]

theorem iterations_reach (T e : ℚ) (he : 0 < e) : T ≤ ((max 0 ⌈T / e⌉ : ℤ) : ℚ) * e := by
  have h1 : T / e ≤ ((max 0 ⌈T / e⌉ : ℤ) : ℚ) :=
    le_trans (Int.le_ceil _) (by exact_mod_cast le_max_right 0 ⌈T / e⌉)
  rwa [div_le_iff₀ he] at h1

theorem iterations_before (T e : ℚ) (he : 0 < e) (i : ℤ) (h0 : 0 ≤ i)
    (hi : i < max 0 ⌈T / e⌉) : (i : ℚ) * e < T := by
  have h1 : i < ⌈T / e⌉ := by
    rcases lt_max_iff.1 hi with h | h
    · omega
    · exact h
  have h2 : (i : ℚ) < T / e := Int.lt_ceil.1 h1
  rwa [lt_div_iff₀ he] at h2

/-- From a steady state after `i` iterations the step loop finishes, after
`iterations T e n` iterations in all, at the time `iter * e`. -/
theorem runLoop_counts (env : RunEnv) (T e : ℚ) (n : ℤ) (he : 0 < e) :
    ∀ (d : Nat) (i : ℤ) (st : Simulator × Nat), 0 ≤ i → i + d = iterations T e n →
      Steady e n st.1 → st.1.iter = i → st.1.time = i * e →
      (st.1.running = true ↔ (n ≤ 0 ∨ i < n)) →
      ∃ r, Lands (fun fuel => runLoop env T fuel st) (Except.ok r) ∧
        r.1.iter = iterations T e n ∧ r.1.time = r.1.iter * e := by
  intro d
  induction d with
  | zero =>
    intro i st h0 him hs hiter htime hrun
    have hcond : ¬ (st.1.time < T ∧ st.1.running = true) := by
      rintro ⟨h1, h2⟩
      have h3 := hrun.1 h2
      have hK : i = max 0 ⌈T / e⌉ := by
        have : i = iterations T e n := by simpa using him
        unfold iterations at this
        split at this
        · next hn =>
          have h4 : i < n := by omega
          rcases min_choice (max 0 ⌈T / e⌉) n with h5 | h5
          · rw [h5] at this; exact this
          · rw [h5] at this; omega
        · exact this
      have := iterations_reach T e he
      rw [← hK, ← htime] at this
      linarith
    refine ⟨st, ⟨1, fun fuel hf => ?_⟩, by rw [hiter]; simpa using him, by rw [htime, hiter]⟩
    obtain ⟨f, rfl⟩ : ∃ f, fuel = f + 1 := ⟨fuel - 1, by omega⟩
    show runLoop env T (f + 1) st = _
    rw [runLoop]
    simp only []
    rw [if_neg hcond]
  | succ d ih =>
    intro i st h0 him hs hiter htime hrun
    have hm : i + 1 ≤ iterations T e n := by
      have : (i : ℤ) + ((d + 1 : ℕ) : ℤ) = iterations T e n := him
      push_cast at this
      omega
    have hmK : iterations T e n ≤ max 0 ⌈T / e⌉ := by
      unfold iterations
      split
      · exact min_le_left _ _
      · exact le_refl _
    have hmn : 0 < n → iterations T e n ≤ n := fun hn => by
      unfold iterations
      rw [if_pos hn]
      exact min_le_right _ _
    have hcond : st.1.time < T ∧ st.1.running = true := by
      refine ⟨?_, hrun.2 ?_⟩
      · rw [htime]
        exact iterations_before T e he i h0 (by omega)
      · by_cases hn : 0 < n
        · right
          have := hmn hn
          omega
        · left
          omega
    have hsf : Steady e n { st.1 with heap := (env.forces st.1 st.2).1 } :=
      ⟨hs.adjust, hs.watch, hs.recAll, hs.stop, hs.step, hs.cap, hs.width, hs.height⟩
    obtain ⟨s1, hlog, hs1, hiter1, htime1, hrun1⟩ := logisticUpdates_steady env.sqrt
      { st.1 with heap := (env.forces st.1 st.2).1 } hsf he
      (by show 0 ≤ st.1.time; rw [htime]; exact mul_nonneg (by exact_mod_cast h0) he.le)
    obtain ⟨r1, hobj⟩ := objectUpdates_lands env.draws env.integrate s1
      (env.forces st.1 st.2).2 hs1.width hs1.height
    obtain ⟨f0, hf0⟩ := lands_some hobj
    obtain ⟨hsr, hiterr, htimer, hrunr⟩ := steady_touched hs1
      (objectUpdates_touched _ _ _ _ _ _ hf0)
    have hiter2 : r1.1.iter = i + 1 := by
      rw [hiterr, hiter1]
      show st.1.iter + 1 = i + 1
      rw [hiter]
    have htime2 : r1.1.time = ((i + 1 : ℤ) : ℚ) * e := by
      rw [htimer, htime1]
      show st.1.time + e = _
      rw [htime]
      push_cast
      ring
    have hrun2 : r1.1.running = true ↔ (n ≤ 0 ∨ i + 1 < n) := by
      rw [hrunr, hrun1]
      have e1 : ({ st.1 with heap := (env.forces st.1 st.2).1 } : Simulator).iter = i := hiter
      have e2 : ({ st.1 with heap := (env.forces st.1 st.2).1 } : Simulator).running = true :=
        hcond.2
      rw [e1, e2]
      by_cases hc : 0 < n ∧ n ≤ i + 1
      · rw [if_pos hc]
        constructor
        · intro h; cases h
        · intro h; omega
      · rw [if_neg hc]
        constructor
        · intro _
          by_cases hn : 0 < n
          · right
            by_contra h2
            exact hc ⟨hn, by omega⟩
          · left; omega
        · intro _; rfl
    obtain ⟨r, hr, hri, hrt⟩ := ih (i + 1) r1 (by omega)
      (by
        have : (i : ℤ) + ((d + 1 : ℕ) : ℤ) = iterations T e n := him
        push_cast at this
        omega)
      hsr hiter2 htime2 hrun2
    refine ⟨r, ?_, hri, hrt⟩
    obtain ⟨N1, hN1⟩ := hobj
    obtain ⟨N2, hN2⟩ := hr
    refine ⟨max N1 N2 + 1, fun fuel hf => ?_⟩
    obtain ⟨f, rfl⟩ : ∃ f, fuel = f + 1 := ⟨fuel - 1, by omega⟩
    have g1 := hN1 f (by omega)
    have g2 := hN2 f (by omega)
    show runLoop env T (f + 1) st = _
    rw [runLoop]
    simp only []
    rw [if_pos hcond, hlog]
    simp only []
    rw [show objectUpdates f env.draws env.integrate s1 (env.forces st.1 st.2).2 = some r1
      from g1]
    exact g2

/-- With adaptive stepping, the stagnation watch and the recording off, on a
domain of positive extent, `run(T)` finishes normally after
`iterations T e n` iterations, at the time `iter * e`. -/
theorem run_counts (env : RunEnv) (s : Simulator) (k : Nat) (T e : ℚ) (n : ℤ) (he : 0 < e)
    (hs : Steady e n s) :
    ∃ r, Lands (fun fuel => run env fuel s k T) (Except.ok r) ∧
      r.1.iter = iterations T e n ∧ r.1.time = r.1.iter * e := by
  have hs0 : Steady e n (resetVariables s) :=
    ⟨hs.adjust, hs.watch, hs.recAll, hs.stop, hs.step, hs.cap, hs.width, hs.height⟩
  have hnorec : ¬ (((resetVariables s).time ≥ (resetVariables s).startRecording ∧
      (resetVariables s).time < (resetVariables s).stopRecording) ∨
      (resetVariables s).recAllIters = true) := by
    rintro (⟨_, h2⟩ | h2)
    · have : (0 : ℚ) < s.stopRecording := h2
      linarith [hs.stop]
    · have : s.recAllIters = true := h2
      rw [hs.recAll] at this
      cases this
  have h0 : (0 : ℤ) ≤ iterations T e n := by
    unfold iterations
    split
    · next hn => exact le_min (le_max_left _ _) hn.le
    · exact le_max_left _ _
  obtain ⟨r, hr, hri, hrt⟩ := runLoop_counts env T e n he (iterations T e n).toNat 0
    (resetVariables s, k) (le_refl 0) (by rw [Int.toNat_of_nonneg h0]; ring) hs0 rfl
    (by show (0 : ℚ) = ((0 : ℤ) : ℚ) * e; push_cast; ring)
    ⟨fun _ => by omega, fun _ => rfl⟩
  refine ⟨r, ?_, hri, hrt⟩
  obtain ⟨N, hN⟩ := hr
  refine ⟨N, fun fuel hf => ?_⟩
  show run env fuel s k T = _
  unfold run
  simp only []
  rw [if_neg hnorec]
  exact hN fuel hf

/-- The count of `run_counts` on a concrete state: with time step `1e-4`,
recording off and the iteration cap 3, `run(1)` ends after 3 iterations at
time `3e-4`, and `run(1/5000)` after 2 iterations at time `2e-4`. -/
theorem run_counts_example (env : RunEnv) :
    (∃ r, Lands (fun fuel => run env fuel cappedRun 0 1) (Except.ok r) ∧
      r.1.iter = 3 ∧ r.1.time = 3/10000) ∧
    (∃ r, Lands (fun fuel => run env fuel cappedRun 0 (1/5000)) (Except.ok r) ∧
      r.1.iter = 2 ∧ r.1.time = 2/10000) := by
  have hs : Steady (1/10000) 3 cappedRun :=
    ⟨rfl, rfl, rfl, le_refl 0, rfl, rfl, by norm_num [cappedRun, Simulator.init],
      by norm_num [cappedRun, Simulator.init]⟩
  have e1 : iterations 1 (1/10000) 3 = 3 := by
    unfold iterations
    have : ⌈(1 : ℚ) / (1/10000)⌉ = 10000 := by
      rw [show (1 : ℚ) / (1/10000) = ((10000 : ℤ) : ℚ) by norm_num, Int.ceil_intCast]
    rw [this]
    decide
  have e2 : iterations (1/5000) (1/10000) 3 = 2 := by
    unfold iterations
    have : ⌈(1/5000 : ℚ) / (1/10000)⌉ = 2 := by
      rw [show (1/5000 : ℚ) / (1/10000) = ((2 : ℤ) : ℚ) by norm_num, Int.ceil_intCast]
    rw [this]
    decide
  constructor
  · obtain ⟨r, hr, h1, h2⟩ := run_counts env cappedRun 0 1 (1/10000) 3 (by norm_num) hs
    rw [e1] at h1
    refine ⟨r, hr, h1, ?_⟩
    rw [h2, h1]
    norm_num
  · obtain ⟨r, hr, h1, h2⟩ := run_counts env cappedRun 0 (1/5000) (1/10000) 3 (by norm_num) hs
    rw [e2] at h1
    refine ⟨r, hr, h1, ?_⟩
    rw [h2, h1]
    norm_num

/-! ## The two wrap loops of one axis -/

theorem binade_eq (q : ℚ) (e : ℤ) (he : -1022 ≤ e) (h1 : (2 : ℚ) ^ e ≤ |q|)
    (h2 : |q| < (2 : ℚ) ^ (e + 1)) : binade q = e := by
  have hpos : 0 < |q| := lt_of_lt_of_le (zpow_pos (by norm_num) e) h1
  have a : e ≤ Int.log 2 |q| := (Int.zpow_le_iff_le_log (by norm_num) hpos).1 (by exact_mod_cast h1)
  have b : Int.log 2 |q| < e + 1 :=
    (Int.lt_zpow_iff_log_lt (by norm_num) hpos).1 (by exact_mod_cast h2)
  unfold binade
  rw [max_eq_left (by omega)]
  omega

/-- The rounding of `q` in the binade `2^e ≤ |q| < 2^(e+1)`, `e ≥ -1022`. -/
theorem roundDouble_eval (q : ℚ) (e m : ℤ) (he : -1022 ≤ e) (h1 : (2 : ℚ) ^ e ≤ |q|)
    (h2 : |q| < (2 : ℚ) ^ (e + 1)) (hm : roundNE (q / (2 : ℚ) ^ (e - 52)) = m) :
    roundDouble q = m * (2 : ℚ) ^ (e - 52) := by
  unfold roundDouble ulp
  rw [binade_eq q e he h1 h2, hm]

theorem roundNE_intCast (m : ℤ) : roundNE (m : ℚ) = m := by
  simp [roundNE]

/-- A whole multiple `m * 2^(e-52)` of the spacing of its binade is a double. -/
theorem isDouble_eval (q : ℚ) (e m : ℤ) (he : -1022 ≤ e) (h1 : (2 : ℚ) ^ e ≤ |q|)
    (h2 : |q| < (2 : ℚ) ^ (e + 1)) (hm : q = m * (2 : ℚ) ^ (e - 52)) : IsDouble q := by
  have hne : (2 : ℚ) ^ (e - 52) ≠ 0 := zpow_ne_zero _ (by norm_num)
  unfold IsDouble
  rw [roundDouble_eval q e m he h1 h2 (by
    rw [hm, mul_div_assoc, div_self hne, mul_one]
    exact roundNE_intCast m)]
  exact hm.symm

theorem isDouble_zero : IsDouble 0 := by
  norm_num [IsDouble, roundDouble, roundNE]

/-! ## The wrap loops in double arithmetic -/

theorem wrapUpD_of_ge (lo w x : ℚ) (fuel : Nat) (hf : 1 ≤ fuel) (h : lo ≤ x) :
    wrapUpD fuel lo w x = some x := by
  obtain ⟨f, rfl⟩ : ∃ f, fuel = f + 1 := ⟨fuel - 1, by omega⟩
  rw [wrapUpD, if_neg (not_lt.2 h)]

theorem wrapDownD_of_le (hi w x : ℚ) (fuel : Nat) (hf : 1 ≤ fuel) (h : x ≤ hi) :
    wrapDownD fuel hi w x = some x := by
  obtain ⟨f, rfl⟩ : ∃ f, fuel = f + 1 := ⟨fuel - 1, by omega⟩
  rw [wrapDownD, if_neg (not_lt.2 h)]

/-- A position above the upper bound that absorbs the extent keeps the downward
loop running for ever. -/
theorem wrapDownD_hangs (hi w x : ℚ) (hx : hi < x) (habs : roundDouble (x - w) = x) :
    ∀ fuel, wrapDownD fuel hi w x = none := by
  intro fuel
  induction fuel with
  | zero => rfl
  | succ n ih => rw [wrapDownD, if_pos hx, habs, ih]

/-- While every sum it forms is a double, the upward loop in double arithmetic
is the loop in exact arithmetic. -/
theorem wrapUpD_exact (lo w : ℚ) : ∀ (fuel : Nat) (x : ℚ),
    (∀ j : ℕ, x + j * w < lo → IsDouble (x + (j + 1) * w)) →
    wrapUpD fuel lo w x = wrapUp fuel lo w x := by
  intro fuel
  induction fuel with
  | zero => intro x _; rfl
  | succ n ih =>
    intro x h
    rw [wrapUpD, wrapUp]
    by_cases hx : x < lo
    · have h0 : roundDouble (x + w) = x + w := by
        have := h 0 (by simpa using hx)
        simpa [IsDouble] using this
      rw [if_pos hx, if_pos hx, h0]
      refine ih (x + w) (fun j hj => ?_)
      have := h (j + 1) (by push_cast; linarith)
      have e : x + w + ((j : ℚ) + 1) * w = x + (((j + 1 : ℕ) : ℚ) + 1) * w := by
        push_cast; ring
      rw [e]
      exact this
    · rw [if_neg hx, if_neg hx]

/-- While every difference it forms is a double, the downward loop in double
arithmetic is the loop in exact arithmetic. -/
theorem wrapDownD_exact (hi w : ℚ) : ∀ (fuel : Nat) (x : ℚ),
    (∀ j : ℕ, hi < x - j * w → IsDouble (x - (j + 1) * w)) →
    wrapDownD fuel hi w x = wrapDown fuel hi w x := by
  intro fuel
  induction fuel with
  | zero => intro x _; rfl
  | succ n ih =>
    intro x h
    rw [wrapDownD, wrapDown]
    by_cases hx : x > hi
    · have h0 : roundDouble (x - w) = x - w := by
        have := h 0 (by simpa using hx)
        simpa [IsDouble] using this
      rw [if_pos hx, if_pos hx, h0]
      refine ih (x - w) (fun j hj => ?_)
      have := h (j + 1) (by push_cast; linarith)
      have e : x - w - ((j : ℚ) + 1) * w = x - (((j + 1 : ℕ) : ℚ) + 1) * w := by
        push_cast; ring
      rw [e]
      exact this
    · rw [if_neg hx, if_neg hx]

/-- What the upward loop in exact arithmetic returns: the start itself when it
is not below the lower bound, a value below `lo + w` otherwise. -/
theorem wrapUp_result (lo w : ℚ) (hw : 0 < w) : ∀ (fuel : Nat) (x x1 : ℚ),
    wrapUp fuel lo w x = some x1 → (lo ≤ x → x1 = x) ∧ (x < lo → x1 < lo + w) := by
  intro fuel x x1 h
  obtain ⟨x', hl, _, a2, a3, _⟩ := wrapUp_lands lo w x hw
  obtain ⟨N, hN⟩ := hl
  have key : ∀ (n : Nat) (y y1 : ℚ), wrapUp n lo w y = some y1 →
      ∀ m, wrapUp (n + m) lo w y = some y1 := by
    intro n
    induction n with
    | zero => intro y y1 hy; simp [wrapUp] at hy
    | succ n ih =>
      intro y y1 hy m
      rw [show n + 1 + m = (n + m) + 1 by omega, wrapUp]
      rw [wrapUp] at hy
      split
      · next hlt =>
        rw [if_pos hlt] at hy
        exact ih _ _ hy m
      · next hge =>
        rw [if_neg hge] at hy
        exact hy
  have e1 := key fuel x x1 h N
  have e2 : wrapUp (fuel + N) lo w x = some x' := hN (fuel + N) (by omega)
  rw [e1] at e2
  have : x1 = x' := Option.some.inj e2
  subst this
  exact ⟨a2, a3⟩

/-- On an axis `[lo, hi]` of positive extent whose wrap arithmetic is exact, the
two loops in double arithmetic are the loops in exact arithmetic. -/
theorem wrapAxisD_exact (lo hi x : ℚ) (h : lo < hi) (hE : ExactWrap lo hi x) (fuel : Nat) :
    wrapUpD fuel lo (roundDouble (hi - lo)) x = wrapUp fuel lo (hi - lo) x ∧
    ∀ x1, wrapUp fuel lo (hi - lo) x = some x1 →
      wrapDownD fuel hi (roundDouble (hi - lo)) x1 = wrapDown fuel hi (hi - lo) x1 := by
  have hW : 0 < hi - lo := by linarith
  obtain ⟨hw, hall⟩ := hE
  have hw' : roundDouble (hi - lo) = hi - lo := hw
  rw [hw']
  constructor
  · refine wrapUpD_exact lo (hi - lo) fuel x (fun j hj => ?_)
    have := hall ((j : ℤ) + 1) (by
      push_cast
      have : 0 ≤ ((j : ℚ) + 1) * (hi - lo) := by positivity
      exact le_trans (min_le_left _ _) (by linarith)) (by
      push_cast
      refine le_trans ?_ (le_max_right _ _)
      linarith)
    push_cast at this
    exact this
  · intro x1 h1
    obtain ⟨r1, r2⟩ := wrapUp_result lo (hi - lo) hW fuel x x1 h1
    refine wrapDownD_exact hi (hi - lo) fuel x1 (fun j hj => ?_)
    have hjn : (0 : ℚ) ≤ (j : ℚ) * (hi - lo) := by positivity
    by_cases hx : x < lo
    · have := r2 hx
      linarith
    · have hx1 : x1 = x := r1 (not_lt.1 hx)
      subst hx1
      have := hall (-((j : ℤ) + 1)) (by
        push_cast
        refine le_trans (min_le_right _ _) ?_
        linarith) (by
        push_cast
        refine le_trans ?_ (le_max_left _ _)
        have : 0 ≤ ((j : ℚ) + 1) * (hi - lo) := by positivity
        linarith)
      push_cast at this
      have e : x1 + -((j : ℚ) + 1) * (hi - lo) = x1 - ((j : ℚ) + 1) * (hi - lo) := by ring
      rw [e] at this
      exact this

/-! ## The edge blocks in double arithmetic under `WRAP` -/

theorem edgeXLD_wrap (fuel : Nat) (draws : Nat → ℚ) (P : Nat) (b : Bnd)
    (h : b.sim.xLBound = BType.WRAP) :
    edgeXLD fuel draws P b =
      (wrapUpD fuel b.sim.left (roundDouble (b.sim.right - b.sim.left)) b.pos.x).map fun x =>
        { b with pos := ⟨x, b.pos.y⟩ } := by
  simp only [edgeXLD, h]

theorem edgeXRD_wrap (fuel : Nat) (draws : Nat → ℚ) (P : Nat) (b : Bnd)
    (h : b.sim.xRBound = BType.WRAP) :
    edgeXRD fuel draws P b =
      (wrapDownD fuel b.sim.right (roundDouble (b.sim.right - b.sim.left)) b.pos.x).map fun x =>
        { b with pos := ⟨x, b.pos.y⟩ } := by
  simp only [edgeXRD, h]

theorem edgeYBD_wrap (fuel : Nat) (draws : Nat → ℚ) (P : Nat) (b : Bnd)
    (h : b.sim.yBBound = BType.WRAP) :
    edgeYBD fuel draws P b =
      (wrapUpD fuel b.sim.bottom (roundDouble (b.sim.top - b.sim.bottom)) b.pos.y).map fun y =>
        { b with sim := markTime b.sim, pos := ⟨b.pos.x, y⟩ } := by
  simp only [edgeYBD, h]

theorem edgeYTD_wrap (fuel : Nat) (draws : Nat → ℚ) (P : Nat) (b : Bnd)
    (h : b.sim.yTBound = BType.WRAP) :
    edgeYTD fuel draws P b =
      (wrapDownD fuel b.sim.top (roundDouble (b.sim.top - b.sim.bottom)) b.pos.y).map fun y =>
        { b with pos := ⟨b.pos.x, y⟩ } := by
  simp only [edgeYTD, h]

/-- With both x edges `WRAP`, the two x-edge blocks in double arithmetic are the
two wrap loops. -/
theorem edgesXD_wrap (fuel : Nat) (draws : Nat → ℚ) (P : Nat) (b : Bnd)
    (hxL : b.sim.xLBound = BType.WRAP) (hxR : b.sim.xRBound = BType.WRAP) :
    edgesXD fuel draws P b =
      (wrapUpD fuel b.sim.left (roundDouble (b.sim.right - b.sim.left)) b.pos.x).bind fun x1 =>
      (wrapDownD fuel b.sim.right (roundDouble (b.sim.right - b.sim.left)) x1).map fun x2 =>
        { b with pos := ⟨x2, b.pos.y⟩ } := by
  unfold edgesXD
  rw [edgeXLD_wrap _ _ _ _ hxL]
  cases h1 : wrapUpD fuel b.sim.left (roundDouble (b.sim.right - b.sim.left)) b.pos.x with
  | none => simp [h1]
  | some x1 =>
    simp only [h1, Option.map_some', Option.some_bind]
    exact edgeXRD_wrap fuel draws P ⟨b.sim, ⟨x1, b.pos.y⟩, b.rng⟩ hxR

/-- With all four edges `WRAP`, the boundary handling in double arithmetic is
the four wrap loops in sequence, one time mark, and the store of the final
position. -/
theorem updateBoundaryD_allWrap (s : Simulator) (draws : Nat → ℚ) (k P fuel : Nat)
    (hxL : s.xLBound = BType.WRAP) (hxR : s.xRBound = BType.WRAP)
    (hyB : s.yBBound = BType.WRAP) (hyT : s.yTBound = BType.WRAP) :
    updateBoundaryD fuel draws s k P =
      (wrapUpD fuel s.left (roundDouble (s.right - s.left)) (s.heap P).position.x).bind fun x1 =>
      (wrapDownD fuel s.right (roundDouble (s.right - s.left)) x1).bind fun x2 =>
      (wrapUpD fuel s.bottom (roundDouble (s.top - s.bottom)) (s.heap P).position.y).bind
        fun y1 =>
      (wrapDownD fuel s.top (roundDouble (s.top - s.bottom)) y1).map fun y2 =>
        storePos ⟨markTime s, ⟨x2, y2⟩, k⟩ P := by
  unfold updateBoundaryD edgesXD edgesYD
  rw [edgeXLD_wrap _ _ _ _ hxL]
  cases h1 : wrapUpD fuel s.left (roundDouble (s.right - s.left)) (s.heap P).position.x with
  | none => simp [h1]
  | some x1 =>
    simp only [h1, Option.map_some', Option.some_bind]
    rw [edgeXRD_wrap _ _ _ _ hxR]
    cases h2 : wrapDownD fuel s.right (roundDouble (s.right - s.left)) x1 with
    | none => simp [h2]
    | some x2 =>
      simp only [h2, Option.map_some', Option.some_bind]
      rw [edgeYBD_wrap _ _ _ _ hyB]
      cases h3 : wrapUpD fuel s.bottom (roundDouble (s.top - s.bottom))
          (s.heap P).position.y with
      | none => simp [h3]
      | some y1 =>
        simp only [h3, Option.map_some', Option.some_bind]
        rw [edgeYTD_wrap _ _ _ _ (by simpa [markTime] using hyT)]
        cases h4 : wrapDownD fuel s.top (roundDouble (s.top - s.bottom)) y1 with
        | none => simp [markTime, h4]
        | some y2 => simp [markTime, h4]

theorem wrapDownD_once (hi w x : ℚ) (fuel : Nat) (hf : 2 ≤ fuel) (h1 : hi < x)
    (h2 : roundDouble (x - w) ≤ hi) : wrapDownD fuel hi w x = some (roundDouble (x - w)) := by
  obtain ⟨f, rfl⟩ : ∃ f, fuel = f + 2 := ⟨fuel - 2, by omega⟩
  rw [wrapDownD, if_pos h1, wrapDownD, if_neg (not_lt.2 h2)]

theorem wrapUpD_once (lo w x : ℚ) (fuel : Nat) (hf : 2 ≤ fuel) (h1 : x < lo)
    (h2 : lo ≤ roundDouble (x + w)) : wrapUpD fuel lo w x = some (roundDouble (x + w)) := by
  obtain ⟨f, rfl⟩ : ∃ f, fuel = f + 2 := ⟨fuel - 2, by omega⟩
  rw [wrapUpD, if_pos h1, wrapUpD, if_neg (not_lt.2 h2)]

theorem roundDouble_one_sub_zero : roundDouble (1 - 0) = 1 := by
  rw [roundDouble_eval (1 - 0) 0 (2 ^ 52) (by norm_num) (by norm_num) (by norm_num)
    (by norm_num [roundNE])]
  norm_num

/-- With all four edges `WRAP`, a position with `left ≤ x` and
`bottom ≤ y ≤ top` is handled by the right-edge loop alone. -/
theorem updateBoundaryD_rightLoop (s : Simulator) (draws : Nat → ℚ) (k P : Nat)
    (hxL : s.xLBound = BType.WRAP) (hxR : s.xRBound = BType.WRAP)
    (hyB : s.yBBound = BType.WRAP) (hyT : s.yTBound = BType.WRAP)
    (hx : s.left ≤ (s.heap P).position.x)
    (hy1 : s.bottom ≤ (s.heap P).position.y) (hy2 : (s.heap P).position.y ≤ s.top)
    (fuel : Nat) (hf : 1 ≤ fuel) :
    updateBoundaryD fuel draws s k P =
      (wrapDownD fuel s.right (roundDouble (s.right - s.left)) (s.heap P).position.x).map
        fun x' => storePos ⟨markTime s, ⟨x', (s.heap P).position.y⟩, k⟩ P := by
  rw [updateBoundaryD_allWrap s draws k P fuel hxL hxR hyB hyT,
    wrapUpD_of_ge _ _ _ fuel hf hx]
  simp only [Option.some_bind]
  cases hd : wrapDownD fuel s.right (roundDouble (s.right - s.left)) (s.heap P).position.x with
  | none => rfl
  | some x' =>
    simp only [Option.some_bind, Option.map_some']
    rw [wrapUpD_of_ge _ _ _ fuel hf hy1]
    simp only [Option.some_bind]
    rw [wrapDownD_of_le _ _ _ fuel hf hy2]
    rfl

/-- One move along x followed by the x-edge blocks under `WRAP`, in double
arithmetic, for a moved position not below `left`: it stays where it is when
it is not beyond `right`, and is taken back by one width when that suffices. -/
theorem moveAndWrapXD_step (s : Simulator) (draws : Nat → ℚ) (k P fuel : Nat) (x yy d : ℚ)
    (hxL : s.xLBound = BType.WRAP) (hxR : s.xRBound = BType.WRAP) (hf : 2 ≤ fuel)
    (hge : s.left ≤ roundDouble (x + d)) :
    (roundDouble (x + d) ≤ s.right →
      moveAndWrapXD fuel draws P ⟨s, ⟨x, yy⟩, k⟩ d = some ⟨s, ⟨roundDouble (x + d), yy⟩, k⟩) ∧
    (s.right < roundDouble (x + d) →
      roundDouble (roundDouble (x + d) - roundDouble (s.right - s.left)) ≤ s.right →
      moveAndWrapXD fuel draws P ⟨s, ⟨x, yy⟩, k⟩ d =
        some ⟨s, ⟨roundDouble (roundDouble (x + d) - roundDouble (s.right - s.left)), yy⟩,
          k⟩) := by
  constructor
  · intro hle
    rw [moveAndWrapXD, edgesXD_wrap _ _ _ _ hxL hxR]
    simp only []
    rw [wrapUpD_of_ge _ _ _ fuel (by omega) hge]
    simp only [Option.some_bind]
    rw [wrapDownD_of_le _ _ _ fuel (by omega) hle]
    rfl
  · intro hgt hle
    rw [moveAndWrapXD, edgesXD_wrap _ _ _ _ hxL hxR]
    simp only []
    rw [wrapUpD_of_ge _ _ _ fuel (by omega) hge]
    simp only [Option.some_bind]
    rw [wrapDownD_once _ _ _ fuel hf hgt hle]
    rfl

/-! ## Cells in double arithmetic -/

/-- From `2^31` on the conversion overflows. -/
theorem castInt32_overflow {q : ℚ} (h : 2 ^ 31 ≤ q) : castInt32 q = -(2 ^ 31) := by
  unfold castInt32
  rw [if_neg (fun hc => absurd hc.2 (not_lt.2 h))]

theorem cellCoord_unit_half : cellCoord 0 1 10 (1/2) = 5 := by
  have b1 : roundDouble ((1/2 : ℚ) - 0) = 1/2 := by
    rw [roundDouble_eval _ (-1) (2 ^ 52) (by norm_num) (by norm_num [abs_of_pos])
      (by norm_num [abs_of_pos]) (by norm_num [roundNE])]
    norm_num
  have b3 : roundDouble ((1/2 : ℚ) / 1) = 1/2 := by
    rw [roundDouble_eval _ (-1) (2 ^ 52) (by norm_num) (by norm_num [abs_of_pos])
      (by norm_num [abs_of_pos]) (by norm_num [roundNE])]
    norm_num
  have b4 : roundDouble ((1/2 : ℚ) * ((10 : ℕ) : ℚ)) = 5 := by
    rw [roundDouble_eval _ 2 (5 * 2 ^ 50) (by norm_num) (by norm_num [abs_of_pos])
      (by norm_num [abs_of_pos]) (by norm_num [roundNE])]
    norm_num
  rw [cellCoord, b1, roundDouble_one_sub_zero, b3, b4]

theorem cellCoord_nearRightEdge_x0 : cellCoord (-1) 1 10 (1 - 1 / 2 ^ 53) = 10 := by
  have a1 : roundDouble ((1 - 1 / 2 ^ 53) - (-1)) = 2 := by
    rw [roundDouble_eval _ 0 (2 ^ 53) (by norm_num) (by norm_num [abs_of_pos])
      (by norm_num [abs_of_pos]) (by norm_num [roundNE])]
    norm_num
  have a2 : roundDouble (1 - (-1)) = 2 := by
    rw [roundDouble_eval _ 1 (2 ^ 52) (by norm_num) (by norm_num [abs_of_pos])
      (by norm_num [abs_of_pos]) (by norm_num [roundNE])]
    norm_num
  have a3 : roundDouble (2 / 2) = 1 := by
    rw [roundDouble_eval _ 0 (2 ^ 52) (by norm_num) (by norm_num [abs_of_pos])
      (by norm_num [abs_of_pos]) (by norm_num [roundNE])]
    norm_num
  have a4 : roundDouble (1 * ((10 : ℕ) : ℚ)) = 10 := by
    rw [roundDouble_eval _ 3 (5 * 2 ^ 50) (by norm_num) (by norm_num [abs_of_pos])
      (by norm_num [abs_of_pos]) (by norm_num [roundNE])]
    norm_num
  rw [cellCoord, a1, a2, a3, a4]

theorem cellCoord_nearRightEdge_x1 : cellCoord (-1) 1 10 (7/8) = 75/8 := by
  have a1 : roundDouble ((7/8 : ℚ) - (-1)) = 15/8 := by
    rw [roundDouble_eval _ 0 (15 * 2 ^ 49) (by norm_num) (by norm_num [abs_of_pos])
      (by norm_num [abs_of_pos]) (by norm_num [roundNE])]
    norm_num
  have a2 : roundDouble (1 - (-1)) = 2 := by
    rw [roundDouble_eval _ 1 (2 ^ 52) (by norm_num) (by norm_num [abs_of_pos])
      (by norm_num [abs_of_pos]) (by norm_num [roundNE])]
    norm_num
  have a3 : roundDouble ((15/8 : ℚ) / 2) = 15/16 := by
    rw [roundDouble_eval _ (-1) (15 * 2 ^ 49) (by norm_num) (by norm_num [abs_of_pos])
      (by norm_num [abs_of_pos]) (by norm_num [roundNE])]
    norm_num
  have a4 : roundDouble ((15/16 : ℚ) * ((10 : ℕ) : ℚ)) = 75/8 := by
    rw [roundDouble_eval _ 3 (75 * 2 ^ 46) (by norm_num) (by norm_num [abs_of_pos])
      (by norm_num [abs_of_pos]) (by norm_num [roundNE])]
    norm_num
  rw [cellCoord, a1, a2, a3, a4]

theorem cellCoord_unit_sixteenth : cellCoord 0 1 10 (1/16) = 5/8 := by
  have a1 : roundDouble ((1/16 : ℚ) - 0) = 1/16 := by
    rw [roundDouble_eval _ (-4) (2 ^ 52) (by norm_num) (by norm_num [abs_of_pos])
      (by norm_num [abs_of_pos]) (by norm_num [roundNE])]
    norm_num
  have a3 : roundDouble ((1/16 : ℚ) / 1) = 1/16 := by
    rw [roundDouble_eval _ (-4) (2 ^ 52) (by norm_num) (by norm_num [abs_of_pos])
      (by norm_num [abs_of_pos]) (by norm_num [roundNE])]
    norm_num
  have a4 : roundDouble ((1/16 : ℚ) * ((10 : ℕ) : ℚ)) = 5/8 := by
    rw [roundDouble_eval _ (-1) (5 * 2 ^ 50) (by norm_num) (by norm_num [abs_of_pos])
      (by norm_num [abs_of_pos]) (by norm_num [roundNE])]
    norm_num
  rw [cellCoord, a1, roundDouble_one_sub_zero, a3, a4]

theorem cellCoord_unit_last : cellCoord 0 1 10 (31/32) = 155/16 := by
  have a1 : roundDouble ((31/32 : ℚ) - 0) = 31/32 := by
    rw [roundDouble_eval _ (-1) (31 * 2 ^ 48) (by norm_num) (by norm_num [abs_of_pos])
      (by norm_num [abs_of_pos]) (by norm_num [roundNE])]
    norm_num
  have a3 : roundDouble ((31/32 : ℚ) / 1) = 31/32 := by
    rw [roundDouble_eval _ (-1) (31 * 2 ^ 48) (by norm_num) (by norm_num [abs_of_pos])
      (by norm_num [abs_of_pos]) (by norm_num [roundNE])]
    norm_num
  have a4 : roundDouble ((31/32 : ℚ) * ((10 : ℕ) : ℚ)) = 155/16 := by
    rw [roundDouble_eval _ 3 (155 * 2 ^ 45) (by norm_num) (by norm_num [abs_of_pos])
      (by norm_num [abs_of_pos]) (by norm_num [roundNE])]
    norm_num
  rw [cellCoord, a1, roundDouble_one_sub_zero, a3, a4]

/-! ## The particle updates in double arithmetic keep the set-up -/

theorem edgeXLD_kept (fuel : Nat) (draws : Nat → ℚ) (P : Nat) (b b' : Bnd)
    (h : edgeXLD fuel draws P b = some b') : SameSetup b.sim b'.sim := by
  unfold edgeXLD at h
  split at h
  · obtain ⟨x, _, rfl⟩ := Option.map_eq_some'.1 h
    exact sameSetup_refl _
  · exact edgeXL_kept _ _ _ _ _ h
  · exact edgeXL_kept _ _ _ _ _ h

theorem edgeXRD_kept (fuel : Nat) (draws : Nat → ℚ) (P : Nat) (b b' : Bnd)
    (h : edgeXRD fuel draws P b = some b') : SameSetup b.sim b'.sim := by
  unfold edgeXRD at h
  split at h
  · obtain ⟨x, _, rfl⟩ := Option.map_eq_some'.1 h
    exact sameSetup_refl _
  · exact edgeXR_kept _ _ _ _ _ h
  · exact edgeXR_kept _ _ _ _ _ h

theorem edgeYBD_kept (fuel : Nat) (draws : Nat → ℚ) (P : Nat) (b b' : Bnd)
    (h : edgeYBD fuel draws P b = some b') : SameSetup b.sim b'.sim := by
  unfold edgeYBD at h
  split at h
  · obtain ⟨x, _, rfl⟩ := Option.map_eq_some'.1 h
    exact sameSetup_markTime _
  · exact edgeYB_kept _ _ _ _ _ h
  · exact edgeYB_kept _ _ _ _ _ h

theorem edgeYTD_kept (fuel : Nat) (draws : Nat → ℚ) (P : Nat) (b b' : Bnd)
    (h : edgeYTD fuel draws P b = some b') : SameSetup b.sim b'.sim := by
  unfold edgeYTD at h
  split at h
  · obtain ⟨x, _, rfl⟩ := Option.map_eq_some'.1 h
    exact sameSetup_refl _
  · exact edgeYT_kept _ _ _ _ _ h
  · exact edgeYT_kept _ _ _ _ _ h

/-- Whatever the boundary handling in double arithmetic returns has the set-up
it started from. -/
theorem updateBoundaryD_kept (fuel : Nat) (draws : Nat → ℚ) (s : Simulator) (k P : Nat)
    (r : Simulator × Nat) (h : updateBoundaryD fuel draws s k P = some r) :
    SameSetup s r.1 := by
  unfold updateBoundaryD at h
  obtain ⟨b4, h4, rfl⟩ := Option.map_eq_some'.1 h
  obtain ⟨b2, h2, h34⟩ := Option.bind_eq_some.1 h4
  unfold edgesXD at h2
  obtain ⟨b1, h1, h12⟩ := Option.bind_eq_some.1 h2
  unfold edgesYD at h34
  obtain ⟨b3, h3, h344⟩ := Option.bind_eq_some.1 h34
  have k1 := edgeXLD_kept _ _ _ _ _ h1
  have k2 := edgeXRD_kept _ _ _ _ _ h12
  have k3 := edgeYBD_kept _ _ _ _ _ h3
  have k4 := edgeYTD_kept _ _ _ _ _ h344
  have k5 : SameSetup b4.sim (storePos b4 P).1 :=
    ⟨rfl, rfl, rfl, rfl, rfl, rfl, rfl, rfl, rfl, rfl, rfl, rfl, rfl, rfl⟩
  exact sameSetup_trans (sameSetup_trans (sameSetup_trans (sameSetup_trans k1 k2) k3) k4) k5

theorem updateD_kept (fuel : Nat) (draws : Nat → ℚ) (integrate : Particle → ℚ → Particle)
    (s : Simulator) (k P : Nat) (r : Simulator × Nat)
    (h : updateD fuel draws integrate s k P = some r) : SameSetup s r.1 := by
  unfold updateD at h
  have k1 := updateBoundaryD_kept _ _ _ _ _ _ h
  have k0 : SameSetup s
      { s with heap := Function.update s.heap P (integrate (s.heap P) s.epsilon) } :=
    ⟨rfl, rfl, rfl, rfl, rfl, rfl, rfl, rfl, rfl, rfl, rfl, rfl, rfl, rfl⟩
  exact sameSetup_trans k0 k1

theorem updateAllD_kept (fuel : Nat) (draws : Nat → ℚ) (integrate : Particle → ℚ → Particle)
    (l : List Nat) : ∀ (st r : Simulator × Nat),
      updateAllD fuel draws integrate l st = some r → SameSetup st.1 r.1 := by
  induction l with
  | nil =>
    intro st r h
    simp only [updateAllD] at h
    cases h
    exact sameSetup_refl _
  | cons P rest ih =>
    intro st r h
    simp only [updateAllD] at h
    obtain ⟨m, h1, h2⟩ := Option.bind_eq_some.1 h
    exact sameSetup_trans (updateD_kept _ _ _ _ _ _ _ h1) (ih m r h2)

/-! ## Particles that cross no edge -/

theorem edgeXLD_inside (fuel : Nat) (draws : Nat → ℚ) (P : Nat) (b : Bnd) (hf : 1 ≤ fuel)
    (h1 : b.sim.left ≤ b.pos.x) (h2 : 0 ≤ b.pos.x) : edgeXLD fuel draws P b = some b := by
  unfold edgeXLD
  split
  · rw [wrapUpD_of_ge _ _ _ fuel hf h1]
    rfl
  · next hm => simp only [edgeXL, hm, if_neg (not_lt.2 h2)]
  · next hm => simp only [edgeXL, hm]

theorem edgeXRD_inside (fuel : Nat) (draws : Nat → ℚ) (P : Nat) (b : Bnd) (hf : 1 ≤ fuel)
    (h1 : b.pos.x ≤ b.sim.right) : edgeXRD fuel draws P b = some b := by
  unfold edgeXRD
  split
  · rw [wrapDownD_of_le _ _ _ fuel hf h1]
    rfl
  · next hm => simp only [edgeXR, hm, if_neg (not_lt.2 h1)]
  · next hm => simp only [edgeXR, hm]

theorem edgeYBD_inside (fuel : Nat) (draws : Nat → ℚ) (P : Nat) (b : Bnd) (hf : 1 ≤ fuel)
    (h1 : b.sim.bottom ≤ b.pos.y) (h2 : 0 ≤ b.pos.y) :
    edgeYBD fuel draws P b =
      some { b with sim := if b.sim.yBBound = BType.WRAP then markTime b.sim else b.sim } := by
  unfold edgeYBD
  split
  · next hm =>
    rw [wrapUpD_of_ge _ _ _ fuel hf h1, if_pos hm]
    rfl
  · next hm =>
    rw [if_neg (by rw [hm]; exact fun h => by cases h)]
    simp only [edgeYB, hm, if_neg (not_lt.2 h2)]
  · next hm =>
    rw [if_neg (by rw [hm]; exact fun h => by cases h)]
    simp only [edgeYB, hm]

theorem edgeYTD_inside (fuel : Nat) (draws : Nat → ℚ) (P : Nat) (b : Bnd) (hf : 1 ≤ fuel)
    (h1 : b.pos.y ≤ b.sim.top) : edgeYTD fuel draws P b = some b := by
  unfold edgeYTD
  split
  · rw [wrapDownD_of_le _ _ _ fuel hf h1]
    rfl
  · next hm => simp only [edgeYT, hm, if_neg (not_lt.2 h1)]
  · next hm => simp only [edgeYT, hm]

/-- The boundary handling of a position inside the domain: no block acts (the
bottom block under `WRAP` still marks the time), and the position is stored
as it is. -/
theorem updateBoundaryD_inside (fuel : Nat) (draws : Nat → ℚ) (s : Simulator) (k P : Nat)
    (hf : 1 ≤ fuel) (h : Inside s (s.heap P).position) :
    updateBoundaryD fuel draws s k P =
      some (storePos ⟨if s.yBBound = BType.WRAP then markTime s else s,
        (s.heap P).position, k⟩ P) := by
  obtain ⟨a1, a2, a3, a4, a5, a6⟩ := h
  unfold updateBoundaryD edgesXD edgesYD
  rw [edgeXLD_inside fuel draws P _ hf a1 a2]
  simp only [Option.some_bind]
  rw [edgeXRD_inside fuel draws P _ hf a3]
  simp only [Option.some_bind]
  rw [edgeYBD_inside fuel draws P _ hf a4 a5]
  simp only [Option.some_bind]
  rw [edgeYTD_inside fuel draws P _ hf (by
    show (s.heap P).position.y ≤ (if s.yBBound = BType.WRAP then markTime s else s).top
    split
    · exact a6
    · exact a6)]
  rfl

/-- The update of a particle whose integrated position is inside the domain
returns, and changes the heap at this particle only. -/
theorem updateD_inside (fuel : Nat) (draws : Nat → ℚ) (integrate : Particle → ℚ → Particle)
    (s : Simulator) (k P : Nat) (hf : 1 ≤ fuel)
    (h : Inside s (integrate (s.heap P) s.epsilon).position) :
    ∃ r, updateD fuel draws integrate s k P = some r ∧
      ∀ Q, Q ≠ P → r.1.heap Q = s.heap Q := by
  have h' : Inside { s with heap := Function.update s.heap P (integrate (s.heap P) s.epsilon) }
      (({ s with heap := Function.update s.heap P (integrate (s.heap P) s.epsilon) } :
        Simulator).heap P).position := by
    simpa only [Function.update_same] using h
  refine ⟨_, updateBoundaryD_inside fuel draws _ k P hf h', fun Q hQ => ?_⟩
  simp only [storePos]
  split <;> simp [markTime, Function.update_noteq hQ]

/-- The loop over a particle list without repetition whose integrated positions
are all inside the domain returns with any fuel from 1 on. -/
theorem updateAllD_inside (fuel : Nat) (draws : Nat → ℚ)
    (integrate : Particle → ℚ → Particle) (hf : 1 ≤ fuel) (l : List Nat) :
    ∀ (st : Simulator × Nat), l.Nodup →
      (∀ P ∈ l, Inside st.1 (integrate (st.1.heap P) st.1.epsilon).position) →
      ∃ r, updateAllD fuel draws integrate l st = some r := by
  induction l with
  | nil =>
    intro st _ _
    exact ⟨st, rfl⟩
  | cons P rest ih =>
    intro st hnd hin
    obtain ⟨r1, hr1, hheap⟩ := updateD_inside fuel draws integrate st.1 st.2 P hf
      (hin P (List.mem_cons_self _ _))
    obtain ⟨e1, e2, e3, e4, _, _, _, _, _, _, _, _, e13, _⟩ := updateD_kept _ _ _ _ _ _ _ hr1
    have hnd' := List.nodup_cons.1 hnd
    obtain ⟨r, hr⟩ := ih r1 hnd'.2 (fun Q hQ => by
      have hne : Q ≠ P := fun h => hnd'.1 (h ▸ hQ)
      have := hin Q (List.mem_cons_of_mem _ hQ)
      rw [hheap Q hne, e13]
      exact ⟨by rw [e1]; exact this.1, this.2.1, by rw [e2]; exact this.2.2.1,
        by rw [e3]; exact this.2.2.2.1, this.2.2.2.2.1, by rw [e4]; exact this.2.2.2.2.2⟩)
    refine ⟨r, ?_⟩
    simp only [updateAllD]
    rw [hr1]
    exact hr

/-! ## Domains without a `WRAP` edge -/

theorem edgeXLD_noWrap (fuel : Nat) (draws : Nat → ℚ) (P : Nat) (b : Bnd)
    (h : b.sim.xLBound ≠ BType.WRAP) : ∃ b', edgeXLD fuel draws P b = some b' := by
  unfold edgeXLD
  split
  · next hm => exact absurd hm h
  · next hm =>
    by_cases hx : b.pos.x < 0
    · exact ⟨_, by simp only [edgeXL, hm, if_pos hx]; rfl⟩
    · exact ⟨_, by simp only [edgeXL, hm, if_neg hx]; rfl⟩
  · next hm => exact ⟨_, by simp only [edgeXL, hm]; rfl⟩

theorem edgeXRD_noWrap (fuel : Nat) (draws : Nat → ℚ) (P : Nat) (b : Bnd)
    (h : b.sim.xRBound ≠ BType.WRAP) : ∃ b', edgeXRD fuel draws P b = some b' := by
  unfold edgeXRD
  split
  · next hm => exact absurd hm h
  · next hm =>
    by_cases hx : b.pos.x > b.sim.right
    · exact ⟨_, by simp only [edgeXR, hm, if_pos hx]; rfl⟩
    · exact ⟨_, by simp only [edgeXR, hm, if_neg hx]; rfl⟩
  · next hm => exact ⟨_, by simp only [edgeXR, hm]; rfl⟩

theorem edgeYBD_noWrap (fuel : Nat) (draws : Nat → ℚ) (P : Nat) (b : Bnd)
    (h : b.sim.yBBound ≠ BType.WRAP) : ∃ b', edgeYBD fuel draws P b = some b' := by
  unfold edgeYBD
  split
  · next hm => exact absurd hm h
  · next hm =>
    by_cases hy : b.pos.y < 0
    · exact ⟨_, by simp only [edgeYB, hm, if_pos hy]; rfl⟩
    · exact ⟨_, by simp only [edgeYB, hm, if_neg hy]; rfl⟩
  · next hm => exact ⟨_, by simp only [edgeYB, hm]; rfl⟩

theorem edgeYTD_noWrap (fuel : Nat) (draws : Nat → ℚ) (P : Nat) (b : Bnd)
    (h : b.sim.yTBound ≠ BType.WRAP) : ∃ b', edgeYTD fuel draws P b = some b' := by
  unfold edgeYTD
  split
  · next hm => exact absurd hm h
  · next hm =>
    by_cases hy : b.pos.y > b.sim.top
    · exact ⟨_, by simp only [edgeYT, hm, if_pos hy]; rfl⟩
    · exact ⟨_, by simp only [edgeYT, hm, if_neg hy]; rfl⟩
  · next hm => exact ⟨_, by simp only [edgeYT, hm]; rfl⟩

/-- Without a `WRAP` edge the boundary handling returns, whatever the fuel. -/
theorem updateBoundaryD_noWrap (fuel : Nat) (draws : Nat → ℚ) (s : Simulator) (k P : Nat)
    (hxL : s.xLBound ≠ BType.WRAP) (hxR : s.xRBound ≠ BType.WRAP)
    (hyB : s.yBBound ≠ BType.WRAP) (hyT : s.yTBound ≠ BType.WRAP) :
    ∃ r, updateBoundaryD fuel draws s k P = some r := by
  obtain ⟨b1, h1⟩ := edgeXLD_noWrap fuel draws P ⟨s, (s.heap P).position, k⟩ hxL
  obtain ⟨_, _, _, _, _, a6, a7, a8, _⟩ := edgeXLD_kept _ _ _ _ _ h1
  obtain ⟨b2, h2⟩ := edgeXRD_noWrap fuel draws P b1 (by rw [a6]; exact hxR)
  obtain ⟨_, _, _, _, _, _, c7, c8, _⟩ := edgeXRD_kept _ _ _ _ _ h2
  obtain ⟨b3, h3⟩ := edgeYBD_noWrap fuel draws P b2 (by rw [c7, a7]; exact hyB)
  obtain ⟨_, _, _, _, _, _, _, d8, _⟩ := edgeYBD_kept _ _ _ _ _ h3
  obtain ⟨b4, h4⟩ := edgeYTD_noWrap fuel draws P b3 (by rw [d8, c8, a8]; exact hyT)
  refine ⟨storePos b4 P, ?_⟩
  unfold updateBoundaryD edgesXD edgesYD
  rw [h1]
  simp only [Option.some_bind]
  rw [h2]
  simp only [Option.some_bind]
  rw [h3]
  simp only [Option.some_bind]
  rw [h4]
  rfl

/-- Without a `WRAP` edge the loop over the particle list returns, whatever the
fuel. -/
theorem updateAllD_noWrap (fuel : Nat) (draws : Nat → ℚ)
    (integrate : Particle → ℚ → Particle) (l : List Nat) :
    ∀ (st : Simulator × Nat), st.1.xLBound ≠ BType.WRAP → st.1.xRBound ≠ BType.WRAP →
      st.1.yBBound ≠ BType.WRAP → st.1.yTBound ≠ BType.WRAP →
      ∃ r, updateAllD fuel draws integrate l st = some r := by
  induction l with
  | nil =>
    intro st _ _ _ _
    exact ⟨st, rfl⟩
  | cons P rest ih =>
    intro st hxL hxR hyB hyT
    obtain ⟨r1, hr1⟩ := updateBoundaryD_noWrap fuel draws
      { st.1 with heap := Function.update st.1.heap P (integrate (st.1.heap P) st.1.epsilon) }
      st.2 P hxL hxR hyB hyT
    have hr1' : updateD fuel draws integrate st.1 st.2 P = some r1 := hr1
    obtain ⟨_, _, _, _, e5, e6, e7, e8, _⟩ := updateD_kept _ _ _ _ _ _ _ hr1'
    obtain ⟨r, hr⟩ := ih r1 (by rw [e5]; exact hxL) (by rw [e6]; exact hxR)
      (by rw [e7]; exact hyB) (by rw [e8]; exact hyT)
    refine ⟨r, ?_⟩
    simp only [updateAllD]
    rw [hr1']
    exact hr

/-! ## Reinjection in double arithmetic when no wrap loop has to run -/

/-- The left-edge block in double arithmetic is the block in exact arithmetic
when a `WRAP` edge finds the position already on its inner side. -/
theorem edgeXLD_eq (fuel N : Nat) (draws : Nat → ℚ) (P : Nat) (b : Bnd) (hf : 1 ≤ fuel)
    (hN : 1 ≤ N) (h : b.sim.xLBound = BType.WRAP → b.sim.left ≤ b.pos.x) :
    edgeXLD fuel draws P b = edgeXL N draws P b := by
  unfold edgeXLD
  split
  · next hm =>
    rw [edgeXL_wrap _ _ _ _ hm, wrapUpD_of_ge _ _ _ fuel hf (h hm),
      wrapUp_of_ge _ _ _ N hN (h hm)]
  · next hm => simp only [edgeXL, hm]
  · next hm => simp only [edgeXL, hm]

theorem edgeXRD_eq (fuel N : Nat) (draws : Nat → ℚ) (P : Nat) (b : Bnd) (hf : 1 ≤ fuel)
    (hN : 1 ≤ N) (h : b.sim.xRBound = BType.WRAP → b.pos.x ≤ b.sim.right) :
    edgeXRD fuel draws P b = edgeXR N draws P b := by
  unfold edgeXRD
  split
  · next hm =>
    rw [edgeXR_wrap _ _ _ _ hm, wrapDownD_of_le _ _ _ fuel hf (h hm),
      wrapDown_of_le _ _ _ N hN (h hm)]
  · next hm => simp only [edgeXR, hm]
  · next hm => simp only [edgeXR, hm]

theorem edgeYBD_eq (fuel N : Nat) (draws : Nat → ℚ) (P : Nat) (b : Bnd) (hf : 1 ≤ fuel)
    (hN : 1 ≤ N) (h : b.sim.yBBound = BType.WRAP → b.sim.bottom ≤ b.pos.y) :
    edgeYBD fuel draws P b = edgeYB N draws P b := by
  unfold edgeYBD
  split
  · next hm =>
    rw [edgeYB_wrap _ _ _ _ hm, wrapUpD_of_ge _ _ _ fuel hf (h hm),
      wrapUp_of_ge _ _ _ N hN (h hm)]
  · next hm => simp only [edgeYB, hm]
  · next hm => simp only [edgeYB, hm]

theorem edgeYTD_eq (fuel N : Nat) (draws : Nat → ℚ) (P : Nat) (b : Bnd) (hf : 1 ≤ fuel)
    (hN : 1 ≤ N) (h : b.sim.yTBound = BType.WRAP → b.pos.y ≤ b.sim.top) :
    edgeYTD fuel draws P b = edgeYT N draws P b := by
  unfold edgeYTD
  split
  · next hm =>
    rw [edgeYT_wrap _ _ _ _ hm, wrapDownD_of_le _ _ _ fuel hf (h hm),
      wrapDown_of_le _ _ _ N hN (h hm)]
  · next hm => simp only [edgeYT, hm]
  · next hm => simp only [edgeYT, hm]

/-- What a landing block returns with enough fuel, the block in double
arithmetic returns with any fuel from 1 on, provided the two agree. -/
theorem some_of_lands_eq (f g : Nat → Option Bnd) {b : Bnd} (h : Lands f b) (fuel : Nat)
    (he : ∀ N, 1 ≤ N → g fuel = f N) : g fuel = some b := by
  obtain ⟨N, hN⟩ := h
  rw [he (max N 1) (le_max_right _ _)]
  exact hN _ (le_max_left _ _)

/-- On a domain `[0, rt] × [0, tp]` with `0 ≤ 2R < rt, tp` and draws in `[0,1)`,
for an integrated position that no wrap loop has to move, the four blocks in
double arithmetic return with any fuel from 1 on; what each block guarantees
for the local position is listed for the four stages. -/
theorem boundary_stagesD (s : Simulator) (draws : Nat → ℚ) (k P fuel : Nat) (hf : 1 ≤ fuel)
    (hl : s.left = 0) (hb : s.bottom = 0) (hr : 0 < s.right) (ht : 0 < s.top)
    (hR0 : 0 ≤ (s.heap P).radius) (hRx : 2 * (s.heap P).radius < s.right)
    (hRy : 2 * (s.heap P).radius < s.top) (hd : ∀ n, 0 ≤ draws n ∧ draws n < 1)
    (hwL : s.xLBound = BType.WRAP → 0 ≤ (s.heap P).position.x)
    (hwR : s.xRBound = BType.WRAP → (s.heap P).position.x ≤ s.right)
    (hwB : s.yBBound = BType.WRAP → 0 ≤ (s.heap P).position.y)
    (hwT : s.yTBound = BType.WRAP → (s.heap P).position.y ≤ s.top ∧
      (s.yBBound = BType.RANDOM → 0 ≤ (s.heap P).position.y)) :
    ∃ b1 b2 b3 b4 : Bnd,
      updateBoundaryD fuel draws s k P = some (storePos b4 P) ∧
      (0 ≤ (s.heap P).position.x → b1.pos = (s.heap P).position) ∧
      (s.xLBound = BType.RANDOM → (s.heap P).position.x < 0 → InBox s.right s.top b1.pos) ∧
      (InBox s.right s.top b1.pos ∨ b1.pos.y = (s.heap P).position.y) ∧
      (b1.pos.x ≤ s.right → b2.pos = b1.pos) ∧
      (s.xRBound = BType.RANDOM → s.right < b1.pos.x → InBox s.right s.top b2.pos) ∧
      (InBox s.right s.top b2.pos ∨ b2.pos.y = b1.pos.y) ∧
      (0 ≤ b2.pos.y → b3.pos = b2.pos) ∧
      (s.yBBound = BType.RANDOM → b2.pos.y < 0 → 0 ≤ b3.pos.x ∧ b3.pos.x ≤ s.right) ∧
      (b3.pos.y ≤ s.top → b4.pos = b3.pos) ∧
      (s.yTBound = BType.RANDOM → s.top < b3.pos.y → InBox s.right s.top b4.pos) ∧
      (0 ≤ b3.pos.x ∧ b3.pos.x ≤ s.right → 0 ≤ b4.pos.x ∧ b4.pos.x ≤ s.right) := by
  have hF : Frame s P s.right s.top (s.heap P).radius s.xLBound s.xRBound s.yBBound s.yTBound :=
    ⟨hl, rfl, hb, rfl, rfl, rfl, rfl, rfl, rfl⟩
  -- left edge
  obtain ⟨b1, hL1, hF1, p1a, p1b, p1c⟩ :=
    edgeXL_spec draws P ⟨s, (s.heap P).position, k⟩ _ _ _ _ _ _ _ hF hr hR0 hRy hd
  have e1 : edgeXLD fuel draws P ⟨s, (s.heap P).position, k⟩ = some b1 :=
    some_of_lands_eq (fun n => edgeXL n draws P ⟨s, (s.heap P).position, k⟩)
      (fun n => edgeXLD n draws P ⟨s, (s.heap P).position, k⟩) hL1 fuel
      (fun N hN => edgeXLD_eq fuel N draws P ⟨s, (s.heap P).position, k⟩ hf hN
        (fun hm => by
          show s.left ≤ (s.heap P).position.x
          rw [hl]; exact hwL hm))
  have n1 : s.xLBound = BType.NONE → b1.pos = (s.heap P).position := by
    intro hm
    have : edgeXLD fuel draws P ⟨s, (s.heap P).position, k⟩ =
        some ⟨s, (s.heap P).position, k⟩ := by
      simp only [edgeXLD, edgeXL, hm]
    rw [this] at e1
    rw [← Option.some.inj e1]
  obtain ⟨g1, g2, g3, g4, g5, g6, g7, g8, g9⟩ := hF1
  -- right edge
  have w2 : b1.sim.xRBound = BType.WRAP → b1.pos.x ≤ b1.sim.right := by
    intro hm
    rw [g7] at hm
    rw [g2]
    by_cases hx : 0 ≤ (s.heap P).position.x
    · rw [p1a hx]; exact hwR hm
    · push_neg at hx
      cases hmL : s.xLBound with
      | WRAP => exact absurd (hwL hmL) (not_le.2 hx)
      | RANDOM => exact (p1b hmL hx).2.1
      | NONE => rw [n1 hmL]; linarith
  obtain ⟨b2, hL2, hF2, p2a, p2b, p2c⟩ :=
    edgeXR_spec draws P b1 _ _ _ _ _ _ _ ⟨g1, g2, g3, g4, g5, g6, g7, g8, g9⟩ hr hR0 hRy hd
  have e2 : edgeXRD fuel draws P b1 = some b2 :=
    some_of_lands_eq (fun n => edgeXR n draws P b1) (fun n => edgeXRD n draws P b1) hL2 fuel
      (fun N hN => edgeXRD_eq fuel N draws P b1 hf hN w2)
  obtain ⟨q1, q2, q3, q4, q5, q6, q7, q8, q9⟩ := hF2
  -- the height after the x blocks
  have hy2lo : 0 ≤ (s.heap P).position.y → 0 ≤ b2.pos.y := by
    intro h0
    rcases p2c with h | h
    · exact h.2.2.1
    · rw [h]
      rcases p1c with h' | h'
      · exact h'.2.2.1
      · rw [h']; exact h0
  have hy2hi : (s.heap P).position.y ≤ s.top → b2.pos.y ≤ s.top := by
    intro h0
    rcases p2c with h | h
    · exact h.2.2.2
    · rw [h]
      rcases p1c with h' | h'
      · exact h'.2.2.2
      · rw [h']; exact h0
  have hy2neg : b2.pos.y < 0 → b2.pos.y = (s.heap P).position.y := by
    intro h0
    rcases p2c with h | h
    · exact absurd h.2.2.1 (not_le.2 h0)
    · rcases p1c with h' | h'
      · rw [h] at h0
        exact absurd h'.2.2.1 (not_le.2 h0)
      · rw [h, h']
  -- bottom edge
  have w3 : b2.sim.yBBound = BType.WRAP → b2.sim.bottom ≤ b2.pos.y := by
    intro hm
    rw [q8] at hm
    rw [q3]
    exact hy2lo (hwB hm)
  obtain ⟨b3, hL3, hF3, p3a, p3b⟩ :=
    edgeYB_spec draws P b2 _ _ _ _ _ _ _ ⟨q1, q2, q3, q4, q5, q6, q7, q8, q9⟩ ht hR0 hRx hd
  have e3 : edgeYBD fuel draws P b2 = some b3 :=
    some_of_lands_eq (fun n => edgeYB n draws P b2) (fun n => edgeYBD n draws P b2) hL3 fuel
      (fun N hN => edgeYBD_eq fuel N draws P b2 hf hN w3)
  have n3 : s.yBBound = BType.NONE → b3.pos = b2.pos := by
    intro hm
    have : edgeYBD fuel draws P b2 = some b2 := by
      simp only [edgeYBD, edgeYB, q8, hm]
    rw [this] at e3
    rw [← Option.some.inj e3]
  obtain ⟨u1, u2, u3, u4, u5, u6, u7, u8, u9⟩ := hF3
  -- top edge
  have w4 : b3.sim.yTBound = BType.WRAP → b3.pos.y ≤ b3.sim.top := by
    intro hm
    rw [u9] at hm
    rw [u4]
    obtain ⟨t1, t2⟩ := hwT hm
    by_cases h0 : 0 ≤ b2.pos.y
    · rw [p3a h0]
      exact hy2hi t1
    · push_neg at h0
      have hy := hy2neg h0
      cases hmB : s.yBBound with
      | WRAP => exact absurd (hwB hmB) (not_le.2 (by rw [← hy]; exact h0))
      | RANDOM => exact absurd (t2 hmB) (not_le.2 (by rw [← hy]; exact h0))
      | NONE => rw [n3 hmB]; linarith
  obtain ⟨b4, hL4, _, p4a, p4b, p4c⟩ :=
    edgeYT_spec draws P b3 _ _ _ _ _ _ _ ⟨u1, u2, u3, u4, u5, u6, u7, u8, u9⟩ ht hR0 hRx hd
  have e4 : edgeYTD fuel draws P b3 = some b4 :=
    some_of_lands_eq (fun n => edgeYT n draws P b3) (fun n => edgeYTD n draws P b3) hL4 fuel
      (fun N hN => edgeYTD_eq fuel N draws P b3 hf hN w4)
  refine ⟨b1, b2, b3, b4, ?_, p1a, p1b, p1c, p2a, p2b, p2c, p3a, p3b, p4a, p4b, p4c⟩
  unfold updateBoundaryD edgesXD edgesYD
  rw [e1]
  simp only [Option.some_bind]
  rw [e2]
  simp only [Option.some_bind]
  rw [e3]
  simp only [Option.some_bind]
  rw [e4]
  rfl

/-- Without exact wrap arithmetic the wrapped coordinate is not a translate of
the integrated one: on the unit interval the double next to `-0.1` is moved by
the upward loop to the double next to `0.9`, which lies `1 + 2^-55` above it. -/
theorem wrapUpD_rounded_step :
    IsDouble (-(3602879701896397 / 36028797018963968)) ∧
    wrapUpD 2 0 1 (-(3602879701896397 / 36028797018963968)) =
      some (8106479329266893 / 9007199254740992) ∧
    ¬ ∃ m : ℤ, (8106479329266893 / 9007199254740992 : ℚ) =
      -(3602879701896397 / 36028797018963968) + m * (1 - 0) := by
  have q : roundDouble (-(3602879701896397 / 36028797018963968) + 1) =
      8106479329266893 / 9007199254740992 := by
    rw [roundDouble_eval _ (-1) 8106479329266893 (by norm_num) (by norm_num [abs_of_pos])
      (by norm_num [abs_of_pos]) (by norm_num [roundNE])]
    norm_num
  refine ⟨?_, ?_, ?_⟩
  · exact isDouble_eval _ (-4) (-7205759403792794) (by norm_num) (by norm_num [abs_of_neg])
      (by norm_num [abs_of_neg]) (by norm_num)
  · have h := wrapUpD_once 0 1 (-(3602879701896397 / 36028797018963968)) 2 (le_refl 2)
      (by norm_num) (by rw [q]; norm_num)
    rw [q] at h
    exact h
  · rintro ⟨m, hm⟩
    have h1 : ((1 : ℤ) : ℚ) < m := by
      push_cast
      linarith
    have h2 : (m : ℚ) < ((2 : ℤ) : ℚ) := by
      push_cast
      linarith
    have a : (1 : ℤ) < m := by exact_mod_cast h1
    have b : m < (2 : ℤ) := by exact_mod_cast h2
    omega

/-! ## What the edge blocks in double arithmetic guarantee whenever they return -/

theorem edgeXLD_fuel (fuel n : Nat) (draws : Nat → ℚ) (P : Nat) (b : Bnd)
    (h : b.sim.xLBound ≠ BType.WRAP) : edgeXLD fuel draws P b = edgeXL n draws P b := by
  unfold edgeXLD
  split
  · next hm => exact absurd hm h
  · next hm => simp only [edgeXL, hm]
  · next hm => simp only [edgeXL, hm]

theorem edgeXRD_fuel (fuel n : Nat) (draws : Nat → ℚ) (P : Nat) (b : Bnd)
    (h : b.sim.xRBound ≠ BType.WRAP) : edgeXRD fuel draws P b = edgeXR n draws P b := by
  unfold edgeXRD
  split
  · next hm => exact absurd hm h
  · next hm => simp only [edgeXR, hm]
  · next hm => simp only [edgeXR, hm]

theorem edgeYBD_fuel (fuel n : Nat) (draws : Nat → ℚ) (P : Nat) (b : Bnd)
    (h : b.sim.yBBound ≠ BType.WRAP) : edgeYBD fuel draws P b = edgeYB n draws P b := by
  unfold edgeYBD
  split
  · next hm => exact absurd hm h
  · next hm => simp only [edgeYB, hm]
  · next hm => simp only [edgeYB, hm]

theorem edgeYTD_fuel (fuel n : Nat) (draws : Nat → ℚ) (P : Nat) (b : Bnd)
    (h : b.sim.yTBound ≠ BType.WRAP) : edgeYTD fuel draws P b = edgeYT n draws P b := by
  unfold edgeYTD
  split
  · next hm => exact absurd hm h
  · next hm => simp only [edgeYT, hm]
  · next hm => simp only [edgeYT, hm]

theorem wrapUpD_fuel_pos (fuel : Nat) (lo w x x' : ℚ) (h : wrapUpD fuel lo w x = some x') :
    1 ≤ fuel := by
  cases fuel with
  | zero => simp [wrapUpD] at h
  | succ n => omega

theorem wrapDownD_fuel_pos (fuel : Nat) (hi w x x' : ℚ)
    (h : wrapDownD fuel hi w x = some x') : 1 ≤ fuel := by
  cases fuel with
  | zero => simp [wrapDownD] at h
  | succ n => omega

/-- The left-edge block in double arithmetic on a domain `[0, rt] × [0, tp]`,
whenever it returns: it has left a position with `x ≥ 0` alone; a reinjection
has ended inside the domain; and in any case the result is inside the domain
or has its `y` unchanged. -/
theorem edgeXLD_post (fuel : Nat) (draws : Nat → ℚ) (P : Nat) (b b' : Bnd) (rt tp R : ℚ)
    (mL mR mB mT : BType) (hF : Frame b.sim P rt tp R mL mR mB mT)
    (hrt : 0 < rt) (hR : 0 ≤ R) (hRt : 2 * R < tp)
    (hd : ∀ n, 0 ≤ draws n ∧ draws n < 1)
    (h : edgeXLD fuel draws P b = some b') :
    Frame b'.sim P rt tp R mL mR mB mT ∧
      (0 ≤ b.pos.x → b'.pos = b.pos) ∧
      (mL = BType.RANDOM → b.pos.x < 0 → InBox rt tp b'.pos) ∧
      (InBox rt tp b'.pos ∨ b'.pos.y = b.pos.y) := by
  by_cases hm : b.sim.xLBound = BType.WRAP
  · rw [edgeXLD_wrap _ _ _ _ hm] at h
    obtain ⟨x1, hx1, rfl⟩ := Option.map_eq_some'.1 h
    have hf := wrapUpD_fuel_pos _ _ _ _ _ hx1
    refine ⟨hF, ?_, ?_, Or.inr rfl⟩
    · intro hx
      rw [wrapUpD_of_ge _ _ _ _ hf (by rw [hF.1]; exact hx)] at hx1
      cases hx1
      rfl
    · intro hR'
      have h6 := hF.2.2.2.2.2.1
      rw [hm, hR'] at h6
      cases h6
  · obtain ⟨b'', ⟨N, hN⟩, r⟩ := edgeXL_spec draws P b rt tp R mL mR mB mT hF hrt hR hRt hd
    have e : some b' = some b'' := by
      rw [← h, edgeXLD_fuel fuel N draws P b hm]
      exact hN N (le_refl N)
    cases e
    exact r

/-- The right-edge block in double arithmetic on a domain `[0, rt] × [0, tp]`,
whenever it returns. -/
theorem edgeXRD_post (fuel : Nat) (draws : Nat → ℚ) (P : Nat) (b b' : Bnd) (rt tp R : ℚ)
    (mL mR mB mT : BType) (hF : Frame b.sim P rt tp R mL mR mB mT)
    (hrt : 0 < rt) (hR : 0 ≤ R) (hRt : 2 * R < tp)
    (hd : ∀ n, 0 ≤ draws n ∧ draws n < 1)
    (h : edgeXRD fuel draws P b = some b') :
    Frame b'.sim P rt tp R mL mR mB mT ∧
      (b.pos.x ≤ rt → b'.pos = b.pos) ∧
      (mR = BType.RANDOM → rt < b.pos.x → InBox rt tp b'.pos) ∧
      (InBox rt tp b'.pos ∨ b'.pos.y = b.pos.y) := by
  by_cases hm : b.sim.xRBound = BType.WRAP
  · rw [edgeXRD_wrap _ _ _ _ hm] at h
    obtain ⟨x1, hx1, rfl⟩ := Option.map_eq_some'.1 h
    have hf := wrapDownD_fuel_pos _ _ _ _ _ hx1
    refine ⟨hF, ?_, ?_, Or.inr rfl⟩
    · intro hx
      rw [wrapDownD_of_le _ _ _ _ hf (by rw [hF.2.1]; exact hx)] at hx1
      cases hx1
      rfl
    · intro hR'
      have h7 := hF.2.2.2.2.2.2.1
      rw [hm, hR'] at h7
      cases h7
  · obtain ⟨b'', ⟨N, hN⟩, r⟩ := edgeXR_spec draws P b rt tp R mL mR mB mT hF hrt hR hRt hd
    have e : some b' = some b'' := by
      rw [← h, edgeXRD_fuel fuel N draws P b hm]
      exact hN N (le_refl N)
    cases e
    exact r

/-- The bottom-edge block in double arithmetic on a domain `[0, rt] × [0, tp]`,
whenever it returns. -/
theorem edgeYBD_post (fuel : Nat) (draws : Nat → ℚ) (P : Nat) (b b' : Bnd) (rt tp R : ℚ)
    (mL mR mB mT : BType) (hF : Frame b.sim P rt tp R mL mR mB mT)
    (htp : 0 < tp) (hR : 0 ≤ R) (hRr : 2 * R < rt)
    (hd : ∀ n, 0 ≤ draws n ∧ draws n < 1)
    (h : edgeYBD fuel draws P b = some b') :
    Frame b'.sim P rt tp R mL mR mB mT ∧
      (0 ≤ b.pos.y → b'.pos = b.pos) ∧
      (mB = BType.RANDOM → b.pos.y < 0 → 0 ≤ b'.pos.x ∧ b'.pos.x ≤ rt) := by
  by_cases hm : b.sim.yBBound = BType.WRAP
  · rw [edgeYBD_wrap _ _ _ _ hm] at h
    obtain ⟨y1, hy1, rfl⟩ := Option.map_eq_some'.1 h
    have hf := wrapUpD_fuel_pos _ _ _ _ _ hy1
    refine ⟨frame_markTime hF, ?_, ?_⟩
    · intro hy
      rw [wrapUpD_of_ge _ _ _ _ hf (by rw [hF.2.2.1]; exact hy)] at hy1
      cases hy1
      rfl
    · intro hR'
      have h8 := hF.2.2.2.2.2.2.2.1
      rw [hm, hR'] at h8
      cases h8
  · obtain ⟨b'', ⟨N, hN⟩, r⟩ := edgeYB_spec draws P b rt tp R mL mR mB mT hF htp hR hRr hd
    have e : some b' = some b'' := by
      rw [← h, edgeYBD_fuel fuel N draws P b hm]
      exact hN N (le_refl N)
    cases e
    exact r

/-- The top-edge block in double arithmetic on a domain `[0, rt] × [0, tp]`,
whenever it returns. -/
theorem edgeYTD_post (fuel : Nat) (draws : Nat → ℚ) (P : Nat) (b b' : Bnd) (rt tp R : ℚ)
    (mL mR mB mT : BType) (hF : Frame b.sim P rt tp R mL mR mB mT)
    (htp : 0 < tp) (hR : 0 ≤ R) (hRr : 2 * R < rt)
    (hd : ∀ n, 0 ≤ draws n ∧ draws n < 1)
    (h : edgeYTD fuel draws P b = some b') :
    Frame b'.sim P rt tp R mL mR mB mT ∧
      (b.pos.y ≤ tp → b'.pos = b.pos) ∧
      (mT = BType.RANDOM → tp < b.pos.y → InBox rt tp b'.pos) ∧
      (0 ≤ b.pos.x ∧ b.pos.x ≤ rt → 0 ≤ b'.pos.x ∧ b'.pos.x ≤ rt) := by
  by_cases hm : b.sim.yTBound = BType.WRAP
  · rw [edgeYTD_wrap _ _ _ _ hm] at h
    obtain ⟨y1, hy1, rfl⟩ := Option.map_eq_some'.1 h
    have hf := wrapDownD_fuel_pos _ _ _ _ _ hy1
    refine ⟨hF, ?_, ?_, fun hx => hx⟩
    · intro hy
      rw [wrapDownD_of_le _ _ _ _ hf (by rw [hF.2.2.2.1]; exact hy)] at hy1
      cases hy1
      rfl
    · intro hR'
      have h9 := hF.2.2.2.2.2.2.2.2
      rw [hm, hR'] at h9
      cases h9
  · obtain ⟨b'', ⟨N, hN⟩, r⟩ := edgeYT_spec draws P b rt tp R mL mR mB mT hF htp hR hRr hd
    have e : some b' = some b'' := by
      rw [← h, edgeYTD_fuel fuel N draws P b hm]
      exact hN N (le_refl N)
    cases e
    exact r

/-- On a domain `[0, rt] × [0, tp]` with `0 ≤ 2R < rt, tp` and draws in `[0,1)`:
whenever the boundary handling in double arithmetic returns, its four blocks
have composed as listed, whatever the edge modes. -/
theorem boundary_stagesD_post (s : Simulator) (draws : Nat → ℚ) (k P fuel : Nat)
    (r : Simulator × Nat)
    (hl : s.left = 0) (hb : s.bottom = 0) (hr : 0 < s.right) (ht : 0 < s.top)
    (hR0 : 0 ≤ (s.heap P).radius) (hRx : 2 * (s.heap P).radius < s.right)
    (hRy : 2 * (s.heap P).radius < s.top) (hd : ∀ n, 0 ≤ draws n ∧ draws n < 1)
    (h : updateBoundaryD fuel draws s k P = some r) :
    ∃ b1 b2 b3 b4 : Bnd, r = storePos b4 P ∧
      (0 ≤ (s.heap P).position.x → b1.pos = (s.heap P).position) ∧
      (s.xLBound = BType.RANDOM → (s.heap P).position.x < 0 → InBox s.right s.top b1.pos) ∧
      (InBox s.right s.top b1.pos ∨ b1.pos.y = (s.heap P).position.y) ∧
      (b1.pos.x ≤ s.right → b2.pos = b1.pos) ∧
      (s.xRBound = BType.RANDOM → s.right < b1.pos.x → InBox s.right s.top b2.pos) ∧
      (InBox s.right s.top b2.pos ∨ b2.pos.y = b1.pos.y) ∧
      (0 ≤ b2.pos.y → b3.pos = b2.pos) ∧
      (s.yBBound = BType.RANDOM → b2.pos.y < 0 → 0 ≤ b3.pos.x ∧ b3.pos.x ≤ s.right) ∧
      (b3.pos.y ≤ s.top → b4.pos = b3.pos) ∧
      (s.yTBound = BType.RANDOM → s.top < b3.pos.y → InBox s.right s.top b4.pos) ∧
      (0 ≤ b3.pos.x ∧ b3.pos.x ≤ s.right → 0 ≤ b4.pos.x ∧ b4.pos.x ≤ s.right) := by
  have hF : Frame s P s.right s.top (s.heap P).radius s.xLBound s.xRBound s.yBBound s.yTBound :=
    ⟨hl, rfl, hb, rfl, rfl, rfl, rfl, rfl, rfl⟩
  unfold updateBoundaryD at h
  obtain ⟨b4, h4, rfl⟩ := Option.map_eq_some'.1 h
  obtain ⟨b2, h2, hY⟩ := Option.bind_eq_some.1 h4
  unfold edgesXD at h2
  obtain ⟨b1, h1, h2⟩ := Option.bind_eq_some.1 h2
  unfold edgesYD at hY
  obtain ⟨b3, h3, h4⟩ := Option.bind_eq_some.1 hY
  obtain ⟨hF1, p1a, p1b, p1c⟩ :=
    edgeXLD_post fuel draws P ⟨s, (s.heap P).position, k⟩ b1 _ _ _ _ _ _ _ hF hr hR0 hRy hd h1
  obtain ⟨hF2, p2a, p2b, p2c⟩ :=
    edgeXRD_post fuel draws P b1 b2 _ _ _ _ _ _ _ hF1 hr hR0 hRy hd h2
  obtain ⟨hF3, p3a, p3b⟩ :=
    edgeYBD_post fuel draws P b2 b3 _ _ _ _ _ _ _ hF2 ht hR0 hRx hd h3
  obtain ⟨_, p4a, p4b, p4c⟩ :=
    edgeYTD_post fuel draws P b3 b4 _ _ _ _ _ _ _ hF3 ht hR0 hRx hd h4
  exact ⟨b1, b2, b3, b4, rfl, p1a, p1b, p1c, p2a, p2b, p2c, p3a, p3b, p4a, p4b, p4c⟩

/-! ## Claims -/

/-- C1: in a state with `right > left`, `top > bottom`, `secX, secY ≥ 1` and a
bucket array of `(secX+2)*(secY+2)+1` buckets (filed in any way), after
`updateSectors` every particle stored in bucket `i` has `getSec(position) = i`. -/
theorem updateSectors_filed (s : Simulator) (_hlr : s.left < s.right)
    (_hbt : s.bottom < s.top) (_hx : 1 ≤ s.secX) (_hy : 1 ≤ s.secY)
    (hlen : s.sectors.length = (s.secX + 2) * (s.secY + 2) + 1) (i p : Nat)
    (hp : p ∈ (updateSectors s).sectors.getD i []) :
    getSec (updateSectors s) ((updateSectors s).heap p).position = i := by
  have hsec : ∀ pos, getSec (updateSectors s) pos = getSec s pos := fun _ => rfl
  have hheap : (updateSectors s).heap = s.heap := rfl
  rw [hsec, hheap]
  have hsecs : (updateSectors s).sectors =
      List.foldl (updateBucket (fun p => getSec s (s.heap p).position)) s.sectors
        (List.range ((s.secX + 2) * (s.secY + 2) + 1)) := rfl
  rw [hsecs] at hp
  by_cases hi : i < (s.secX + 2) * (s.secY + 2) + 1
  · exact foldl_updateBucket_filed (fun p => getSec s (s.heap p).position) _ s.sectors
      (fun _ => False) (fun _ h => absurd h id) i (Or.inr (List.mem_range.2 hi)) p hp
  · rw [List.getD_eq_getElem?_getD, List.getElem?_eq_none] at hp
    · simp at hp
    · rw [length_foldl_updateBucket, hlen]
      exact Nat.le_of_not_lt hi

theorem misfiled_sec (p : Nat) : getSec misfiled (misfiled.heap p).position = 4 := by
  simp only [getSec, misfiled, Simulator.init, Particle.resting, castInt]
  norm_num

/-- C1, evaluated: the particle misfiled in bucket 0 ends in bucket 4, its cell. -/
theorem updateSectors_filed_witness :
    getSec (updateSectors misfiled) ((updateSectors misfiled).heap 0).position = 4 :=
  updateSectors_filed misfiled (by norm_num [misfiled, Simulator.init])
    (by norm_num [misfiled, Simulator.init]) (by decide) (by decide) (by decide) 4 0
    (by
      have h : (updateSectors misfiled).sectors =
          List.foldl (updateBucket (fun _ => 4)) misfiled.sectors (List.range 10) := by
        unfold updateSectors
        simp only [misfiled_sec]
        rfl
      rw [h]
      decide)

/-- C2 (the code departs from the claim): on a 1×1 grid with `WRAP` edges, two
particles each filed in exactly one bucket (the bucket `getSec` names for
them) and the overflow pass off, `ppInteract` invokes `P.interact(Q)` nine
times for the ordered pair `(0, 1)`, not at most once. -/
theorem ppInteract_repeats_pair :
    (∀ p ∈ twoInOneCell.particles, twoInOneCell.sectors.flatten.count p = 1) ∧
    getSec twoInOneCell (twoInOneCell.heap 0).position = 4 ∧
    getSec twoInOneCell (twoInOneCell.heap 1).position = 4 ∧
    twoInOneCell.ssecInteract = false ∧
    (ppInteract twoInOneCell).countP (fun c => c.caller = 0 ∧ c.other = 1) = 9 := by
  refine ⟨by decide, ?_, ?_, rfl, by decide⟩
  · simp only [getSec, twoInOneCell, Simulator.init, Particle.resting, castInt]
    norm_num
  · simp only [getSec, twoInOneCell, Simulator.init, Particle.resting, castInt]
    norm_num

/-- C9 (the code departs from the claim): from the constructor state, whose
bounds are valid, `setDimensions(1, 0, 0, 1)` (with `l ≥ r`) does not fail and
installs `left = 1`, `right = 0`; after that `setDimensions(0, 1, 0, 1)`, whose
arguments are valid, fails with `BadDimChoice`. -/
theorem setDimensions_checks_members (heap : Nat → Particle) :
    ∃ s1, setDimensions (Simulator.init heap) 1 0 0 1 = Except.ok s1 ∧
      s1.left = 1 ∧ s1.right = 0 ∧
      setDimensions s1 0 1 0 1 = Except.error SimError.BadDimChoice := by
  refine ⟨{ Simulator.init heap with left := 1, right := 0, bottom := 0, top := 1, yTop := 1 },
    ?_, rfl, rfl, ?_⟩
  · simp only [setDimensions, Simulator.init]
    norm_num
  · simp only [setDimensions]
    norm_num

/-- C4 (the code departs from the claim): in the constructor state (unit square,
10×10 grid, overflow bucket 144) the positions `(1, 1/2)` and `(21/20, 1/2)`,
which have `x ≥ right` and floor cell coordinate `10 ∉ [0, 10)`, are filed in
border cell 83, and the position `(-1/20, 1/2)`, which has `x < left` and floor
cell coordinate `-1`, is filed in interior cell 73. -/
theorem getSec_outside_not_overflow :
    unitBox.left < unitBox.right ∧ unitBox.bottom < unitBox.top ∧
    1 ≤ unitBox.secX ∧ 1 ≤ unitBox.secY ∧
    (1 : ℚ) ≥ unitBox.right ∧ getSec unitBox ⟨1, 1/2⟩ = 83 ∧
    (21/20 : ℚ) ≥ unitBox.right ∧ getSec unitBox ⟨21/20, 1/2⟩ = 83 ∧
    (-1/20 : ℚ) < unitBox.left ∧ getSec unitBox ⟨-1/20, 1/2⟩ = 73 ∧
    (unitBox.secX + 2) * (unitBox.secY + 2) = 144 := by
  refine ⟨?_, ?_, ?_, ?_, ?_, ?_, ?_, ?_, ?_, ?_, ?_⟩ <;>
    simp only [getSec, unitBox, Simulator.init, castInt] <;> norm_num <;> decide

/-- In exact arithmetic: with all four edges `WRAP` and `right > left`, a
particle integrated to `x = right + δ` (`δ > 0`) with `bottom ≤ y ≤ top` is
left by the boundary handling (a) at `x = left + δ`, `y` unchanged, velocity
and angular velocity unchanged, when `δ ≤ right - left`; and (b) for any
`δ > 0` at some `x` in `[left, right]` that differs from `left + δ` by a whole
number of domain widths, again with `y`, velocity and angular velocity
unchanged. -/
theorem wrap_right_crossing_exact (s : Simulator) (draws : Nat → ℚ) (k P : Nat) (δ : ℚ)
    (hxL : s.xLBound = BType.WRAP) (hxR : s.xRBound = BType.WRAP)
    (hyB : s.yBBound = BType.WRAP) (hyT : s.yTBound = BType.WRAP)
    (hlr : s.left < s.right) (hδ : 0 < δ)
    (hx : (s.heap P).position.x = s.right + δ)
    (hy1 : s.bottom ≤ (s.heap P).position.y) (hy2 : (s.heap P).position.y ≤ s.top) :
    (δ ≤ s.right - s.left → ∀ fuel, 2 ≤ fuel →
      ∃ s' k', updateBoundary fuel draws s k P = some (s', k') ∧
        (s'.heap P).position = ⟨s.left + δ, (s.heap P).position.y⟩ ∧
        (s'.heap P).velocity = (s.heap P).velocity ∧
        (s'.heap P).omega = (s.heap P).omega) ∧
    (∃ s' k', Lands (fun fuel => updateBoundary fuel draws s k P) (s', k') ∧
        s.left ≤ (s'.heap P).position.x ∧ (s'.heap P).position.x ≤ s.right ∧
        (∃ m : ℕ, (s'.heap P).position.x = s.left + δ - m * (s.right - s.left)) ∧
        (s'.heap P).position.y = (s.heap P).position.y ∧
        (s'.heap P).velocity = (s.heap P).velocity ∧
        (s'.heap P).omega = (s.heap P).omega) := by
  have hW : 0 < s.right - s.left := by linarith
  have hxl : s.left ≤ (s.heap P).position.x := by rw [hx]; linarith
  have key : ∀ fuel x', 1 ≤ fuel →
      wrapDown fuel s.right (s.right - s.left) (s.heap P).position.x = some x' →
      updateBoundary fuel draws s k P =
        some (storePos ⟨markTime s, ⟨x', (s.heap P).position.y⟩, k⟩ P) := by
    intro fuel x' hf hd
    rw [updateBoundary_allWrap s draws k P fuel hxL hxR hyB hyT,
      wrapUp_of_ge _ _ _ fuel hf hxl]
    simp only [Option.some_bind]
    rw [hd]
    simp only [Option.some_bind]
    rw [wrapUp_of_ge _ _ _ fuel hf hy1]
    simp only [Option.some_bind]
    rw [wrapDown_of_le _ _ _ fuel hf hy2]
    rfl
  constructor
  · intro hδ' fuel hf
    refine ⟨_, _, key fuel (s.left + δ) (by omega) ?_, ?_, ?_, ?_⟩
    · rw [wrapDown_once _ _ _ fuel hf (by rw [hx]; linarith) (by rw [hx]; linarith), hx]
      congr 1
      ring
    · simp [storePos]
    · simp [storePos, markTime]
    · simp [storePos, markTime]
  · obtain ⟨n, hn1, hn2, hn3⟩ :=
      wrapDown_total s.right (s.right - s.left) (s.heap P).position.x hW
    have hn0 : n ≠ 0 := by
      intro h0
      rw [h0, hx] at hn2
      simp at hn2
      linarith
    refine ⟨_, _, ⟨n + 1, fun fuel hf => key fuel _ (by omega) (hn1 fuel (by omega))⟩,
      ?_, ?_, ?_, ?_, ?_, ?_⟩
    · rcases hn3 with h | h
      · exact absurd h hn0
      · simp only [storePos, Function.update_same]
        linarith
    · simp only [storePos, Function.update_same]
      exact hn2
    · refine ⟨n - 1, ?_⟩
      simp only [storePos, Function.update_same]
      rw [hx, Nat.cast_sub (by omega)]
      push_cast
      ring
    · simp [storePos]
    · simp [storePos, markTime]
    · simp [storePos, markTime]

/-- C7 (the code departs from the claim): on the domain `[1,2] × [0,1]` with a
`RANDOM` left edge, a particle integrated to `(1/2, 1/2)`, beyond the left edge
(`x < left`), keeps its velocity `(1, 2)` and angular velocity `3` and stays at
`(1/2, 1/2)`: the block tests `pos.x < 0`, not `pos.x < left`. -/
theorem random_left_edge_not_frozen (fuel : Nat) (draws : Nat → ℚ) (k : Nat) :
    offOrigin.left < offOrigin.right ∧ offOrigin.bottom < offOrigin.top ∧
    offOrigin.xLBound = BType.RANDOM ∧
    (offOrigin.heap 0).position.x < offOrigin.left ∧
    ∃ s', updateBoundary fuel draws offOrigin k 0 = some (s', k) ∧
      (s'.heap 0).velocity = ⟨1, 2⟩ ∧ (s'.heap 0).omega = 3 ∧
      (s'.heap 0).position = ⟨1/2, 1/2⟩ := by
  refine ⟨by norm_num [offOrigin, Simulator.init], by norm_num [offOrigin, Simulator.init], rfl,
    by norm_num [offOrigin, Simulator.init, Particle.moving, Particle.resting],
    (storePos ⟨offOrigin, ⟨1/2, 1/2⟩, k⟩ 0).1, ?_, ?_, ?_, ?_⟩
  · have hx : ¬ ((offOrigin.heap 0).position.x < 0) := by
      norm_num [offOrigin, Simulator.init, Particle.moving, Particle.resting]
    have hb : (⟨offOrigin, (offOrigin.heap 0).position, k⟩ : Bnd) =
        ⟨offOrigin, ⟨1/2, 1/2⟩, k⟩ := rfl
    have e1 : edgeXL fuel draws 0 ⟨offOrigin, (offOrigin.heap 0).position, k⟩ =
        some ⟨offOrigin, ⟨1/2, 1/2⟩, k⟩ := by
      have hm : offOrigin.xLBound = BType.RANDOM := rfl
      simp only [edgeXL, hm]
      rw [if_neg hx, hb]
    have e2 : edgeXR fuel draws 0 ⟨offOrigin, ⟨1/2, 1/2⟩, k⟩ =
        some ⟨offOrigin, ⟨1/2, 1/2⟩, k⟩ := rfl
    have e3 : edgeYB fuel draws 0 ⟨offOrigin, ⟨1/2, 1/2⟩, k⟩ =
        some ⟨offOrigin, ⟨1/2, 1/2⟩, k⟩ := rfl
    have e4 : edgeYT fuel draws 0 ⟨offOrigin, ⟨1/2, 1/2⟩, k⟩ =
        some ⟨offOrigin, ⟨1/2, 1/2⟩, k⟩ := rfl
    simp only [updateBoundary, edgesX, edgesY, e1, e2, e3, e4, Option.some_bind,
      Option.map_some']
    rfl
  · simp [storePos, offOrigin, Simulator.init, Particle.moving, Particle.resting]
  · simp [storePos, offOrigin, Simulator.init, Particle.moving, Particle.resting]
  · simp [storePos]

theorem misfiled_oneBucketEach : OneBucketEach misfiled := by
  refine ⟨rfl, fun p => ?_⟩
  by_cases h : p = 0
  · subst h; rfl
  · have h1 : p ∉ misfiled.particles := by simpa [misfiled] using h
    rw [if_neg h1]
    apply List.count_eq_zero_of_not_mem
    simpa [misfiled] using h

/-- C10: the predicate "every particle of the particle list occurs exactly once
in the union of the `(secX+2)*(secY+2)+1` buckets, and the buckets hold nothing
else" is established by `setSectorDims` for a duplicate-free particle list
(with `secX = max(1, sx)`, `secY = max(1, sy)`), and is preserved by
`addParticle` and `addWatchedParticle` of a particle not yet in the list and
by `updateSectors`. -/
theorem one_bucket_invariant (s : Simulator) (sx sy : ℤ) (P : Nat) (active : Bool) :
    (s.particles.Nodup →
      OneBucketEach (setSectorDims s sx sy) ∧
      ((setSectorDims s sx sy).secX : ℤ) = max 1 sx ∧
      ((setSectorDims s sx sy).secY : ℤ) = max 1 sy) ∧
    (OneBucketEach s → P ∉ s.particles →
      OneBucketEach (addParticle s P active) ∧ OneBucketEach (addWatchedParticle s P active)) ∧
    (OneBucketEach s → OneBucketEach (updateSectors s)) := by
  refine ⟨?_, ?_, ?_⟩
  · intro hnd
    refine ⟨?_, ?_, ?_⟩
    · obtain ⟨h1, h2⟩ : (setSectorDims s sx sy).sectors.length =
            ((setSectorDims s sx sy).secX + 2) * ((setSectorDims s sx sy).secY + 2) + 1 ∧
          ∀ q, (setSectorDims s sx sy).sectors.flatten.count q = s.particles.count q := by
        have hfold := fun q => count_foldl_pushBack q
          (fun P => getSec { s with secX := (if sx < 1 then 1 else sx).toNat,
                                    secY := (if sy < 1 then 1 else sy).toNat }
            (s.heap P).position) s.particles
          (List.replicate (((if sx < 1 then 1 else sx).toNat + 2) *
            ((if sy < 1 then 1 else sy).toNat + 2) + 1) [])
          (fun P => by rw [List.length_replicate]; exact getSec_lt _ _)
        refine ⟨?_, fun q => ?_⟩
        · have := (hfold 0).1
          rw [List.length_replicate] at this
          exact this
        · have := (hfold q).2
          rw [List.flatten_replicate_nil] at this
          simpa using this
      refine ⟨h1, fun p => ?_⟩
      rw [h2 p]
      have hp : (setSectorDims s sx sy).particles = s.particles := rfl
      rw [hp]
      by_cases hm : p ∈ s.particles
      · rw [if_pos hm]; exact List.count_eq_one_of_mem hnd hm
      · rw [if_neg hm]; exact List.count_eq_zero_of_not_mem hm
    · show (((if sx < 1 then 1 else sx).toNat : ℕ) : ℤ) = max 1 sx
      split <;> rename_i h
      · rw [max_eq_left (by omega)]; rfl
      · rw [max_eq_right (by omega)]; omega
    · show (((if sy < 1 then 1 else sy).toNat : ℕ) : ℤ) = max 1 sy
      split <;> rename_i h
      · rw [max_eq_left (by omega)]; rfl
      · rw [max_eq_right (by omega)]; omega
  · intro hinv hnew
    obtain ⟨hlen, hcount⟩ := hinv
    have key : OneBucketEach (addParticle s P active) := by
      have hsecs : (addParticle s P active).sectors =
          pushBack s.sectors (getSec s (s.heap P).position) P := by
        unfold addParticle; cases active <;> rfl
      have hparts : (addParticle s P active).particles = s.particles ++ [P] := by
        unfold addParticle; cases active <;> rfl
      have hX : (addParticle s P active).secX = s.secX := by
        unfold addParticle; cases active <;> rfl
      have hY : (addParticle s P active).secY = s.secY := by
        unfold addParticle; cases active <;> rfl
      refine ⟨by rw [hsecs, length_pushBack, hX, hY, hlen], fun p => ?_⟩
      rw [hsecs, hparts, count_flatten_pushBack p s.sectors _ P
        (by rw [hlen]; exact getSec_lt s _), hcount p]
      by_cases hp : P = p
      · subst hp
        simp [hnew]
      · have h1 : (p ∈ s.particles ++ [P]) ↔ p ∈ s.particles := by
          simp [List.mem_append, Ne.symm hp]
        simp only [if_neg hp, h1, add_zero]
    exact ⟨key, key⟩
  · intro hinv
    obtain ⟨hlen, hcount⟩ := hinv
    have hsecs : (updateSectors s).sectors =
        List.foldl (updateBucket (fun p => getSec s (s.heap p).position)) s.sectors
          (List.range ((s.secX + 2) * (s.secY + 2) + 1)) := rfl
    refine ⟨?_, fun p => ?_⟩
    · rw [hsecs, length_foldl_updateBucket]
      exact hlen
    · rw [hsecs, count_foldl_updateBucket p _ _ s.sectors
        (fun P => by rw [hlen]; exact getSec_lt s _)
        (fun i hi => by rw [hlen]; exact List.mem_range.1 hi)]
      exact hcount p

/-- C10, evaluated on a 1×1 grid with one particle: the predicate holds after
`setSectorDims(1, 1)`, after adding particle 1, and after `updateSectors`. -/
theorem one_bucket_invariant_witness :
    OneBucketEach (setSectorDims misfiled 1 1) ∧
    OneBucketEach (addParticle misfiled 1 false) ∧
    OneBucketEach (addWatchedParticle misfiled 1 true) ∧
    OneBucketEach (updateSectors misfiled) :=
  ⟨((one_bucket_invariant misfiled 1 1 1 false).1 (by decide)).1,
   ((one_bucket_invariant misfiled 1 1 1 false).2.1 misfiled_oneBucketEach (by decide)).1,
   ((one_bucket_invariant misfiled 1 1 1 true).2.1 misfiled_oneBucketEach (by decide)).2,
   (one_bucket_invariant misfiled 1 1 1 false).2.2 misfiled_oneBucketEach⟩

/-- With cells computed in exact arithmetic the neighbour search is complete,
also across a periodic edge.  For `right > left`, `top > bottom`,
`secX, secY ≥ 1` and two distinct particles `P`, `Q` with positions in
`[left,right) × [bottom,top)`, each filed in the bucket of its exact cell
`getSec(position)`: if `d = getDisplacement(Q.pos, P.pos)` has
`|d.x| < (right-left)/secX` and `|d.y| < (top-bottom)/secY`, then `ppInteract`
invokes `P.interact(Q, d)` and `Q.interact(P, -d)`. -/
theorem ppInteract_complete_exact (s : Simulator) (P Q : Nat)
    (hlr : s.left < s.right) (hbt : s.bottom < s.top) (hx : 1 ≤ s.secX) (hy : 1 ≤ s.secY)
    (hPQ : P ≠ Q)
    (hP1 : s.left ≤ (s.heap P).position.x) (hP2 : (s.heap P).position.x < s.right)
    (hP3 : s.bottom ≤ (s.heap P).position.y) (hP4 : (s.heap P).position.y < s.top)
    (hQ1 : s.left ≤ (s.heap Q).position.x) (hQ2 : (s.heap Q).position.x < s.right)
    (hQ3 : s.bottom ≤ (s.heap Q).position.y) (hQ4 : (s.heap Q).position.y < s.top)
    (hPf : P ∈ s.sectors.getD (getSec s (s.heap P).position) [])
    (hQf : Q ∈ s.sectors.getD (getSec s (s.heap Q).position) [])
    (hdx : |(getDisplacement s (s.heap Q).position (s.heap P).position).x| <
      (s.right - s.left) / s.secX)
    (hdy : |(getDisplacement s (s.heap Q).position (s.heap P).position).y| <
      (s.top - s.bottom) / s.secY) :
    (⟨P, Q, some (getDisplacement s (s.heap Q).position (s.heap P).position)⟩ : Call) ∈
      ppInteract s ∧
    (⟨Q, P, some (Vect.neg (getDisplacement s (s.heap Q).position (s.heap P).position))⟩ :
      Call) ∈ ppInteract s := by
  refine ⟨ppInteract_reaches s P Q hlr hbt hx hy hPQ hP1 hP2 hP3 hP4 hQ1 hQ2 hQ3 hQ4 hPf hQf
    hdx hdy, ?_⟩
  have hswap := getDisplacement_swap s hlr hbt (s.heap Q).position (s.heap P).position
  rw [← hswap]
  refine ppInteract_reaches s Q P hlr hbt hx hy (Ne.symm hPQ) hQ1 hQ2 hQ3 hQ4 hP1 hP2 hP3 hP4
    hQf hPf ?_ ?_
  · rw [hswap]
    simpa [Vect.neg] using hdx
  · rw [hswap]
    simpa [Vect.neg] using hdy

/-- C11 (the code departs from the claim): with `NONE` edges, particle 0 in the
last interior column and particle 1 just beyond the right edge, both filed in
the bucket `getSec` names for them, `ppInteract` invokes
`P0.interact(P1)` once and never `P1.interact(P0)`. -/
theorem ppInteract_one_sided :
    getSec overTheEdge (overTheEdge.heap 0).position = 82 ∧
    getSec overTheEdge (overTheEdge.heap 1).position = 83 ∧
    overTheEdge.sectors.getD 82 [] = [0] ∧ overTheEdge.sectors.getD 83 [] = [1] ∧
    overTheEdge.ssecInteract = false ∧
    (ppInteract overTheEdge).countP (fun c => c.caller = 0 ∧ c.other = 1) = 1 ∧
    (ppInteract overTheEdge).countP (fun c => c.caller = 1 ∧ c.other = 0) = 0 := by
  refine ⟨?_, ?_, by decide, by decide, rfl, by decide, by decide⟩
  · simp only [getSec, overTheEdge, Simulator.init, Particle.resting, castInt]
    norm_num
    decide
  · simp only [getSec, overTheEdge, Simulator.init, Particle.resting, castInt]
    norm_num
    decide

/-- C12 (the code departs from the claim): with the bottom edge `WRAP`, a particle
at the centre of the unit square, which has not crossed the bottom edge, still
gets the current time 5 appended to `timeMarks` and `lastMark` set to 5. -/
theorem wrap_marks_every_particle :
    midRun.yBBound = BType.WRAP ∧ ¬ ((midRun.heap 0).position.y < midRun.bottom) ∧
    ∃ s', updateBoundary 1 (fun _ => 0) midRun 0 0 = some (s', 0) ∧
      s'.timeMarks = [2, 5] ∧ s'.lastMark = 5 ∧ midRun.timeMarks = [2] ∧ midRun.lastMark = 1 := by
  refine ⟨rfl, by norm_num [midRun, Simulator.init, Particle.moving, Particle.resting],
    (storePos ⟨markTime midRun, ⟨1/2, 1/2⟩, 0⟩ 0).1, ?_, rfl, rfl, rfl, rfl⟩
  rw [updateBoundary_allWrap midRun (fun _ => 0) 0 0 1 rfl rfl rfl rfl]
  have hp : (midRun.heap 0).position = ⟨1/2, 1/2⟩ := rfl
  rw [hp]
  rw [wrapUp_of_ge _ _ _ 1 (le_refl 1) (by norm_num [midRun, Simulator.init])]
  simp only [Option.some_bind]
  rw [wrapDown_of_le _ _ _ 1 (le_refl 1) (by norm_num [midRun, Simulator.init])]
  simp only [Option.some_bind]
  rw [wrapUp_of_ge _ _ _ 1 (le_refl 1) (by norm_num [midRun, Simulator.init])]
  simp only [Option.some_bind]
  rw [wrapDown_of_le _ _ _ 1 (le_refl 1) (by norm_num [midRun, Simulator.init])]
  rfl

/-- C13: with adaptive time-stepping enabled, for every state and every configured
`default_epsilon` and `min_epsilon`, the `epsilon` chosen by `logisticUpdates`
is not below `min_epsilon` (`sqrt` is any function that is positive on
positive arguments). -/
theorem chooseEpsilon_floor (sqrt : ℚ → ℚ) (hsqrt : ∀ x, 0 < x → 0 < sqrt x)
    (s : Simulator) (hadj : s.adjust_epsilon = true) :
    s.min_epsilon ≤ (chooseEpsilon sqrt s).epsilon := by
  rw [chooseEpsilon_epsilon sqrt s hadj]
  exact adaptiveEpsilon_ge sqrt hsqrt s

/-- C13, evaluated with all particles at rest and `default_epsilon = 1e-4` below
the floor `min_epsilon = 1e-3`. -/
theorem chooseEpsilon_floor_witness :
    (1/1000 : ℚ) ≤ (chooseEpsilon Rat.sqrt atRest).epsilon :=
  chooseEpsilon_floor Rat.sqrt ratSqrt_pos atRest rfl

/-- C15: for resource, waste and buffer fields of equal dimensions and whatever
`delSqr` writes to the buffer, after `updateFields` every cell `(x, y)` of the
resource field equals `max(0, old + epsilon*(resourceDiffusion*laplacian +
replenish))`, every cell of the waste field equals
`max(0, old + epsilon*(wasteDiffusion*laplacian + wasteSource))`, and both are
non-negative. -/
theorem updateFields_cells (delSqr : Field → Field → Field) (s : Simulator)
    (hdx : s.waste.dx = s.resource.dx) (hdy : s.waste.dy = s.resource.dy)
    (_hbx : s.buffer.dx = s.resource.dx) (_hby : s.buffer.dy = s.resource.dy) (x y : Nat) :
    (x < s.resource.dx → y < s.resource.dy →
      (updateFields delSqr s).resource.cell x y =
        max 0 (s.resource.cell x y + s.epsilon *
          (s.resourceDiffusion * (delSqr s.resource s.buffer).cell x y + s.replenish)) ∧
      0 ≤ (updateFields delSqr s).resource.cell x y) ∧
    (x < s.waste.dx → y < s.waste.dy →
      (updateFields delSqr s).waste.cell x y =
        max 0 (s.waste.cell x y + s.epsilon *
          (s.wasteDiffusion * (delSqr s.waste (delSqr s.resource s.buffer)).cell x y +
            s.wasteSource)) ∧
      0 ≤ (updateFields delSqr s).waste.cell x y) := by
  constructor
  · intro hx hy
    have e : (updateFields delSqr s).resource.cell x y =
        max 0 (s.resource.cell x y + s.epsilon *
          (s.resourceDiffusion * (delSqr s.resource s.buffer).cell x y + s.replenish)) := by
      show (eulerField _ _ _ _ _ _ _).cell x y = _
      rw [cell_eulerField, if_pos ⟨hx, hy⟩]
    exact ⟨e, by rw [e]; exact le_max_left _ _⟩
  · intro hx hy
    have e : (updateFields delSqr s).waste.cell x y =
        max 0 (s.waste.cell x y + s.epsilon *
          (s.wasteDiffusion * (delSqr s.waste (delSqr s.resource s.buffer)).cell x y +
            s.wasteSource)) := by
      show (eulerField _ _ _ _ _ _ _).cell x y = _
      rw [cell_eulerField, if_pos ⟨by
        rw [(dims_eulerField _ _ _ _ _ _ _).1, ← hdx]; exact hx, by
        rw [(dims_eulerField _ _ _ _ _ _ _).2, ← hdy]; exact hy⟩]
    exact ⟨e, by rw [e]; exact le_max_left _ _⟩

/-- C15, evaluated on 2×2 fields with Laplacian `-100` everywhere: the resource
cell goes from 5 to `5 + 1e-4*(50*(-100)) = 9/2`, the waste cell from `1/1000`
to `max(0, 1/1000 - 1/2) = 0`. -/
theorem updateFields_cells_witness :
    (updateFields steepLaplacian twoByTwo).resource.cell 1 1 = 9/2 ∧
    (updateFields steepLaplacian twoByTwo).waste.cell 1 1 = 0 := by
  have h := updateFields_cells steepLaplacian twoByTwo rfl rfl rfl rfl 1 1
  obtain ⟨h1, _⟩ := h.1 (by decide) (by decide)
  obtain ⟨h2, _⟩ := h.2 (by decide) (by decide)
  constructor
  · rw [h1]
    norm_num [twoByTwo, Simulator.init, steepLaplacian, Field.const, Field.cell]
  · rw [h2]
    norm_num [twoByTwo, Simulator.init, steepLaplacian, Field.const, Field.cell]

/-- C16 (as stated, refuted): in the cell with loop indices `(5, 6)`,
which holds one agent and resource `r = 5`, with `epsilon = 1e-4` and
`eatRate = 1`, `bacteriaUpdate` leaves the resource at
`r + epsilon*eatRate*r*n = 10001/2000`, above its prior value, where the claim
has `max(0, r - epsilon*eatRate*r*n) = 9999/2000`. -/
theorem bacteriaUpdate_adds_resource :
    (5, 6) ∈ visitedCells colony ∧
    (colony.sectors.getD (cellIndex colony 5 6) []).length = 1 ∧
    colony.resource.cell 4 5 = 5 ∧ colony.epsilon = 1/10000 ∧ colony.eatRate = 1 ∧
    (bacteriaUpdate quietEnv colony 0).1.resource.cell 4 5 = 10001/2000 ∧
    max 0 (5 - 1/10000 * 1 * 5 * 1) = (9999/2000 : ℚ) := by
  have hb0 : colony.sectors.getD (cellIndex colony 5 6) [] = [0] := by decide
  refine ⟨by decide, by decide, by simp [colony, Field.cell], rfl, rfl, ?_, by norm_num⟩
  have h := bacteriaUpdate_resource quietEnv colony 0 (5, 6) (by decide)
    (by unfold cellBucket; rw [hb0]; exact List.cons_ne_nil _ _)
  rw [show (bacteriaUpdate quietEnv colony 0).1.resource.cell 4 5 =
    (bacteriaUpdate quietEnv colony 0).1.resource.cell ((5, 6) : Nat × Nat).1.pred
      ((5, 6) : Nat × Nat).2.pred from rfl]
  refine h.trans ?_
  simp only [resourceAfter, hb0]
  norm_num [colony, Simulator.init, Field.cell]

/-- C17: for a state satisfying the one-bucket-per-particle predicate and a cell
`xy` visited by `bacteriaUpdate` (addresses returned by `new` being different
from those of the particles present), every agent `p` filed in the cell is,
after the call, absent from the particle list, the watch list and every bucket
when the fitness computed for the cell is negative, and still in the particle
list when it is not.  The fitness computed when the cell is visited is
`cellFitness s xy.1 xy.2`: see `cell_at_visit`. -/
theorem bacteriaUpdate_deaths (env : Env) (s : Simulator) (k : Nat) (hinv : OneBucketEach s)
    (hfresh : ∀ i, env.addr i ∉ s.particles) (xy : Nat × Nat) (hxy : xy ∈ visitedCells s)
    (p : Nat) (hp : p ∈ s.sectors.getD (cellIndex s xy.1 xy.2) []) :
    (cellFitness s xy.1 xy.2 < 0 →
      p ∉ (bacteriaUpdate env s k).1.particles ∧ p ∉ (bacteriaUpdate env s k).1.watchlist ∧
      ∀ b ∈ (bacteriaUpdate env s k).1.sectors, p ∉ b) ∧
    (0 ≤ cellFitness s xy.1 xy.2 → p ∈ (bacteriaUpdate env s k).1.particles) := by
  have h := cellsDone_foldl env s k (visitedCells s) (visitedCells_pairwise s)
  obtain ⟨a1, a2, a3, _, a5⟩ := foldl_addWatched_spec env
    ((visitedCells s).foldl (bacteriaCell env) ⟨s, k, []⟩).births
    ((visitedCells s).foldl (bacteriaCell env) ⟨s, k, []⟩).sim
  have hpp : p ∈ s.particles := mem_particles_of_bucket s hinv p _ hp
  have hnb : p ∉ ((visitedCells s).foldl (bacteriaCell env) ⟨s, k, []⟩).births := fun e => by
    obtain ⟨i, rfl⟩ := h.births p e
    exact hfresh i hpp
  constructor
  · intro hdead
    have hd : DiesIn s (visitedCells s) p := ⟨xy, hxy, hdead, hp⟩
    refine ⟨fun e => ?_, fun e => ?_, fun b hb e => ?_⟩
    · rcases a2 p e with e1 | e1
      · exact ((h.particles p).1 e1).2 hd
      · exact hnb e1
    · rcases a3 p e with e1 | e1
      · exact ((h.watchlist p).1 e1).2 hd
      · exact hnb e1
    · obtain ⟨i, hi, rfl⟩ := List.getElem_of_mem hb
      have e' : p ∈ (bacteriaUpdate env s k).1.sectors.getD i [] := by
        rw [List.getD_eq_getElem?_getD, List.getElem?_eq_getElem hi]
        exact e
      rcases a5 p i e' with e1 | e1
      · rcases h.bucket_cases i with e2 | e2
        · rw [e2] at e1
          have hij := bucket_unique s hinv p i _ e1 hp
          have e3 := h.bucket_dead xy hxy hdead
          rw [← hij, e2] at e3
          rw [e3] at e1
          exact List.not_mem_nil _ e1
        · rw [e2] at e1
          exact List.not_mem_nil _ e1
      · exact hnb e1
  · intro halive
    refine a1 p ((h.particles p).2 ⟨hpp, ?_⟩)
    rintro ⟨xy', hxy', hf, hq⟩
    have hij := bucket_unique s hinv p _ _ hq hp
    by_cases hxe : xy' = xy
    · subst hxe
      exact absurd hf (not_lt.2 halive)
    · exact ((visitedCells_pairwise s).forall (fun _ _ e => ⟨e.1.symm, e.2.symm⟩)
        hxy' hxy hxe).1 hij

/-- C17, evaluated on a colony of two agents: agent 1, in the cell `(2, 1)` of
negative fitness, is removed, and agent 0, in the cell `(5, 6)` of positive
fitness, stays in the particle list. -/
theorem bacteriaUpdate_deaths_witness :
    (1 ∉ (bacteriaUpdate quietEnv colony 0).1.particles ∧
      1 ∉ (bacteriaUpdate quietEnv colony 0).1.watchlist ∧
      ∀ b ∈ (bacteriaUpdate quietEnv colony 0).1.sectors, 1 ∉ b) ∧
    0 ∈ (bacteriaUpdate quietEnv colony 0).1.particles :=
  ⟨(bacteriaUpdate_deaths quietEnv colony 0 colony_oneBucketEach colony_fresh (2, 1)
      (by decide) 1 (by decide)).1 colony_fitness.1,
   (bacteriaUpdate_deaths quietEnv colony 0 colony_oneBucketEach colony_fresh (5, 6)
      (by decide) 0 (by decide)).2 colony_fitness.2⟩

/-- C18 (the code departs from the claim): with 100 sample points on the unit
square, a particle at `y = top` gives `index = 100`; the guard
`0<=index || index<samplePoints` lets it through and `profile.at(100)` throws
`std::out_of_range` instead of counting the particle in the last bin. -/
theorem getDensityYProfile_throws :
    (onTopEdge.heap 0).position.y ≥ onTopEdge.top ∧
    getDensityYProfile onTopEdge = Except.error SimError.OutOfRange := by
  constructor
  · norm_num [onTopEdge, Simulator.init, Particle.resting]
  · simp only [getDensityYProfile, onTopEdge, Simulator.init, Particle.resting, densityLoop,
      castInt, bumpAt]
    norm_num

/-- C19 (the code departs from the claim): in the hopper of `time.cpp` (radius
`0.02`, `var = 0.25`, region `[0.025, 0.975] × [0.525, 4.975]`), with the draws
`1/2, 1/9, 0` for the first particle and `71/130, 1/9, 4/5` for the second,
`addParticles` inserts a particle of radius `0.02` at `(0.5, 1.035)` and then a
particle of radius `0.024` at `(0.542, 1.035)`: the candidate is tested with the
base radius, so the centre distance `0.042` passes the test against `0.04`,
but it is smaller than the sum `0.044` of the two actual radii. -/
theorem addParticles_overlap :
    ∃ st, addParticles hopperEnv 3 emptyHopper 0 2 (1/50) (1/4) (1/40) (39/40) (21/40) (199/40)
        PType.PASSIVE 0 false Vect.zero = some st ∧
      st.sim.particles = [0, 1] ∧
      (st.sim.heap 0).position = ⟨1/2, 207/200⟩ ∧ (st.sim.heap 0).radius = 1/50 ∧
      (st.sim.heap 1).position = ⟨271/500, 207/200⟩ ∧ (st.sim.heap 1).radius = 3/125 ∧
      Vect.dot (Vect.sub (st.sim.heap 1).position (st.sim.heap 0).position)
          (Vect.sub (st.sim.heap 1).position (st.sim.heap 0).position) <
        sqr ((st.sim.heap 1).radius + (st.sim.heap 0).radius) := by
  unfold addParticles
  simp only []
  rw [addLoop_accept _ _ _ _ _ _ _ _ _ _ _ _ _ (by norm_num) rfl (by norm_num)
    (by norm_num [wouldOverlap, hopperEnv, emptyHopper, Simulator.init])]
  rw [addLoop_accept _ _ _ _ _ _ _ _ _ _ _ _ _ (by norm_num) rfl (by norm_num)
    (by
      simp only [wouldOverlap, (addParticle_fields _ _ _).1, (addParticle_fields _ _ _).2.1,
        (addParticle_fields _ _ _).2.2.1, (addParticle_fields _ _ _).2.2.2.1,
        (addParticle_fields _ _ _).2.2.2.2.1, (addParticle_fields _ _ _).2.2.2.2.2,
        show ∀ n, hopperEnv.addr n = n from fun _ => rfl, Function.update_same]
      norm_num [hopperEnv, emptyHopper, Simulator.init, construct, Particle.resting, Vect.sub,
        Vect.dot, sqr])]
  rw [addLoop]
  refine ⟨_, if_neg (by norm_num), ?_⟩
  simp only [(addParticle_fields _ _ _).1, (addParticle_fields _ _ _).2.1,
    show ∀ n, hopperEnv.addr n = n from fun _ => rfl]
  norm_num [hopperEnv, emptyHopper, Simulator.init, construct, Particle.resting, Vect.sub,
    Vect.dot, sqr, Function.update]

/-- C20 (the code departs from the claim): in a state whose particle 0 is filed in
the overflow bucket 144 (the bucket `getSec` names for its position), `discard`
empties the particle list but leaves bucket `(secX+2)*(secY+2) = 144` holding
the address of the destroyed particle. -/
theorem discard_keeps_overflow :
    getSec strayed (strayed.heap 0).position = 144 ∧
    (strayed.secX + 2) * (strayed.secY + 2) = 144 ∧
    (discard strayed).particles = [] ∧
    (discard strayed).sectors.getD ((strayed.secX + 2) * (strayed.secY + 2)) [] = [0] := by
  refine ⟨?_, by decide, rfl, by decide⟩
  simp only [getSec, strayed, Simulator.init, Particle.resting, castInt]
  norm_num

/-- C21 (the code departs from the claim): in the constructor's configuration
(adaptive stepping and stagnation watch off, `default_epsilon = 1e-4`,
recording from time 0) with one particle at `(1/2, 1)`, on the top edge,
`run(T)` makes no iteration at all, whatever `T`: the `record()` that precedes
the loop calls `getDensityYProfile`, whose `profile.at(100)` throws
`std::out_of_range`, and the exception leaves `run`. -/
theorem run_aborts_in_record :
    onTopEdge.adjust_epsilon = false ∧ onTopEdge.markWatch = false ∧
    0 < onTopEdge.default_epsilon ∧
    ∀ (env : RunEnv) (fuel k : Nat) (T : ℚ),
      run env fuel onTopEdge k T = some (Except.error SimError.OutOfRange) := by
  refine ⟨rfl, rfl, by norm_num [onTopEdge, Simulator.init], fun env fuel k T => ?_⟩
  have hrec : record env.sqrt (resetVariables onTopEdge) =
      Except.error SimError.OutOfRange := by
    have hd : getDensityYProfile (resetVariables onTopEdge) =
        Except.error SimError.OutOfRange := by
      simp only [getDensityYProfile, resetVariables, onTopEdge, Simulator.init,
        Particle.resting, densityLoop, castInt, bumpAt]
      norm_num
    unfold record
    rw [hd]
  unfold run
  simp only []
  rw [if_pos (Or.inl (by norm_num [resetVariables, onTopEdge, Simulator.init])), hrec]

/-- C22: `applyForce`, `applyNormalForce`, `applyShearForce` and `applyTorque` each
add their argument to their accumulator and change nothing else; after any
sequence `cs` of such calls each accumulator has grown by the sum of the
arguments it received (from zero accumulators it equals that sum), and a
sequence `cs'` with the same calls in another order gives the same particle. -/
theorem accumulators_sum (p : Particle) (cs : List Contribution) :
    (∀ F, p.applyForce F = { p with force := Vect.add p.force F }) ∧
    (∀ F, p.applyNormalForce F = { p with normalF := Vect.add p.normalF F }) ∧
    (∀ F, p.applyShearForce F = { p with shearF := Vect.add p.shearF F }) ∧
    (∀ t, p.applyTorque t = { p with torque := p.torque + t }) ∧
    cs.foldl Contribution.applyTo p =
      { p with force := Vect.add p.force (vsum (cs.map Contribution.forcePart)),
               normalF := Vect.add p.normalF (vsum (cs.map Contribution.normalPart)),
               shearF := Vect.add p.shearF (vsum (cs.map Contribution.shearPart)),
               torque := p.torque + (cs.map Contribution.torquePart).sum } ∧
    (p.force = Vect.zero → p.normalF = Vect.zero → p.shearF = Vect.zero → p.torque = 0 →
      (cs.foldl Contribution.applyTo p).force = vsum (cs.map Contribution.forcePart) ∧
      (cs.foldl Contribution.applyTo p).normalF = vsum (cs.map Contribution.normalPart) ∧
      (cs.foldl Contribution.applyTo p).shearF = vsum (cs.map Contribution.shearPart) ∧
      (cs.foldl Contribution.applyTo p).torque = (cs.map Contribution.torquePart).sum) ∧
    (∀ cs' : List Contribution, cs.Perm cs' →
      cs'.foldl Contribution.applyTo p = cs.foldl Contribution.applyTo p) := by
  have hz : ∀ v : Vect, Vect.add Vect.zero v = v := fun v => by
    cases v; simp [Vect.add, Vect.zero]
  refine ⟨fun _ => rfl, fun _ => rfl, fun _ => rfl, fun _ => rfl, foldl_applyTo cs p, ?_, ?_⟩
  · intro h1 h2 h3 h4
    rw [foldl_applyTo]
    simp [h1, h2, h3, h4, hz]
  · intro cs' hperm
    rw [foldl_applyTo, foldl_applyTo, vsum_perm (hperm.map Contribution.forcePart),
      vsum_perm (hperm.map Contribution.normalPart),
      vsum_perm (hperm.map Contribution.shearPart),
      (hperm.map Contribution.torquePart).sum_eq]

/-- C22, evaluated on a particle at rest with zero accumulators and the calls
`applyForce (1, 2)`, `applyTorque 3`, `applyForce (4, 5)`, `applyShearForce (6, 7)`:
the force is `(5, 7)`, the torque 3, the shear force `(6, 7)`, the normal force
zero, and applying the calls in the reverse order gives the same particle. -/
theorem accumulators_sum_witness :
    ([Contribution.force ⟨1, 2⟩, Contribution.torque 3, Contribution.force ⟨4, 5⟩,
        Contribution.shear ⟨6, 7⟩].foldl Contribution.applyTo
        (Particle.resting ⟨0, 0⟩ 1)).force = ⟨5, 7⟩ ∧
    ([Contribution.shear ⟨6, 7⟩, Contribution.force ⟨4, 5⟩, Contribution.torque 3,
        Contribution.force ⟨1, 2⟩].foldl Contribution.applyTo (Particle.resting ⟨0, 0⟩ 1)) =
      [Contribution.force ⟨1, 2⟩, Contribution.torque 3, Contribution.force ⟨4, 5⟩,
        Contribution.shear ⟨6, 7⟩].foldl Contribution.applyTo (Particle.resting ⟨0, 0⟩ 1) := by
  have h := accumulators_sum (Particle.resting ⟨0, 0⟩ 1)
    [Contribution.force ⟨1, 2⟩, Contribution.torque 3, Contribution.force ⟨4, 5⟩,
      Contribution.shear ⟨6, 7⟩]
  obtain ⟨_, _, _, _, _, h6, h7⟩ := h
  refine ⟨?_, h7 _ (List.reverse_perm _).symm⟩
  rw [(h6 rfl rfl rfl rfl).1]
  norm_num [vsum, Contribution.forcePart, Vect.zero]

/-- C25: `addParticles(N, ...)` finishes for every `N` and every sequence of
draws.  In the state it returns, `count` particles have been appended to the
particle list, with `count ≤ max(N, 0)`; either `C` is still true and
`count = max(N, 0)`, or `C` is false, `count < N`, `failed = 251` and the last
251 candidates (the draws `rng - 2*(251-j)`, `j < 251`) were all rejected by
`wouldOverlap` against the particles now in place. -/
theorem addParticles_terminates (env : Env) (s : Simulator) (k : Nat) (N : ℤ)
    (R var lft rght bttm tp : ℚ) (type : PType) (vmax : ℚ) (watched : Bool) (bias : Vect) :
    ∃ r, Lands (fun fuel =>
        addParticles env fuel s k N R var lft rght bttm tp type vmax watched bias) r ∧
      (r.count : ℤ) ≤ max N 0 ∧
      r.sim.particles = s.particles ++ (List.range r.count).map env.addr ∧
      ((r.C = true ∧ (r.count : ℤ) = max N 0) ∨
        (r.C = false ∧ (r.count : ℤ) < N ∧ r.failed = 251 ∧
          ∀ j, j < 251 → wouldOverlap r.sim
            (candidateAt env R lft bttm (rght - lft - 2 * R) (tp - bttm - 2 * R)
              (r.rng - 2 * (251 - j))) R = true)) := by
  obtain ⟨r, hr, hinv, hcond⟩ := addLoop_lands env s N R var lft bttm (rght - lft - 2 * R)
    (tp - bttm - 2 * R) type vmax watched bias _ ⟨s, k, 0, 0, true⟩
    (inserting_start env s k N R lft bttm _ _) (le_refl _)
  refine ⟨r, ⟨_, fun fuel hf => hr fuel hf⟩, hinv.count_le, hinv.particles, ?_⟩
  cases hC : r.C with
  | true =>
    left
    refine ⟨rfl, ?_⟩
    have h1 : ¬ (r.count : ℤ) < N := fun h => hcond ⟨h, hC⟩
    have h2 := hinv.count_le
    rcases le_total N 0 with h0 | h0
    · rw [max_eq_right h0] at h2 ⊢
      omega
    · rw [max_eq_left h0] at h2 ⊢
      omega
  | false =>
    right
    obtain ⟨h1, h2⟩ := hinv.aborted hC
    refine ⟨rfl, h2, h1, fun j hj => ?_⟩
    have := (hinv.rejected j (by rw [h1]; exact hj)).2
    rw [h1] at this
    exact this

/-- C26: on an axis with a `WRAP` edge and extent `W > 0`, for `A`, `B` whose
difference on that axis is at most `W` in magnitude, the component returned by
`getDisplacement` is the difference minus `W`, plus 0 or plus `W`, has magnitude
at most `W/2`, and is not longer than any `difference + k*W`; on an axis without
a `WRAP` edge it is exactly the difference.  This holds for x with
`W = right - left` and for y with `W = top - bottom`. -/
theorem getDisplacement_minimal_image (s : Simulator) (A B : Vect) :
    (periodicX s = true → 0 < s.right - s.left → |A.x - B.x| ≤ s.right - s.left →
      ((getDisplacement s A B).x = A.x - B.x - (s.right - s.left) ∨
        (getDisplacement s A B).x = A.x - B.x ∨
        (getDisplacement s A B).x = A.x - B.x + (s.right - s.left)) ∧
      |(getDisplacement s A B).x| ≤ (s.right - s.left) / 2 ∧
      ∀ k : ℤ, |(getDisplacement s A B).x| ≤ |A.x - B.x + k * (s.right - s.left)|) ∧
    (periodicX s = false → (getDisplacement s A B).x = A.x - B.x) ∧
    (periodicY s = true → 0 < s.top - s.bottom → |A.y - B.y| ≤ s.top - s.bottom →
      ((getDisplacement s A B).y = A.y - B.y - (s.top - s.bottom) ∨
        (getDisplacement s A B).y = A.y - B.y ∨
        (getDisplacement s A B).y = A.y - B.y + (s.top - s.bottom)) ∧
      |(getDisplacement s A B).y| ≤ (s.top - s.bottom) / 2 ∧
      ∀ k : ℤ, |(getDisplacement s A B).y| ≤ |A.y - B.y + k * (s.top - s.bottom)|) ∧
    (periodicY s = false → (getDisplacement s A B).y = A.y - B.y) := by
  refine ⟨fun hp hW hX => ?_, fun hp => ?_, fun hp hW hY => ?_, fun hp => ?_⟩
  · have e : (getDisplacement s A B).x = shorten (s.right - s.left) (A.x - B.x) := by
      simp only [getDisplacement, hp, if_true]
    rw [e]
    exact shorten_minimal _ _ hW hX
  · simp only [getDisplacement, hp, Bool.false_eq_true, if_false]
  · have e : (getDisplacement s A B).y = shorten (s.top - s.bottom) (A.y - B.y) := by
      simp only [getDisplacement, hp, if_true]
    rw [e]
    exact shorten_minimal _ _ hW hY
  · simp only [getDisplacement, hp, Bool.false_eq_true, if_false]

/-- C26, evaluated on the unit square with all edges `WRAP`: from `B = (1/10, 1/2)`
to `A = (9/10, 1/2)` the x component is `4/5 - 1 = -1/5`; with all edges `NONE`
it is `4/5`. -/
theorem getDisplacement_minimal_image_witness :
    (getDisplacement atRest ⟨9/10, 1/2⟩ ⟨1/10, 1/2⟩).x = -1/5 ∧
    (getDisplacement strayed ⟨9/10, 1/2⟩ ⟨1/10, 1/2⟩).x = 4/5 := by
  have h1 := (getDisplacement_minimal_image atRest ⟨9/10, 1/2⟩ ⟨1/10, 1/2⟩).1 rfl
    (by norm_num [atRest, Simulator.init]) (by norm_num [atRest, Simulator.init, abs_le])
  have h2 := (getDisplacement_minimal_image strayed ⟨9/10, 1/2⟩ ⟨1/10, 1/2⟩).2.1 rfl
  refine ⟨?_, by rw [h2]; norm_num⟩
  obtain ⟨hc, hhalf, _⟩ := h1
  have hw : atRest.right - atRest.left = 1 := by norm_num [atRest, Simulator.init]
  rw [hw] at hc hhalf
  rcases hc with e | e | e
  · rw [e]; norm_num
  · rw [e] at hhalf; norm_num [abs_le] at hhalf
  · rw [e] at hhalf; norm_num [abs_le] at hhalf

/-- C27 (the code departs from the claim): with all four edges `WRAP` on the unit
square and the 10×10 grid, a particle integrated to `(1, 1/2)`, on the right
edge, is left there by the boundary handling (the loop tests `pos.x > right`);
`getSec` files that position in bucket 83, column `secX + 1 = 11`, a border
cell, and `ppInteract` then makes no call in which the particle takes part,
although particle 1 is at distance `0.01` from it. -/
theorem wrapped_particle_in_border_cell :
    onRightEdge.xLBound = BType.WRAP ∧ onRightEdge.xRBound = BType.WRAP ∧
    onRightEdge.yBBound = BType.WRAP ∧ onRightEdge.yTBound = BType.WRAP ∧
    (∃ s', updateBoundary 1 (fun _ => 0) onRightEdge 0 0 = some (s', 0) ∧
      (s'.heap 0).position = ⟨1, 1/2⟩ ∧
      getSec s' (s'.heap 0).position = 83) ∧
    83 % (onRightEdge.secX + 2) = onRightEdge.secX + 1 ∧
    onRightEdge.sectors.getD 83 [] = [0] ∧
    (ppInteract onRightEdge).countP (fun c => c.caller = 0 ∨ c.other = 0) = 0 := by
  refine ⟨rfl, rfl, rfl, rfl,
    ⟨(storePos ⟨markTime onRightEdge, ⟨1, 1/2⟩, 0⟩ 0).1, ?_, ?_, ?_⟩, by decide, by decide,
    by decide⟩
  · rw [updateBoundary_allWrap onRightEdge (fun _ => 0) 0 0 1 rfl rfl rfl rfl]
    have hp : (onRightEdge.heap 0).position = ⟨1, 1/2⟩ := rfl
    rw [hp]
    rw [wrapUp_of_ge _ _ _ 1 (le_refl 1) (by norm_num [onRightEdge, Simulator.init])]
    simp only [Option.some_bind]
    rw [wrapDown_of_le _ _ _ 1 (le_refl 1) (by norm_num [onRightEdge, Simulator.init])]
    simp only [Option.some_bind]
    rw [wrapUp_of_ge _ _ _ 1 (le_refl 1) (by norm_num [onRightEdge, Simulator.init])]
    simp only [Option.some_bind]
    rw [wrapDown_of_le _ _ _ 1 (le_refl 1) (by norm_num [onRightEdge, Simulator.init])]
    rfl
  · simp [storePos]
  · simp only [getSec, storePos, markTime, onRightEdge, Simulator.init, castInt,
      Function.update_same]
    norm_num
    decide

/-- C28: for non-negative levels and a secretion rate of at least 1 the value
`res/(res+1) - wst/(wst+1) - secretionRate` is negative; so in a state with
`secretionRate ≥ 1`, `epsilon ≥ 0` and non-negative waste the fitness computed
for every cell is negative, and (under the one-bucket-per-particle predicate,
with `new` returning addresses not in use) every agent filed in a visited cell
is gone from the particle list after `bacteriaUpdate`. -/
theorem high_secretion_kills (env : Env) (s : Simulator) (k : Nat)
    (hrate : 1 ≤ s.secretionRate) (heps : 0 ≤ s.epsilon)
    (hwaste : ∀ a b, 0 ≤ s.waste.cell a b) :
    (∀ res wst rate : ℚ, 0 ≤ res → 0 ≤ wst → 1 ≤ rate →
      1 * res / (res + 1) - 1 * wst / (wst + 1) - 1 * rate < 0) ∧
    (∀ x y, cellFitness s x y < 0) ∧
    (OneBucketEach s → (∀ i, env.addr i ∉ s.particles) →
      ∀ xy ∈ visitedCells s, ∀ p ∈ s.sectors.getD (cellIndex s xy.1 xy.2) [],
        p ∉ (bacteriaUpdate env s k).1.particles) :=
  ⟨fitness_formula_neg, fun x y => cellFitness_neg s x y hrate heps (hwaste _ _),
    fun hinv hfresh xy hxy p hp => dead_cell_removed env s k hinv hfresh xy hxy p hp
      (cellFitness_neg s xy.1 xy.2 hrate heps (hwaste _ _))⟩

/-- C28, evaluated on the colony with the constructor's secretion rate 1: both
agents are removed. -/
theorem high_secretion_kills_witness :
    0 ∉ (bacteriaUpdate quietEnv defaultColony 0).1.particles ∧
    1 ∉ (bacteriaUpdate quietEnv defaultColony 0).1.particles :=
  ⟨(high_secretion_kills quietEnv defaultColony 0 (le_refl 1)
      (by norm_num [defaultColony, colony, Simulator.init])
      (fun a b => le_refl 0)).2.2 colony_oneBucketEach colony_fresh (5, 6) (by decide) 0
      (by decide),
   (high_secretion_kills quietEnv defaultColony 0 (le_refl 1)
      (by norm_num [defaultColony, colony, Simulator.init])
      (fun a b => le_refl 0)).2.2 colony_oneBucketEach colony_fresh (2, 1) (by decide) 1
      (by decide)⟩

/-- C29 (the code departs from the claim): on the 10×10 grid the agent at
`(1/20, 1/2)` is filed by `getSec` in bucket 73, the interior cell of column 1
and row 6, which holds one agent; no pair of loop indices of `bacteriaUpdate`
addresses bucket 73, and the call changes nothing: the agent is not removed
although the fitness formula is negative for the secretion rate 1. -/
theorem bacteriaUpdate_skips_first_column :
    getSec edgeColony (edgeColony.heap 0).position = 73 ∧
    73 % (edgeColony.secX + 2) = 1 ∧ 73 / (edgeColony.secX + 2) = 6 ∧
    edgeColony.sectors.getD 73 [] = [0] ∧
    (∀ xy ∈ visitedCells edgeColony, cellIndex edgeColony xy.1 xy.2 ≠ 73) ∧
    bacteriaUpdate quietEnv edgeColony 0 = (edgeColony, 0) ∧
    (∀ x y, cellFitness edgeColony x y < 0) := by
  refine ⟨?_, by decide, by decide, by decide, by decide, ?_, fun x y => ?_⟩
  · simp only [getSec, edgeColony, Simulator.init, Particle.resting, castInt]
    norm_num
    decide
  · exact bacteriaUpdate_idle quietEnv edgeColony 0 (by decide)
  · exact cellFitness_neg edgeColony x y (le_refl 1)
      (by norm_num [edgeColony, Simulator.init]) (le_refl 0)

/-- C30: for `right > left`, `top > bottom`, `secX, secY ≥ 1` and every position
the index returned by `getSec` is at most `(secX+2)*(secY+2)`, hence below the
length `(secX+2)*(secY+2)+1` of the bucket array, which is the length the
constructor state has and `setSectorDims`, `addParticle` and `updateSectors`
produce or keep. -/
theorem getSec_index_valid (s : Simulator) (_hlr : s.left < s.right) (_hbt : s.bottom < s.top)
    (_hx : 1 ≤ s.secX) (_hy : 1 ≤ s.secY) (pos : Vect) :
    getSec s pos ≤ (s.secX + 2) * (s.secY + 2) ∧
    (s.sectors.length = (s.secX + 2) * (s.secY + 2) + 1 →
      getSec s pos < s.sectors.length ∧
      ∀ (P : Nat) (active : Bool),
        (addParticle s P active).sectors.length = s.sectors.length ∧
        (updateSectors s).sectors.length = s.sectors.length) ∧
    (∀ sx sy : ℤ, (setSectorDims s sx sy).sectors.length =
      ((setSectorDims s sx sy).secX + 2) * ((setSectorDims s sx sy).secY + 2) + 1) := by
  have hlt := getSec_lt s pos
  refine ⟨by omega, fun hlen => ⟨by omega, fun P active => ⟨?_, ?_⟩⟩, fun sx sy => ?_⟩
  · cases active <;> exact length_pushBack _ _ _
  · exact length_foldl_updateBucket _ _ _
  · have hfold := (count_foldl_pushBack 0
      (fun P => getSec { s with secX := (if sx < 1 then 1 else sx).toNat,
                                secY := (if sy < 1 then 1 else sy).toNat }
        (s.heap P).position) s.particles
      (List.replicate (((if sx < 1 then 1 else sx).toNat + 2) *
        ((if sy < 1 then 1 else sy).toNat + 2) + 1) [])
      (fun P => by rw [List.length_replicate]; exact getSec_lt _ _)).1
    rw [List.length_replicate] at hfold
    exact hfold

/-- C30, evaluated on the 10×10 grid of the unit square at the position
`(5, 1/2)` far outside: the index is at most 144. -/
theorem getSec_index_valid_witness : getSec atRest ⟨5, 1/2⟩ ≤ 144 :=
  (getSec_index_valid atRest (by norm_num [atRest, Simulator.init])
    (by norm_num [atRest, Simulator.init]) (by decide) (by decide) ⟨5, 1/2⟩).1

/-- C31: `wouldOverlap(pos, R)` returns false if and only if the disc of radius
`R` at `pos` lies inside the domain (`left ≤ pos.x-R`, `pos.x+R ≤ right`,
`bottom ≤ pos.y-R`, `pos.y+R ≤ top`) and for every particle `P` of the particle
list the squared centre distance is at least `(R + P.radius)²`; in particular
equality (touching discs) does not count as overlapping. -/
theorem wouldOverlap_false_iff (s : Simulator) (pos : Vect) (R : ℚ) :
    wouldOverlap s pos R = false ↔
      (s.left ≤ pos.x - R ∧ pos.x + R ≤ s.right ∧ s.bottom ≤ pos.y - R ∧
        pos.y + R ≤ s.top) ∧
      ∀ P ∈ s.particles, sqr (R + (s.heap P).radius) ≤
        Vect.dot (Vect.sub (s.heap P).position pos) (Vect.sub (s.heap P).position pos) := by
  unfold wouldOverlap
  by_cases hout : pos.x - R < s.left ∨ s.right < pos.x + R ∨ pos.y - R < s.bottom ∨
      s.top < pos.y + R
  · rw [if_pos hout]
    constructor
    · intro h; cases h
    · rintro ⟨⟨h1, h2, h3, h4⟩, _⟩
      rcases hout with h | h | h | h <;> linarith
  · rw [if_neg hout]
    simp only [not_or, not_lt] at hout
    rw [List.any_eq_false]
    constructor
    · intro h
      refine ⟨hout, fun P hP => ?_⟩
      have := h P hP
      simpa using this
    · rintro ⟨_, h⟩ P hP
      simpa using h P hP

theorem isDouble_one : IsDouble 1 :=
  isDouble_eval 1 0 (2 ^ 52) (by norm_num) (by norm_num) (by norm_num) (by norm_num)

/-- C3 (as stated, refuted): on the domain `[-1, 1] × [0, 1]` with the 10×10 grid
and `WRAP` edges, particle 0 at `(1 - 2^-53, 1/2)` and particle 1 at
`(7/8, 1/2)` lie in `[left,right) × [bottom,top)`, each is filed in the bucket
`getSec` computes for it in double arithmetic (83 and 82), and their
displacement is shorter than a cell in both directions; yet `ppInteract`
never invokes `P0.interact(P1, d)`: bucket 83 lies in the border column, whose
particles are not iterated. -/
theorem ppInteract_misses_rounded_cell :
    nearRightEdge.left < nearRightEdge.right ∧ nearRightEdge.bottom < nearRightEdge.top ∧
    1 ≤ nearRightEdge.secX ∧ 1 ≤ nearRightEdge.secY ∧
    (nearRightEdge.left ≤ (nearRightEdge.heap 0).position.x ∧
      (nearRightEdge.heap 0).position.x < nearRightEdge.right ∧
      nearRightEdge.bottom ≤ (nearRightEdge.heap 0).position.y ∧
      (nearRightEdge.heap 0).position.y < nearRightEdge.top) ∧
    (nearRightEdge.left ≤ (nearRightEdge.heap 1).position.x ∧
      (nearRightEdge.heap 1).position.x < nearRightEdge.right ∧
      nearRightEdge.bottom ≤ (nearRightEdge.heap 1).position.y ∧
      (nearRightEdge.heap 1).position.y < nearRightEdge.top) ∧
    0 ∈ nearRightEdge.sectors.getD (getSecD nearRightEdge (nearRightEdge.heap 0).position) [] ∧
    1 ∈ nearRightEdge.sectors.getD (getSecD nearRightEdge (nearRightEdge.heap 1).position) [] ∧
    |(getDisplacement nearRightEdge (nearRightEdge.heap 1).position
        (nearRightEdge.heap 0).position).x| <
      (nearRightEdge.right - nearRightEdge.left) / nearRightEdge.secX ∧
    |(getDisplacement nearRightEdge (nearRightEdge.heap 1).position
        (nearRightEdge.heap 0).position).y| <
      (nearRightEdge.top - nearRightEdge.bottom) / nearRightEdge.secY ∧
    (ppInteract nearRightEdge).countP (fun c => c.caller = 0 ∧ c.other = 1) = 0 := by
  have hl : nearRightEdge.left = -1 := rfl
  have hr : nearRightEdge.right = 1 := rfl
  have hb : nearRightEdge.bottom = 0 := rfl
  have ht : nearRightEdge.top = 1 := rfl
  have hsx : nearRightEdge.secX = 10 := rfl
  have hsy : nearRightEdge.secY = 10 := rfl
  have p0 : (nearRightEdge.heap 0).position = ⟨1 - 1 / 2 ^ 53, 1/2⟩ := rfl
  have p1 : (nearRightEdge.heap 1).position = ⟨7/8, 1/2⟩ := rfl
  have cy : cellCoord nearRightEdge.bottom nearRightEdge.top nearRightEdge.secY (1/2) = 5 :=
    cellCoord_unit_half
  have s0 : getSecD nearRightEdge ⟨1 - 1 / 2 ^ 53, 1/2⟩ = 83 := by
    unfold getSecD
    simp only []
    rw [cy, hl, hr, hsx, hsy, cellCoord_nearRightEdge_x0]
    norm_num [castInt32, castInt]
    decide
  have s1 : getSecD nearRightEdge ⟨7/8, 1/2⟩ = 82 := by
    unfold getSecD
    simp only []
    rw [cy, hl, hr, hsx, hsy, cellCoord_nearRightEdge_x1]
    norm_num [castInt32, castInt]
    decide
  have hd : getDisplacement nearRightEdge ⟨7/8, 1/2⟩ ⟨1 - 1 / 2 ^ 53, 1/2⟩ =
      ⟨-1/8 + 1 / 2 ^ 53, 0⟩ := by
    simp only [getDisplacement, shorten, periodicX, periodicY, nearRightEdge, Simulator.init]
    norm_num [abs_of_neg, abs_of_pos]
  refine ⟨by rw [hl, hr]; norm_num, by rw [hb, ht]; norm_num, by decide, by decide,
    ⟨by rw [hl, p0]; norm_num, by rw [hr, p0]; norm_num, by rw [hb, p0]; norm_num,
      by rw [ht, p0]; norm_num⟩,
    ⟨by rw [hl, p1]; norm_num, by rw [hr, p1]; norm_num, by rw [hb, p1]; norm_num,
      by rw [ht, p1]; norm_num⟩,
    by rw [p0, s0]; decide, by rw [p1, s1]; decide, ?_, ?_, by decide⟩
  · rw [p0, p1, hd, hl, hr, hsx]
    norm_num [abs_of_neg]
  · rw [p0, p1, hd, hb, ht, hsy]
    norm_num

/-- C3 (amended): the neighbour search is complete, also across a periodic edge,
for particles whose cells are not moved by rounding.  For `right > left`,
`top > bottom`, `secX, secY ≥ 1` and two distinct particles `P`, `Q` with
positions in `[left,right) × [bottom,top)`, each filed in the bucket `getSec`
computes for it in double arithmetic, that bucket being the cell of the
exact coordinates `⌊(x-left)/(right-left)*secX⌋`, `⌊(y-bottom)/(top-bottom)*secY⌋`:
if `d = getDisplacement(Q.pos, P.pos)` has `|d.x| < (right-left)/secX` and
`|d.y| < (top-bottom)/secY`, then `ppInteract` invokes `P.interact(Q, d)` and
`Q.interact(P, -d)`. -/
theorem ppInteract_complete (s : Simulator) (P Q : Nat)
    (hlr : s.left < s.right) (hbt : s.bottom < s.top) (hx : 1 ≤ s.secX) (hy : 1 ≤ s.secY)
    (hPQ : P ≠ Q)
    (hP1 : s.left ≤ (s.heap P).position.x) (hP2 : (s.heap P).position.x < s.right)
    (hP3 : s.bottom ≤ (s.heap P).position.y) (hP4 : (s.heap P).position.y < s.top)
    (hQ1 : s.left ≤ (s.heap Q).position.x) (hQ2 : (s.heap Q).position.x < s.right)
    (hQ3 : s.bottom ≤ (s.heap Q).position.y) (hQ4 : (s.heap Q).position.y < s.top)
    (hPc : getSecD s (s.heap P).position = getSec s (s.heap P).position)
    (hQc : getSecD s (s.heap Q).position = getSec s (s.heap Q).position)
    (hPf : P ∈ s.sectors.getD (getSecD s (s.heap P).position) [])
    (hQf : Q ∈ s.sectors.getD (getSecD s (s.heap Q).position) [])
    (hdx : |(getDisplacement s (s.heap Q).position (s.heap P).position).x| <
      (s.right - s.left) / s.secX)
    (hdy : |(getDisplacement s (s.heap Q).position (s.heap P).position).y| <
      (s.top - s.bottom) / s.secY) :
    (⟨P, Q, some (getDisplacement s (s.heap Q).position (s.heap P).position)⟩ : Call) ∈
      ppInteract s ∧
    (⟨Q, P, some (Vect.neg (getDisplacement s (s.heap Q).position (s.heap P).position))⟩ :
      Call) ∈ ppInteract s := by
  rw [hPc] at hPf
  rw [hQc] at hQf
  exact ppInteract_complete_exact s P Q hlr hbt hx hy hPQ hP1 hP2 hP3 hP4 hQ1 hQ2 hQ3 hQ4
    hPf hQf hdx hdy

theorem acrossEdgeD_cells :
    getSecD acrossEdgeD ⟨1/16, 1/2⟩ = 73 ∧ getSec acrossEdgeD ⟨1/16, 1/2⟩ = 73 ∧
    getSecD acrossEdgeD ⟨31/32, 1/2⟩ = 82 ∧ getSec acrossEdgeD ⟨31/32, 1/2⟩ = 82 := by
  have hl : acrossEdgeD.left = 0 := rfl
  have hr : acrossEdgeD.right = 1 := rfl
  have hb : acrossEdgeD.bottom = 0 := rfl
  have ht : acrossEdgeD.top = 1 := rfl
  have hsx : acrossEdgeD.secX = 10 := rfl
  have hsy : acrossEdgeD.secY = 10 := rfl
  refine ⟨?_, ?_, ?_, ?_⟩
  · unfold getSecD
    simp only []
    rw [hl, hr, hb, ht, hsx, hsy, cellCoord_unit_half, cellCoord_unit_sixteenth]
    norm_num [castInt32, castInt]
    decide
  · simp only [getSec, acrossEdgeD, Simulator.init, castInt]
    norm_num
    decide
  · unfold getSecD
    simp only []
    rw [hl, hr, hb, ht, hsx, hsy, cellCoord_unit_half, cellCoord_unit_last]
    norm_num [castInt32, castInt]
    decide
  · simp only [getSec, acrossEdgeD, Simulator.init, castInt]
    norm_num
    decide

theorem acrossEdgeD_disp :
    getDisplacement acrossEdgeD ⟨31/32, 1/2⟩ ⟨1/16, 1/2⟩ = ⟨-3/32, 0⟩ := by
  simp only [getDisplacement, shorten, periodicX, periodicY, acrossEdgeD, Simulator.init]
  norm_num [abs_of_pos]

/-- C3 (amended), evaluated across the periodic x edge of the unit square (10×10
grid): the particles at `x = 1/16` and `x = 31/32` meet with displacement
`∓3/32`. -/
theorem ppInteract_complete_witness :
    (⟨0, 1, some ⟨-3/32, 0⟩⟩ : Call) ∈ ppInteract acrossEdgeD ∧
    (⟨1, 0, some (Vect.neg ⟨-3/32, 0⟩)⟩ : Call) ∈ ppInteract acrossEdgeD := by
  have p0 : (acrossEdgeD.heap 0).position = ⟨1/16, 1/2⟩ := rfl
  have p1 : (acrossEdgeD.heap 1).position = ⟨31/32, 1/2⟩ := rfl
  obtain ⟨c1, c2, c3, c4⟩ := acrossEdgeD_cells
  have h := ppInteract_complete acrossEdgeD 0 1
    (by norm_num [acrossEdgeD, Simulator.init]) (by norm_num [acrossEdgeD, Simulator.init])
    (by decide) (by decide) (by decide)
    (by rw [p0]; norm_num [acrossEdgeD, Simulator.init])
    (by rw [p0]; norm_num [acrossEdgeD, Simulator.init])
    (by rw [p0]; norm_num [acrossEdgeD, Simulator.init])
    (by rw [p0]; norm_num [acrossEdgeD, Simulator.init])
    (by rw [p1]; norm_num [acrossEdgeD, Simulator.init])
    (by rw [p1]; norm_num [acrossEdgeD, Simulator.init])
    (by rw [p1]; norm_num [acrossEdgeD, Simulator.init])
    (by rw [p1]; norm_num [acrossEdgeD, Simulator.init])
    (by rw [p0, c1, c2])
    (by rw [p1, c3, c4])
    (by rw [p0, c1]; decide)
    (by rw [p1, c3]; decide)
    (by rw [p0, p1, acrossEdgeD_disp]; norm_num [acrossEdgeD, Simulator.init, abs_of_neg])
    (by rw [p0, p1, acrossEdgeD_disp]; norm_num [acrossEdgeD, Simulator.init])
  rw [p0, p1, acrossEdgeD_disp] at h
  exact h

/-- C5 (as stated, refuted): on the unit square with all four edges `WRAP`, a
particle integrated to `x = right + δ` with `δ = 1e17 - 1 > 0` and `y = 1/2`
keeps the boundary handling in the loop
`while (pos.x > right) pos.x -= (right-left)` for ever: in double arithmetic
`1e17 - 1` is `1e17` again, so the particle never reaches `[left, right]`. -/
theorem wrap_right_crossing_never_ends :
    farRight.xLBound = BType.WRAP ∧ farRight.xRBound = BType.WRAP ∧
    farRight.yBBound = BType.WRAP ∧ farRight.yTBound = BType.WRAP ∧
    farRight.left < farRight.right ∧
    (farRight.heap 0).position.x = farRight.right + (10 ^ 17 - 1) ∧
    farRight.bottom ≤ (farRight.heap 0).position.y ∧
    (farRight.heap 0).position.y ≤ farRight.top ∧
    roundDouble (10 ^ 17 - roundDouble (farRight.right - farRight.left)) = 10 ^ 17 ∧
    ∀ fuel, updateBoundaryD fuel (fun _ => 0) farRight 0 0 = none := by
  have habs : roundDouble (10 ^ 17 - 1) = 10 ^ 17 := by
    rw [roundDouble_eval (10 ^ 17 - 1) 56 6250000000000000 (by norm_num)
      (by norm_num [abs_of_pos]) (by norm_num [abs_of_pos]) (by norm_num [roundNE])]
    norm_num
  have hl : farRight.left = 0 := rfl
  have hr : farRight.right = 1 := rfl
  have hx : (farRight.heap 0).position.x = 10 ^ 17 := rfl
  have hy : (farRight.heap 0).position.y = 1/2 := rfl
  have hb : farRight.bottom = 0 := rfl
  have ht : farRight.top = 1 := rfl
  refine ⟨rfl, rfl, rfl, rfl, by rw [hl, hr]; norm_num, by rw [hx, hr]; norm_num,
    by rw [hb, hy]; norm_num, by rw [hy, ht]; norm_num,
    by rw [hr, hl, roundDouble_one_sub_zero, habs], fun fuel => ?_⟩
  cases fuel with
  | zero => rfl
  | succ n =>
    rw [updateBoundaryD_rightLoop farRight (fun _ => 0) 0 0 rfl rfl rfl rfl
      (by rw [hl, hx]; norm_num) (by rw [hb, hy]; norm_num) (by rw [hy, ht]; norm_num)
      (n + 1) (by omega), hx, hr, hl, roundDouble_one_sub_zero,
      wrapDownD_hangs 1 1 (10 ^ 17) (by norm_num) habs (n + 1)]
    rfl

/-- C5 (amended): with all four edges `WRAP` and `right > left`, a particle
integrated to `x = right + δ` (`δ > 0`) with `bottom ≤ y ≤ top` is left by the
boundary handling of `Simulator::update`, in double arithmetic, (a) at
`x = left + δ`, `y` unchanged, velocity and angular velocity unchanged, when
`δ ≤ right - left` and both `right - left` and `left + δ` are doubles (the
subtraction is exact); and (b) for any `δ > 0` whose wrap arithmetic is exact,
at some `x` in `[left, right]` that differs from `left + δ` by a whole number
of domain widths, again with `y`, velocity and angular velocity unchanged. -/
theorem wrap_right_crossing (s : Simulator) (draws : Nat → ℚ) (k P : Nat) (δ : ℚ)
    (hxL : s.xLBound = BType.WRAP) (hxR : s.xRBound = BType.WRAP)
    (hyB : s.yBBound = BType.WRAP) (hyT : s.yTBound = BType.WRAP)
    (hlr : s.left < s.right) (hδ : 0 < δ)
    (hx : (s.heap P).position.x = s.right + δ)
    (hy1 : s.bottom ≤ (s.heap P).position.y) (hy2 : (s.heap P).position.y ≤ s.top) :
    (δ ≤ s.right - s.left → IsDouble (s.right - s.left) → IsDouble (s.left + δ) →
      ∀ fuel, 2 ≤ fuel →
      ∃ s' k', updateBoundaryD fuel draws s k P = some (s', k') ∧
        (s'.heap P).position = ⟨s.left + δ, (s.heap P).position.y⟩ ∧
        (s'.heap P).velocity = (s.heap P).velocity ∧
        (s'.heap P).omega = (s.heap P).omega) ∧
    (ExactWrap s.left s.right (s.heap P).position.x →
      ∃ s' k', Lands (fun fuel => updateBoundaryD fuel draws s k P) (s', k') ∧
        s.left ≤ (s'.heap P).position.x ∧ (s'.heap P).position.x ≤ s.right ∧
        (∃ m : ℕ, (s'.heap P).position.x = s.left + δ - m * (s.right - s.left)) ∧
        (s'.heap P).position.y = (s.heap P).position.y ∧
        (s'.heap P).velocity = (s.heap P).velocity ∧
        (s'.heap P).omega = (s.heap P).omega) := by
  have hxl : s.left ≤ (s.heap P).position.x := by rw [hx]; linarith
  have key : ∀ fuel, 1 ≤ fuel → updateBoundaryD fuel draws s k P =
      (wrapDownD fuel s.right (roundDouble (s.right - s.left)) (s.heap P).position.x).map
        fun x' => storePos ⟨markTime s, ⟨x', (s.heap P).position.y⟩, k⟩ P :=
    fun fuel hf => updateBoundaryD_rightLoop s draws k P hxL hxR hyB hyT hxl hy1 hy2 fuel hf
  constructor
  · intro hδ' hW hD fuel hf
    have hW' : roundDouble (s.right - s.left) = s.right - s.left := hW
    have e : (s.heap P).position.x - (s.right - s.left) = s.left + δ := by rw [hx]; ring
    have hD' : roundDouble ((s.heap P).position.x - (s.right - s.left)) = s.left + δ := by
      rw [e]; exact hD
    refine ⟨(storePos ⟨markTime s, ⟨s.left + δ, (s.heap P).position.y⟩, k⟩ P).1,
      (storePos ⟨markTime s, ⟨s.left + δ, (s.heap P).position.y⟩, k⟩ P).2, ?_, ?_, ?_, ?_⟩
    · rw [key fuel (by omega), hW', wrapDownD_once _ _ _ fuel hf (by rw [hx]; linarith)
        (by rw [hD']; linarith), hD']
      rfl
    · simp [storePos]
    · simp [storePos, markTime]
    · simp [storePos, markTime]
  · intro hE
    obtain ⟨s', k', hL, a1, a2, a3, a4, a5, a6⟩ :=
      (wrap_right_crossing_exact s draws k P δ hxL hxR hyB hyT hlr hδ hx hy1 hy2).2
    refine ⟨s', k', ?_, a1, a2, a3, a4, a5, a6⟩
    obtain ⟨N, hN⟩ := hL
    refine ⟨max N 1, fun fuel hf => ?_⟩
    have hf1 : 1 ≤ fuel := le_trans (le_max_right _ _) hf
    have hexact : updateBoundary fuel draws s k P =
        (wrapDown fuel s.right (s.right - s.left) (s.heap P).position.x).map
          fun x' => storePos ⟨markTime s, ⟨x', (s.heap P).position.y⟩, k⟩ P := by
      rw [updateBoundary_allWrap s draws k P fuel hxL hxR hyB hyT,
        wrapUp_of_ge _ _ _ fuel hf1 hxl]
      simp only [Option.some_bind]
      cases hd : wrapDown fuel s.right (s.right - s.left) (s.heap P).position.x with
      | none => rfl
      | some x' =>
        simp only [Option.some_bind, Option.map_some']
        rw [wrapUp_of_ge _ _ _ fuel hf1 hy1]
        simp only [Option.some_bind]
        rw [wrapDown_of_le _ _ _ fuel hf1 hy2]
        rfl
    have hdown := (wrapAxisD_exact s.left s.right _ hlr hE fuel).2 _
      (wrapUp_of_ge _ _ _ fuel hf1 hxl)
    show updateBoundaryD fuel draws s k P = some (s', k')
    rw [key fuel hf1, hdown, ← hexact]
    exact hN fuel (le_trans (le_max_left _ _) hf)

/-- C5 (amended), evaluated on the scenario of the specification in double
arithmetic: on the domain `[0,1]` the particle integrated from `0.999` by `0.02`
to the double `4589168020290535 / 2^52` next to `1.019` ends at
`85568392920039 / 2^52`, next to `0.019`, with its velocity `(1, 2)` and
angular velocity `3` intact. -/
theorem wrap_right_crossing_witness :
    ∃ s' k', updateBoundaryD 2 (fun _ => 0) wrapDemoD 0 0 = some (s', k') ∧
      (s'.heap 0).position = ⟨85568392920039 / 4503599627370496, 1/2⟩ ∧
      (s'.heap 0).velocity = ⟨1, 2⟩ ∧ (s'.heap 0).omega = 3 := by
  obtain ⟨s', k', h1, h2, h3, h4⟩ :=
    (wrap_right_crossing wrapDemoD (fun _ => 0) 0 0 (85568392920039 / 4503599627370496)
      rfl rfl rfl rfl
      (by norm_num [wrapDemoD, Simulator.init])
      (by norm_num)
      (by norm_num [wrapDemoD, Simulator.init, Particle.moving, Particle.resting])
      (by norm_num [wrapDemoD, Simulator.init, Particle.moving, Particle.resting])
      (by norm_num [wrapDemoD, Simulator.init, Particle.moving, Particle.resting])).1
      (by norm_num [wrapDemoD, Simulator.init])
      (by
        show IsDouble ((1 : ℚ) - 0)
        rw [sub_zero]
        exact isDouble_one)
      (by
        show IsDouble ((0 : ℚ) + 85568392920039 / 4503599627370496)
        exact isDouble_eval _ (-6) 5476377146882496 (by norm_num)
          (by norm_num [abs_of_pos]) (by norm_num [abs_of_pos]) (by norm_num))
      2 (le_refl 2)
  refine ⟨s', k', h1, ?_, ?_, ?_⟩
  · rw [h2]
    norm_num [wrapDemoD, Simulator.init, Particle.moving, Particle.resting]
  · rw [h3]
    simp [wrapDemoD, Simulator.init, Particle.moving, Particle.resting]
  · rw [h4]
    simp [wrapDemoD, Simulator.init, Particle.moving, Particle.resting]

/-- C6 (as stated, refuted): on the unit domain with `WRAP` x edges, in double
arithmetic, (i) the start `x0 = 0 = left` moved by `1/2`, wrapped, moved by
`1/2` and wrapped again ends at `x = 1`, not at `x0`; (ii) the start
`x0 = 3602879701896397 / 2^55` (the double next to `0.1`) moved by `1/4`,
wrapped, moved by `3/4` and wrapped again ends at `225179981368525 / 2^51`
(`0.10000000000000009`), not at `x0`: the sum `x0 + 1/4` is rounded. -/
theorem wrap_round_trip_fails :
    unitBox.xLBound = BType.WRAP ∧ unitBox.xRBound = BType.WRAP ∧
    unitBox.left < unitBox.right ∧
    (unitBox.left ≤ (0 : ℚ) ∧ (0 : ℚ) ≤ unitBox.right ∧
      (1/2 : ℚ) + 1/2 = unitBox.right - unitBox.left ∧
      ∃ b1 b2, moveAndWrapXD 2 (fun _ => 0) 0 ⟨unitBox, ⟨0, 1/2⟩, 0⟩ (1/2) = some b1 ∧
        moveAndWrapXD 2 (fun _ => 0) 0 b1 (1/2) = some b2 ∧ b2.pos.x = 1 ∧ b2.pos.x ≠ 0) ∧
    (unitBox.left ≤ (3602879701896397 / 36028797018963968 : ℚ) ∧
      (3602879701896397 / 36028797018963968 : ℚ) ≤ unitBox.right ∧
      IsDouble (3602879701896397 / 36028797018963968) ∧
      (1/4 : ℚ) + 3/4 = unitBox.right - unitBox.left ∧
      ∃ b1 b2, moveAndWrapXD 2 (fun _ => 0) 0
          ⟨unitBox, ⟨3602879701896397 / 36028797018963968, 1/2⟩, 0⟩ (1/4) = some b1 ∧
        moveAndWrapXD 2 (fun _ => 0) 0 b1 (3/4) = some b2 ∧
        b2.pos.x = 225179981368525 / 2251799813685248 ∧
        b2.pos.x ≠ 3602879701896397 / 36028797018963968) := by
  have hl : unitBox.left = 0 := rfl
  have hr : unitBox.right = 1 := rfl
  have hW : roundDouble (unitBox.right - unitBox.left) = 1 := by
    rw [hr, hl]; exact roundDouble_one_sub_zero
  have r1 : roundDouble (0 + 1/2) = 1/2 := by
    rw [roundDouble_eval (0 + 1/2) (-1) (2 ^ 52) (by norm_num) (by norm_num [abs_of_pos])
      (by norm_num [abs_of_pos]) (by norm_num [roundNE])]
    norm_num
  have r2 : roundDouble (1/2 + 1/2) = 1 := by
    rw [roundDouble_eval (1/2 + 1/2) 0 (2 ^ 52) (by norm_num) (by norm_num) (by norm_num)
      (by norm_num [roundNE])]
    norm_num
  have q1 : roundDouble (3602879701896397 / 36028797018963968 + 1/4) =
      3152519739159347 / 9007199254740992 := by
    rw [roundDouble_eval _ (-2) 6305039478318694 (by norm_num) (by norm_num [abs_of_pos])
      (by norm_num [abs_of_pos]) (by norm_num [roundNE])]
    norm_num
  have q2 : roundDouble (3152519739159347 / 9007199254740992 + 3/4) =
      2476979795053773 / 2251799813685248 := by
    rw [roundDouble_eval _ 0 4953959590107546 (by norm_num) (by norm_num [abs_of_pos])
      (by norm_num [abs_of_pos]) (by norm_num [roundNE])]
    norm_num
  have q3 : roundDouble (2476979795053773 / 2251799813685248 - 1) =
      225179981368525 / 2251799813685248 := by
    rw [roundDouble_eval _ (-4) 7205759403792800 (by norm_num) (by norm_num [abs_of_pos])
      (by norm_num [abs_of_pos]) (by norm_num [roundNE])]
    norm_num
  refine ⟨rfl, rfl, by rw [hl, hr]; norm_num,
    ⟨by rw [hl], by rw [hr]; norm_num, by rw [hl, hr]; norm_num,
      ⟨unitBox, ⟨1/2, 1/2⟩, 0⟩, ⟨unitBox, ⟨1, 1/2⟩, 0⟩, ?_, ?_, rfl, by
        show (1 : ℚ) ≠ 0
        norm_num⟩,
    ⟨by rw [hl]; norm_num, by rw [hr]; norm_num, ?_, by rw [hl, hr]; norm_num,
      ⟨unitBox, ⟨3152519739159347 / 9007199254740992, 1/2⟩, 0⟩,
      ⟨unitBox, ⟨225179981368525 / 2251799813685248, 1/2⟩, 0⟩, ?_, ?_, rfl, by
        show (225179981368525 / 2251799813685248 : ℚ) ≠ 3602879701896397 / 36028797018963968
        norm_num⟩⟩
  · have h := (moveAndWrapXD_step unitBox (fun _ => 0) 0 0 2 0 (1/2) (1/2) rfl rfl (le_refl 2)
      (by rw [r1, hl]; norm_num)).1 (by rw [r1, hr]; norm_num)
    rw [r1] at h
    exact h
  · have h := (moveAndWrapXD_step unitBox (fun _ => 0) 0 0 2 (1/2) (1/2) (1/2) rfl rfl
      (le_refl 2) (by rw [r2, hl]; norm_num)).1 (by rw [r2, hr])
    rw [r2] at h
    exact h
  · exact isDouble_eval _ (-4) 7205759403792794 (by norm_num) (by norm_num [abs_of_pos])
      (by norm_num [abs_of_pos]) (by norm_num)
  · have h := (moveAndWrapXD_step unitBox (fun _ => 0) 0 0 2
      (3602879701896397 / 36028797018963968) (1/2) (1/4) rfl rfl (le_refl 2)
      (by rw [q1, hl]; norm_num)).1 (by rw [q1, hr]; norm_num)
    rw [q1] at h
    exact h
  · have h := (moveAndWrapXD_step unitBox (fun _ => 0) 0 0 2
      (3152519739159347 / 9007199254740992) (1/2) (3/4) rfl rfl (le_refl 2)
      (by rw [q2, hl]; norm_num)).2 (by rw [q2, hr]; norm_num)
      (by rw [q2, hW, q3, hr]; norm_num)
    rw [q2, hW, q3] at h
    exact h

/-- C6 (amended): with `WRAP` on both x edges and `right > left`, for every start
`x0` in `[left, right]` and all `d1, d2 ≥ 0` with `d1 + d2 = right - left` such
that the sums and differences formed on the way are exact (`right - left`,
`x0` and `x0 + d1` are doubles, and so is `x0 + d1 - (right - left)` when the
first move crosses the right edge and `x0 + (right - left)` when it does not):
moving by `d1`, applying the x-edge wrap handling, moving by `d2` and applying
it again, all in double arithmetic, returns the particle to exactly `x0` when
`x0 > left`, and to `right` (the same point of the periodic domain) when
`x0 = left`. -/
theorem wrap_round_trip (s : Simulator) (draws : Nat → ℚ) (k P fuel : Nat) (x0 y d1 d2 : ℚ)
    (hxL : s.xLBound = BType.WRAP) (hxR : s.xRBound = BType.WRAP)
    (hlr : s.left < s.right) (h0 : s.left ≤ x0) (h1 : x0 ≤ s.right)
    (hd1 : 0 ≤ d1) (hd2 : 0 ≤ d2) (hsum : d1 + d2 = s.right - s.left) (hf : 2 ≤ fuel)
    (eW : IsDouble (s.right - s.left)) (e0 : IsDouble x0) (e1 : IsDouble (x0 + d1))
    (e2 : s.right < x0 + d1 → IsDouble (x0 + d1 - (s.right - s.left)))
    (e3 : x0 + d1 ≤ s.right → IsDouble (x0 + (s.right - s.left))) :
    ∃ b1 b2, moveAndWrapXD fuel draws P ⟨s, ⟨x0, y⟩, k⟩ d1 = some b1 ∧
      moveAndWrapXD fuel draws P b1 d2 = some b2 ∧
      b2.pos.x = if x0 = s.left then s.right else x0 := by
  have eW' : roundDouble (s.right - s.left) = s.right - s.left := eW
  have e0' : roundDouble x0 = x0 := e0
  have e1' : roundDouble (x0 + d1) = x0 + d1 := e1
  by_cases hA : x0 + d1 ≤ s.right
  · -- the first move stays inside the domain
    have e3' : roundDouble (x0 + d1 + d2) = x0 + (s.right - s.left) := by
      rw [show x0 + d1 + d2 = x0 + (s.right - s.left) by linarith]
      exact e3 hA
    have m1 := (moveAndWrapXD_step s draws k P fuel x0 y d1 hxL hxR hf
      (by rw [e1']; linarith)).1 (by rw [e1']; exact hA)
    rw [e1'] at m1
    by_cases hl : x0 = s.left
    · have m2 := (moveAndWrapXD_step s draws k P fuel (x0 + d1) y d2 hxL hxR hf
        (by rw [e3']; linarith)).1 (by rw [e3']; linarith)
      rw [e3'] at m2
      refine ⟨_, _, m1, m2, ?_⟩
      rw [if_pos hl]
      show x0 + (s.right - s.left) = s.right
      linarith
    · have hlt : s.left < x0 := lt_of_le_of_ne h0 (Ne.symm hl)
      have e4 : roundDouble (x0 + (s.right - s.left) - (s.right - s.left)) = x0 := by
        rw [add_sub_cancel_right]; exact e0'
      have m2 := (moveAndWrapXD_step s draws k P fuel (x0 + d1) y d2 hxL hxR hf
        (by rw [e3']; linarith)).2 (by rw [e3']; linarith)
        (by rw [e3', eW', e4]; exact h1)
      rw [e3', eW', e4] at m2
      refine ⟨_, _, m1, m2, ?_⟩
      rw [if_neg hl]
  · -- the first move crosses the right edge and is wrapped once
    push_neg at hA
    have e2' : roundDouble (x0 + d1 - (s.right - s.left)) = x0 + d1 - (s.right - s.left) :=
      e2 hA
    have m1 := (moveAndWrapXD_step s draws k P fuel x0 y d1 hxL hxR hf
      (by rw [e1']; linarith)).2 (by rw [e1']; exact hA)
      (by rw [e1', eW', e2']; linarith)
    rw [e1', eW', e2'] at m1
    have e5 : roundDouble (x0 + d1 - (s.right - s.left) + d2) = x0 := by
      rw [show x0 + d1 - (s.right - s.left) + d2 = x0 by linarith]
      exact e0'
    have m2 := (moveAndWrapXD_step s draws k P fuel (x0 + d1 - (s.right - s.left)) y d2
      hxL hxR hf (by rw [e5]; exact h0)).1 (by rw [e5]; exact h1)
    rw [e5] at m2
    have hl : x0 ≠ s.left := by
      intro h
      rw [h] at hA
      linarith
    refine ⟨_, _, m1, m2, ?_⟩
    rw [if_neg hl]

/-- C6 (amended), evaluated: on the unit domain the start `x0 = 1/2` moved by
`3/4` and then by `1/4` is back at `1/2`. -/
theorem wrap_round_trip_witness :
    ∃ b1 b2, moveAndWrapXD 2 (fun _ => 0) 0 ⟨unitBox, ⟨1/2, 1/2⟩, 0⟩ (3/4) = some b1 ∧
      moveAndWrapXD 2 (fun _ => 0) 0 b1 (1/4) = some b2 ∧ b2.pos.x = 1/2 := by
  have hl : unitBox.left = 0 := rfl
  have hr : unitBox.right = 1 := rfl
  obtain ⟨b1, b2, h1, h2, h3⟩ :=
    wrap_round_trip unitBox (fun _ => 0) 0 0 2 (1/2) (1/2) (3/4) (1/4) rfl rfl
      (by rw [hl, hr]; norm_num) (by rw [hl]; norm_num) (by rw [hr]; norm_num)
      (by norm_num) (by norm_num) (by rw [hl, hr]; norm_num) (le_refl 2)
      (by rw [hl, hr, sub_zero]; exact isDouble_one)
      (isDouble_eval _ (-1) (2 ^ 52) (by norm_num) (by norm_num [abs_of_pos])
        (by norm_num [abs_of_pos]) (by norm_num))
      (isDouble_eval _ 0 (5 * 2 ^ 50) (by norm_num) (by norm_num [abs_of_pos])
        (by norm_num [abs_of_pos]) (by norm_num))
      (fun _ => by
        rw [hl, hr]
        exact isDouble_eval _ (-2) (2 ^ 52) (by norm_num) (by norm_num [abs_of_pos])
          (by norm_num [abs_of_pos]) (by norm_num))
      (fun h => by
        rw [hr] at h
        norm_num at h)
  refine ⟨b1, b2, h1, h2, ?_⟩
  rw [h3, hl]
  norm_num

/-- C16 (amended): for every cell visited by `bacteriaUpdate` that holds `n > 0`
agents, with resource level `r ≥ 0`, `epsilon > 0` and rate `eatRate ≥ 0`, the
cell's resource after the update equals `max(0, r + epsilon*eatRate*r*n)`:
the agents add to the resource (`eatRate` is the resource secretion rate), so
it is never below its prior value `r`. -/
theorem bacteriaUpdate_secretes_resource (env : Env) (s : Simulator) (k : Nat)
    (xy : Nat × Nat) (hxy : xy ∈ visitedCells s) (hn : 0 < (cellBucket s xy).length)
    (hr : 0 ≤ s.resource.cell (xy.1 - 1) (xy.2 - 1)) (heps : 0 < s.epsilon)
    (heat : 0 ≤ s.eatRate) :
    (bacteriaUpdate env s k).1.resource.cell (xy.1 - 1) (xy.2 - 1) =
      max 0 (s.resource.cell (xy.1 - 1) (xy.2 - 1) +
        s.epsilon * s.eatRate * s.resource.cell (xy.1 - 1) (xy.2 - 1) *
          ((cellBucket s xy).length : ℚ)) ∧
    s.resource.cell (xy.1 - 1) (xy.2 - 1) ≤
      (bacteriaUpdate env s k).1.resource.cell (xy.1 - 1) (xy.2 - 1) := by
  have hne : cellBucket s xy ≠ [] := by
    intro h
    rw [h] at hn
    exact absurd hn (by decide)
  have hadd : 0 ≤ s.epsilon * s.eatRate * s.resource.cell (xy.1 - 1) (xy.2 - 1) *
      ((cellBucket s xy).length : ℚ) :=
    mul_nonneg (mul_nonneg (mul_nonneg heps.le heat) hr) (Nat.cast_nonneg _)
  have hval : resourceAfter s xy.1 xy.2 =
      s.resource.cell (xy.1 - 1) (xy.2 - 1) +
        s.epsilon * s.eatRate * s.resource.cell (xy.1 - 1) (xy.2 - 1) *
          ((cellBucket s xy).length : ℚ) := by
    unfold resourceAfter
    simp only []
    rw [if_neg (not_lt.2 (by
      show 0 ≤ s.resource.cell (xy.1 - 1) (xy.2 - 1) +
        s.epsilon * s.eatRate * s.resource.cell (xy.1 - 1) (xy.2 - 1) *
          ((cellBucket s xy).length : ℚ)
      linarith))]
    rfl
  rw [bacteriaUpdate_resource env s k xy hxy hne, hval]
  constructor
  · rw [max_eq_right (by linarith)]
  · linarith

/-- C16 (amended), evaluated in the cell with loop indices `(5, 6)` of the colony:
one agent, `r = 5`, `epsilon = 1e-4`, `eatRate = 1` give the resource
`10001/2000 = 5.0005` after the update. -/
theorem bacteriaUpdate_secretes_resource_witness :
    (bacteriaUpdate quietEnv colony 0).1.resource.cell 4 5 = 10001/2000 ∧
    colony.resource.cell 4 5 ≤ (bacteriaUpdate quietEnv colony 0).1.resource.cell 4 5 := by
  have hb0 : cellBucket colony (5, 6) = [0] := by decide
  have hr : colony.resource.cell 4 5 = 5 := by simp [colony, Field.cell]
  have h := bacteriaUpdate_secretes_resource quietEnv colony 0 (5, 6) (by decide)
    (by rw [hb0]; decide)
    (by
      show 0 ≤ colony.resource.cell 4 5
      rw [hr]
      norm_num)
    (by norm_num [colony, Simulator.init]) (by norm_num [colony, Simulator.init])
  have e1 : (bacteriaUpdate quietEnv colony 0).1.resource.cell 4 5 =
      (bacteriaUpdate quietEnv colony 0).1.resource.cell (((5, 6) : Nat × Nat).1 - 1)
        (((5, 6) : Nat × Nat).2 - 1) := rfl
  refine ⟨?_, ?_⟩
  · rw [e1, h.1, hb0]
    show max 0 (colony.resource.cell 4 5 + colony.epsilon * colony.eatRate *
      colony.resource.cell 4 5 * (([0] : List Nat).length : ℚ)) = 10001/2000
    rw [hr]
    norm_num [colony, Simulator.init]
  · exact h.2

/-- Below the range limit of `int` the two histogram indices of `record` are
within `[0, vbins-1]`, a speed of `maxV` or more (a ratio of `maxF` or more, a
vanishing flow) is counted in the last bin, and both `at` calls succeed. -/
theorem histogram_bins_of_bounded (maxV maxF : ℚ) (vbins : ℤ) (v f : ℚ)
    (hv : 0 ≤ v) (hmaxV : 0 < maxV) (hmaxF : 0 < maxF) (hbins : 1 ≤ vbins)
    (hB : v / maxV * vbins < 2 ^ 31) (hBf : 0 < f → v / f / maxF * vbins < 2 ^ 31) :
    (0 ≤ velocityBin maxV vbins v ∧ velocityBin maxV vbins v ≤ vbins - 1) ∧
    (maxV ≤ v → velocityBin maxV vbins v = vbins - 1) ∧
    (0 ≤ auxVelocityBin maxF vbins v f ∧ auxVelocityBin maxF vbins v f ≤ vbins - 1) ∧
    (f ≤ 0 ∨ maxF ≤ v / f → auxVelocityBin maxF vbins v f = vbins - 1) ∧
    (∀ d : List ℚ, (d.length : ℤ) = vbins →
      (∃ d1, bumpAt d (velocityBin maxV vbins v) = Except.ok d1) ∧
      (∃ d2, bumpAt d (auxVelocityBin maxF vbins v f) = Except.ok d2)) := by
  have hb : (0 : ℚ) < vbins := by exact_mod_cast (by omega : (0 : ℤ) < vbins)
  have h1 : 0 ≤ v / maxV * vbins := mul_nonneg (div_nonneg hv hmaxV.le) hb.le
  have e1 : castInt32 (v / maxV * vbins) = castInt (v / maxV * vbins) := by
    unfold castInt32
    rw [if_pos ⟨by linarith, hB⟩]
  have hB0 := castInt_nonneg h1
  have r1 : 0 ≤ velocityBin maxV vbins v ∧ velocityBin maxV vbins v ≤ vbins - 1 := by
    unfold velocityBin
    simp only []
    rw [e1]
    split <;> constructor <;> omega
  have r2 : 0 ≤ auxVelocityBin maxF vbins v f ∧ auxVelocityBin maxF vbins v f ≤ vbins - 1 := by
    unfold auxVelocityBin
    simp only []
    by_cases hfp : f > 0
    · have h2 : 0 ≤ v / f / maxF * vbins :=
        mul_nonneg (div_nonneg (div_nonneg hv hfp.le) hmaxF.le) hb.le
      have e2 : castInt32 (v / f / maxF * vbins) = castInt (v / f / maxF * vbins) := by
        unfold castInt32
        rw [if_pos ⟨by linarith, hBf hfp⟩]
      have hBf0 := castInt_nonneg h2
      rw [if_pos hfp, e2]
      split <;> constructor <;> omega
    · rw [if_neg hfp]
      split <;> constructor <;> omega
  refine ⟨r1, fun hge => ?_, r2, fun hcase => ?_, fun d hd => ⟨?_, ?_⟩⟩
  · have h2 : (vbins : ℚ) ≤ v / maxV * vbins := by
      have : 1 ≤ v / maxV := by rw [le_div_iff₀ hmaxV]; linarith
      nlinarith
    have h3 := castInt_ge_of_le h1 h2
    unfold velocityBin
    simp only []
    rw [e1, if_pos h3]
  · unfold auxVelocityBin
    simp only []
    by_cases hfp : f > 0
    · rcases hcase with h0 | hge
      · exact absurd hfp (not_lt.2 h0)
      · have h2 : 0 ≤ v / f / maxF * vbins :=
          mul_nonneg (div_nonneg (div_nonneg hv hfp.le) hmaxF.le) hb.le
        have e2 : castInt32 (v / f / maxF * vbins) = castInt (v / f / maxF * vbins) := by
          unfold castInt32
          rw [if_pos ⟨by linarith, hBf hfp⟩]
        have h3 : (vbins : ℚ) ≤ v / f / maxF * vbins := by
          have : 1 ≤ v / f / maxF := by rw [le_div_iff₀ hmaxF]; linarith
          nlinarith
        have h4 := castInt_ge_of_le h2 h3
        rw [if_pos hfp, e2, if_pos h4]
    · rw [if_neg hfp]
      split
      · rfl
      · rfl
  · exact bumpAt_ok d _ r1.1 (by omega)
  · exact bumpAt_ok d _ r2.1 (by omega)

theorem auxVelocityBin_slowFlow : auxVelocityBin (13/4) 200 1 (1 / 2 ^ 30) = -(2 ^ 31) := by
  have hf : (1 / 2 ^ 30 : ℚ) > 0 := by norm_num
  have hc : castInt32 (1 / (1 / 2 ^ 30) / (13/4) * ((200 : ℤ) : ℚ)) = -(2 ^ 31) :=
    castInt32_overflow (by norm_num)
  unfold auxVelocityBin
  simp only []
  rw [if_pos hf, hc, if_neg (by norm_num)]

theorem velocityBin_fast : velocityBin 2 200 (3 * 10 ^ 7) = -(2 ^ 31) := by
  have hc : castInt32 (3 * 10 ^ 7 / 2 * ((200 : ℤ) : ℚ)) = -(2 ^ 31) :=
    castInt32_overflow (by norm_num)
  unfold velocityBin
  simp only []
  rw [hc, if_neg (by norm_num)]

theorem bumpAt_intMin (d : List ℚ) : bumpAt d (-(2 ^ 31)) = Except.error SimError.OutOfRange := by
  unfold bumpAt
  rw [if_neg (by norm_num)]

theorem slowFlow_density : ∃ p, getDensityYProfile slowFlow = Except.ok p := by
  simp only [getDensityYProfile, slowFlow, Simulator.init, Particle.resting, densityLoop,
    castInt, bumpAt]
  norm_num

/-- When the velocity index of the first particle is in range and its auxiliary
index is not, the loop of `record` ends with the exception of `at`. -/
theorem velocityLoop_throws (sqrt : ℚ → ℚ) (s : Simulator) (P : Nat) (rest : List Nat)
    (d : List ℚ × List ℚ) (flow : Vect → Vect) (hflow : s.flowFunc = some flow)
    (vel fvel : ℚ) (hvel : sqrt (Vect.dot (s.heap P).velocity (s.heap P).velocity) = vel)
    (hfvel : sqrt (Vect.dot (flow (s.heap P).position) (flow (s.heap P).position)) = fvel)
    (d1 : List ℚ) (h1 : bumpAt d.1 (velocityBin s.maxV s.vbins vel) = Except.ok d1)
    (h2 : bumpAt d.2 (auxVelocityBin s.maxF s.vbins vel fvel) =
      Except.error SimError.OutOfRange) :
    velocityLoop sqrt s (P :: rest) d = Except.error SimError.OutOfRange := by
  rw [velocityLoop]
  simp only [hflow, hvel, hfvel, h1, h2]

/-- An exception of the histogram loop leaves `record`. -/
theorem record_throws (sqrt : ℚ → ℚ) (s : Simulator) (p : List ℚ) (e : SimError)
    (hden : getDensityYProfile s = Except.ok p)
    (hloop : velocityLoop sqrt s s.particles
      (s.velocityDistribution, s.auxVelocityDistribution) = Except.error e) :
    record sqrt s = Except.error e := by
  unfold record
  rw [hden]
  simp only []
  rw [hloop]

theorem slowFlow_velocityLoop :
    velocityLoop Rat.sqrt slowFlow slowFlow.particles
      (slowFlow.velocityDistribution, slowFlow.auxVelocityDistribution) =
      Except.error SimError.OutOfRange := by
  have hp : slowFlow.particles = [0] := rfl
  have hflow : slowFlow.flowFunc = some (fun _ => ⟨1 / 2 ^ 30, 0⟩) := rfl
  have hs1 : Rat.sqrt 1 = 1 := by
    have h := Rat.sqrt_eq 1
    rw [mul_one, abs_one] at h
    exact h
  have hs2 : Rat.sqrt (1 / 2 ^ 30 * (1 / 2 ^ 30)) = 1 / 2 ^ 30 := by
    rw [Rat.sqrt_eq, abs_of_pos (by norm_num)]
  have hf : Rat.sqrt (Vect.dot ((fun (_ : Vect) => (⟨1 / 2 ^ 30, 0⟩ : Vect))
      (slowFlow.heap 0).position)
      ((fun (_ : Vect) => (⟨1 / 2 ^ 30, 0⟩ : Vect)) (slowFlow.heap 0).position)) =
      1 / 2 ^ 30 := by
    have e : Vect.dot (⟨1 / 2 ^ 30, 0⟩ : Vect) ⟨1 / 2 ^ 30, 0⟩ =
        1 / 2 ^ 30 * (1 / 2 ^ 30) := by
      norm_num [Vect.dot]
    show Rat.sqrt (Vect.dot (⟨1 / 2 ^ 30, 0⟩ : Vect) ⟨1 / 2 ^ 30, 0⟩) = 1 / 2 ^ 30
    rw [e, hs2]
  have hv : Rat.sqrt (Vect.dot (slowFlow.heap 0).velocity (slowFlow.heap 0).velocity) = 1 := by
    have e : Vect.dot (slowFlow.heap 0).velocity (slowFlow.heap 0).velocity = 1 := by
      norm_num [Vect.dot, slowFlow, Simulator.init, Particle.resting]
    rw [e, hs1]
  have hB1 : velocityBin 2 200 1 = 100 := by
    unfold velocityBin
    simp only []
    norm_num [castInt32, castInt]
  have hlen1 : (slowFlow.velocityDistribution.length : ℤ) = 200 := by
    show (((List.replicate 200 (0 : ℚ)).length : ℕ) : ℤ) = 200
    rw [List.length_replicate]
    rfl
  have hmV : slowFlow.maxV = 2 := rfl
  have hmF : slowFlow.maxF = 13/4 := rfl
  have hvb : slowFlow.vbins = 200 := rfl
  obtain ⟨d1, hd1⟩ : ∃ d1, bumpAt slowFlow.velocityDistribution 100 = Except.ok d1 :=
    bumpAt_ok _ _ (by norm_num) (by rw [hlen1]; norm_num)
  rw [hp]
  exact velocityLoop_throws Rat.sqrt slowFlow 0 [] _ _ hflow 1 (1 / 2 ^ 30) hv hf d1
    (by rw [hmV, hvb, hB1]; exact hd1)
    (by rw [hmF, hvb, auxVelocityBin_slowFlow]; exact bumpAt_intMin _)

/-- C24 (the code departs from the claim): with the constructor's settings
`maxV = 2`, `maxF = 3.25`, `vbins = 200`, a particle of speed `v = 1` in a flow
of speed `f = 2^-30` has the scaled ratio `v/f/maxF*vbins ≈ 6.6e10`, beyond the
range of `int`: the conversion gives `INT_MIN`, the clamp `Bf >= vbins` does
not apply, `auxVelocityDistribution.at(Bf)` throws, and `record` ends with
the exception although `getDensityYProfile` has succeeded.  The same happens
to the velocity index for a speed of `3e7`. -/
theorem histogram_bin_overflows :
    slowFlow.maxV = 2 ∧ slowFlow.maxF = 13/4 ∧ slowFlow.vbins = 200 ∧
    slowFlow.auxVelocityDistribution.length = 200 ∧
    (0 : ℚ) ≤ 1 ∧ (0 : ℚ) ≤ 1 / 2 ^ 30 ∧
    auxVelocityBin (13/4) 200 1 (1 / 2 ^ 30) = -(2 ^ 31) ∧
    bumpAt slowFlow.auxVelocityDistribution (auxVelocityBin (13/4) 200 1 (1 / 2 ^ 30)) =
      Except.error SimError.OutOfRange ∧
    velocityBin 2 200 (3 * 10 ^ 7) = -(2 ^ 31) ∧
    (∃ p, getDensityYProfile slowFlow = Except.ok p) ∧
    record Rat.sqrt slowFlow = Except.error SimError.OutOfRange := by
  have hlen2 : slowFlow.auxVelocityDistribution.length = 200 := by
    show (List.replicate 200 (0 : ℚ)).length = 200
    exact List.length_replicate _ _
  refine ⟨rfl, rfl, rfl, hlen2, by norm_num, by norm_num, auxVelocityBin_slowFlow,
    by rw [auxVelocityBin_slowFlow]; exact bumpAt_intMin _, velocityBin_fast,
    slowFlow_density, ?_⟩
  obtain ⟨p, hp⟩ := slowFlow_density
  exact record_throws Rat.sqrt slowFlow p _ hp slowFlow_velocityLoop

/-- C14: after `objectUpdates` the temporary-wall list is exactly the sub-list of
its previous entries whose expiry value `e` satisfies `e ≥ time`, in the
original order, and the list of permanent walls is unchanged.  First part:
whatever the call returns, with the wrap loops of `update` in double
arithmetic.  Second part: the call does return when the particle list has no
repetition and no particle leaves the domain in this step (every integrated
position passes the edge tests), so that no wrap loop has to run.  Third
part: the call returns in any case when no edge is `WRAP`. -/
theorem objectUpdates_tempWalls (draws : Nat → ℚ) (integrate : Particle → ℚ → Particle)
    (s : Simulator) (k : Nat) :
    (∀ fuel s' k', objectUpdatesD fuel draws integrate s k = some (s', k') →
      s'.tempWalls = s.tempWalls.filter (fun w => decide (w.2 ≥ s.time)) ∧
      s'.walls = s.walls) ∧
    (s.particles.Nodup →
      (∀ P ∈ s.particles, Inside s (integrate (s.heap P) s.epsilon).position) →
      ∀ fuel, 1 ≤ fuel → ∃ r, objectUpdatesD fuel draws integrate s k = some r) ∧
    (s.xLBound ≠ BType.WRAP → s.xRBound ≠ BType.WRAP → s.yBBound ≠ BType.WRAP →
      s.yTBound ≠ BType.WRAP →
      ∀ fuel, ∃ r, objectUpdatesD fuel draws integrate s k = some r) := by
  refine ⟨?_, ?_, ?_⟩
  · intro fuel s' k' h
    unfold objectUpdatesD at h
    obtain ⟨st, hst, hr⟩ := Option.map_eq_some'.1 h
    have hk := updateAllD_kept _ _ _ _ _ _ hst
    have hk2 : SameSetup s (if st.1.sectorize then updateSectors st.1 else st.1) := by
      split
      · exact sameSetup_trans hk (sameSetup_updateSectors _)
      · exact hk
    obtain ⟨_, _, _, _, _, _, _, _, _, hw, htw, ht, _, _⟩ := hk2
    have hs' : s' = expireTempWalls (if st.1.sectorize then updateSectors st.1 else st.1) :=
      (congrArg Prod.fst hr).symm
    have he := expireTempWalls_spec (if st.1.sectorize then updateSectors st.1 else st.1)
    rw [hs', he.1, he.2, htw, ht]
    exact ⟨rfl, hw⟩
  · intro hnd hin fuel hf
    obtain ⟨r, hr⟩ := updateAllD_inside fuel draws integrate hf s.particles (s, k) hnd hin
    refine ⟨(expireTempWalls (if r.1.sectorize then updateSectors r.1 else r.1), r.2), ?_⟩
    unfold objectUpdatesD
    rw [hr]
    rfl
  · intro hxL hxR hyB hyT fuel
    obtain ⟨r, hr⟩ := updateAllD_noWrap fuel draws integrate s.particles (s, k)
      hxL hxR hyB hyT
    refine ⟨(expireTempWalls (if r.1.sectorize then updateSectors r.1 else r.1), r.2), ?_⟩
    unfold objectUpdatesD
    rw [hr]
    rfl

/-- C14, evaluated at time 5 with temporary walls expiring at 3 and at 6 and a
particle that stays at the centre: the call returns, the first temporary wall
is removed, the second and the permanent wall stay. -/
theorem objectUpdates_tempWalls_witness :
    ∃ r, objectUpdatesD 1 (fun _ => 0) (fun p _ => p) walled 0 = some r ∧
      r.1.tempWalls = [(22, 6)] ∧ r.1.walls = [20] := by
  have h := objectUpdates_tempWalls (fun _ => 0) (fun p _ => p) walled 0
  obtain ⟨r, hr⟩ := h.2.1 (by decide)
    (fun P hP => by
      have hpos : (walled.heap P).position = ⟨1/2, 1/2⟩ := rfl
      show Inside walled (walled.heap P).position
      rw [hpos]
      refine ⟨?_, ?_, ?_, ?_, ?_, ?_⟩ <;> norm_num [walled, Simulator.init])
    1 (le_refl 1)
  obtain ⟨h1, h2⟩ := h.1 1 r.1 r.2 hr
  refine ⟨r, hr, ?_, h2⟩
  rw [h1]
  simp only [walled, Simulator.init]
  norm_num [List.filter]

/-- C8 (as stated, refuted): in the hopper of `time.cpp` (domain `[0,1] × [0,3]`,
`yTop = top = 3`, bottom edge `RANDOM`, top edge `NONE`, radius `0.02`), a
particle that crossed the bottom edge is reinjected, with all draws equal to
`1/2`, at height `3 + 4·0.02·(1/2) = 76/25`, above `top`. -/
theorem reinjection_above_top :
    hopper.left < hopper.right ∧ hopper.bottom < hopper.top ∧
    2 * (hopper.heap 0).radius < hopper.right - hopper.left ∧
    2 * (hopper.heap 0).radius < hopper.top - hopper.bottom ∧
    hopper.yBBound = BType.RANDOM ∧ (hopper.heap 0).position.y < hopper.bottom ∧
    ∃ s' k', updateBoundaryD 2 (fun _ => 1/2) hopper 0 0 = some (s', k') ∧
      (s'.heap 0).position.y = 76/25 ∧ hopper.top < (s'.heap 0).position.y := by
  have hpos : (hopper.heap 0).position = ⟨1/2, -1/10⟩ := rfl
  have hy : ((⟨hopper, ⟨1/2, -1/10⟩, 0⟩ : Bnd).pos.y < 0) := by norm_num
  have hX : edgesXD 2 (fun _ => 1/2) 0 ⟨hopper, ⟨1/2, -1/10⟩, 0⟩ =
      some ⟨hopper, ⟨1/2, -1/10⟩, 0⟩ := by
    rw [edgesXD_wrap _ _ _ _ rfl rfl]
    norm_num [wrapUpD, wrapDownD, hopper, Simulator.init]
  have hheight : (reinject (fun _ => 1/2)
      (redrawTop (markTime hopper) ((markTime hopper).heap 0).radius)
      (markTime hopper) ((markTime hopper).heap 0).radius ⟨1/2, -1/10⟩ 0).1.y = 76/25 := by
    refine retry_keeps (fun pos => pos.y = 76/25) _ _ _ _ (fun _ _ => ?_) 10 _ _ ?_ <;>
      norm_num [redrawTop, markTime, hopper, Simulator.init, Particle.moving, Particle.resting]
  have hB := edgeYB_random_fire 2 (fun _ => 1/2) 0 ⟨hopper, ⟨1/2, -1/10⟩, 0⟩ rfl hy
  have hBD : edgeYBD 2 (fun _ => 1/2) 0 ⟨hopper, ⟨1/2, -1/10⟩, 0⟩ =
      edgeYB 2 (fun _ => 1/2) 0 ⟨hopper, ⟨1/2, -1/10⟩, 0⟩ := by
    simp only [edgeYBD, show hopper.yBBound = BType.RANDOM from rfl]
  obtain ⟨r, hr⟩ : ∃ r, r = reinject (fun _ => (1/2 : ℚ))
      (redrawTop (markTime hopper) ((markTime hopper).heap 0).radius)
      (markTime hopper) ((markTime hopper).heap 0).radius ⟨1/2, -1/10⟩ 0 := ⟨_, rfl⟩
  simp only [← hr] at hB hheight
  have hT : ∀ b : Bnd, b.sim.yTBound = BType.NONE →
      edgeYTD 2 (fun _ => 1/2) 0 b = some b := by
    intro b h
    simp only [edgeYTD, edgeYT, h]
  refine ⟨by norm_num [hopper, Simulator.init], by norm_num [hopper, Simulator.init],
    by norm_num [hopper, Simulator.init, Particle.moving, Particle.resting],
    by norm_num [hopper, Simulator.init, Particle.moving, Particle.resting], rfl,
    by norm_num [hopper, Simulator.init, Particle.moving, Particle.resting],
    (storePos ⟨freezeAt (markTime hopper) 0, r.1, r.2⟩ 0).1,
    (storePos ⟨freezeAt (markTime hopper) 0, r.1, r.2⟩ 0).2, ?_, ?_, ?_⟩
  · simp only [updateBoundaryD, edgesYD, hpos, hX, hBD, hB, Option.some_bind]
    rw [hT _ rfl]
    rfl
  · simp only [storePos, Function.update_same]
    exact hheight
  · simp only [storePos, Function.update_same]
    rw [hheight]
    norm_num [hopper, Simulator.init]

/-- C8 (amended): on a domain with `left = 0 < right` and `bottom = 0 < top`, for a
particle with `0 ≤ radius`, `2·radius < right` and `2·radius < top`, every
sequence of draws in `[0,1)` and every combination of edge modes, with the
wrap loops in double arithmetic.  First part: whenever the boundary handling
of `Simulator::update` returns, (a) a particle whose integrated position lies
beyond a `RANDOM` left edge (`x < left`), right edge (`x > right`) or top edge
(`y > top`) has ended with `left ≤ x ≤ right` and `bottom ≤ y ≤ top`, and (b) a
particle whose integrated position lies beyond a `RANDOM` bottom edge
(`y < bottom`) has ended with `left ≤ x ≤ right`.  Second part: the handling
does return, with any fuel from 1 on, when no wrap loop has to run: the
integrated position is not beyond a `WRAP` edge, and a `WRAP` top edge is not
combined with a crossing of a `RANDOM` bottom edge (which re-enters above
`top`). -/
theorem reinjection_in_bounds (s : Simulator) (draws : Nat → ℚ) (k P : Nat)
    (hl : s.left = 0) (hb : s.bottom = 0) (hr : 0 < s.right) (ht : 0 < s.top)
    (hR0 : 0 ≤ (s.heap P).radius) (hRx : 2 * (s.heap P).radius < s.right)
    (hRy : 2 * (s.heap P).radius < s.top) (hd : ∀ n, 0 ≤ draws n ∧ draws n < 1) :
    (∀ fuel s' k', updateBoundaryD fuel draws s k P = some (s', k') →
      ((s.xLBound = BType.RANDOM ∧ (s.heap P).position.x < s.left) ∨
        (s.xRBound = BType.RANDOM ∧ s.right < (s.heap P).position.x) ∨
        (s.yTBound = BType.RANDOM ∧ s.top < (s.heap P).position.y) →
        s.left ≤ (s'.heap P).position.x ∧ (s'.heap P).position.x ≤ s.right ∧
        s.bottom ≤ (s'.heap P).position.y ∧ (s'.heap P).position.y ≤ s.top) ∧
      (s.yBBound = BType.RANDOM ∧ (s.heap P).position.y < s.bottom →
        s.left ≤ (s'.heap P).position.x ∧ (s'.heap P).position.x ≤ s.right)) ∧
    ((s.xLBound = BType.WRAP → s.left ≤ (s.heap P).position.x) →
      (s.xRBound = BType.WRAP → (s.heap P).position.x ≤ s.right) →
      (s.yBBound = BType.WRAP → s.bottom ≤ (s.heap P).position.y) →
      (s.yTBound = BType.WRAP → (s.heap P).position.y ≤ s.top ∧
        (s.yBBound = BType.RANDOM → s.bottom ≤ (s.heap P).position.y)) →
      ∀ fuel, 1 ≤ fuel → ∃ r, updateBoundaryD fuel draws s k P = some r) := by
  refine ⟨fun fuel s' k' hret => ?_, fun hwL hwR hwB hwT fuel hf => ?_⟩
  · obtain ⟨b1, b2, b3, b4, hL, p1a, p1b, p1c, p2a, p2b, p2c, p3a, p3b, p4a, p4b, p4c⟩ :=
      boundary_stagesD_post s draws k P fuel (s', k') hl hb hr ht hR0 hRx hRy hd hret
    have hs' : s' = (storePos b4 P).1 := congrArg Prod.fst hL
    have hfin : (s'.heap P).position = b4.pos := by
      rw [hs']
      simp [storePos]
    -- a position inside the domain passes the remaining blocks unchanged
    have fix34 : InBox s.right s.top b2.pos → InBox s.right s.top b4.pos := by
      intro h
      have e3 := p3a h.2.2.1
      have e4 := p4a (by rw [e3]; exact h.2.2.2)
      rw [e4, e3]
      exact h
    have fix234 : InBox s.right s.top b1.pos → InBox s.right s.top b4.pos := by
      intro h
      have e2 := p2a h.2.1
      exact fix34 (by rw [e2]; exact h)
    refine ⟨?_, ?_⟩
    · intro hcase
      rw [hfin, hl, hb]
      rcases hcase with ⟨hm, hx⟩ | ⟨hm, hx⟩ | ⟨hm, hy⟩
      · rw [hl] at hx
        exact fix234 (p1b hm hx)
      · have e1 := p1a (by linarith)
        exact fix34 (p2b hm (by rw [e1]; exact hx))
      · rcases p1c with h1 | h1
        · exact fix234 h1
        · rcases p2c with h2 | h2
          · exact fix34 h2
          · have hy2 : b2.pos.y = (s.heap P).position.y := by rw [h2, h1]
            have e3 := p3a (by rw [hy2]; linarith)
            exact p4b hm (by rw [e3, hy2]; exact hy)
    · intro ⟨hm, hy⟩
      rw [hfin, hl]
      rw [hb] at hy
      rcases p1c with h1 | h1
      · exact ⟨(fix234 h1).1, (fix234 h1).2.1⟩
      · rcases p2c with h2 | h2
        · exact ⟨(fix34 h2).1, (fix34 h2).2.1⟩
        · have hy2 : b2.pos.y = (s.heap P).position.y := by rw [h2, h1]
          exact p4c (p3b hm (by rw [hy2]; exact hy))
  · obtain ⟨_, _, _, b4, hL, _⟩ :=
      boundary_stagesD s draws k P fuel hf hl hb hr ht hR0 hRx hRy hd
        (fun hm => by have := hwL hm; rw [hl] at this; exact this) hwR
        (fun hm => by have := hwB hm; rw [hb] at this; exact this)
        (fun hm => ⟨(hwT hm).1, fun h => by have := (hwT hm).2 h; rw [hb] at this; exact this⟩)
    exact ⟨storePos b4 P, hL⟩

/-- C8 (amended), evaluated: on the unit square with a `RANDOM` top edge and the
other edges `NONE`, the boundary handling returns for the particle integrated
to `(1/2, 11/10)`, which ends inside the domain. -/
theorem reinjection_in_bounds_witness :
    ∃ s' k', updateBoundaryD 1 (fun _ => 1/2) lidded 0 0 = some (s', k') ∧
      lidded.left ≤ (s'.heap 0).position.x ∧ (s'.heap 0).position.x ≤ lidded.right ∧
      lidded.bottom ≤ (s'.heap 0).position.y ∧ (s'.heap 0).position.y ≤ lidded.top := by
  have h := reinjection_in_bounds lidded (fun _ => 1/2) 0 0 rfl rfl
    (by norm_num [lidded, Simulator.init]) (by norm_num [lidded, Simulator.init])
    (by norm_num [lidded, Simulator.init, Particle.moving, Particle.resting])
    (by norm_num [lidded, Simulator.init, Particle.moving, Particle.resting])
    (by norm_num [lidded, Simulator.init, Particle.moving, Particle.resting])
    (fun _ => by norm_num)
  obtain ⟨r, hr⟩ := h.2 (fun h => by cases h) (fun h => by cases h) (fun h => by cases h)
    (fun h => by cases h) 1 (le_refl 1)
  exact ⟨r.1, r.2, hr, (h.1 1 r.1 r.2 hr).1 (Or.inr (Or.inr ⟨rfl, by
    norm_num [lidded, Simulator.init, Particle.moving, Particle.resting]⟩))⟩

end GFlow
